import Mathlib

/-!
# konflux-build-cli: argument preprocessing and parameter resolution

A shallow embedding of `pkg/common/array_arg.go` and `pkg/common/params.go`.

Go strings are modelled by Lean strings (sequences of characters); the only
characters the code inspects are the ASCII characters `-`, `=` and space, for
which byte-level and character-level tests agree.  Slices are lists.  The
cursor loops of `ExpandArrayParameters` are modelled with an explicit cursor
and an iteration budget; checked slice indexing is modelled by `argv[i]?`, a
failed check being the fault `indexOutOfRange`.
-/

namespace Common

/-! ## String primitives (package `strings`) -/

/-- The test `strings.HasPrefix(s, "-")`. -/
def hasPrefixDash (s : String) : Bool :=
  match s.data with
  | c :: _ => c == '-'
  | [] => false

/-- The test `strings.Contains(s, "=")`. -/
def containsEq (s : String) : Bool :=
  s.data.contains '='

/-- Characters of `cs` before the first `=` (all of them when there is none). -/
def beforeEq : List Char → List Char
  | [] => []
  | c :: cs => if c == '=' then [] else c :: beforeEq cs

/-- Characters of `cs` after the first `=`, when there is one. -/
def afterEq : List Char → Option (List Char)
  | [] => none
  | c :: cs => if c == '=' then some cs else afterEq cs

/-- The call `strings.SplitN(s, "=", 2)`: at most two parts, cut at the first `=`. -/
def splitNEq2 (s : String) : List String :=
  match afterEq s.data with
  | none => [s]
  | some rest => [String.mk (beforeEq s.data), String.mk rest]

/-- The call `strings.Join(elems, " ")`. -/
def joinSpace (elems : List String) : String :=
  " ".intercalate elems

/-- The call `strings.Index(s, " ")` on the characters of `s`: position of the
first space counted in characters, `-1` when there is none.  The code only
tests the result against 0 and cuts the string right after that space, which
is the same for positions counted in bytes. -/
def indexSpace : List Char → Int
  | [] => -1
  | c :: cs =>
    if c == ' ' then 0
    else
      let r := indexSpace cs
      if r < 0 then -1 else r + 1

/-! ## Command path registry -/

/-- A `*cobra.Command`: the pointer identity `ptr` and the names on the chain
from the root command down to the command itself, which is what
`CommandPath()` of the command framework joins with single spaces. -/
structure Command where
  ptr : Nat
  chain : List String
  deriving DecidableEq, Repr

/-- The method `cmd.CommandPath()` of the command framework. -/
def Command.CommandPath (cmd : Command) : String :=
  joinSpace cmd.chain

/-- A Go `map[K]V` as an association list with at most one entry per key, in
one of its possible iteration orders. -/
abbrev GoMap (K V : Type) := List (K × V)

/-- Map read `m[k]` for list values: the stored list, or nil for a missing key. -/
def GoMap.get {K V : Type} [DecidableEq K] (m : GoMap K (List V)) (k : K) : List V :=
  match m with
  | [] => []
  | (k', v) :: rest => if k' = k then v else GoMap.get rest k

/-- Map write `m[k] = v`: replaces the entry of `k`, or adds one. -/
def GoMap.set {K V : Type} [DecidableEq K] (m : GoMap K V) (k : K) (v : V) : GoMap K V :=
  match m with
  | [] => [(k, v)]
  | (k', v') :: rest => if k' = k then (k, v) :: rest else (k', v') :: GoMap.set rest k v

/-- The package variable `arrayParamsInCommands`. -/
abbrev Registry := GoMap Command (List String)

/-- Saves the command and the array param for future processing. -/
def recordArrayParamForCommand (reg : Registry) (cmd : Command) (paramName : String) :
    Registry :=
  let params := GoMap.get reg cmd
  let params := params ++ [paramName]
  GoMap.set reg cmd params

/-- Body of the loop of `buildArrayParamsData` for one registry entry: the
command path with the text up to its first space removed when that space is
not at position 0. -/
def strippedCommandPath (cmd : Command) : String :=
  let commandPath := cmd.CommandPath
  let firstSpaceIndex := indexSpace commandPath.data
  if firstSpaceIndex > 0 then
    String.mk (commandPath.data.drop (firstSpaceIndex + 1).toNat)
  else commandPath

/-- Creates a map of all subcommands with array parameters to expand; the
registry is visited in its list order. -/
def buildArrayParamsData (reg : Registry) : GoMap String (List String) :=
  reg.foldl (fun arrayParams entry => GoMap.set arrayParams (strippedCommandPath entry.1) entry.2) []

/-! ## Argument preprocessor -/

/-- Ways in which a run of the cursor loops can fail to produce a result. -/
inductive Fault where
  | indexOutOfRange
  | outOfFuel
  deriving DecidableEq, Repr

deriving instance DecidableEq for Except

/-- The first loop of `ExpandArrayParameters`: the tokens of `argv` before the
first one that starts with `-`. -/
def commandPathArray : List String → List String
  | [] => []
  | arg :: rest => if hasPrefixDash arg then [] else arg :: commandPathArray rest

/-- The array-valued tokens looked up for the command path of `argv`; `multiFlags[x]`
is membership in this list. -/
def multiFlagsOf (reg : Registry) (argv : List String) : List String :=
  GoMap.get (buildArrayParamsData reg) (joinSpace (commandPathArray argv))

/-- The lookahead loop
`for j < len(argv) && argv[j] != "--" && !strings.HasPrefix(argv[j], "-")`,
appending `flag, argv[j]` and advancing `j`.  The first argument bounds the
number of iterations.  Returns the final cursor and output. -/
def lookahead (argv : List String) (flag : String) :
    Nat → Nat → List String → Except Fault (Nat × List String)
  | 0, j, out => if j < argv.length then
      match argv[j]? with
      | none => .error .indexOutOfRange
      | some a => if a != "--" && !hasPrefixDash a then .error .outOfFuel else .ok (j, out)
    else .ok (j, out)
  | fuel + 1, j, out => if j < argv.length then
      match argv[j]? with
      | none => .error .indexOutOfRange
      | some a =>
        if a != "--" && !hasPrefixDash a then lookahead argv flag fuel (j + 1) (out ++ [flag, a])
        else .ok (j, out)
    else .ok (j, out)

/-- The main loop `for i := 0; i < len(argv); i++` of `ExpandArrayParameters`
from cursor `i` with output `out`; `multiFlags` is the set of array-valued
tokens.  The first argument bounds the number of iterations of the loop.  The
post statement `i++` is the `+ 1` in the cursor of each recursive call; the
cursor is at least 1 before each `i--`, so the subtraction is exact. -/
def scan (multiFlags : List String) (argv : List String) :
    Nat → Nat → List String → Except Fault (List String)
  | 0, i, out => if i < argv.length then .error .outOfFuel else .ok out
  | fuel + 1, i, out => if i < argv.length then
      match argv[i]? with
      | none => .error .indexOutOfRange
      | some arg =>
        if arg == "--" then .ok (out ++ argv.drop i)
        else if hasPrefixDash arg && containsEq arg then
          let parts := splitNEq2 arg
          match parts[0]? with
          | none => .error .indexOutOfRange
          | some flag =>
            if multiFlags.contains flag then
              match parts[1]? with
              | none => .error .indexOutOfRange
              | some firstValue =>
                let out := out ++ [flag, firstValue]
                let i := i + 1
                match lookahead argv flag argv.length i out with
                | .error e => .error e
                | .ok (i, out) =>
                  let i := i - 1
                  scan multiFlags argv fuel (i + 1) out
            else scan multiFlags argv fuel (i + 1) (out ++ [arg])
        else if multiFlags.contains arg then
          let j := i + 1
          match lookahead argv arg argv.length j out with
          | .error e => .error e
          | .ok (j, out) =>
            let i := j
            let i := i - 1
            scan multiFlags argv fuel (i + 1) out
        else scan multiFlags argv fuel (i + 1) (out ++ [arg])
    else .ok out

/-- The loop of `ExpandArrayParameters` run from the start of `argv` for a
given set of array-valued tokens, with a budget of `len(argv)` iterations. -/
def expandWith (multiFlags : List String) (argv : List String) : Except Fault (List String) :=
  scan multiFlags argv argv.length 0 []

/-- The function `ExpandArrayParameters`, reading the registry `reg`. -/
def ExpandArrayParameters (reg : Registry) (argv : List String) : Except Fault (List String) :=
  expandWith (multiFlagsOf reg argv) argv

/-- The registrations of the test suite: `subcmd` under `root` with
`--array-param`, `-a` and `--multi`. -/
def testRegistry : Registry :=
  let subCmd : Command := { ptr := 1, chain := ["root", "subcmd"] }
  recordArrayParamForCommand
    (recordArrayParamForCommand (recordArrayParamForCommand [] subCmd "--array-param") subCmd "-a")
    subCmd "--multi"

/-! ## Parameter resolution (`params.go`)

The flag facility, the environment and the target struct are explicit
arguments.  Go `int` is taken to be 64 bits wide, so `int64(val)` is the
identity; a nil slice and an empty slice are both the empty list. -/

/-- The values of `reflect.Kind` that the code distinguishes; `Other` is any
other kind, with the name it prints as. -/
inductive Kind where
  | Bool
  | Int
  | String
  | Array
  | Slice
  | Other (name : String)
  deriving DecidableEq, Repr

/-- The struct `Parameter`. -/
structure Parameter where
  Name : String
  TypeKind : Kind
  ShortName : String
  EnvVarName : String
  DefaultValue : String
  Usage : String
  Required : Bool
  deriving DecidableEq, Repr

/-- The two error causes of package `strconv`. -/
inductive NumErr where
  | ErrSyntax
  | ErrRange
  deriving DecidableEq, Repr

/-- Go `error` values: a message (`errors.New`, `fmt.Errorf`), a
`*strconv.NumError`, or a `*csv.ParseError` with the message of its cause
`Err`; the line and column a `*csv.ParseError` records are not modelled. -/
inductive GoError where
  | New (msg : String)
  | NumError (Func Num : String) (Err : NumErr)
  | ParseError (Err : String)
  deriving DecidableEq, Repr

/-- The digit loop of `strconv.ParseUint(s, 10, 64)` from the accumulator `n`. -/
def parseUintLoop : List Char → Nat → Except NumErr Nat
  | [], n => .ok n
  | c :: cs, n =>
    if 48 ≤ c.toNat ∧ c.toNat ≤ 57 then
      if n ≥ 18446744073709551615 / 10 + 1 then .error .ErrRange
      else
        let n1 := n * 10 + (c.toNat - 48)
        if n1 > 18446744073709551615 then .error .ErrRange
        else parseUintLoop cs n1
    else .error .ErrSyntax

/-- The call `strconv.ParseUint(s, 10, 64)` on the characters of `s`. -/
def ParseUint (s : List Char) : Except NumErr Nat :=
  match s with
  | [] => .error .ErrSyntax
  | _ => parseUintLoop s 0

/-- The call `strconv.ParseInt(s, 10, 64)`. -/
def ParseInt (s : String) : Except GoError Int :=
  match s.data with
  | [] => .error (.NumError "ParseInt" s .ErrSyntax)
  | c :: cs =>
    let neg := c == '-'
    let digits := if c == '+' || c == '-' then cs else c :: cs
    match ParseUint digits with
    | .error .ErrSyntax => .error (.NumError "ParseInt" s .ErrSyntax)
    | .error .ErrRange => .error (.NumError "ParseInt" s .ErrRange)
    | .ok un =>
      if !neg && un ≥ 9223372036854775808 then .error (.NumError "ParseInt" s .ErrRange)
      else if neg && un > 9223372036854775808 then .error (.NumError "ParseInt" s .ErrRange)
      else .ok (if neg then -(un : Int) else (un : Int))

/-- The call `strconv.ParseBool(str)`. -/
def ParseBool (str : String) : Except GoError Bool :=
  if str = "1" ∨ str = "t" ∨ str = "T" ∨ str = "TRUE" ∨ str = "true" ∨ str = "True" then
    .ok true
  else if str = "0" ∨ str = "f" ∨ str = "F" ∨ str = "FALSE" ∨ str = "false"
      ∨ str = "False" then
    .ok false
  else .error (.NumError "ParseBool" str .ErrSyntax)

/-- The predicate `unicode.IsSpace`, on the code point of the character. -/
def isSpace (c : Char) : Bool :=
  let n := c.toNat
  (9 ≤ n && n ≤ 13) || n == 32 || n == 0x85 || n == 0xA0 || n == 0x1680
    || (0x2000 ≤ n && n ≤ 0x200A) || n == 0x2028 || n == 0x2029 || n == 0x202F
    || n == 0x205F || n == 0x3000

/-- The scan of `strings.Fields`: `cur` holds the characters of the field being
read, in reverse. -/
def fieldsLoop : List Char → List Char → List String
  | [], cur => if cur.isEmpty then [] else [String.mk cur.reverse]
  | c :: cs, cur =>
    if isSpace c then
      if cur.isEmpty then fieldsLoop cs [] else String.mk cur.reverse :: fieldsLoop cs []
    else fieldsLoop cs (c :: cur)

/-- The call `strings.Fields(s)`. -/
def Fields (s : String) : List String :=
  fieldsLoop s.data []

/-- The typed value held by a flag of the flag facility. -/
inductive FlagValue where
  | string (s : String)
  | int (n : Int)
  | bool (b : Bool)
  | stringArray (l : List String)
  deriving DecidableEq, Repr

/-- The method `Value.Type()` of a flag value. -/
def FlagValue.TypeName : FlagValue → String
  | .string _ => "string"
  | .int _ => "int"
  | .bool _ => "bool"
  | .stringArray _ => "stringArray"

/-- Whether a field has to be quoted by the CSV writer of the flag facility
(`fieldNeedsQuotes` of `encoding/csv` with the comma as separator). -/
def csvFieldNeedsQuotes (field : String) : Bool :=
  if field = "" then false
  else if field = "\\." then true
  else if field.data.any (fun c => c.toNat == 44 || c.toNat == 34 || c.toNat == 13
      || c.toNat == 10) then true
  else
    match field.data with
    | c :: _ => isSpace c
    | [] => false

/-- The characters of a quoted CSV field: every double quote is doubled. -/
def csvEscape : List Char → List Char
  | [] => []
  | c :: cs => if c.toNat == 34 then c :: c :: csvEscape cs else c :: csvEscape cs

/-- The helper `writeAsCSV` of the flag facility: the values joined by commas,
quoted where needed. -/
def writeAsCSV (vals : List String) : String :=
  ",".intercalate (vals.map (fun field =>
    if csvFieldNeedsQuotes field then
      String.mk ([Char.ofNat 34] ++ csvEscape field.data ++ [Char.ofNat 34])
    else field))

/-- The method `Value.String()` of a flag value, which gives `DefValue` at
registration and is the text the typed getters convert back. -/
def FlagValue.render : FlagValue → String
  | .string s => s
  | .int n => toString n
  | .bool b => if b then "true" else "false"
  | .stringArray l => "[" ++ writeAsCSV l ++ "]"

/-- What `readLine` of the CSV reader does to carriage returns, on the whole
input: a carriage return right before a line feed is dropped, and so is a
carriage return that ends the input. -/
def csvNormalize : List Char → List Char
  | [] => []
  | c :: cs =>
    if c.toNat == 13 && (cs.isEmpty || cs.head?.map Char.toNat == some 10) then csvNormalize cs
    else c :: csvNormalize cs

/-- Where the CSV reader is in a record: at the start of a field, inside a
field that did not start with a quote, or inside a quoted field; `cur` holds
the characters of the field read so far, in reverse. -/
inductive CsvState where
  | fieldStart
  | unquoted (cur : List Char)
  | quoted (cur : List Char)
  deriving DecidableEq, Repr

/-- The loop `parseField` of `readRecord` of `encoding/csv` with the default
settings, on the characters of the input from the current position on (the
lines as `readLine` returns them, one after the other); `record` holds the
fields completed so far.  A field that does not start with a quote runs to the
next comma or to the end of the line and must not contain a quote; a quoted
field runs to its closing quote, over line ends, with every doubled quote
standing for one quote, and the closing quote must be followed by a comma or
the end of the line; the end of the line ends the record. -/
def readFields : CsvState → List String → List Char → Except GoError (List String)
  | .fieldStart, record, [] => .ok (record ++ [""])
  | .fieldStart, record, c :: line =>
    if c.toNat == 34 then readFields (.quoted []) record line
    else if c.toNat == 44 then readFields .fieldStart (record ++ [""]) line
    else if c.toNat == 10 then .ok (record ++ [""])
    else readFields (.unquoted [c]) record line
  | .unquoted cur, record, [] => .ok (record ++ [String.mk cur.reverse])
  | .unquoted cur, record, c :: line =>
    if c.toNat == 34 then .error (.ParseError "bare \" in non-quoted-field")
    else if c.toNat == 44 then readFields .fieldStart (record ++ [String.mk cur.reverse]) line
    else if c.toNat == 10 then .ok (record ++ [String.mk cur.reverse])
    else readFields (.unquoted (c :: cur)) record line
  | .quoted _, _, [] => .error (.ParseError "extraneous or missing \" in quoted-field")
  | .quoted cur, record, c :: line =>
    if c.toNat == 34 then
      match line with
      | [] => .ok (record ++ [String.mk cur.reverse])
      | d :: rest =>
        if d.toNat == 34 then readFields (.quoted (d :: cur)) record rest
        else if d.toNat == 44 then
          readFields .fieldStart (record ++ [String.mk cur.reverse]) rest
        else if d.toNat == 10 then .ok (record ++ [String.mk cur.reverse])
        else .error (.ParseError "extraneous or missing \" in quoted-field")
    else readFields (.quoted (c :: cur)) record line

/-- The helper `readAsCSV` of the flag facility: the first record that
`csv.NewReader(strings.NewReader(val)).Read()` returns, empty lines before it
being skipped; the error `io.EOF` when there is no record. -/
def readAsCSV (val : String) : Except GoError (List String) :=
  if val = "" then .ok []
  else
    match (csvNormalize val.data).dropWhile (fun c => c.toNat == 10) with
    | [] => .error (.New "EOF")
    | line => readFields .fieldStart [] line

/-- The conversion `stringArrayConv` of the flag facility, which
`GetStringArray` applies to the text of the value: the text between the
brackets is read back as one CSV record, the empty text giving no values. -/
def stringArrayConv (sval : String) : Except GoError (List String) :=
  let sval := String.mk (sval.data.drop 1).dropLast
  if sval = "" then .ok [] else readAsCSV sval

/-- A flag of the flag facility; `Value` is its current value, which is the
registered default as long as `Changed` is false. -/
structure Flag where
  Name : String
  Shorthand : String
  Usage : String
  Value : FlagValue
  DefValue : String
  Changed : Bool
  deriving DecidableEq, Repr

/-- The flag set `cmd.Flags()`. -/
abbrev FlagSet := List Flag

/-- The method `Lookup(name)`. -/
def FlagSet.Lookup (f : FlagSet) (name : String) : Option Flag :=
  f.find? (fun flag => flag.Name == name)

/-- The method `Changed(name)`: false for a flag that does not exist. -/
def FlagSet.Changed (f : FlagSet) (name : String) : Bool :=
  match f.Lookup name with
  | none => false
  | some flag => flag.Changed

/-- The error of `getFlagType` for a flag that does not exist. -/
def flagNotDefined (name : String) : GoError :=
  .New ("flag accessed but not defined: " ++ name)

/-- The error of `getFlagType` for a flag of another type than the one asked for. -/
def flagTypeMismatch (ftype : String) (v : FlagValue) : GoError :=
  .New ("trying to get " ++ ftype ++ " value of flag of type " ++ v.TypeName)

/-- The method `GetString(name)`: the value of the flag when it exists and is
of type `string`. -/
def FlagSet.GetString (f : FlagSet) (name : String) : Except GoError String :=
  match f.Lookup name with
  | none => .error (flagNotDefined name)
  | some flag =>
    match flag.Value with
    | .string s => .ok s
    | v => .error (flagTypeMismatch "string" v)

/-- The method `GetInt(name)`. -/
def FlagSet.GetInt (f : FlagSet) (name : String) : Except GoError Int :=
  match f.Lookup name with
  | none => .error (flagNotDefined name)
  | some flag =>
    match flag.Value with
    | .int n => .ok n
    | v => .error (flagTypeMismatch "int" v)

/-- The method `GetBool(name)`. -/
def FlagSet.GetBool (f : FlagSet) (name : String) : Except GoError Bool :=
  match f.Lookup name with
  | none => .error (flagNotDefined name)
  | some flag =>
    match flag.Value with
    | .bool b => .ok b
    | v => .error (flagTypeMismatch "bool" v)

/-- The method `GetStringArray(name)`: for a flag of type `stringArray` the
facility does not return the held list but converts the text of the value
(`Value.String()`) back with `stringArrayConv`. -/
def FlagSet.GetStringArray (f : FlagSet) (name : String) : Except GoError (List String) :=
  match f.Lookup name with
  | none => .error (flagNotDefined name)
  | some flag =>
    match flag.Value with
    | .stringArray l => stringArrayConv (FlagValue.stringArray l).render
    | v => .error (flagTypeMismatch "stringArray" v)

/-- The characters with every carriage return that stands right before a line
feed removed. -/
def dropCRBeforeLF : List Char → List Char
  | [] => []
  | c :: cs =>
    if c.toNat == 13 && cs.head?.map Char.toNat == some 10 then dropCRBeforeLF cs
    else c :: dropCRBeforeLF cs

/-- The list that `GetStringArray` returns for a flag of type `stringArray`
that holds the list `held`, in closed form (`GetStringArray_of_held` proves
it): no values when `held` is empty or is the single empty string, and
otherwise the values of `held`, each without the carriage returns that stand
right before a line feed. -/
def stringArrayReadBack (held : List String) : List String :=
  if held = [] ∨ held = [""] then []
  else held.map (fun s => String.mk (dropCRBeforeLF s.data))

/-- The process environment: the variables that are set, with their values. -/
abbrev Env := String → Option String

/-- The call `os.Getenv(key)`: the empty string for an unset variable. -/
def Getenv (env : Env) (key : String) : String :=
  (env key).getD ""

/-- The value of a struct field together with its type: a `string`, an `int`,
a `bool`, a `[]string`, a slice of another element type, an array, or a value
of any other kind (with the name of the kind). -/
inductive Value where
  | string (s : String)
  | int (n : Int)
  | bool (b : Bool)
  | stringSlice (l : List String)
  | otherSlice (typeName : String)
  | array (typeName : String)
  | other (kindName : String)
  deriving DecidableEq, Repr

/-- The method `fieldValue.Kind()`. -/
def Value.Kind : Value → Kind
  | .string _ => .String
  | .int _ => .Int
  | .bool _ => .Bool
  | .stringSlice _ => .Slice
  | .otherSlice _ => .Slice
  | .array _ => .Array
  | .other kindName => .Other kindName

/-- A field of the target struct: its name, the value of its `paramName` tag
(empty when the tag is absent), whether it can be set, and its value. -/
structure Field where
  Name : String
  paramName : String
  CanSet : Bool
  value : Value
  deriving DecidableEq, Repr

/-- The target struct `params`: the name of its type and its fields in
declaration order. -/
structure Params where
  typeName : String
  fields : List Field
  deriving DecidableEq, Repr

/-- How a call ends: `return nil`, `return err`, or a panic. -/
inductive Outcome where
  | nil
  | error (err : GoError)
  | panic (msg : String)
  deriving DecidableEq, Repr

/-- The closure `getMessageRequiredParameterMissing` of `ParseParameters`. -/
def getMessageRequiredParameterMissing (p : Parameter) : String :=
  "ParseParameters: required parameter '" ++ p.Name ++ "' is not set"

/-- The environment step shared by the four cases of the switch: the value of
the variable named by `EnvVarName` when that name and the value are both
non-empty. -/
def envValue (env : Env) (paramData : Parameter) : Option String :=
  if paramData.EnvVarName != "" then
    let val := Getenv env paramData.EnvVarName
    if val != "" then some val else none
  else none

/-- What the switch on the kind of a settable field does with the field. -/
inductive Resolved where
  | set (v : Value)
  | fail (err : GoError)
  | abort (msg : String)
  deriving DecidableEq, Repr

/-- The call `fieldValue.Set(reflect.ValueOf(val))` for a `[]string` value: it
panics unless the field is a slice of strings. -/
def setStrings (fieldValue : Value) (val : List String) : Resolved :=
  match fieldValue with
  | .stringSlice _ => .set (.stringSlice val)
  | .otherSlice typeName =>
    .abort ("reflect.Set: value of type []string is not assignable to type " ++ typeName)
  | .array typeName =>
    .abort ("reflect.Set: value of type []string is not assignable to type " ++ typeName)
  | _ => .abort "reflect.Set: value of type []string is not assignable"

/-- The `switch fieldValue.Kind()` of `ParseParameters` for one parameter and
its field. -/
def resolveField (flags : FlagSet) (env : Env) (paramData : Parameter) (fieldValue : Value) :
    Resolved :=
  let paramProvided := flags.Changed paramData.Name
  match fieldValue.Kind with
  | .String =>
    if paramProvided then
      match flags.GetString paramData.Name with
      | .error err => .fail err
      | .ok val => .set (.string val)
    else
      match envValue env paramData with
      | some val => .set (.string val)
      | none =>
        if paramData.Required then .fail (.New (getMessageRequiredParameterMissing paramData))
        else .set (.string paramData.DefaultValue)
  | .Int =>
    if paramProvided then
      match flags.GetInt paramData.Name with
      | .error err => .fail err
      | .ok val => .set (.int val)
    else
      match envValue env paramData with
      | some valStr =>
        match ParseInt valStr with
        | .error err => .fail err
        | .ok val => .set (.int val)
      | none =>
        if paramData.Required then .fail (.New (getMessageRequiredParameterMissing paramData))
        else
          match flags.GetInt paramData.Name with
          | .error err => .fail err
          | .ok val => .set (.int val)
  | .Bool =>
    if paramProvided then
      match flags.GetBool paramData.Name with
      | .error err => .fail err
      | .ok val => .set (.bool val)
    else
      match envValue env paramData with
      | some valStr =>
        match ParseBool valStr with
        | .error err => .fail err
        | .ok val => .set (.bool val)
      | none =>
        if paramData.Required then .fail (.New (getMessageRequiredParameterMissing paramData))
        else
          match flags.GetBool paramData.Name with
          | .error err => .fail err
          | .ok val => .set (.bool val)
  | .Array | .Slice =>
    if paramProvided then
      match flags.GetStringArray paramData.Name with
      | .error err => .fail err
      | .ok val => setStrings fieldValue val
    else
      match envValue env paramData with
      | some valStr => setStrings fieldValue (Fields valStr)
      | none =>
        if paramData.Required then .fail (.New (getMessageRequiredParameterMissing paramData))
        else
          match flags.GetStringArray paramData.Name with
          | .error err => .fail err
          | .ok val => setStrings fieldValue val
  | .Other kindName =>
    .abort ("ParseParameters: not supported parameter type '" ++ kindName ++ "' for '"
      ++ paramData.Name ++ "' parameter")

/-- The inner loop of `ParseParameters` over the fields of the struct, for one
entry `(tag, paramData)` of the configuration: the outcome for the entry and
the fields afterwards. -/
def bindField (flags : FlagSet) (env : Env) (typeName : String) (tag : String)
    (paramData : Parameter) : List Field → Outcome × List Field
  | [] =>
    (.panic ("ParseParameters: field with tag '" ++ tag ++ "' not found in '" ++ typeName
      ++ "' struct"), [])
  | field :: rest =>
    if field.paramName == "" then
      let r := bindField flags env typeName tag paramData rest
      (r.1, field :: r.2)
    else if field.paramName == tag then
      if field.CanSet then
        match resolveField flags env paramData field.value with
        | .set v => (.nil, { field with value := v } :: rest)
        | .fail err => (.error err, field :: rest)
        | .abort msg => (.panic msg, field :: rest)
      else
        (.panic ("ParseParameters: cannot set value for '" ++ field.Name ++ "' field"),
          field :: rest)
    else
      let r := bindField flags env typeName tag paramData rest
      (r.1, field :: r.2)

/-- The function `ParseParameters`; `paramsConfig` lists the entries of the
configuration map in the order in which the map is iterated.  Returns the
outcome and the struct as the call leaves it. -/
def ParseParameters (flags : FlagSet) (env : Env) :
    List (String × Parameter) → Params → Outcome × Params
  | [], params => (.nil, params)
  | (tag, paramData) :: rest, params =>
    match bindField flags env params.typeName tag paramData params.fields with
    | (.nil, fields) => ParseParameters flags env rest { params with fields := fields }
    | (outcome, fields) => (outcome, { params with fields := fields })

/-- The struct `TestParams` of the test suite, with zero values. -/
def testParams : Params :=
  { typeName := "TestParams",
    fields := [
      { Name := "StringParam", paramName := "stringParam", CanSet := true, value := .string "" },
      { Name := "IntParam", paramName := "intParam", CanSet := true, value := .int 0 },
      { Name := "BoolParam", paramName := "boolParam", CanSet := true, value := .bool false },
      { Name := "ArrayParam", paramName := "arrayParam", CanSet := true,
        value := .stringSlice [] }] }

/-! ## Parameter declaration (`RegisterParameters`)

The flag facility is external to the repository.  Its registration calls add
a flag with the given name, shorthand, usage and default to the flag set of
the command, or panic as `AddFlag` of the facility does: on a name that is
already defined, on a shorthand of more than one byte, and on a shorthand
that is already in use. -/

/-- The method `cmd.Name()` of the command framework, which is also the name
the framework gives to the flag set `cmd.Flags()`: the last name on the chain
of the command. -/
def Command.Name (cmd : Command) : String :=
  cmd.chain.getLast?.getD ""

/-- The number of bytes of the UTF-8 encoding of a character. -/
def utf8Len (c : Char) : Nat :=
  if c.toNat < 0x80 then 1 else if c.toNat < 0x800 then 2 else if c.toNat < 0x10000 then 3
  else 4

/-- The Go expression `len(s)`: the number of bytes of the string. -/
def goLen (s : String) : Nat :=
  (s.data.map utf8Len).sum

/-- The digit `lowerhex[n]` of package `strconv`, for the low four bits of `n`. -/
def lowerhex (n : Nat) : Char :=
  ("0123456789abcdef".data)[n % 16]?.getD '0'

/-- The last `width` hexadecimal digits of `n`, most significant first. -/
def hexDigits (width n : Nat) : List Char :=
  (List.range width).reverse.map (fun k => lowerhex (n / 16 ^ k))

/-- The predicate `strconv.IsPrint` for the code points up to U+00FF.  Above
U+00FF the library consults its table of printable code points, which is not
reproduced here: such a code point is taken as printable. -/
def IsPrint (r : Char) : Bool :=
  let n := r.toNat
  (0x20 ≤ n && n ≤ 0x7E) || (0xA1 ≤ n && n ≤ 0xFF && n != 0xAD) || 0xFF < n

/-- The helper `appendEscapedRune` of package `strconv` as `Quote` and
`QuoteRune` call it: the text that stands for the character `r` inside a
literal delimited by `quote`. -/
def appendEscapedRune (r quote : Char) : List Char :=
  let n := r.toNat
  if r == quote || n == 92 then [Char.ofNat 92, r]
  else if IsPrint r then [r]
  else if n == 7 then [Char.ofNat 92, 'a']
  else if n == 8 then [Char.ofNat 92, 'b']
  else if n == 12 then [Char.ofNat 92, 'f']
  else if n == 10 then [Char.ofNat 92, 'n']
  else if n == 13 then [Char.ofNat 92, 'r']
  else if n == 9 then [Char.ofNat 92, 't']
  else if n == 11 then [Char.ofNat 92, 'v']
  else if n < 32 || n == 127 then [Char.ofNat 92, 'x'] ++ hexDigits 2 n
  else if n < 0x10000 then [Char.ofNat 92, 'u'] ++ hexDigits 4 n
  else [Char.ofNat 92, 'U'] ++ hexDigits 8 n

/-- The call `strconv.Quote(s)`, which formats a string under the verb `%q`. -/
def Quote (s : String) : String :=
  String.mk ([Char.ofNat 34] ++ s.data.flatMap (fun r => appendEscapedRune r (Char.ofNat 34))
    ++ [Char.ofNat 34])

/-- The call `strconv.QuoteRune(r)`, which formats a byte under the verb `%q`. -/
def QuoteRune (r : Char) : String :=
  String.mk ([Char.ofNat 39] ++ appendEscapedRune r (Char.ofNat 39) ++ [Char.ofNat 39])

/-- The method `AddFlag(flag)` of the flag facility on the flag set named
`fname`: it panics, with the message given as error, when a flag of that name
is already defined, when the shorthand is longer than one byte, or when
another flag already uses the shorthand; otherwise the flag is added. -/
def FlagSet.AddFlag (f : FlagSet) (fname : String) (flag : Flag) : Except String FlagSet :=
  match f.Lookup flag.Name with
  | some _ => .error (fname ++ " flag redefined: " ++ flag.Name)
  | none =>
    if flag.Shorthand = "" then .ok (f ++ [flag])
    else if goLen flag.Shorthand > 1 then
      .error (Quote flag.Shorthand ++ " shorthand is more than one ASCII character")
    else
      match f.find? (fun used => used.Shorthand == flag.Shorthand) with
      | some used =>
        .error ("unable to redefine " ++ QuoteRune (flag.Shorthand.data.headD (Char.ofNat 0))
          ++ " shorthand in " ++ Quote fname ++ " flagset: it's already used for "
          ++ Quote used.Name ++ " flag")
      | none => .ok (f ++ [flag])

/-- The method `VarPF(value, name, shorthand, usage)` on the flag set named
`fname`: a flag with this name, shorthand, usage and default value, not
changed, is handed to `AddFlag`. -/
def FlagSet.VarPF (f : FlagSet) (fname : String) (value : FlagValue)
    (name shorthand usage : String) : Except String FlagSet :=
  f.AddFlag fname { Name := name, Shorthand := shorthand, Usage := usage, Value := value,
                    DefValue := value.render, Changed := false }

/-- The method `StringP(name, shorthand, value, usage)`; `String(name, value,
usage)` is this call with an empty shorthand. -/
def FlagSet.StringP (f : FlagSet) (fname : String) (name shorthand value usage : String) :
    Except String FlagSet :=
  f.VarPF fname (.string value) name shorthand usage

/-- The method `IntP(name, shorthand, value, usage)`; `Int(name, value, usage)`
is this call with an empty shorthand. -/
def FlagSet.IntP (f : FlagSet) (fname : String) (name shorthand : String) (value : Int)
    (usage : String) : Except String FlagSet :=
  f.VarPF fname (.int value) name shorthand usage

/-- The method `BoolP(name, shorthand, value, usage)`; `Bool(name, value,
usage)` is this call with an empty shorthand. -/
def FlagSet.BoolP (f : FlagSet) (fname : String) (name shorthand : String) (value : Bool)
    (usage : String) : Except String FlagSet :=
  f.VarPF fname (.bool value) name shorthand usage

/-- The method `StringArrayP(name, shorthand, value, usage)`;
`StringArray(name, value, usage)` is this call with an empty shorthand. -/
def FlagSet.StringArrayP (f : FlagSet) (fname : String) (name shorthand : String)
    (value : List String) (usage : String) : Except String FlagSet :=
  f.VarPF fname (.stringArray value) name shorthand usage

/-- The call `strconv.Atoi(s)` for a 64-bit `int`: `ParseInt(s, 10, 0)` with
the function name of the error replaced. -/
def Atoi (s : String) : Except GoError Int :=
  match ParseInt s with
  | .error (.NumError _ num err) => .error (.NumError "Atoi" num err)
  | .error err => .error err
  | .ok n => .ok n

/-- The closure `getMessageInvalidParameterDefaultValue` of `RegisterParameters`. -/
def getMessageInvalidParameterDefaultValue (p : Parameter) : String :=
  "RegisterParameters: parameter '" ++ p.Name ++ "' has invalid default value '"
    ++ p.DefaultValue ++ "'"

/-- How `RegisterParameters` ends: normally, with the flag set of the command
and the registry as it leaves them, or with a panic. -/
inductive Registered where
  | done (flags : FlagSet) (reg : Registry)
  | panic (msg : String)
  deriving DecidableEq, Repr

/-- How a registration call of the flag facility ends inside
`RegisterParameters`: with the flag set the call leaves and the registry
`reg`, or with the panic of the facility. -/
def Registered.ofCall (r : Except String FlagSet) (reg : Registry) : Registered :=
  match r with
  | .ok flags => .done flags reg
  | .error msg => .panic msg

/-- The body of the loop of `RegisterParameters` for the entry `(pName, p)` of
the configuration. -/
def registerParameter (cmd : Command) (pName : String) (p : Parameter) (flags : FlagSet)
    (reg : Registry) : Registered :=
  if pName != p.Name then
    .panic ("RegisterParameters: parameter name '" ++ p.Name ++ "' and tag '" ++ pName
      ++ "' must be equal")
  else
    match p.TypeKind with
    | .String =>
      if p.ShortName != "" then
        .ofCall (flags.StringP cmd.Name p.Name p.ShortName p.DefaultValue p.Usage) reg
      else .ofCall (flags.StringP cmd.Name p.Name "" p.DefaultValue p.Usage) reg
    | .Int =>
      match (if p.DefaultValue != "" then Atoi p.DefaultValue else .ok 0) with
      | .error _ => .panic (getMessageInvalidParameterDefaultValue p)
      | .ok defaultValue =>
        if p.ShortName != "" then
          .ofCall (flags.IntP cmd.Name p.Name p.ShortName defaultValue p.Usage) reg
        else .ofCall (flags.IntP cmd.Name p.Name "" defaultValue p.Usage) reg
    | .Bool =>
      match (if p.DefaultValue != "" then ParseBool p.DefaultValue else .ok false) with
      | .error _ => .panic (getMessageInvalidParameterDefaultValue p)
      | .ok defaultValue =>
        if p.ShortName != "" then
          .ofCall (flags.BoolP cmd.Name p.Name p.ShortName defaultValue p.Usage) reg
        else .ofCall (flags.BoolP cmd.Name p.Name "" defaultValue p.Usage) reg
    | .Array | .Slice =>
      let reg := recordArrayParamForCommand reg cmd ("--" ++ p.Name)
      let defaultValue := if p.DefaultValue != "" then Fields p.DefaultValue else []
      if p.ShortName != "" then
        .ofCall (flags.StringArrayP cmd.Name p.Name p.ShortName defaultValue p.Usage)
          (recordArrayParamForCommand reg cmd ("-" ++ p.ShortName))
      else .ofCall (flags.StringArrayP cmd.Name p.Name "" defaultValue p.Usage) reg
    | .Other _ => .panic "RegisterParameters: unknown parameter type"

/-- The function `RegisterParameters` for the command `cmd` with flag set
`flags`, reading and writing the registry `reg`; `paramsConfig` lists the
entries of the configuration map in the order in which the map is iterated. -/
def RegisterParameters (cmd : Command) :
    List (String × Parameter) → FlagSet → Registry → Registered
  | [], flags, reg => .done flags reg
  | (pName, p) :: rest, flags, reg =>
    match registerParameter cmd pName p flags reg with
    | .done flags reg => RegisterParameters cmd rest flags reg
    | .panic msg => .panic msg

/-- A string that reads as a base-10 integer: an optional sign followed by one
or more decimal digits. -/
def isDecimalInteger (s : String) : Bool :=
  match s.data with
  | [] => false
  | c :: cs =>
    let digits := if c == '+' || c == '-' then cs else c :: cs
    !digits.isEmpty && digits.all (fun d => 48 ≤ d.toNat && d.toNat ≤ 57)

/-- A string that is one of the boolean literals. -/
def isBoolLiteral (s : String) : Bool :=
  ["1", "t", "T", "TRUE", "true", "True", "0", "f", "F", "FALSE", "false", "False"].contains s

/-- The struct `TestParams` of the test suite with the given field values. -/
def testParamsWith (s : String) (n : Int) (b : Bool) (l : List String) : Params :=
  { typeName := "TestParams",
    fields := [
      { Name := "StringParam", paramName := "stringParam", CanSet := true, value := .string s },
      { Name := "IntParam", paramName := "intParam", CanSet := true, value := .int n },
      { Name := "BoolParam", paramName := "boolParam", CanSet := true, value := .bool b },
      { Name := "ArrayParam", paramName := "arrayParam", CanSet := true,
        value := .stringSlice l }] }

/-- A parameter specification of the test suite: only the name, the kind, the
environment variable, the default and the required mark vary. -/
def testParameter (name : String) (kind : Kind) (envVarName defaultValue : String)
    (required : Bool) : Parameter :=
  { Name := name, TypeKind := kind, ShortName := "", EnvVarName := envVarName,
    DefaultValue := defaultValue, Usage := "", Required := required }

/-- A flag as the test suite registers it: `changed` tells whether the test set
it on the command line. -/
def testFlag (name : String) (value : FlagValue) (changed : Bool) : Flag :=
  { Name := name, Shorthand := "", Usage := "usage", Value := value,
    DefValue := value.render, Changed := changed }

/-- An environment in which only the variable `key` is set, to `val`. -/
def envWith (key val : String) : Env :=
  fun k => if k = key then some val else none

/-- The environment with no variable set. -/
def emptyEnv : Env :=
  fun _ => none

/-- A valid entry of a configuration map: the key equals `Name`, the kind is
one of the recognized ones, and for an int or bool parameter `DefaultValue` is
empty or converts. -/
def validEntry (entry : String × Parameter) : Bool :=
  entry.1 == entry.2.Name &&
    match entry.2.TypeKind with
    | .String => true
    | .Int => entry.2.DefaultValue == "" || (Atoi entry.2.DefaultValue).isOk
    | .Bool => entry.2.DefaultValue == "" || (ParseBool entry.2.DefaultValue).isOk
    | .Array => true
    | .Slice => true
    | .Other _ => false

/-- The array tokens an entry of the configuration contributes to the list of
the command: for a string-array parameter the long token and, when `ShortName`
is not empty, the short token after it; nothing for the other kinds. -/
def arrayTokens (entry : String × Parameter) : List String :=
  match entry.2.TypeKind with
  | .Array | .Slice =>
    ("--" ++ entry.2.Name) :: (if entry.2.ShortName != "" then ["-" ++ entry.2.ShortName] else [])
  | _ => []

/-- The flag that corresponds to an entry of the configuration: named `Name`,
with shorthand `ShortName`, usage `Usage`, not changed, of the type of the
kind of the entry and with the converted `DefaultValue` as value. -/
def registersAs (entry : String × Parameter) (f : Flag) : Prop :=
  f.Name = entry.2.Name ∧ f.Shorthand = entry.2.ShortName ∧ f.Usage = entry.2.Usage
    ∧ f.Changed = false ∧ f.DefValue = f.Value.render
    ∧ match entry.2.TypeKind with
      | .String => f.Value = .string entry.2.DefaultValue
      | .Int => ∃ n, f.Value = .int n ∧ (entry.2.DefaultValue = "" → n = 0)
          ∧ (entry.2.DefaultValue ≠ "" → Atoi entry.2.DefaultValue = .ok n)
      | .Bool => ∃ b, f.Value = .bool b ∧ (entry.2.DefaultValue = "" → b = false)
          ∧ (entry.2.DefaultValue ≠ "" → ParseBool entry.2.DefaultValue = .ok b)
      | .Array => f.Value = .stringArray (Fields entry.2.DefaultValue)
      | .Slice => f.Value = .stringArray (Fields entry.2.DefaultValue)
      | .Other _ => False

/-- The typed default that `RegisterParameters` hands to the flag facility for
the parameter `p`, or the message of the panic when `DefaultValue` does not
convert or the kind is not a recognized one. -/
def defaultFlagValue (p : Parameter) : Except String FlagValue :=
  match p.TypeKind with
  | .String => .ok (.string p.DefaultValue)
  | .Int =>
    match (if p.DefaultValue != "" then Atoi p.DefaultValue else .ok 0) with
    | .error _ => .error (getMessageInvalidParameterDefaultValue p)
    | .ok defaultValue => .ok (.int defaultValue)
  | .Bool =>
    match (if p.DefaultValue != "" then ParseBool p.DefaultValue else .ok false) with
    | .error _ => .error (getMessageInvalidParameterDefaultValue p)
    | .ok defaultValue => .ok (.bool defaultValue)
  | .Array | .Slice => .ok (.stringArray (if p.DefaultValue != "" then Fields p.DefaultValue else []))
  | .Other _ => .error "RegisterParameters: unknown parameter type"

/-- The flag that `RegisterParameters` hands to the flag facility for the
parameter `p` with the typed default `value`. -/
def parameterFlag (p : Parameter) (value : FlagValue) : Flag :=
  { Name := p.Name, Shorthand := p.ShortName, Usage := p.Usage, Value := value,
    DefValue := value.render, Changed := false }

/-- Whether the flag facility accepts the flags of a configuration on the flag
set `flags`: no `Name` is defined in `flags` or occurs twice in the
configuration, and every `ShortName` that is not empty is one byte long, is
the shorthand of no flag of `flags` and is not the `ShortName` of another
entry. -/
def facilityAccepts (flags : FlagSet) (cfg : List (String × Parameter)) : Bool :=
  cfg.all (fun e => (flags.Lookup e.2.Name).isNone
      && (e.2.ShortName == "" || (goLen e.2.ShortName == 1
            && flags.all (fun g => g.Shorthand != e.2.ShortName))))
    && decide (cfg.Pairwise (fun a b => a.2.Name ≠ b.2.Name
        ∧ (b.2.ShortName = "" ∨ a.2.ShortName ≠ b.2.ShortName)))

/-- The subcommand `sub` of the root command `root`. -/
def testSubCommand : Command :=
  { ptr := 1, chain := ["root", "sub"] }

/-- A string-array parameter `x` with short name `s` and default `a b c`. -/
def testArrayParameter : Parameter :=
  { Name := "x", TypeKind := .Array, ShortName := "s", EnvVarName := "",
    DefaultValue := "a b c", Usage := "array usage", Required := false }

/-- The flag the facility holds for `testArrayParameter`. -/
def testArrayFlag : Flag :=
  { Name := "x", Shorthand := "s", Usage := "array usage",
    Value := .stringArray ["a", "b", "c"], DefValue := "[a,b,c]", Changed := false }

/-- The flag the facility holds for the int parameter `intParam` registered
with the default `1234`. -/
def testRegisteredIntFlag : Flag :=
  { Name := "intParam", Shorthand := "", Usage := "", Value := .int 1234,
    DefValue := "1234", Changed := false }

/-! ## Result file paths (`results.go`) -/

/-- A field of the struct given to `ReadResultFilesPath`: its name, the value
of its `env` tag (empty when the tag is absent), whether it can be set, and
its value. -/
structure ResultField where
  Name : String
  env : String
  CanSet : Bool
  value : Value
  deriving DecidableEq, Repr

/-- The function `ReadResultFilesPath` on the fields of the struct, in
declaration order: the outcome and the fields as the call leaves them. -/
def ReadResultFilesPath (env : Env) : List ResultField → Outcome × List ResultField
  | [] => (.nil, [])
  | field :: rest =>
    if field.value.Kind != .String then
      (.panic ("ReadResultFilesPath: result '" ++ field.Name ++ "' path is not of string type"),
        field :: rest)
    else
      let envVarName := field.env
      if envVarName == "" then
        (.panic ("ReadResultFilesPath: result '" ++ field.Name ++ "' path 'env' tag is not set"),
          field :: rest)
      else
        let envValue := Getenv env envVarName
        if envValue == "" then
          (.error (.New ("ReadResultFilesPath: environment variable '" ++ envVarName
            ++ "' for '" ++ field.Name ++ "' result is not set")), field :: rest)
        else if field.CanSet then
          let r := ReadResultFilesPath env rest
          (r.1, { field with value := .string envValue } :: r.2)
        else
          (.panic ("ReadResultFilesPath: cannot set value for '" ++ field.Name ++ "' field"),
            field :: rest)

/-- The struct `TestStruct` of the test suite of `ReadResultFilesPath`, with
zero values. -/
def testResultFields : List ResultField :=
  [{ Name := "OutputPath", env := "OUTPUT_PATH", CanSet := true, value := .string "" },
   { Name := "LogPath", env := "LOG_PATH", CanSet := true, value := .string "" },
   { Name := "ResultPath", env := "RESULT_PATH", CanSet := true, value := .string "" }]

/-- The environment the test suite of `ReadResultFilesPath` sets up. -/
def testResultEnv : Env :=
  fun k =>
    if k = "OUTPUT_PATH" then some "/tmp/output"
    else if k = "LOG_PATH" then some "/tmp/log"
    else if k = "RESULT_PATH" then some "/tmp/result"
    else none

/-! ## Entry-level view of `ParseParameters` -/

/-- The outcome of the body of the outer loop of `ParseParameters` for one
entry of the configuration, on the struct `params`. -/
def entryOutcome (flags : FlagSet) (env : Env) (params : Params)
    (entry : String × Parameter) : Outcome :=
  (bindField flags env params.typeName entry.1 entry.2 params.fields).1

/-- The first outcome of a list that is not `nil`, and `nil` when there is none. -/
def firstFailure : List Outcome → Outcome
  | [] => .nil
  | .nil :: rest => firstFailure rest
  | outcome :: _ => outcome

/-- The panic message of the inner loop of `ParseParameters` that depends on
the configuration entry and on the struct type only: no field carries the
tag, the first field that carries it cannot be set, or that field is of a
kind the switch does not list.  None when the entry reaches a listed case of
the switch. -/
def configFault (typeName tag : String) (paramData : Parameter) : List Field → Option String
  | [] =>
    some ("ParseParameters: field with tag '" ++ tag ++ "' not found in '" ++ typeName
      ++ "' struct")
  | field :: rest =>
    if field.paramName == "" then configFault typeName tag paramData rest
    else if field.paramName == tag then
      if field.CanSet then
        match field.value.Kind with
        | .Other kindName =>
          some ("ParseParameters: not supported parameter type '" ++ kindName ++ "' for '"
            ++ paramData.Name ++ "' parameter")
        | _ => none
      else some ("ParseParameters: cannot set value for '" ++ field.Name ++ "' field")
    else configFault typeName tag paramData rest

/-- The first field of the list that carries the tag `tag`; fields without a
tag are passed over. -/
def matchedField (tag : String) : List Field → Option Field
  | [] => none
  | field :: rest =>
    if field.paramName == "" then matchedField tag rest
    else if field.paramName == tag then some field
    else matchedField tag rest

/-- The value of a field with its content erased: what remains is the type of
the field. -/
def Value.shape : Value → Value
  | .string _ => .string ""
  | .int _ => .int 0
  | .bool _ => .bool false
  | .stringSlice _ => .stringSlice []
  | .otherSlice typeName => .otherSlice typeName
  | .array typeName => .array typeName
  | .other kindName => .other kindName

/-- The declaration of a field: the field with the content of its value erased. -/
def Field.decl (field : Field) : Field :=
  { field with value := field.value.shape }

/-- The effect of a command line on one flag, as the flag facility applies it:
a flag that the command line names takes the value given there and is
reported as changed, another flag is left as registered. -/
def setFromCommandLine (cli : String → Option FlagValue) (flag : Flag) : Flag :=
  match cli flag.Name with
  | some v => { flag with Value := v, Changed := true }
  | none => flag

/-- The effect of a command line on a flag set: each flag is set from the
command line. -/
def applyCommandLine (cli : String → Option FlagValue) (flags : FlagSet) : FlagSet :=
  flags.map (setFromCommandLine cli)

/-- Declaring the parameters of a configuration with `RegisterParameters` on
the command `cmd`, letting the flag facility read the command line `cli`, and
resolving them with `ParseParameters` into the struct `params`; both calls
visit the entries in the order of the list. -/
def declareAndResolve (cmd : Command) (flags : FlagSet) (reg : Registry)
    (cli : String → Option FlagValue) (env : Env) (paramsConfig : List (String × Parameter))
    (params : Params) : Outcome × Params :=
  match RegisterParameters cmd paramsConfig flags reg with
  | .panic msg => (.panic msg, params)
  | .done flags _ => ParseParameters (applyCommandLine cli flags) env paramsConfig params
/-- The struct `BadParams` of the test "should panic on field without
paramName tag". -/
def badParamsUntagged : Params :=
  { typeName := "BadParams",
    fields := [{ Name := "StringParam", paramName := "", CanSet := true, value := .string "" }] }

/-- The struct `BadParams` of the test "should panic on unsupported parameter
type". -/
def badParamsFloat : Params :=
  { typeName := "BadParams",
    fields := [{ Name := "FloatParam", paramName := "floatParam", CanSet := true,
                 value := .other "float64" }] }

/-- A struct with an exported string field tagged `x` followed by an
unexported string field that carries the same tag. -/
def shadowedParams : Params :=
  { typeName := "ShadowedParams",
    fields := [{ Name := "Visible", paramName := "x", CanSet := true, value := .string "" },
               { Name := "hidden", paramName := "x", CanSet := false, value := .string "" }] }

/-- A struct whose only field is an unexported string field tagged `x`. -/
def hiddenParams : Params :=
  { typeName := "HiddenParams",
    fields := [{ Name := "hidden", paramName := "x", CanSet := false, value := .string "" }] }
/-- Whether `RegisterParameters` can convert `DefaultValue`: for an int or a
bool parameter it is empty or converts, for the other kinds it is not
converted with a possible failure. -/
def defaultConverts (p : Parameter) : Bool :=
  match p.TypeKind with
  | .Int => p.DefaultValue == "" || (Atoi p.DefaultValue).isOk
  | .Bool => p.DefaultValue == "" || (ParseBool p.DefaultValue).isOk
  | _ => true

/-! ## Proof device: the scan as a state machine over the remaining tokens

`rewrite` describes the output of the loop by structural recursion on the
tokens that remain; `expandWith_eq` proves that the cursor loop computes it.
The claims are stated on the loop and proved through this description. -/

/-- Two flags that registration and a later command line treat alike although
their defaults may differ: they have the same name and shorthand, and they are
the same flag unless both are unchanged flags named `name`. -/
def agreeUpToDefault (name : String) (a b : Flag) : Prop :=
  a.Name = b.Name ∧ a.Shorthand = b.Shorthand
    ∧ (a = b ∨ (a.Name = name ∧ a.Changed = false ∧ b.Changed = false))

/-- Two entries of a configuration that `RegisterParameters` treats alike up to
the default of the flag named `name`: same key, same `Name`, same array
tokens, and either the same panic on the default or typed defaults whose flags
agree up to the default. -/
def entriesAgree (name : String) (e1 e2 : String × Parameter) : Prop :=
  e1.1 = e2.1 ∧ e1.2.Name = e2.2.Name ∧ arrayTokens e1 = arrayTokens e2
    ∧ ((∃ msg, defaultFlagValue e1.2 = .error msg ∧ defaultFlagValue e2.2 = .error msg)
      ∨ ∃ v1 v2, defaultFlagValue e1.2 = .ok v1 ∧ defaultFlagValue e2.2 = .ok v2
          ∧ agreeUpToDefault name (parameterFlag e1.2 v1) (parameterFlag e2.2 v2))

/-- The text the CSV writer produces for one field, as characters. -/
def csvFieldText (field : String) : List Char :=
  if csvFieldNeedsQuotes field then [Char.ofNat 34] ++ csvEscape field.data ++ [Char.ofNat 34]
  else field.data

/-- The text the CSV writer produces for a record, as characters. -/
def csvRecordText : List String → List Char
  | [] => []
  | [field] => csvFieldText field
  | field :: rest => csvFieldText field ++ Char.ofNat 44 :: csvRecordText rest

/-- The pairs `flag v1 flag v2 ...` emitted for the values `vs`. -/
def pairs (flag : String) : List String → List String
  | [] => []
  | v :: vs => flag :: v :: pairs flag vs

/-- The loop condition of the lookahead on the token under the cursor. -/
def isValue (a : String) : Bool :=
  a != "--" && !hasPrefixDash a

/-- What one iteration of the main loop emits when the cursor lands on a token
`t` other than `--`, and the array flag whose values are then collected. -/
def landOn (M : List String) (t : String) : List String × Option String :=
  if hasPrefixDash t && containsEq t then
    if M.contains (String.mk (beforeEq t.data)) then
      ([String.mk (beforeEq t.data), String.mk ((afterEq t.data).getD [])],
        some (String.mk (beforeEq t.data)))
    else ([t], none)
  else if M.contains t then ([], some t)
  else ([t], none)

/-- The output of the scan over the remaining tokens; the state is the array
flag whose values are being collected, if any. -/
def rewrite (M : List String) : Option String → List String → List String
  | _, [] => []
  | none, t :: r =>
    if t = "--" then t :: r else (landOn M t).1 ++ rewrite M (landOn M t).2 r
  | some f, t :: r =>
    if t = "--" then t :: r
    else if hasPrefixDash t then (landOn M t).1 ++ rewrite M (landOn M t).2 r
    else f :: t :: rewrite M (some f) r

/-- Shape of the rewritten part of the output: a sequence of copied tokens that
are not array-valued and of pairs `flag value` with `flag` array-valued, each
pair being followed by a token starting with `-` or by the end. -/
inductive Shaped (M : List String) : List String → Prop where
  | nil : Shaped M []
  | single (t : String) (rest : List String) :
      t ∉ M → Shaped M rest → Shaped M (t :: rest)
  | pair (f v : String) (rest : List String) :
      f ∈ M → (∀ t ∈ rest.head?, hasPrefixDash t = true) → Shaped M rest →
      Shaped M (f :: v :: rest)

/-! ## The structural reference definition of the expansion -/

/-- The structural definition `R` that the scan is compared with, with a bound
on the number of unfoldings: `R([]) = []`; `R("--" :: r) = "--" :: r`; for `t`
starting with `-` and containing `=`, with `f` and `v` the parts around the
first `=`: `[f, v] ++ pairs(f, vs) ++ R(r')` when `f` is array-valued and
`t :: R(r)` otherwise; for `t` array-valued, `pairs(t, vs) ++ R(r')`;
otherwise `t :: R(r)`; `vs` is the longest prefix of `r` of tokens not
starting with `-` and `r'` the rest. -/
def referenceExpansion (M : List String) : Nat → List String → List String
  | 0, _ => []
  | _ + 1, [] => []
  | n + 1, t :: r =>
    if t = "--" then t :: r
    else
      let vs := r.takeWhile (fun a => !hasPrefixDash a)
      let r' := r.dropWhile (fun a => !hasPrefixDash a)
      if hasPrefixDash t && containsEq t then
        let f := String.mk (beforeEq t.data)
        let v := String.mk ((afterEq t.data).getD [])
        if f ∈ M then [f, v] ++ pairs f vs ++ referenceExpansion M n r'
        else t :: referenceExpansion M n r
      else if t ∈ M then pairs t vs ++ referenceExpansion M n r'
      else t :: referenceExpansion M n r

/-- The structural definition `R` on a list of tokens: one unfolding per token
is enough, since each unfolding continues on a shorter list. -/
def R (M : List String) (argv : List String) : List String :=
  referenceExpansion M argv.length argv
/-- A struct for `ReadResultFilesPath` whose first field is unexported: `hidden`
with tag `env:"A"`, followed by the exported `Out` with tag `env:"B"`. -/
def hiddenResultFields : List ResultField :=
  [{ Name := "hidden", env := "A", CanSet := false, value := .string "" },
   { Name := "Out", env := "B", CanSet := true, value := .string "" }]
/-! ## Image references (`image_ref.go`)

The function `reference.Parse` belongs to the library
`containers/image/v5/docker/reference`, which is not part of the repository.
It is modelled from the grammar of the library: a reference is a name, then
optionally `:` and a tag, then optionally `@` and a digest, matched against
the anchored regular expression `ReferenceRegexp`; the name is at most 255
bytes long and the digest has to pass `digest.Parse` of `go-digest`. -/

/-- A value of the interface `reference.Reference` of the image library, as far
as `GetImageName` looks at it: a reference that implements `reference.Named`,
with the result of its method `Name()` and the tag and digest it carries
(empty when absent), or a reference that has no name. -/
inductive Reference where
  | named (name tag digest : String)
  | unnamed
  deriving DecidableEq, Repr

/-- The text `name[:tag][@digest]` that the image library reads as a named
reference with these parts. -/
def referenceText (name tag digest : String) : String :=
  name ++ (if tag != "" then ":" ++ tag else "") ++ (if digest != "" then "@" ++ digest else "")

/-- The character class `[a-z0-9]`. -/
def isLowerAlnum (c : Char) : Bool :=
  (97 ≤ c.toNat && c.toNat ≤ 122) || (48 ≤ c.toNat && c.toNat ≤ 57)

/-- The character class `[a-zA-Z0-9]`. -/
def isAlnum (c : Char) : Bool :=
  isLowerAlnum c || (65 ≤ c.toNat && c.toNat ≤ 90)

/-- The character class `[A-Za-z]`. -/
def isLetter (c : Char) : Bool :=
  (97 ≤ c.toNat && c.toNat ≤ 122) || (65 ≤ c.toNat && c.toNat ≤ 90)

/-- The character class `[0-9]`. -/
def isDigit (c : Char) : Bool :=
  48 ≤ c.toNat && c.toNat ≤ 57

/-- The character class `\w`, which is `[0-9A-Za-z_]`. -/
def isWord (c : Char) : Bool :=
  isAlnum c || c == '_'

/-- The character class `[[:xdigit:]]`. -/
def isHex (c : Char) : Bool :=
  isDigit c || (97 ≤ c.toNat && c.toNat ≤ 102) || (65 ≤ c.toNat && c.toNat ≤ 70)

/-- The character class `[a-f0-9]`. -/
def isLowerHex (c : Char) : Bool :=
  isDigit c || (97 ≤ c.toNat && c.toNat ≤ 102)

/-- Where a match of `nameComponent` stands: after a character of `[a-z0-9]`,
after a period or a second underscore (a character of `[a-z0-9]` has to
follow), after one underscore, or after a dash. -/
inductive ComponentState where
  | alnum
  | separator
  | underscore
  | dash
  deriving DecidableEq, Repr

/-- The rest of a match of `nameComponent` from the state `st`. -/
def matchComponentFrom : ComponentState → List Char → Bool
  | st, [] => st == .alnum
  | .alnum, c :: cs =>
    if isLowerAlnum c then matchComponentFrom .alnum cs
    else if c == '.' then matchComponentFrom .separator cs
    else if c == '_' then matchComponentFrom .underscore cs
    else if c == '-' then matchComponentFrom .dash cs
    else false
  | .separator, c :: cs => if isLowerAlnum c then matchComponentFrom .alnum cs else false
  | .underscore, c :: cs =>
    if isLowerAlnum c then matchComponentFrom .alnum cs
    else if c == '_' then matchComponentFrom .separator cs
    else false
  | .dash, c :: cs =>
    if isLowerAlnum c then matchComponentFrom .alnum cs
    else if c == '-' then matchComponentFrom .dash cs
    else false

/-- The anchored expression `nameComponent`: runs of `[a-z0-9]` separated by
one period, one or two underscores, or dashes. -/
def matchNameComponent (s : List Char) : Bool :=
  match s with
  | [] => false
  | c :: cs => isLowerAlnum c && matchComponentFrom .alnum cs

/-- The anchored expression `domainComponent`: characters of `[a-zA-Z0-9-]`,
the first and the last of them not a dash. -/
def matchDomainComponent (s : List Char) : Bool :=
  match s with
  | [] => false
  | c :: cs =>
    isAlnum c && cs.all (fun d => isAlnum d || d == '-')
      && (match cs.getLast? with
          | none => true
          | some d => isAlnum d)

/-- The parts of `s` between the occurrences of `sep`. -/
def splitOn (sep : Char) : List Char → List (List Char)
  | [] => [[]]
  | c :: cs =>
    match splitOn sep cs with
    | [] => [[c]]
    | part :: parts => if c == sep then [] :: part :: parts else (c :: part) :: parts

/-- The characters before the first occurrence of `sep` and, when there is
one, the characters after it. -/
def cutAtFirst (sep : Char) : List Char → List Char × Option (List Char)
  | [] => ([], none)
  | c :: cs =>
    if c == sep then ([], some cs)
    else ((cutAtFirst sep cs).1.cons c, (cutAtFirst sep cs).2)

/-- The anchored expression `domain`: domain components separated by periods,
optionally followed by a colon and a port number of at least one digit. -/
def matchDomain (s : List Char) : Bool :=
  let (host, port) := cutAtFirst ':' s
  (splitOn '.' host).all matchDomainComponent
    && (match port with
        | none => true
        | some digits => !digits.isEmpty && digits.all isDigit)

/-- The anchored expression `NameRegexp`: name components separated by slashes,
optionally preceded by a domain and a slash. -/
def matchName (s : List Char) : Bool :=
  match splitOn '/' s with
  | [] => false
  | first :: more =>
    more.all matchNameComponent
      && (matchNameComponent first || (!more.isEmpty && matchDomain first))

/-- The anchored expression `TagRegexp`: a character of `\w` followed by at
most 127 characters of `[\w.-]`. -/
def matchTag (s : List Char) : Bool :=
  match s with
  | [] => false
  | c :: cs => isWord c && cs.length ≤ 127 && cs.all (fun d => isWord d || d == '.' || d == '-')

/-- A component of the algorithm of `DigestRegexp`: a letter followed by
letters and digits. -/
def matchAlgorithmComponent (s : List Char) : Bool :=
  match s with
  | [] => false
  | c :: cs => isLetter c && cs.all isAlnum

/-- The characters of `s` cut at every character that satisfies `sep`. -/
def splitWhere (sep : Char → Bool) : List Char → List (List Char)
  | [] => [[]]
  | c :: cs =>
    match splitWhere sep cs with
    | [] => [[c]]
    | part :: parts => if sep c then [] :: part :: parts else (c :: part) :: parts

/-- The anchored expression `DigestRegexp`: algorithm components separated by
one of `-_+.`, a colon, and at least 32 hexadecimal digits. -/
def matchDigest (s : List Char) : Bool :=
  match cutAtFirst ':' s with
  | (_, none) => false
  | (algorithm, some hex) =>
    (splitWhere (fun c => c == '-' || c == '_' || c == '+' || c == '.') algorithm).all
        matchAlgorithmComponent
      && 32 ≤ hex.length && hex.all isHex

/-- Whether `digest.Parse` of `go-digest` accepts a text that matches
`DigestRegexp`: the algorithm is one of `sha256`, `sha384` and `sha512`, which
the library registers and which are taken to be linked into the program, and
the encoded part consists of 64, 96 respectively 128 characters of `[a-f0-9]`. -/
def digestValidates (s : List Char) : Bool :=
  match cutAtFirst ':' s with
  | (_, none) => false
  | (algorithm, some encoded) =>
    ((algorithm == "sha256".data && encoded.length == 64)
        || (algorithm == "sha384".data && encoded.length == 96)
        || (algorithm == "sha512".data && encoded.length == 128))
      && encoded.all isLowerHex

/-- The name and the tag of the text before the digest: the text is cut at its
last colon when no slash follows that colon, and has no tag otherwise. -/
def cutTag (front : List Char) : List Char × Option (List Char) :=
  let tail := front.reverse.takeWhile (fun c => c != ':' && c != '/')
  match front.reverse.drop tail.length with
  | c :: name => if c == ':' then (name.reverse, some tail.reverse) else (front, none)
  | [] => (front, none)

/-- The submatches of the anchored expression `ReferenceRegexp` on `s`: the
name, the tag and the digest (empty when absent), when `s` matches.  The
digest is what follows the first `@`, the tag is what follows the last colon
before it when no slash follows that colon. -/
def matchReference (s : List Char) : Option (List Char × List Char × List Char) :=
  let (front, digest) := cutAtFirst '@' s
  let (name, tag) := cutTag front
  if matchName name
      && (match tag with
          | none => true
          | some t => matchTag t)
      && (match digest with
          | none => true
          | some d => matchDigest d) then
    some (name, tag.getD [], digest.getD [])
  else none

/-- The function `reference.Parse`, as far as `GetImageName` looks at its
result `(ref, err)`: the reference, nil when there is an error, and whether
`err` is not nil; which of the errors of the library is returned is not
modelled.  The reference of a text that matches always has a name. -/
def Parse (s : String) : Option Reference × Bool :=
  match matchReference s.data with
  | none => (none, true)
  | some (name, tag, digest) =>
    if name.length > 255 then (none, true)
    else if !digest.isEmpty && !digestValidates digest then (none, true)
    else (some (.named (String.mk name) (String.mk tag) (String.mk digest)), false)

/-- The function `GetImageName`. -/
def GetImageName (imageURL : String) : String :=
  let (ref, err) := Parse imageURL
  let named : Option String :=
    match ref with
    | some (.named name _ _) => some name
    | _ => none
  if err || named.isNone then ""
  else named.getD ""

/-- The function `IsImageNameValid`. -/
def IsImageNameValid (imageName : String) : Bool :=
  imageName != "" && GetImageName imageName == imageName

/-- The cases of the test `Test_ImageRefUntils_GetImageName`: the image and
the expected name. -/
def testGetImageNameCases : List (String × String) :=
  [("image-name", "image-name"),
   ("namespace/image-name", "namespace/image-name"),
   ("registry.io/image-name", "registry.io/image-name"),
   ("registry.io/namespace/image-name", "registry.io/namespace/image-name"),
   ("registry.io:1234/image-name", "registry.io:1234/image-name"),
   ("registry.io:1234/namespace/image-name", "registry.io:1234/namespace/image-name"),
   ("image@sha256:586ab46b9d6d906b2df3dad12751e807bd0f0632d5a2ab3991bdac78bdccd59a", "image"),
   ("namespace/image@sha256:586ab46b9d6d906b2df3dad12751e807bd0f0632d5a2ab3991bdac78bdccd59a",
     "namespace/image"),
   ("registry.io/user/image@sha256:586ab46b9d6d906b2df3dad12751e807bd0f0632d5a2ab3991bdac78bdccd59a",
     "registry.io/user/image"),
   ("registry.io:1234/user/image@sha256:586ab46b9d6d906b2df3dad12751e807bd0f0632d5a2ab3991bdac78bdccd59a",
     "registry.io:1234/user/image"),
   ("image:tag", "image"),
   ("namespace/image:tag", "namespace/image"),
   ("registry.io/user/image:tag", "registry.io/user/image"),
   ("registry.io:1234/user/image:tag", "registry.io:1234/user/image"),
   ("registry.io:1234/user/image:1234", "registry.io:1234/user/image"),
   ("registry.io:1234/user/image:_t-a.g", "registry.io:1234/user/image"),
   ("image:tag@sha256:586ab46b9d6d906b2df3dad12751e807bd0f0632d5a2ab3991bdac78bdccd59a", "image"),
   ("namespace/image:tag@sha256:586ab46b9d6d906b2df3dad12751e807bd0f0632d5a2ab3991bdac78bdccd59a",
     "namespace/image"),
   ("registry.io/user/image:tag@sha256:586ab46b9d6d906b2df3dad12751e807bd0f0632d5a2ab3991bdac78bdccd59a",
     "registry.io/user/image"),
   ("registry.io:1234/user/image:tag@sha256:586ab46b9d6d906b2df3dad12751e807bd0f0632d5a2ab3991bdac78bdccd59a",
     "registry.io:1234/user/image"),
   ("registry.io:1234/user/image:1234@sha256:586ab46b9d6d906b2df3dad12751e807bd0f0632d5a2ab3991bdac78bdccd59a",
     "registry.io:1234/user/image"),
   ("registry.io:1234/user/image:t-a.g_1234@sha256:586ab46b9d6d906b2df3dad12751e807bd0f0632d5a2ab3991bdac78bdccd59a",
     "registry.io:1234/user/image"),
   ("registry.io:1234/user/imAge:tag", "")]

/-- The image names that the test `Test_ImageRefUntils_IsImageNameValid`
expects to be valid. -/
def testValidImages : List String :=
  ["image", "i", "im", "i-m", "i.m", "i_m", "i__m", "ima--ge", "ima---ge", "namespace/image",
   "doMAIN/path/image", "registry.io/user/image", "registry.io/user/namespace/image",
   "registry.io:1234/image", "registry.io:1234/user/image",
   "registry.io:1234/user1234/image1234", "registry.io:1234/us12er/ima34ge",
   "re-gis-try.io/us-er/ima-ge", "re.gis.try.io/us.er/ima.ge", "re_gis_try.io/us_er/ima_ge",
   "registry.io/us__er/i_ma__ge", "registry.io:1234/us_er/name-space/ima.ge",
   "registry.io:1/image", "registry.io:65535/image", "n/i", "r/n/i", "r/o/n/i", "r:1/i",
   "r:1/n/i",
   "namespace/verylongimagenameverylongimagenameverylongimagenameverylongimagenameverylongimagenameverylongimagenameverylongimagenameverylongimagenameverylongimagenameverylongimagenameverylongimagenameverylongimagenameverylongimagenameverylongimagenameverymax"]

/-- The image names that the test `Test_ImageRefUntils_IsImageNameValid`
expects to be invalid. -/
def testInvalidImages : List String :=
  ["", "Image", "imAge", "image_", "image.", "image-", "image/", "_image", ".image", "-image",
   "/image", "ima___ge", "ima..ge", "i_.m", "i._m", "i-_m", "i_-m", "i-.m", "i.-m", "i_-.m",
   "i-_.m", "i-._m", "namespace//image", "namespace/Path/image", "namespace/path/imAge",
   "registry.io/./image", "registry.io/_/image", "registry.io/-/image",
   "registry.io/user//namespace/image", "registry.io/user///namespace/image",
   "registry.io/user/name..space/image", "registry.io/us___er/namespace/image",
   "registry.io/user/namespace/ima..ge", "registry.io/user/.namespace/image",
   "registry.io/user/_namespace/image", "registry.io/user/-namespace/image",
   "registry.io/user/namespace./image", "registry.io/user/namespace_/image",
   "registry.io/user/namespace-/image", "registry.io/user/nameSpace/image",
   "registry.io:1234", "registry.io:-1234/image", "registry.io:port/image",
   "registry.io:/image",
   "namespace/verylongimagenameverylongimagenameverylongimagenameverylongimagenameverylongimagenameverylongimagenameverylongimagenameverylongimagenameverylongimagenameverylongimagenameverylongimagenameverylongimagenameverylongimagenameverylongimagenameverylong"]

/-! ## Lemmas on the scan -/

theorem hasPrefixDash_sentinel : hasPrefixDash "--" = true := by decide

theorem isValue_eq (a : String) : isValue a = !hasPrefixDash a := by
  unfold isValue
  by_cases h : a = "--"
  · subst h; decide
  · simp [h]

theorem rewrite_dash (M : List String) (st : Option String) (t : String) (r : List String)
    (h : hasPrefixDash t = true) : rewrite M st (t :: r) = rewrite M none (t :: r) := by
  cases st with
  | none => rfl
  | some f => simp [rewrite, h]

theorem rewrite_some_values (M : List String) (f : String) (r : List String) :
    rewrite M (some f) r
      = pairs f (r.takeWhile isValue) ++ rewrite M none (r.dropWhile isValue) := by
  induction r with
  | nil => simp [rewrite, pairs]
  | cons t r ih =>
    by_cases hv : isValue t = true
    · have hd : hasPrefixDash t = false := by
        rw [isValue_eq] at hv; simpa using hv
      have hne : t ≠ "--" := by
        intro h; subst h; simp [hasPrefixDash_sentinel] at hd
      simp [rewrite, hv, hd, hne, pairs, ih]
    · have hd : hasPrefixDash t = true := by
        rw [isValue_eq] at hv; simpa using hv
      simp only [List.takeWhile_cons, List.dropWhile_cons, hv, pairs, List.nil_append]
      exact rewrite_dash M (some f) t r hd

theorem lookahead_eq (argv : List String) (flag : String) :
    ∀ (fuel j : Nat) (out : List String), argv.length - j ≤ fuel →
      lookahead argv flag fuel j out
        = .ok (j + ((argv.drop j).takeWhile isValue).length,
            out ++ pairs flag ((argv.drop j).takeWhile isValue)) := by
  intro fuel
  induction fuel with
  | zero =>
    intro j out h
    have hj : ¬ j < argv.length := by omega
    have hd : argv.drop j = [] := List.drop_eq_nil_of_le (by omega)
    simp [lookahead, hj, hd, pairs]
  | succ fuel ih =>
    intro j out h
    by_cases hj : j < argv.length
    · have hd : argv.drop j = argv[j] :: argv.drop (j + 1) := List.drop_eq_getElem_cons hj
      have hg : argv[j]? = some argv[j] := List.getElem?_eq_getElem hj
      by_cases hv : isValue argv[j] = true
      · have hv' : (argv[j] != "--" && !hasPrefixDash argv[j]) = true := hv
        have ht : (argv.drop j).takeWhile isValue
            = argv[j] :: (argv.drop (j + 1)).takeWhile isValue := by
          rw [hd, List.takeWhile_cons, if_pos hv]
        rw [lookahead, if_pos hj, hg]
        simp only [hv', if_true]
        rw [ih (j + 1) _ (by omega), ht]
        simp only [pairs, List.length_cons, List.append_assoc, List.cons_append, List.nil_append]
        congr 2
        omega
      · have hv' : ¬ (argv[j] != "--" && !hasPrefixDash argv[j]) = true := hv
        have ht : (argv.drop j).takeWhile isValue = [] := by
          rw [hd, List.takeWhile_cons, if_neg hv]
        rw [lookahead, if_pos hj, hg]
        simp only [hv', if_false]
        rw [ht]
        simp [pairs]
    · have hd : argv.drop j = [] := List.drop_eq_nil_of_le (by omega)
      simp [lookahead, hj, hd, pairs]

theorem drop_takeWhile_length (p : String → Bool) (l : List String) :
    l.drop (l.takeWhile p).length = l.dropWhile p := by
  induction l with
  | nil => rfl
  | cons a l ih =>
    by_cases h : p a = true
    · simp [List.takeWhile_cons, List.dropWhile_cons, h, ih]
    · simp [List.takeWhile_cons, List.dropWhile_cons, h]

theorem afterEq_of_contains (cs : List Char) (h : cs.contains '=' = true) :
    ∃ rest, afterEq cs = some rest := by
  induction cs with
  | nil => simp at h
  | cons c cs ih =>
    by_cases hc : c = '='
    · exact ⟨cs, by simp [afterEq, hc]⟩
    · have h' : cs.contains '=' = true := by
        simp only [List.contains_cons, Bool.or_eq_true, beq_iff_eq] at h
        rcases h with h | h
        · exact absurd h.symm hc
        · exact h
      obtain ⟨rest, hr⟩ := ih h'
      exact ⟨rest, by simp [afterEq, hc, hr]⟩

theorem splitNEq2_of_contains (t : String) (h : containsEq t = true) :
    splitNEq2 t = [String.mk (beforeEq t.data), String.mk ((afterEq t.data).getD [])] := by
  obtain ⟨rest, hr⟩ := afterEq_of_contains t.data h
  simp [splitNEq2, hr]

theorem scan_eq (M argv : List String) :
    ∀ (fuel i : Nat) (out : List String), argv.length - i ≤ fuel →
      scan M argv fuel i out = .ok (out ++ rewrite M none (argv.drop i)) := by
  intro fuel
  induction fuel with
  | zero =>
    intro i out h
    have hi : ¬ i < argv.length := by omega
    have hd : argv.drop i = [] := List.drop_eq_nil_of_le (by omega)
    simp [scan, hi, hd, rewrite]
  | succ fuel ih =>
    intro i out h
    by_cases hi : i < argv.length
    · have hd : argv.drop i = argv[i] :: argv.drop (i + 1) := List.drop_eq_getElem_cons hi
      have hg : argv[i]? = some argv[i] := List.getElem?_eq_getElem hi
      have hdd : argv.drop (i + 1 + ((argv.drop (i + 1)).takeWhile isValue).length)
          = (argv.drop (i + 1)).dropWhile isValue := by
        rw [← drop_takeWhile_length, List.drop_drop]
      have hsub : i + 1 + ((argv.drop (i + 1)).takeWhile isValue).length - 1 + 1
          = i + 1 + ((argv.drop (i + 1)).takeWhile isValue).length := by omega
      rw [scan, if_pos hi, hg]
      simp only []
      by_cases hs : argv[i] = "--"
      · simp only [hs, beq_self_eq_true, if_true]
        rw [hd, hs]
        simp [rewrite]
      · have hs' : (argv[i] == "--") = false := by simpa using hs
        simp only [hs', Bool.false_eq_true, if_false]
        rw [hd, rewrite, if_neg hs]
        by_cases he : (hasPrefixDash argv[i] && containsEq argv[i]) = true
        · have hc : containsEq argv[i] = true := by
            simp only [Bool.and_eq_true] at he; exact he.2
          rw [if_pos he, splitNEq2_of_contains _ hc]
          simp only [List.getElem?_cons_zero, List.getElem?_cons_succ]
          by_cases hm : M.contains (String.mk (beforeEq argv[i].data)) = true
          · rw [if_pos hm, lookahead_eq argv _ argv.length (i + 1) _ (by omega)]
            simp only []
            rw [ih _ _ (by omega), hsub, hdd]
            simp only [landOn, he, hm, if_true, rewrite_some_values]
            simp
          · rw [if_neg hm, ih _ _ (by omega)]
            simp only [landOn, he, hm, if_true, if_false, Bool.false_eq_true]
            simp
        · rw [if_neg he]
          by_cases hm : M.contains argv[i] = true
          · rw [if_pos hm, lookahead_eq argv _ argv.length (i + 1) _ (by omega)]
            simp only []
            rw [ih _ _ (by omega), hsub, hdd]
            simp only [landOn, he, hm, if_true, if_false]
            simp [rewrite_some_values]
          · rw [if_neg hm, ih _ _ (by omega)]
            simp only [landOn, he, hm, if_false, Bool.false_eq_true]
            simp
    · have hd : argv.drop i = [] := List.drop_eq_nil_of_le (by omega)
      simp [scan, hi, hd, rewrite]

theorem expandWith_eq (M argv : List String) :
    expandWith M argv = .ok (rewrite M none argv) := by
  unfold expandWith
  rw [scan_eq M argv argv.length 0 [] (by omega)]
  simp

theorem rewrite_append (M : List String) (l2 : List String)
    (h2 : ∀ t r, l2 = t :: r → hasPrefixDash t = true) :
    ∀ (pre : List String) (st : Option String), "--" ∉ pre →
      rewrite M st (pre ++ l2) = rewrite M st pre ++ rewrite M none l2 := by
  intro pre
  induction pre with
  | nil =>
    intro st _
    cases l2 with
    | nil => cases st <;> simp [rewrite]
    | cons t r =>
      rw [List.nil_append, rewrite_dash M st t r (h2 t r rfl)]
      cases st <;> simp [rewrite]
  | cons a pre ih =>
    intro st hpre
    have ha : a ≠ "--" := fun h => hpre (by simp [h])
    have hp : "--" ∉ pre := fun h => hpre (by simp [h])
    cases st with
    | none => simp [rewrite, ha, ih _ hp]
    | some f =>
      by_cases hd : hasPrefixDash a = true
      · simp [rewrite, ha, hd, ih _ hp]
      · simp [rewrite, ha, hd, ih _ hp]

theorem takeWhile_values_append (vs rest : List String)
    (hvs : ∀ v ∈ vs, hasPrefixDash v = false)
    (hrest : ∀ t r, rest = t :: r → hasPrefixDash t = true) :
    (vs ++ rest).takeWhile isValue = vs ∧ (vs ++ rest).dropWhile isValue = rest := by
  induction vs with
  | nil =>
    cases rest with
    | nil => simp
    | cons t r =>
      have := hrest t r rfl
      simp [List.takeWhile_cons, List.dropWhile_cons, isValue_eq, this]
  | cons v vs ih =>
    have hv : hasPrefixDash v = false := hvs v (by simp)
    have := ih (fun w hw => hvs w (by simp [hw]))
    simp [List.takeWhile_cons, List.dropWhile_cons, isValue_eq, hv, this.1, this.2]

theorem landOn_bare (M : List String) (f : String) (hM : f ∈ M)
    (heq : containsEq f = false) : landOn M f = ([], some f) := by
  have hc : M.contains f = true := by simpa using hM
  unfold landOn
  rw [heq, Bool.and_false, if_neg (by simp), if_pos hc]

theorem landOn_plain (M : List String) (t : String)
    (he : (hasPrefixDash t && containsEq t) = false) :
    landOn M t = if M.contains t then ([], some t) else ([t], none) := by
  unfold landOn
  rw [he]
  simp

theorem rewrite_bare (M : List String) (f : String) (vs rest : List String)
    (hM : f ∈ M) (hne : f ≠ "--") (heq : containsEq f = false)
    (hvs : ∀ v ∈ vs, hasPrefixDash v = false)
    (hrest : ∀ t r, rest = t :: r → hasPrefixDash t = true) :
    rewrite M none (f :: (vs ++ rest)) = pairs f vs ++ rewrite M none rest := by
  have h := takeWhile_values_append vs rest hvs hrest
  rw [rewrite, if_neg hne, landOn_bare M f hM heq, rewrite_some_values, h.1, h.2]
  rfl

theorem beforeEq_append (a b : List Char) (h : a.contains '=' = false) :
    beforeEq (a ++ '=' :: b) = a ∧ afterEq (a ++ '=' :: b) = some b := by
  induction a with
  | nil => simp [beforeEq, afterEq]
  | cons c a ih =>
    simp only [List.contains_cons, Bool.or_eq_false_iff, beq_eq_false_iff_ne, ne_eq] at h
    have hc : c ≠ '=' := fun e => h.1 e.symm
    have := ih h.2
    simp [beforeEq, afterEq, hc, this.1, this.2]

theorem equalsForm_parts (f v0 : String) (hf : containsEq f = false) :
    String.mk (beforeEq (f ++ "=" ++ v0).data) = f
      ∧ String.mk ((afterEq (f ++ "=" ++ v0).data).getD []) = v0
      ∧ containsEq (f ++ "=" ++ v0) = true := by
  have hd : (f ++ "=" ++ v0).data = f.data ++ '=' :: v0.data := by
    simp [String.data_append]
  have := beforeEq_append f.data v0.data hf
  refine ⟨?_, ?_, ?_⟩
  · rw [hd, this.1]
  · rw [hd, this.2]; rfl
  · unfold containsEq; rw [hd]; simp

theorem hasPrefixDash_append (f s : String) (h : hasPrefixDash f = true) :
    hasPrefixDash (f ++ s) = true := by
  unfold hasPrefixDash at *
  rw [String.data_append]
  cases hf : f.data with
  | nil => rw [hf] at h; simp at h
  | cons c cs => rw [hf] at h; simpa using h

theorem landOn_equals (M : List String) (f v0 : String) (hM : f ∈ M)
    (hdash : hasPrefixDash f = true) (heq : containsEq f = false) :
    landOn M (f ++ "=" ++ v0) = ([f, v0], some f) := by
  have hc : M.contains f = true := by simpa using hM
  obtain ⟨h1, h2, h3⟩ := equalsForm_parts f v0 heq
  have hd : hasPrefixDash (f ++ "=" ++ v0) = true := by
    rw [String.append_assoc]; exact hasPrefixDash_append f _ hdash
  unfold landOn
  rw [hd, h3, h1, h2, Bool.and_self, if_pos rfl, if_pos hc]

theorem equalsForm_ne_sentinel (f v0 : String) (heq : containsEq f = false) :
    f ++ "=" ++ v0 ≠ "--" := by
  intro e
  have h3 := (equalsForm_parts f v0 heq).2.2
  rw [e] at h3
  revert h3; decide

theorem rewrite_equals (M : List String) (f v0 : String) (vs rest : List String)
    (hM : f ∈ M) (hdash : hasPrefixDash f = true) (heq : containsEq f = false)
    (hvs : ∀ v ∈ vs, hasPrefixDash v = false)
    (hrest : ∀ t r, rest = t :: r → hasPrefixDash t = true) :
    rewrite M none ((f ++ "=" ++ v0) :: (vs ++ rest))
      = f :: v0 :: pairs f vs ++ rewrite M none rest := by
  have h := takeWhile_values_append vs rest hvs hrest
  rw [rewrite, if_neg (equalsForm_ne_sentinel f v0 heq), landOn_equals M f v0 hM hdash heq,
    rewrite_some_values, h.1, h.2]
  rfl

theorem head_dash_of_head? (rest : List String)
    (h : ∀ t ∈ rest.head?, hasPrefixDash t = true) :
    ∀ t r, rest = t :: r → hasPrefixDash t = true := by
  intro t r e
  subst e
  exact h t (by simp)

theorem getElem?_length_append (pre : List String) (t : String) (l : List String) :
    (pre ++ t :: l)[pre.length]? = some t := by
  induction pre with
  | nil => simp
  | cons a pre ih => simpa using ih

theorem drop_length_succ_append (pre : List String) (t : String) (l : List String) :
    (pre ++ t :: l).drop (pre.length + 1) = l := by
  induction pre with
  | nil => simp
  | cons a pre ih => simp

theorem scan_step_bare (M pre : List String) (f : String) (vs rest : List String)
    (hM : f ∈ M) (hne : f ≠ "--") (heq : containsEq f = false)
    (hvs : ∀ v ∈ vs, hasPrefixDash v = false)
    (hrest : ∀ t r, rest = t :: r → hasPrefixDash t = true)
    (fuel : Nat) (out : List String) :
    scan M (pre ++ f :: (vs ++ rest)) (fuel + 1) pre.length out
      = scan M (pre ++ f :: (vs ++ rest)) fuel (pre.length + 1 + vs.length)
          (out ++ pairs f vs) := by
  have hc : M.contains f = true := by simpa using hM
  have hlt : pre.length < (pre ++ f :: (vs ++ rest)).length := by simp
  have hne' : (f == "--") = false := by simpa using hne
  have h := takeWhile_values_append vs rest hvs hrest
  rw [scan, if_pos hlt, getElem?_length_append]
  simp only [hne', heq, Bool.and_false, Bool.false_eq_true, if_false, hc, if_true]
  rw [lookahead_eq _ _ _ _ _ (by omega), drop_length_succ_append, h.1]
  have hsub : pre.length + 1 + vs.length - 1 + 1 = pre.length + 1 + vs.length := by omega
  simp only [hsub]

theorem scan_step_equals (M pre : List String) (f v0 : String) (vs rest : List String)
    (hM : f ∈ M) (hdash : hasPrefixDash f = true) (heq : containsEq f = false)
    (hvs : ∀ v ∈ vs, hasPrefixDash v = false)
    (hrest : ∀ t r, rest = t :: r → hasPrefixDash t = true)
    (fuel : Nat) (out : List String) :
    scan M (pre ++ (f ++ "=" ++ v0) :: (vs ++ rest)) (fuel + 1) pre.length out
      = scan M (pre ++ (f ++ "=" ++ v0) :: (vs ++ rest)) fuel (pre.length + 1 + vs.length)
          (out ++ (f :: v0 :: pairs f vs)) := by
  have hc : M.contains f = true := by simpa using hM
  have hlt : pre.length < (pre ++ (f ++ "=" ++ v0) :: (vs ++ rest)).length := by simp
  have hne' : ((f ++ "=" ++ v0) == "--") = false := by
    simpa using equalsForm_ne_sentinel f v0 heq
  obtain ⟨h1, h2, h3⟩ := equalsForm_parts f v0 heq
  have hd : hasPrefixDash (f ++ "=" ++ v0) = true := by
    rw [String.append_assoc]; exact hasPrefixDash_append f _ hdash
  have h := takeWhile_values_append vs rest hvs hrest
  rw [scan, if_pos hlt, getElem?_length_append]
  simp only [hne', hd, h3, Bool.and_self, Bool.false_eq_true, if_false, if_true]
  rw [splitNEq2_of_contains _ h3, h1, h2]
  simp only [List.getElem?_cons_zero, List.getElem?_cons_succ, hc, if_true]
  rw [lookahead_eq _ _ _ _ _ (by omega), drop_length_succ_append, h.1]
  have hsub : pre.length + 1 + vs.length - 1 + 1 = pre.length + 1 + vs.length := by omega
  simp only [hsub, List.append_assoc, List.cons_append, List.nil_append]

/-! ## Claims on the argument preprocessor -/

/-- C1. Bare form: in `argv = pre ++ f :: vs ++ rest`, where `f` is registered
as array-valued for the command path of `argv`, starts with `-`, contains no
`=`, and neither `f` nor a token of `pre` is the sentinel, where the `k ≥ 1`
tokens `vs` do not start with `-` and `rest` is empty or begins with a token
starting with `-`: the output is the output for `pre`, then exactly the `2k`
tokens `f v1 f v2 ... f vk`, then the output for `rest`; and the iteration of
the loop at the cursor of `f` appends exactly these pairs and leaves the
cursor on the token after `vk`. -/
theorem expand_bare_form (reg : Registry) (pre : List String) (f : String)
    (vs rest : List String)
    (hreg : f ∈ multiFlagsOf reg (pre ++ f :: (vs ++ rest)))
    (hdash : hasPrefixDash f = true) (heq : containsEq f = false)
    (hf : f ≠ "--") (hpre : "--" ∉ pre)
    (_hk : 1 ≤ vs.length) (hvs : ∀ v ∈ vs, hasPrefixDash v = false)
    (hrest : ∀ t ∈ rest.head?, hasPrefixDash t = true) :
    ∃ outPre outRest,
      expandWith (multiFlagsOf reg (pre ++ f :: (vs ++ rest))) pre = .ok outPre
      ∧ expandWith (multiFlagsOf reg (pre ++ f :: (vs ++ rest))) rest = .ok outRest
      ∧ ExpandArrayParameters reg (pre ++ f :: (vs ++ rest))
          = .ok (outPre ++ pairs f vs ++ outRest)
      ∧ (pairs f vs).length = 2 * vs.length
      ∧ ∀ (fuel : Nat) (out : List String),
          scan (multiFlagsOf reg (pre ++ f :: (vs ++ rest))) (pre ++ f :: (vs ++ rest))
              (fuel + 1) pre.length out
            = scan (multiFlagsOf reg (pre ++ f :: (vs ++ rest))) (pre ++ f :: (vs ++ rest))
                fuel (pre.length + 1 + vs.length) (out ++ pairs f vs) := by
  have hrest' := head_dash_of_head? rest hrest
  refine ⟨_, _, expandWith_eq _ pre, expandWith_eq _ rest, ?_, ?_, ?_⟩
  · unfold ExpandArrayParameters
    rw [expandWith_eq,
      rewrite_append _ (f :: (vs ++ rest)) (by intro t r e; cases e; exact hdash) pre none hpre,
      rewrite_bare _ f vs rest hreg hf heq hvs hrest']
    simp
  · clear _hk hvs hreg
    induction vs with
    | nil => rfl
    | cons v vs ih => simp [pairs, ih]; omega
  · intro fuel out
    exact scan_step_bare _ pre f vs rest hreg hf heq hvs hrest' fuel out

/-- Witness of C1 on the argv of the test "should expand array parameters with
multiple values". -/
theorem expand_bare_form_witness :
    ExpandArrayParameters testRegistry
        ["subcmd", "--array-param", "val1", "val2", "val3", "--other-flag"]
      = .ok ["subcmd", "--array-param", "val1", "--array-param", "val2",
          "--array-param", "val3", "--other-flag"] := by
  obtain ⟨outPre, outRest, h1, h2, h3, _, _⟩ :=
    expand_bare_form testRegistry ["subcmd"] "--array-param" ["val1", "val2", "val3"]
      ["--other-flag"] (by decide) (by decide) (by decide) (by decide) (by decide) (by decide)
      (by decide) (by decide)
  have e1 : outPre = ["subcmd"] :=
    (Except.ok.inj ((show expandWith _ _ = .ok ["subcmd"] by decide).symm.trans h1)).symm
  have e2 : outRest = ["--other-flag"] :=
    (Except.ok.inj ((show expandWith _ _ = .ok ["--other-flag"] by decide).symm.trans h2)).symm
  subst e1 e2
  exact h3

/-- C2. Equals form: in `argv = pre ++ (f ++ "=" ++ v0) :: vs ++ rest`, where
the long or short token `f` (it starts with `-` and, being the text before the
first `=`, contains no `=`) is registered as array-valued for the command path
of `argv`, no token of `pre` is the sentinel, the `k ≥ 0` tokens `vs` do not
start with `-` and `rest` is empty or begins with a token starting with `-`:
the output is the output for `pre`, then exactly `f v0 f v1 ... f vk`
(`k + 1` pairs), then the output for `rest`; and the iteration of the loop at
the cursor of the token appends exactly these pairs and leaves the cursor on
the token after `vk`. -/
theorem expand_equals_form (reg : Registry) (pre : List String) (f v0 : String)
    (vs rest : List String)
    (hreg : f ∈ multiFlagsOf reg (pre ++ (f ++ "=" ++ v0) :: (vs ++ rest)))
    (hdash : hasPrefixDash f = true) (heq : containsEq f = false)
    (hpre : "--" ∉ pre)
    (hvs : ∀ v ∈ vs, hasPrefixDash v = false)
    (hrest : ∀ t ∈ rest.head?, hasPrefixDash t = true) :
    ∃ outPre outRest,
      expandWith (multiFlagsOf reg (pre ++ (f ++ "=" ++ v0) :: (vs ++ rest))) pre = .ok outPre
      ∧ expandWith (multiFlagsOf reg (pre ++ (f ++ "=" ++ v0) :: (vs ++ rest))) rest
          = .ok outRest
      ∧ ExpandArrayParameters reg (pre ++ (f ++ "=" ++ v0) :: (vs ++ rest))
          = .ok (outPre ++ (f :: v0 :: pairs f vs) ++ outRest)
      ∧ (f :: v0 :: pairs f vs).length = 2 * (vs.length + 1)
      ∧ ∀ (fuel : Nat) (out : List String),
          scan (multiFlagsOf reg (pre ++ (f ++ "=" ++ v0) :: (vs ++ rest)))
              (pre ++ (f ++ "=" ++ v0) :: (vs ++ rest)) (fuel + 1) pre.length out
            = scan (multiFlagsOf reg (pre ++ (f ++ "=" ++ v0) :: (vs ++ rest)))
                (pre ++ (f ++ "=" ++ v0) :: (vs ++ rest))
                fuel (pre.length + 1 + vs.length) (out ++ (f :: v0 :: pairs f vs)) := by
  have hrest' := head_dash_of_head? rest hrest
  have hd : hasPrefixDash (f ++ "=" ++ v0) = true := by
    rw [String.append_assoc]; exact hasPrefixDash_append f _ hdash
  refine ⟨_, _, expandWith_eq _ pre, expandWith_eq _ rest, ?_, ?_, ?_⟩
  · unfold ExpandArrayParameters
    rw [expandWith_eq,
      rewrite_append _ ((f ++ "=" ++ v0) :: (vs ++ rest))
        (by intro t r e; cases e; exact hd) pre none hpre,
      rewrite_equals _ f v0 vs rest hreg hdash heq hvs hrest']
    simp
  · clear hvs hreg
    induction vs with
    | nil => rfl
    | cons v vs ih => simp [pairs] at ih ⊢; omega
  · intro fuel out
    exact scan_step_equals _ pre f v0 vs rest hreg hdash heq hvs hrest' fuel out

/-- Witness of C2 on the argv of the test "should handle short form array
parameters with equals syntax". -/
theorem expand_equals_form_witness :
    ExpandArrayParameters testRegistry
        ["subcmd", "--flag", "-a=val1", "val2", "val3", "--other-flag"]
      = .ok ["subcmd", "--flag", "-a", "val1", "-a", "val2", "-a", "val3", "--other-flag"] := by
  obtain ⟨outPre, outRest, h1, h2, h3, _, _⟩ :=
    expand_equals_form testRegistry ["subcmd", "--flag"] "-a" "val1" ["val2", "val3"]
      ["--other-flag"] (by decide) (by decide) (by decide) (by decide) (by decide) (by decide)
  have e1 : outPre = ["subcmd", "--flag"] :=
    (Except.ok.inj ((show expandWith _ _ = .ok ["subcmd", "--flag"] by decide).symm.trans
      h1)).symm
  have e2 : outRest = ["--other-flag"] :=
    (Except.ok.inj ((show expandWith _ _ = .ok ["--other-flag"] by decide).symm.trans h2)).symm
  subst e1 e2
  exact h3

theorem landOn_copy (M : List String) (t : String) (ht : t ∉ M)
    (hflag : String.mk (beforeEq t.data) ∉ M) : landOn M t = ([t], none) := by
  have hc : M.contains t = false := by simpa using ht
  have hc' : M.contains (String.mk (beforeEq t.data)) = false := by simpa using hflag
  unfold landOn
  rw [hc, hc']
  simp

/-- C3, counterexample: `--multi` directly follows the bare array-valued flag
`--array-param`, which has no values, and starts with `-`; it is reached by the
scan and, being itself an array-valued flag without values, it is dropped, so
it is not retained in the output. -/
theorem zero_values_next_token_not_retained :
    "--array-param" ∈ multiFlagsOf testRegistry ["subcmd", "--array-param", "--multi"]
      ∧ hasPrefixDash "--multi" = true
      ∧ ExpandArrayParameters testRegistry ["subcmd", "--array-param", "--multi"]
          = .ok ["subcmd"]
      ∧ "--multi" ∉ ["subcmd"] := by
  decide

/-- C3, amended. Zero values: in `argv = pre ++ f :: rest`, where `f` is
registered as array-valued for the command path of `argv`, starts with `-`,
contains no `=`, neither `f` nor a token of `pre` is the sentinel, and `rest`
is empty or begins with a token starting with `-`: nothing is emitted for `f`
(the output is the output for `pre` followed by the output for `rest`), the
iteration at the cursor of `f` leaves the output unchanged and the cursor on
the very next token, and that token heads the output for `rest` verbatim
whenever it is the sentinel or neither it nor its text before the first `=`
is array-valued. -/
theorem expand_zero_values (reg : Registry) (pre : List String) (f : String)
    (rest : List String)
    (hreg : f ∈ multiFlagsOf reg (pre ++ f :: rest))
    (hdash : hasPrefixDash f = true) (heq : containsEq f = false)
    (hf : f ≠ "--") (hpre : "--" ∉ pre)
    (hrest : ∀ t ∈ rest.head?, hasPrefixDash t = true) :
    ∃ outPre outRest,
      expandWith (multiFlagsOf reg (pre ++ f :: rest)) pre = .ok outPre
      ∧ expandWith (multiFlagsOf reg (pre ++ f :: rest)) rest = .ok outRest
      ∧ ExpandArrayParameters reg (pre ++ f :: rest) = .ok (outPre ++ outRest)
      ∧ (∀ (fuel : Nat) (out : List String),
          scan (multiFlagsOf reg (pre ++ f :: rest)) (pre ++ f :: rest) (fuel + 1) pre.length out
            = scan (multiFlagsOf reg (pre ++ f :: rest)) (pre ++ f :: rest) fuel
                (pre.length + 1) out)
      ∧ ∀ (t : String) (r : List String), rest = t :: r →
          (t = "--" ∨ (t ∉ multiFlagsOf reg (pre ++ f :: rest)
            ∧ String.mk (beforeEq t.data) ∉ multiFlagsOf reg (pre ++ f :: rest))) →
          ∃ outTail, outRest = t :: outTail := by
  have hrest' := head_dash_of_head? rest hrest
  refine ⟨_, _, expandWith_eq _ pre, expandWith_eq _ rest, ?_, ?_, ?_⟩
  · unfold ExpandArrayParameters
    have h := rewrite_bare _ f [] rest hreg hf heq (by simp) hrest'
    rw [List.nil_append] at h
    rw [expandWith_eq,
      rewrite_append _ (f :: rest) (by intro t r e; cases e; exact hdash) pre none hpre, h]
    simp [pairs]
  · intro fuel out
    have h := scan_step_bare _ pre f [] rest hreg hf heq (by simp) hrest' fuel out
    simpa [pairs] using h
  · intro t r e ht
    subst e
    rcases ht with ht | ⟨ht1, ht2⟩
    · subst ht
      exact ⟨r, by simp [rewrite]⟩
    · by_cases hs : t = "--"
      · subst hs
        exact ⟨r, by simp [rewrite]⟩
      · exact ⟨_, by rw [rewrite, if_neg hs, landOn_copy _ t ht1 ht2]; rfl⟩

/-- Witness of amended C3 on the argv of the test "should handle empty array
parameters". -/
theorem expand_zero_values_witness :
    ExpandArrayParameters testRegistry
        ["subcmd", "--param", "val", "--array-param", "--other-flag"]
      = .ok ["subcmd", "--param", "val", "--other-flag"] := by
  obtain ⟨outPre, outRest, h1, h2, h3, _, _⟩ :=
    expand_zero_values testRegistry ["subcmd", "--param", "val"] "--array-param"
      ["--other-flag"] (by decide) (by decide) (by decide) (by decide) (by decide) (by decide)
  have e1 : outPre = ["subcmd", "--param", "val"] :=
    (Except.ok.inj ((show expandWith _ _ = .ok ["subcmd", "--param", "val"] by decide).symm.trans
      h1)).symm
  have e2 : outRest = ["--other-flag"] :=
    (Except.ok.inj ((show expandWith _ _ = .ok ["--other-flag"] by decide).symm.trans h2)).symm
  subst e1 e2
  exact h3

theorem commandPathArray_append_dash (pre : List String) (t : String) (post : List String)
    (ht : hasPrefixDash t = true) :
    commandPathArray (pre ++ t :: post) = commandPathArray (pre ++ [t]) := by
  induction pre with
  | nil => simp [commandPathArray, ht]
  | cons a pre ih =>
    by_cases ha : hasPrefixDash a = true
    · simp [commandPathArray, ha]
    · simp [commandPathArray, ha, ih]

theorem commandPathArray_take_dash (pre : List String) (t : String) (post : List String)
    (ht : hasPrefixDash t = true) :
    commandPathArray (pre ++ t :: post) = commandPathArray pre := by
  induction pre with
  | nil => simp [commandPathArray, ht]
  | cons a pre ih =>
    by_cases ha : hasPrefixDash a = true
    · simp [commandPathArray, ha]
    · simp [commandPathArray, ha, ih]

theorem multiFlagsOf_take_dash (reg : Registry) (pre : List String) (t : String)
    (post : List String) (ht : hasPrefixDash t = true) :
    multiFlagsOf reg (pre ++ t :: post) = multiFlagsOf reg pre := by
  unfold multiFlagsOf
  rw [commandPathArray_take_dash pre t post ht]

theorem split_at_indexOf (a : String) (l : List String) (h : a ∈ l) :
    l.take (l.indexOf a) ++ a :: l.drop (l.indexOf a + 1) = l
      ∧ a ∉ l.take (l.indexOf a)
      ∧ l.drop (l.indexOf a) = a :: l.drop (l.indexOf a + 1) := by
  induction l with
  | nil => simp at h
  | cons b l ih =>
    by_cases hb : b = a
    · subst hb
      simp [List.indexOf_cons_self]
    · have hm : a ∈ l := by
        rcases List.mem_cons.mp h with h | h
        · exact absurd h.symm hb
        · exact h
      obtain ⟨h1, h2, h3⟩ := ih hm
      rw [List.indexOf_cons_ne _ hb]
      refine ⟨?_, ?_, ?_⟩
      · simp only [Nat.succ_eq_add_one, List.take_succ_cons, List.drop_succ_cons,
          List.cons_append]
        rw [h1]
      · simp only [Nat.succ_eq_add_one, List.take_succ_cons, List.mem_cons, not_or]
        exact ⟨fun e => hb e.symm, h2⟩
      · simp only [Nat.succ_eq_add_one, List.drop_succ_cons]
        exact h3

theorem rewrite_append_sentinel (M : List String) (post : List String) :
    ∀ (pre : List String) (st : Option String), "--" ∈ pre →
      rewrite M st (pre ++ post) = rewrite M st pre ++ post := by
  intro pre
  induction pre with
  | nil => intro st h; simp at h
  | cons a pre ih =>
    intro st h
    by_cases ha : a = "--"
    · subst ha
      cases st <;> simp [rewrite]
    · have hp : "--" ∈ pre := by
        rcases List.mem_cons.mp h with h | h
        · exact absurd h.symm ha
        · exact h
      cases st with
      | none => simp [rewrite, ha, ih _ hp]
      | some f =>
        by_cases hd : hasPrefixDash a = true
        · simp [rewrite, ha, hd, ih _ hp]
        · simp [rewrite, ha, hd, ih _ hp]

theorem scan_step (M pre : List String) (t : String) (r : List String) (hs : t ≠ "--")
    (fuel : Nat) (out : List String) :
    scan M (pre ++ t :: r) (fuel + 1) pre.length out
      = match (landOn M t).2 with
        | some f =>
          scan M (pre ++ t :: r) fuel (pre.length + 1 + (r.takeWhile isValue).length)
            (out ++ (landOn M t).1 ++ pairs f (r.takeWhile isValue))
        | none => scan M (pre ++ t :: r) fuel (pre.length + 1) (out ++ (landOn M t).1) := by
  have hlt : pre.length < (pre ++ t :: r).length := by simp
  have hs' : (t == "--") = false := by simpa using hs
  have hsub : pre.length + 1 + (r.takeWhile isValue).length - 1 + 1
      = pre.length + 1 + (r.takeWhile isValue).length := by omega
  rw [scan, if_pos hlt, getElem?_length_append]
  simp only [hs', Bool.false_eq_true, if_false]
  by_cases he : (hasPrefixDash t && containsEq t) = true
  · have hc : containsEq t = true := by
      simp only [Bool.and_eq_true] at he; exact he.2
    rw [if_pos he, splitNEq2_of_contains _ hc]
    simp only [List.getElem?_cons_zero, List.getElem?_cons_succ]
    by_cases hm : M.contains (String.mk (beforeEq t.data)) = true
    · have hland : landOn M t = ([String.mk (beforeEq t.data),
          String.mk ((afterEq t.data).getD [])], some (String.mk (beforeEq t.data))) := by
        unfold landOn; rw [if_pos he, if_pos hm]
      rw [if_pos hm, lookahead_eq _ _ _ _ _ (by omega), drop_length_succ_append, hland]
      simp only [hsub]
    · have hland : landOn M t = ([t], none) := by
        unfold landOn; rw [if_pos he, if_neg hm]
      rw [if_neg hm, hland]
  · rw [if_neg he]
    have he' : (hasPrefixDash t && containsEq t) = false := by simpa using he
    by_cases hm : M.contains t = true
    · have hland : landOn M t = ([], some t) := by
        rw [landOn_plain M t he', if_pos hm]
      rw [if_pos hm, lookahead_eq _ _ _ _ _ (by omega), drop_length_succ_append, hland]
      simp only [hsub, List.append_nil]
    · have hland : landOn M t = ([t], none) := by
        rw [landOn_plain M t he', if_neg hm]
      rw [if_neg hm, hland]

theorem takeWhile_append_stop (r l2 : List String)
    (h2 : ∀ t q, l2 = t :: q → hasPrefixDash t = true) :
    (r ++ l2).takeWhile isValue = r.takeWhile isValue := by
  induction r with
  | nil =>
    cases l2 with
    | nil => rfl
    | cons t q =>
      have := h2 t q rfl
      simp [List.takeWhile_cons, isValue_eq, this]
  | cons a r ih =>
    by_cases ha : isValue a = true
    · simp [List.takeWhile_cons, ha, ih]
    · simp [List.takeWhile_cons, ha]

theorem dropWhile_head_dash (r : List String) :
    ∀ t q, r.dropWhile isValue = t :: q → hasPrefixDash t = true := by
  intro t q h
  have hmem : ¬ isValue t = true := by
    have := List.head_dropWhile_not isValue r (by rw [h]; simp)
    simpa [h] using this
  rw [isValue_eq] at hmem
  simpa using hmem

theorem scan_reaches (M : List String) (l2 : List String)
    (h2 : ∀ t q, l2 = t :: q → hasPrefixDash t = true) :
    ∀ (k : Nat) (pre1 pre2 : List String), pre2.length ≤ k → "--" ∉ pre2 →
      ∃ n, n ≤ pre2.length ∧ ∀ (fuel : Nat) (out : List String),
        scan M (pre1 ++ (pre2 ++ l2)) (n + fuel) pre1.length out
          = scan M (pre1 ++ (pre2 ++ l2)) fuel (pre1.length + pre2.length)
              (out ++ rewrite M none pre2) := by
  intro k
  induction k with
  | zero =>
    intro pre1 pre2 hk _
    have : pre2 = [] := List.length_eq_zero.mp (Nat.le_zero.mp hk)
    subst this
    exact ⟨0, Nat.le_refl _, by intro fuel out; simp [rewrite]⟩
  | succ k ih =>
    intro pre1 pre2 hk hpre2
    cases pre2 with
    | nil => exact ⟨0, Nat.le_refl _, by intro fuel out; simp [rewrite]⟩
    | cons t r =>
      have hs : t ≠ "--" := fun h => hpre2 (by simp [h])
      have hr : "--" ∉ r := fun h => hpre2 (by simp [h])
      have hrl : r.length ≤ k := by simp at hk; omega
      cases hl : (landOn M t).2 with
      | none =>
        obtain ⟨n, hn, hscan⟩ := ih (pre1 ++ [t]) r hrl hr
        refine ⟨n + 1, by simp; omega, ?_⟩
        intro fuel out
        have e1 : n + 1 + fuel = (n + fuel) + 1 := by omega
        have e2 : pre1 ++ (t :: r ++ l2) = pre1 ++ t :: (r ++ l2) := by simp
        have e3 : pre1 ++ [t] ++ (r ++ l2) = pre1 ++ t :: (r ++ l2) := by simp
        rw [e1, e2, scan_step M pre1 t (r ++ l2) hs, hl]
        simp only []
        have h := hscan fuel (out ++ (landOn M t).1)
        rw [e3] at h
        simp only [List.length_append, List.length_singleton] at h
        rw [h, rewrite, if_neg hs, hl]
        simp only [List.length_cons, List.append_assoc]
        congr 1
        omega
      | some f =>
        have hsplit : r = r.takeWhile isValue ++ r.dropWhile isValue :=
          (List.takeWhile_append_dropWhile isValue r).symm
        have hvals : ∀ v ∈ r.takeWhile isValue, v ≠ "--" := by
          intro v hv e
          exact hr (e ▸ (List.takeWhile_subset isValue hv))
        have hdrop : "--" ∉ r.dropWhile isValue := by
          intro h
          exact hr ((List.dropWhile_suffix isValue).subset h)
        have hdl : (r.dropWhile isValue).length ≤ k := by
          have := (List.dropWhile_suffix isValue (l := r)).length_le
          omega
        obtain ⟨n, hn, hscan⟩ := ih (pre1 ++ t :: r.takeWhile isValue) (r.dropWhile isValue)
          hdl hdrop
        have hlen : r.length = (r.takeWhile isValue).length + (r.dropWhile isValue).length := by
          rw [← List.length_append, List.takeWhile_append_dropWhile]
        refine ⟨n + 1, by simp; omega, ?_⟩
        intro fuel out
        have e1 : n + 1 + fuel = (n + fuel) + 1 := by omega
        have e2 : pre1 ++ (t :: r ++ l2) = pre1 ++ t :: (r ++ l2) := by simp
        have e3 : pre1 ++ t :: r.takeWhile isValue ++ (r.dropWhile isValue ++ l2)
            = pre1 ++ t :: (r ++ l2) := by
          have : r.takeWhile isValue ++ (r.dropWhile isValue ++ l2) = r ++ l2 := by
            rw [← List.append_assoc, List.takeWhile_append_dropWhile]
          simp only [List.append_assoc, List.cons_append, this]
        rw [e1, e2, scan_step M pre1 t (r ++ l2) hs, hl]
        simp only []
        rw [takeWhile_append_stop r l2 h2]
        have h := hscan fuel (out ++ (landOn M t).1 ++ pairs f (r.takeWhile isValue))
        rw [e3] at h
        simp only [List.length_append, List.length_cons] at h
        have e4 : pre1.length + 1 + (r.takeWhile isValue).length
            = pre1.length + ((r.takeWhile isValue).length + 1) := by omega
        rw [e4, h, rewrite, if_neg hs, hl, rewrite_some_values]
        simp only [List.length_cons, List.append_assoc]
        congr 1
        omega

theorem scan_at_sentinel (M pre post : List String) (fuel : Nat) (out : List String) :
    scan M (pre ++ "--" :: post) (fuel + 1) pre.length out = .ok (out ++ "--" :: post) := by
  have hlt : pre.length < (pre ++ "--" :: post).length := by simp
  rw [scan, if_pos hlt, getElem?_length_append]
  simp only [beq_self_eq_true, if_true]
  have hd : (pre ++ "--" :: post).drop pre.length = "--" :: post := by
    induction pre with
    | nil => rfl
    | cons a pre ih => simp
  rw [hd]

theorem expand_split_sentinel (reg : Registry) (pre post : List String) (hpre : "--" ∉ pre) :
    ExpandArrayParameters reg pre = .ok (rewrite (multiFlagsOf reg pre) none pre)
      ∧ ExpandArrayParameters reg (pre ++ "--" :: post)
        = .ok (rewrite (multiFlagsOf reg pre) none pre ++ "--" :: post)
      ∧ ∃ n, n ≤ pre.length ∧ ∀ fuel : Nat,
          scan (multiFlagsOf reg (pre ++ "--" :: post)) (pre ++ "--" :: post)
              (n + (fuel + 1)) 0 []
            = scan (multiFlagsOf reg (pre ++ "--" :: post)) (pre ++ "--" :: post)
                (fuel + 1) pre.length (rewrite (multiFlagsOf reg pre) none pre)
          ∧ scan (multiFlagsOf reg (pre ++ "--" :: post)) (pre ++ "--" :: post)
                (fuel + 1) pre.length (rewrite (multiFlagsOf reg pre) none pre)
            = .ok (rewrite (multiFlagsOf reg pre) none pre ++ "--" :: post) := by
  have hM := multiFlagsOf_take_dash reg pre "--" post hasPrefixDash_sentinel
  refine ⟨expandWith_eq _ _, ?_, ?_⟩
  · unfold ExpandArrayParameters
    rw [expandWith_eq, hM,
      rewrite_append _ ("--" :: post) (by intro t r e; cases e; exact hasPrefixDash_sentinel)
        pre none hpre]
    simp [rewrite]
  · obtain ⟨n, hn, hscan⟩ := scan_reaches (multiFlagsOf reg pre) ("--" :: post)
      (by intro t r e; cases e; exact hasPrefixDash_sentinel) pre.length [] pre
      (Nat.le_refl _) hpre
    refine ⟨n, hn, fun fuel => ⟨?_, ?_⟩⟩
    · have h := hscan (fuel + 1) []
      simp only [List.nil_append, List.length_nil, Nat.zero_add] at h
      rw [hM]
      exact h
    · rw [hM]
      exact scan_at_sentinel _ pre post fuel _

theorem length_take_indexOf (a : String) (l : List String) :
    (l.take (l.indexOf a)).length = l.indexOf a := by
  rw [List.length_take]
  exact Nat.min_eq_left List.indexOf_le_length

/-- C4. Sentinel: for every argv containing `--`, with `s` the index of its
first occurrence, the expansion of `argv[0..s)` succeeds and the expansion of
`argv` is that output followed by `argv[s..]` verbatim; and the loop, after at
most `s` iterations, has its cursor exactly on `s` with the output for
`argv[0..s)`, from where one iteration copies `argv[s..]` and stops. -/
theorem expand_sentinel (reg : Registry) (argv : List String) (h : "--" ∈ argv) :
    ∃ outPre,
      ExpandArrayParameters reg (argv.take (argv.indexOf "--")) = .ok outPre
      ∧ ExpandArrayParameters reg argv = .ok (outPre ++ argv.drop (argv.indexOf "--"))
      ∧ ∃ n, n ≤ argv.indexOf "--" ∧ ∀ fuel : Nat,
          scan (multiFlagsOf reg argv) argv (n + (fuel + 1)) 0 []
            = scan (multiFlagsOf reg argv) argv (fuel + 1) (argv.indexOf "--") outPre
          ∧ scan (multiFlagsOf reg argv) argv (fuel + 1) (argv.indexOf "--") outPre
            = .ok (outPre ++ argv.drop (argv.indexOf "--")) := by
  obtain ⟨h1, h2, h3⟩ := split_at_indexOf "--" argv h
  have key := expand_split_sentinel reg _ (argv.drop (argv.indexOf "--" + 1)) h2
  rw [h1, length_take_indexOf, ← h3] at key
  exact ⟨_, key⟩

/-- Witness of C4 on the argv of the test "should stop processing after --
sentinel", with an array-valued flag after the sentinel. -/
theorem expand_sentinel_witness :
    ExpandArrayParameters testRegistry
        ["subcmd", "--array-param", "val1", "val2", "--", "--multi", "m1", "m2"]
      = .ok ["subcmd", "--array-param", "val1", "--array-param", "val2",
          "--", "--multi", "m1", "m2"] := by
  obtain ⟨outPre, h1, h2, _⟩ :=
    expand_sentinel testRegistry
      ["subcmd", "--array-param", "val1", "val2", "--", "--multi", "m1", "m2"] (by decide)
  have e1 : outPre = ["subcmd", "--array-param", "val1", "--array-param", "val2"] :=
    (Except.ok.inj ((show ExpandArrayParameters testRegistry
        (List.take (List.indexOf "--"
          ["subcmd", "--array-param", "val1", "val2", "--", "--multi", "m1", "m2"])
          ["subcmd", "--array-param", "val1", "val2", "--", "--multi", "m1", "m2"])
      = .ok ["subcmd", "--array-param", "val1", "--array-param", "val2"] by decide).symm.trans
      h1)).symm
  subst e1
  exact h2

theorem ne_sentinel_of_containsEq (t : String) (h : containsEq t = true) : t ≠ "--" := by
  intro e
  rw [e] at h
  revert h; decide

theorem landOn_equals_copy (M : List String) (t : String)
    (hdash : hasPrefixDash t = true) (hcont : containsEq t = true)
    (hflag : String.mk (beforeEq t.data) ∉ M) : landOn M t = ([t], none) := by
  have hc' : M.contains (String.mk (beforeEq t.data)) = false := by simpa using hflag
  unfold landOn
  rw [hdash, hcont, hc']
  simp

theorem scan_step_equals_copy (M pre : List String) (t : String) (rest : List String)
    (hdash : hasPrefixDash t = true) (hcont : containsEq t = true)
    (hflag : String.mk (beforeEq t.data) ∉ M) (fuel : Nat) (out : List String) :
    scan M (pre ++ t :: rest) (fuel + 1) pre.length out
      = scan M (pre ++ t :: rest) fuel (pre.length + 1) (out ++ [t]) := by
  have hc' : M.contains (String.mk (beforeEq t.data)) = false := by simpa using hflag
  have hlt : pre.length < (pre ++ t :: rest).length := by simp
  have hne' : (t == "--") = false := by simpa using ne_sentinel_of_containsEq t hcont
  rw [scan, if_pos hlt, getElem?_length_append]
  simp only [hne', hdash, hcont, Bool.and_self, Bool.false_eq_true, if_false, if_true]
  rw [splitNEq2_of_contains _ hcont]
  simp only [List.getElem?_cons_zero, hc', Bool.false_eq_true, if_false]

/-- C5. Non-array `=` flags: a token `t` of `argv = pre ++ t :: rest` that
starts with `-`, contains `=` and whose text before the first `=` is not
registered as array-valued for the command path of `argv` is emitted exactly
once, verbatim and in place: the output is the output for `pre`, then `t`,
then the output for what follows (`rest` itself when `pre` holds a sentinel),
whatever `pre` ends with, so `t` is never taken as a value of a preceding
array flag and the relative order of such tokens is kept.  The iteration of
the loop that lands on `t` appends exactly `[t]` and advances the cursor by
one. -/
theorem expand_keeps_plain_equals_token (reg : Registry) (pre : List String) (t : String)
    (rest : List String)
    (hdash : hasPrefixDash t = true) (hcont : containsEq t = true)
    (hflag : String.mk (beforeEq t.data) ∉ multiFlagsOf reg (pre ++ t :: rest)) :
    ∃ outPre outRest,
      expandWith (multiFlagsOf reg (pre ++ t :: rest)) pre = .ok outPre
      ∧ expandWith (multiFlagsOf reg (pre ++ t :: rest)) rest = .ok outRest
      ∧ ExpandArrayParameters reg (pre ++ t :: rest)
          = .ok (outPre ++ t :: (if "--" ∈ pre then rest else outRest))
      ∧ ∀ (fuel : Nat) (out : List String),
          scan (multiFlagsOf reg (pre ++ t :: rest)) (pre ++ t :: rest) (fuel + 1) pre.length out
            = scan (multiFlagsOf reg (pre ++ t :: rest)) (pre ++ t :: rest) fuel
                (pre.length + 1) (out ++ [t]) := by
  refine ⟨_, _, expandWith_eq _ pre, expandWith_eq _ rest, ?_, ?_⟩
  · unfold ExpandArrayParameters
    rw [expandWith_eq]
    by_cases hs : "--" ∈ pre
    · rw [if_pos hs, rewrite_append_sentinel _ _ pre none hs]
    · rw [if_neg hs,
        rewrite_append _ (t :: rest) (by intro a r e; cases e; exact hdash) pre none hs,
        rewrite, if_neg (ne_sentinel_of_containsEq t hcont),
        landOn_equals_copy _ t hdash hcont hflag]
      rfl
  · intro fuel out
    exact scan_step_equals_copy _ pre t rest hdash hcont hflag fuel out

/-- Witness of C5 on the argv of the test with `-p=v` directly after the
trailing values of an array flag. -/
theorem expand_keeps_plain_equals_token_witness :
    ExpandArrayParameters testRegistry
        ["subcmd", "--param=val", "--array-param=val1", "val2", "val3", "-p=v", "--x=1"]
      = .ok ["subcmd", "--param=val", "--array-param", "val1", "--array-param", "val2",
          "--array-param", "val3", "-p=v", "--x=1"] := by
  obtain ⟨outPre, outRest, h1, h2, h3, _⟩ :=
    expand_keeps_plain_equals_token testRegistry
      ["subcmd", "--param=val", "--array-param=val1", "val2", "val3"] "-p=v" ["--x=1"]
      (by decide) (by decide) (by decide)
  have e1 : outPre = ["subcmd", "--param=val", "--array-param", "val1", "--array-param", "val2",
      "--array-param", "val3"] :=
    (Except.ok.inj ((show expandWith _ _ = .ok ["subcmd", "--param=val", "--array-param",
      "val1", "--array-param", "val2", "--array-param", "val3"] by decide).symm.trans h1)).symm
  have e2 : outRest = ["--x=1"] :=
    (Except.ok.inj ((show expandWith _ _ = .ok ["--x=1"] by decide).symm.trans h2)).symm
  subst e1 e2
  exact h3

theorem rewrite_nil_flags : ∀ (l : List String), rewrite [] none l = l := by
  intro l
  induction l with
  | nil => rfl
  | cons t r ih =>
    by_cases hs : t = "--"
    · simp [rewrite, hs]
    · have hl : landOn [] t = ([t], none) := by
        unfold landOn
        simp
      rw [rewrite, if_neg hs, hl]
      simp [ih]

theorem commandPathArray_eq_takeWhile (argv : List String) :
    commandPathArray argv = argv.takeWhile (fun a => !hasPrefixDash a) := by
  induction argv with
  | nil => rfl
  | cons a argv ih =>
    by_cases ha : hasPrefixDash a = true
    · simp [commandPathArray, List.takeWhile_cons, ha]
    · simp [commandPathArray, List.takeWhile_cons, ha, ih]

/-- C6. Command-path lookup and identity: the array-valued tokens used for
`argv` are those stored in the path index under the single-space join of the
longest prefix of `argv` whose tokens do not start with `-`; when nothing is
registered under exactly that key, `ExpandArrayParameters` returns `argv`
unchanged. -/
theorem expand_identity_without_array_flags (reg : Registry) (argv : List String)
    (h : GoMap.get (buildArrayParamsData reg)
      (" ".intercalate (argv.takeWhile (fun a => !hasPrefixDash a))) = []) :
    multiFlagsOf reg argv
        = GoMap.get (buildArrayParamsData reg)
            (" ".intercalate (argv.takeWhile (fun a => !hasPrefixDash a)))
      ∧ ExpandArrayParameters reg argv = .ok argv := by
  have hk : multiFlagsOf reg argv
      = GoMap.get (buildArrayParamsData reg)
          (" ".intercalate (argv.takeWhile (fun a => !hasPrefixDash a))) := by
    unfold multiFlagsOf joinSpace
    rw [commandPathArray_eq_takeWhile]
  refine ⟨hk, ?_⟩
  unfold ExpandArrayParameters
  rw [expandWith_eq, hk, h, rewrite_nil_flags]

/-- Witness of C6: with the registrations of the test suite, argv is returned
unchanged when a flag precedes the subcommand name, when the root name or an
extra positional token is part of the prefix, and when the array-valued tokens
belong to another command. -/
theorem expand_identity_without_array_flags_witness :
    ExpandArrayParameters testRegistry ["--flag", "subcmd", "--array-param", "a", "b"]
        = .ok ["--flag", "subcmd", "--array-param", "a", "b"]
      ∧ ExpandArrayParameters testRegistry ["root", "subcmd", "--array-param", "a", "b"]
        = .ok ["root", "subcmd", "--array-param", "a", "b"]
      ∧ ExpandArrayParameters testRegistry ["subcmd", "extra", "--array-param", "a", "b"]
        = .ok ["subcmd", "extra", "--array-param", "a", "b"]
      ∧ ExpandArrayParameters testRegistry ["other", "--array-param", "a", "b"]
        = .ok ["other", "--array-param", "a", "b"] :=
  ⟨(expand_identity_without_array_flags testRegistry
      ["--flag", "subcmd", "--array-param", "a", "b"] (by decide)).2,
    (expand_identity_without_array_flags testRegistry
      ["root", "subcmd", "--array-param", "a", "b"] (by decide)).2,
    (expand_identity_without_array_flags testRegistry
      ["subcmd", "extra", "--array-param", "a", "b"] (by decide)).2,
    (expand_identity_without_array_flags testRegistry
      ["other", "--array-param", "a", "b"] (by decide)).2⟩

theorem length_lt_indexOf_sentinel (pre : List String) (t : String) (r : List String)
    (hpre : "--" ∉ pre) (ht : t ≠ "--") :
    pre.length < (pre ++ t :: r).indexOf "--" := by
  induction pre with
  | nil =>
    rw [List.nil_append, List.indexOf_cons_ne _ ht]
    exact Nat.succ_pos _
  | cons a pre ih =>
    have ha : a ≠ "--" := fun h => hpre (by simp [h])
    have hp : "--" ∉ pre := fun h => hpre (by simp [h])
    rw [List.cons_append, List.indexOf_cons_ne _ ha]
    simp only [List.length_cons]
    exact Nat.succ_lt_succ (ih hp)

theorem rewrite_repeated_form (M argv : List String)
    (hNoEq : ∀ t ∈ argv, hasPrefixDash t = true → containsEq t = true →
      String.mk (beforeEq t.data) ∉ M)
    (hOne : ∀ i, i < argv.indexOf "--" → ∀ f ∈ argv[i]?, f ∈ M →
      (argv[i + 1]?).any (fun v => !hasPrefixDash v) = true
        ∧ (argv[i + 2]?).all hasPrefixDash = true) :
    ∀ (n : Nat) (l pre : List String) (st : Option String), l.length ≤ n →
      argv = pre ++ l → "--" ∉ pre →
      (st = none ∨ ∀ t ∈ l.head?, hasPrefixDash t = true) →
      rewrite M st l = l := by
  intro n
  induction n with
  | zero =>
    intro l pre st hl _ _ _
    have : l = [] := List.length_eq_zero.mp (Nat.le_zero.mp hl)
    subst this
    cases st <;> rfl
  | succ n ih =>
    intro l pre st hl hargv hpre hst
    cases l with
    | nil => cases st <;> rfl
    | cons t r =>
      have hstep : rewrite M st (t :: r) = rewrite M none (t :: r) := by
        rcases hst with hst | hst
        · rw [hst]
        · exact rewrite_dash M st t r (hst t (by simp))
      rw [hstep]
      by_cases hs : t = "--"
      · rw [rewrite, if_pos hs]
      · rw [rewrite, if_neg hs]
        have hpre' : "--" ∉ pre ++ [t] := by
          simp only [List.mem_append, List.mem_singleton, not_or]
          exact ⟨hpre, fun e => hs e.symm⟩
        have hargv' : argv = (pre ++ [t]) ++ r := by simp [hargv]
        have hr : r.length ≤ n := by simp at hl; omega
        have hcopy : landOn M t = ([t], none) → (landOn M t).1 ++ rewrite M (landOn M t).2 r
            = t :: r := by
          intro h
          rw [h]
          simp only [List.singleton_append, List.cons.injEq, true_and]
          exact ih r (pre ++ [t]) none hr hargv' hpre' (Or.inl rfl)
        by_cases he : (hasPrefixDash t && containsEq t) = true
        · simp only [Bool.and_eq_true] at he
          have hflag := hNoEq t (by simp [hargv]) he.1 he.2
          exact hcopy (landOn_equals_copy M t he.1 he.2 hflag)
        · have he' : (hasPrefixDash t && containsEq t) = false := by simpa using he
          by_cases hm : t ∈ M
          · have hc : M.contains t = true := by simpa using hm
            have hidx : pre.length < argv.indexOf "--" := by
              rw [hargv]; exact length_lt_indexOf_sentinel pre t r hpre hs
            have hget : argv[pre.length]? = some t := by
              rw [hargv]; exact getElem?_length_append pre t r
            obtain ⟨h1, h2⟩ := hOne pre.length hidx t (by rw [hget]; rfl) hm
            have hg1 : argv[pre.length + 1]? = r[0]? := by
              rw [hargv', List.getElem?_append_right (by simp)]
              simp
            have hg2 : argv[pre.length + 2]? = r[1]? := by
              rw [hargv', List.getElem?_append_right (by simp)]
              simp
            rw [hg1] at h1
            rw [hg2] at h2
            cases r with
            | nil => simp at h1
            | cons v r' =>
              have hv : hasPrefixDash v = false := by simpa using h1
              have hvs : v ≠ "--" := by
                intro e; rw [e] at hv; simp [hasPrefixDash_sentinel] at hv
              have hr' : ∀ a ∈ r'.head?, hasPrefixDash a = true := by
                intro a ha
                cases r' with
                | nil => simp at ha
                | cons b r'' =>
                  simp only [List.head?_cons, Option.mem_def, Option.some.injEq] at ha
                  subst ha
                  simpa using h2
              rw [landOn_plain M t he', if_pos hc]
              simp only [List.nil_append]
              rw [rewrite, if_neg hvs, hv]
              simp only [Bool.false_eq_true, if_false, List.cons.injEq, true_and]
              have hpre'' : "--" ∉ pre ++ [t, v] := by
                simp only [List.mem_append, List.mem_cons, List.mem_singleton, not_or,
                  List.not_mem_nil, or_false]
                exact ⟨hpre, fun e => hs e.symm, fun e => hvs e.symm⟩
              exact ih r' (pre ++ [t, v]) (some t) (by simp at hr; omega)
                (by simp [hargv]) hpre'' (Or.inr hr')
          · have hc : M.contains t = false := by simpa using hm
            apply hcopy
            rw [landOn_plain M t he', hc]
            simp

/-- C7. Repeated-flag form is a fixed point: when argv holds no equals-form
token whose flag part is array-valued and every occurrence of an array-valued
token before the first `--` is followed by exactly one token not starting with
`-` and then by a token starting with `-` or by the end of input,
`ExpandArrayParameters` returns argv unchanged. -/
theorem expand_repeated_form_fixed (reg : Registry) (argv : List String)
    (hNoEq : ∀ t ∈ argv, hasPrefixDash t = true → containsEq t = true →
      String.mk (beforeEq t.data) ∉ multiFlagsOf reg argv)
    (hOne : ∀ i, i < argv.indexOf "--" → ∀ f ∈ argv[i]?, f ∈ multiFlagsOf reg argv →
      (argv[i + 1]?).any (fun v => !hasPrefixDash v) = true
        ∧ (argv[i + 2]?).all hasPrefixDash = true) :
    ExpandArrayParameters reg argv = .ok argv := by
  unfold ExpandArrayParameters
  rw [expandWith_eq,
    rewrite_repeated_form _ argv hNoEq hOne argv.length argv [] none (Nat.le_refl _) rfl
      (by simp) (Or.inl rfl)]

/-- Witness of C7: repeated flags, a comma-separated value, a plain `=` flag
and an array flag after the sentinel. -/
theorem expand_repeated_form_fixed_witness :
    ExpandArrayParameters testRegistry
        ["subcmd", "--array-param", "v1", "--array-param", "v2", "-a", "v1,v2,v3", "--x=1",
          "--", "--multi"]
      = .ok ["subcmd", "--array-param", "v1", "--array-param", "v2", "-a", "v1,v2,v3", "--x=1",
          "--", "--multi"] :=
  expand_repeated_form_fixed testRegistry
    ["subcmd", "--array-param", "v1", "--array-param", "v2", "-a", "v1,v2,v3", "--x=1",
      "--", "--multi"] (by decide) (by decide)

theorem filter_rewrite (M : List String) :
    ∀ (l : List String) (st : Option String),
      (∀ t ∈ l, hasPrefixDash t = true → containsEq t = true →
        String.mk (beforeEq t.data) ∉ M) →
      (∀ f ∈ st, f ∈ M) →
      (rewrite M st l).filter (fun t => !M.contains t) = l.filter (fun t => !M.contains t) := by
  intro l
  induction l with
  | nil => intro st _ _; cases st <;> rfl
  | cons t r ih =>
    intro st hNoEq hst
    have hr : ∀ a ∈ r, hasPrefixDash a = true → containsEq a = true →
        String.mk (beforeEq a.data) ∉ M := fun a ha => hNoEq a (by simp [ha])
    have hland : ((landOn M t).1 ++ rewrite M (landOn M t).2 r).filter (fun t => !M.contains t)
        = (t :: r).filter (fun t => !M.contains t) := by
      by_cases he : (hasPrefixDash t && containsEq t) = true
      · simp only [Bool.and_eq_true] at he
        rw [landOn_equals_copy M t he.1 he.2 (hNoEq t (by simp) he.1 he.2)]
        simp only [List.singleton_append, List.filter_cons]
        rw [ih none hr (by simp)]
      · have he' : (hasPrefixDash t && containsEq t) = false := by simpa using he
        rw [landOn_plain M t he']
        by_cases hm : t ∈ M
        · have hc : M.contains t = true := by simpa using hm
          rw [if_pos hc]
          simp only [List.nil_append, List.filter_cons, hc, Bool.not_true, Bool.false_eq_true,
            if_false]
          exact ih (some t) hr (by intro f hf; cases hf; exact hm)
        · have hc : M.contains t = false := by simpa using hm
          rw [hc]
          simp only [Bool.false_eq_true, if_false, List.singleton_append, List.filter_cons]
          rw [ih none hr (by simp)]
    by_cases hs : t = "--"
    · cases st <;> simp [rewrite, hs]
    · cases st with
      | none => rw [rewrite, if_neg hs]; exact hland
      | some f =>
        by_cases hd : hasPrefixDash t = true
        · rw [rewrite, if_neg hs, if_pos hd]; exact hland
        · have hf : M.contains f = true := by simpa using hst f rfl
          rw [rewrite, if_neg hs, if_neg hd]
          simp only [List.filter_cons, hf, Bool.not_true, Bool.false_eq_true, if_false]
          rw [ih (some f) hr hst]

/-- C8. Order preservation: for every argv that contains no equals-form token
whose flag part is array-valued, `ExpandArrayParameters` succeeds and deleting
every occurrence of the array-valued tokens from its output gives exactly the
list obtained by deleting them from argv.  (The assumption that the registered
tokens start with `-` and contain no `=` is not needed for this.) -/
theorem expand_preserves_other_tokens (reg : Registry) (argv : List String)
    (hNoEq : ∀ t ∈ argv, hasPrefixDash t = true → containsEq t = true →
      String.mk (beforeEq t.data) ∉ multiFlagsOf reg argv) :
    ∃ out, ExpandArrayParameters reg argv = .ok out
      ∧ out.filter (fun t => !(multiFlagsOf reg argv).contains t)
          = argv.filter (fun t => !(multiFlagsOf reg argv).contains t) :=
  ⟨_, expandWith_eq _ _, filter_rewrite _ argv none hNoEq (by simp)⟩

/-- Witness of C8 on the argv of the test "should handle mixed array and
non-array parameters". -/
theorem expand_preserves_other_tokens_witness :
    ExpandArrayParameters testRegistry
        ["subcmd", "--array-param", "val1", "val2", "--normal", "value", "--multi", "m1", "m2",
          "--other-flag"]
      = .ok ["subcmd", "--array-param", "val1", "--array-param", "val2", "--normal", "value",
          "--multi", "m1", "--multi", "m2", "--other-flag"]
      ∧ List.filter (fun t => !(List.contains ["--array-param", "-a", "--multi"] t))
          ["subcmd", "--array-param", "val1", "--array-param", "val2", "--normal", "value",
            "--multi", "m1", "--multi", "m2", "--other-flag"]
        = List.filter (fun t => !(List.contains ["--array-param", "-a", "--multi"] t))
          ["subcmd", "--array-param", "val1", "val2", "--normal", "value", "--multi", "m1", "m2",
            "--other-flag"] := by
  obtain ⟨out, h1, h2⟩ :=
    expand_preserves_other_tokens testRegistry
      ["subcmd", "--array-param", "val1", "val2", "--normal", "value", "--multi", "m1", "m2",
        "--other-flag"] (by decide)
  have e : out = ["subcmd", "--array-param", "val1", "--array-param", "val2", "--normal",
      "value", "--multi", "m1", "--multi", "m2", "--other-flag"] :=
    (Except.ok.inj ((show ExpandArrayParameters testRegistry _ = .ok ["subcmd", "--array-param",
      "val1", "--array-param", "val2", "--normal", "value", "--multi", "m1", "--multi", "m2",
      "--other-flag"] by decide).symm.trans h1)).symm
  subst e
  exact ⟨h1, h2⟩

theorem split_at_indexOf_total (a : String) (l : List String) :
    a ∉ l.take (l.indexOf a)
      ∧ (l.drop (l.indexOf a) = [] ∨ ∃ r, l.drop (l.indexOf a) = a :: r) := by
  induction l with
  | nil => simp
  | cons b l ih =>
    by_cases hb : b = a
    · subst hb
      simp [List.indexOf_cons_self]
    · obtain ⟨h1, h2⟩ := ih
      rw [List.indexOf_cons_ne _ hb]
      simp only [Nat.succ_eq_add_one, List.take_succ_cons, List.mem_cons, not_or,
        List.drop_succ_cons]
      exact ⟨⟨fun e => hb e.symm, h1⟩, h2⟩

theorem rewrite_split_at_sentinel (M argv : List String) :
    rewrite M none argv
      = rewrite M none (argv.take (argv.indexOf "--")) ++ argv.drop (argv.indexOf "--") := by
  obtain ⟨h1, h2⟩ := split_at_indexOf_total "--" argv
  have e : rewrite M none argv
      = rewrite M none (argv.take (argv.indexOf "--") ++ argv.drop (argv.indexOf "--")) := by
    rw [List.take_append_drop]
  rw [e]
  rcases h2 with h2 | ⟨r, h2⟩
  · rw [h2]
    simp
  · rw [h2, rewrite_append _ ("--" :: r)
      (by intro t r e; cases e; exact hasPrefixDash_sentinel) _ none h1]
    simp [rewrite]

theorem expand_split_at_sentinel (reg : Registry) (argv : List String) :
    expandWith (multiFlagsOf reg argv) (argv.take (argv.indexOf "--"))
        = .ok (rewrite (multiFlagsOf reg argv) none (argv.take (argv.indexOf "--")))
      ∧ ExpandArrayParameters reg argv
        = .ok (rewrite (multiFlagsOf reg argv) none (argv.take (argv.indexOf "--"))
            ++ argv.drop (argv.indexOf "--")) := by
  refine ⟨expandWith_eq _ _, ?_⟩
  unfold ExpandArrayParameters
  rw [expandWith_eq, ← rewrite_split_at_sentinel]

theorem head_rewrite_dash (M : List String)
    (hM : ∀ f ∈ M, hasPrefixDash f = true ∧ containsEq f = false) :
    ∀ (l : List String) (st : Option String), (∀ f ∈ st, f ∈ M) →
      (st = none → ∀ t ∈ l.head?, hasPrefixDash t = true) →
      ∀ t ∈ (rewrite M st l).head?, hasPrefixDash t = true := by
  intro l
  induction l with
  | nil => intro st _ _ t ht; cases st <;> simp [rewrite] at ht
  | cons a r ih =>
    intro st hst hnone
    have hland : hasPrefixDash a = true →
        ∀ t ∈ ((landOn M a).1 ++ rewrite M (landOn M a).2 r).head?,
          hasPrefixDash t = true := by
      intro hd
      by_cases he : (hasPrefixDash a && containsEq a) = true
      · unfold landOn
        rw [if_pos he]
        by_cases hm : M.contains (String.mk (beforeEq a.data)) = true
        · rw [if_pos hm]
          intro t ht
          simp only [List.cons_append, List.head?_cons, Option.mem_def,
            Option.some.injEq] at ht
          subst ht
          exact (hM _ (by simpa using hm)).1
        · rw [if_neg hm]
          intro t ht
          simp only [List.cons_append, List.head?_cons, Option.mem_def,
            Option.some.injEq] at ht
          subst ht
          exact hd
      · have he' : (hasPrefixDash a && containsEq a) = false := by simpa using he
        rw [landOn_plain M a he']
        by_cases hm : M.contains a = true
        · rw [if_pos hm]
          simp only [List.nil_append]
          exact ih (some a) (by intro f hf; cases hf; simpa using hm) (by intro h; cases h)
        · rw [if_neg hm]
          intro t ht
          simp only [List.cons_append, List.head?_cons, Option.mem_def,
            Option.some.injEq] at ht
          subst ht
          exact hd
    by_cases hs : a = "--"
    · intro t ht
      have : rewrite M st (a :: r) = a :: r := by cases st <;> simp [rewrite, hs]
      rw [this] at ht
      simp only [List.head?_cons, Option.mem_def, Option.some.injEq] at ht
      subst ht
      rw [hs]; exact hasPrefixDash_sentinel
    · cases st with
      | none =>
        rw [rewrite, if_neg hs]
        exact hland (hnone rfl a (by simp))
      | some f =>
        by_cases hd : hasPrefixDash a = true
        · rw [rewrite, if_neg hs, if_pos hd]
          exact hland hd
        · rw [rewrite, if_neg hs, if_neg hd]
          intro t ht
          simp only [List.head?_cons, Option.mem_def, Option.some.injEq] at ht
          subst ht
          exact (hM _ (hst f rfl)).1

theorem shaped_rewrite (M : List String)
    (hM : ∀ f ∈ M, hasPrefixDash f = true ∧ containsEq f = false) :
    ∀ (l : List String) (st : Option String), "--" ∉ l → (∀ f ∈ st, f ∈ M) →
      Shaped M (rewrite M st l) := by
  intro l
  induction l with
  | nil => intro st _ _; cases st <;> exact Shaped.nil
  | cons a r ih =>
    intro st hl hst
    have hs : a ≠ "--" := fun h => hl (by simp [h])
    have hr : "--" ∉ r := fun h => hl (by simp [h])
    have hland : Shaped M ((landOn M a).1 ++ rewrite M (landOn M a).2 r) := by
      by_cases he : (hasPrefixDash a && containsEq a) = true
      · have hc : containsEq a = true := by
          simp only [Bool.and_eq_true] at he; exact he.2
        unfold landOn
        rw [if_pos he]
        by_cases hm : M.contains (String.mk (beforeEq a.data)) = true
        · have hm' : String.mk (beforeEq a.data) ∈ M := by simpa using hm
          rw [if_pos hm]
          exact Shaped.pair _ _ _ hm'
            (head_rewrite_dash M hM r _ (by intro f hf; cases hf; exact hm')
              (by intro h; cases h))
            (ih _ hr (by intro f hf; cases hf; exact hm'))
        · rw [if_neg hm]
          refine Shaped.single _ _ ?_ (ih none hr (by simp))
          intro ha
          have := (hM a ha).2
          rw [hc] at this
          cases this
      · have he' : (hasPrefixDash a && containsEq a) = false := by simpa using he
        rw [landOn_plain M a he']
        by_cases hm : M.contains a = true
        · rw [if_pos hm]
          exact ih (some a) hr (by intro f hf; cases hf; simpa using hm)
        · rw [if_neg hm]
          exact Shaped.single _ _ (by simpa using hm) (ih none hr (by simp))
    cases st with
    | none => rw [rewrite, if_neg hs]; exact hland
    | some f =>
      by_cases hd : hasPrefixDash a = true
      · rw [rewrite, if_neg hs, if_pos hd]; exact hland
      · rw [rewrite, if_neg hs, if_neg hd]
        exact Shaped.pair _ _ _ (hst f rfl)
          (head_rewrite_dash M hM r (some f) hst (by intro h; cases h))
          (ih (some f) hr hst)

theorem takeWhile_of_head_dash (q : List String)
    (h : ∀ t ∈ q.head?, hasPrefixDash t = true) :
    q.takeWhile (fun t => !hasPrefixDash t) = [] := by
  cases q with
  | nil => rfl
  | cons a q =>
    have := h a (by simp)
    simp [List.takeWhile_cons, this]

theorem shaped_at_most_one_value (M : List String) (l : List String) (hl : Shaped M l) :
    ∀ (p : List String) (f : String) (q : List String), l = p ++ f :: q → f ∈ M →
      (q.takeWhile (fun t => !hasPrefixDash t)).length ≤ 1 := by
  induction hl with
  | nil => intro p f q h; simp at h
  | single t rest ht _ ih =>
    intro p f q h hf
    cases p with
    | nil =>
      simp only [List.nil_append, List.cons.injEq] at h
      exact absurd (h.1 ▸ hf) ht
    | cons a p =>
      simp only [List.cons_append, List.cons.injEq] at h
      exact ih p f q h.2 hf
  | pair f0 v rest _ hhead _ ih =>
    intro p f q h hf
    cases p with
    | nil =>
      simp only [List.nil_append, List.cons.injEq] at h
      rw [← h.2]
      by_cases hv : hasPrefixDash v = true
      · simp [List.takeWhile_cons, hv]
      · simp [List.takeWhile_cons, hv, takeWhile_of_head_dash rest hhead]
    | cons a p =>
      cases p with
      | nil =>
        simp only [List.cons_append, List.nil_append, List.cons.injEq] at h
        rw [← h.2.2, takeWhile_of_head_dash rest hhead]
        simp
      | cons b p =>
        simp only [List.cons_append, List.cons.injEq] at h
        exact ih p f q h.2.2 hf

/-- C9. Output shape: when every token registered as array-valued for the
command path of argv starts with `-` and contains no `=`, the part of the
output produced from the tokens before the first `--` (the output is this part
followed by `argv[s..]`, `s` the index of the first `--`) is a sequence of
copied tokens that are not array-valued and of pairs `flag value` with an
array-valued flag, so that every emitted flag is followed by exactly one value;
and in this part every occurrence of an array-valued token is followed by at
most one token not starting with `-` before the next token starting with `-`
or the end of the part. -/
theorem expand_output_shape (reg : Registry) (argv : List String)
    (hM : ∀ f ∈ multiFlagsOf reg argv, hasPrefixDash f = true ∧ containsEq f = false) :
    ∃ part,
      expandWith (multiFlagsOf reg argv) (argv.take (argv.indexOf "--")) = .ok part
      ∧ ExpandArrayParameters reg argv = .ok (part ++ argv.drop (argv.indexOf "--"))
      ∧ Shaped (multiFlagsOf reg argv) part
      ∧ ∀ (p : List String) (f : String) (q : List String), part = p ++ f :: q →
          f ∈ multiFlagsOf reg argv →
          (q.takeWhile (fun t => !hasPrefixDash t)).length ≤ 1 := by
  obtain ⟨h1, h2⟩ := expand_split_at_sentinel reg argv
  have hsh := shaped_rewrite _ hM (argv.take (argv.indexOf "--")) none
    (split_at_indexOf_total "--" argv).1 (by simp)
  exact ⟨_, h1, h2, hsh, shaped_at_most_one_value _ _ hsh⟩

/-- Witness of C9: an equals-form flag whose first value is itself an
array-valued token, followed by two more values. -/
theorem expand_output_shape_witness :
    ExpandArrayParameters testRegistry
        ["subcmd", "--array-param=--multi", "v1", "v2", "--", "-a", "x", "y"]
      = .ok (["subcmd", "--array-param", "--multi", "--array-param", "v1", "--array-param", "v2"]
          ++ ["--", "-a", "x", "y"])
      ∧ Shaped ["--array-param", "-a", "--multi"]
          ["subcmd", "--array-param", "--multi", "--array-param", "v1", "--array-param", "v2"]
      ∧ (List.takeWhile (fun t => !hasPrefixDash t) ["v2"]).length ≤ 1 := by
  obtain ⟨part, h1, h2, h3, h4⟩ :=
    expand_output_shape testRegistry
      ["subcmd", "--array-param=--multi", "v1", "v2", "--", "-a", "x", "y"] (by decide)
  have e : part = ["subcmd", "--array-param", "--multi", "--array-param", "v1",
      "--array-param", "v2"] :=
    (Except.ok.inj ((show expandWith _ _ = .ok ["subcmd", "--array-param", "--multi",
      "--array-param", "v1", "--array-param", "v2"] by decide).symm.trans h1)).symm
  subst e
  exact ⟨h2, h3, h4 ["subcmd", "--array-param", "--multi", "--array-param", "v1"]
    "--array-param" ["v2"] rfl (by decide)⟩

/-! ## Lemmas on the text of a string-array flag and on `Fields` -/

theorem intercalate_go_data (sep : String) :
    ∀ (l : List String) (acc : String),
      (String.intercalate.go acc sep l).data
        = acc.data ++ l.flatMap (fun x => sep.data ++ x.data) := by
  intro l
  induction l with
  | nil => intro acc; simp [String.intercalate.go]
  | cons a l ih =>
    intro acc
    rw [String.intercalate.go, ih]
    simp [String.data_append, List.append_assoc]

theorem csvRecordText_cons_cons (a b : String) (l : List String) :
    csvRecordText (a :: b :: l) = csvFieldText a ++ Char.ofNat 44 :: csvRecordText (b :: l) :=
  rfl

theorem csvRecordText_cons (a : String) (l : List String) :
    csvRecordText (a :: l)
      = csvFieldText a ++ l.flatMap (fun x => Char.ofNat 44 :: csvFieldText x) := by
  induction l generalizing a with
  | nil => simp [csvRecordText]
  | cons b l ih =>
    rw [csvRecordText_cons_cons, ih b]
    simp

theorem writeAsCSV_data (l : List String) : (writeAsCSV l).data = csvRecordText l := by
  cases l with
  | nil => rfl
  | cons a l =>
    rw [csvRecordText_cons]
    unfold writeAsCSV
    simp only [List.map_cons, String.intercalate, intercalate_go_data, List.flatMap_map]
    congr 1
    · unfold csvFieldText; split <;> rfl
    · congr 1
      funext x
      unfold csvFieldText
      split <;> rfl

theorem csvNormalize_cons_of_ne (c : Char) (cs : List Char) (h : c.toNat ≠ 13) :
    csvNormalize (c :: cs) = c :: csvNormalize cs := by
  simp [csvNormalize, h]

theorem csvNormalize_append_of_ne (a b : List Char) (h : ∀ c ∈ a, c.toNat ≠ 13) :
    csvNormalize (a ++ b) = a ++ csvNormalize b := by
  induction a with
  | nil => rfl
  | cons c a ih =>
    rw [List.cons_append, csvNormalize_cons_of_ne _ _ (h c (List.mem_cons_self _ _)),
      ih (fun x hx => h x (List.mem_cons_of_mem _ hx)), List.cons_append]

theorem dropCRBeforeLF_of_ne (a : List Char) (h : ∀ c ∈ a, c.toNat ≠ 13) :
    dropCRBeforeLF a = a := by
  induction a with
  | nil => rfl
  | cons c a ih =>
    have hc := h c (List.mem_cons_self _ _)
    simp [dropCRBeforeLF, hc, ih (fun x hx => h x (List.mem_cons_of_mem _ hx))]

theorem readFields_unquoted_run (record : List String) (tail : List Char) :
    ∀ (cs cur : List Char),
      (∀ c ∈ cs, c.toNat ≠ 34 ∧ c.toNat ≠ 44 ∧ c.toNat ≠ 10) →
      readFields (.unquoted cur) record (cs ++ tail)
        = readFields (.unquoted (cs.reverse ++ cur)) record tail := by
  intro cs
  induction cs with
  | nil => intro cur _; rfl
  | cons c cs ih =>
    intro cur h
    obtain ⟨h1, h2, h3⟩ := h c (List.mem_cons_self _ _)
    rw [List.cons_append, readFields]
    simp only [h1, h2, h3, beq_iff_eq, if_false]
    rw [ih (c :: cur) (fun x hx => h x (List.mem_cons_of_mem _ hx))]
    simp

theorem readFields_start_run (record : List String) (cs : List Char)
    (h : ∀ c ∈ cs, c.toNat ≠ 34 ∧ c.toNat ≠ 44 ∧ c.toNat ≠ 10) :
    readFields .fieldStart record cs = .ok (record ++ [String.mk cs])
      ∧ ∀ rest, readFields .fieldStart record (cs ++ Char.ofNat 44 :: rest)
          = readFields .fieldStart (record ++ [String.mk cs]) rest := by
  cases cs with
  | nil =>
    refine ⟨rfl, fun rest => ?_⟩
    rw [List.nil_append, readFields]
    simp
  | cons c cs =>
    obtain ⟨h1, h2, h3⟩ := h c (List.mem_cons_self _ _)
    have hcs : ∀ x ∈ cs, x.toNat ≠ 34 ∧ x.toNat ≠ 44 ∧ x.toNat ≠ 10 :=
      fun x hx => h x (List.mem_cons_of_mem _ hx)
    refine ⟨?_, fun rest => ?_⟩
    · rw [readFields]
      simp only [h1, h2, h3, beq_iff_eq, if_false]
      have := readFields_unquoted_run record [] cs [c] hcs
      rw [List.append_nil] at this
      rw [this, readFields]
      simp
    · rw [List.cons_append, readFields]
      simp only [h1, h2, h3, beq_iff_eq, if_false]
      rw [readFields_unquoted_run record _ cs [c] hcs, readFields]
      simp

theorem readFields_quoted_other (record : List String) (cur line : List Char) (c : Char)
    (h : c.toNat ≠ 34) :
    readFields (.quoted cur) record (c :: line) = readFields (.quoted (c :: cur)) record line := by
  cases line <;> simp [readFields, h]

theorem head_csvEscape (f tail : List Char) (q : Char) (hq : q.toNat = 34) :
    ((csvEscape f ++ q :: tail).head?.map Char.toNat == some 10)
        = (f.head?.map Char.toNat == some 10)
      ∧ (csvEscape f ++ q :: tail).isEmpty = false := by
  cases f with
  | nil => simp [csvEscape, hq]
  | cons c f =>
    by_cases hc : c.toNat = 34
    · simp [csvEscape, hc]
    · simp [csvEscape, hc]

theorem readFields_quoted_run (record : List String) (q : Char) (hq : q.toNat = 34) :
    ∀ (f cur : List Char),
      readFields (.quoted cur) record (csvNormalize (csvEscape f ++ [q]))
          = .ok (record ++ [String.mk (cur.reverse ++ dropCRBeforeLF f)])
        ∧ ∀ rest, readFields (.quoted cur) record
              (csvNormalize (csvEscape f ++ q :: Char.ofNat 44 :: rest))
            = readFields .fieldStart (record ++ [String.mk (cur.reverse ++ dropCRBeforeLF f)])
                (csvNormalize rest) := by
  have hq13 : q.toNat ≠ 13 := by rw [hq]; decide
  intro f
  induction f with
  | nil =>
    intro cur
    refine ⟨?_, fun rest => ?_⟩
    · simp only [csvEscape, List.nil_append]
      rw [csvNormalize_cons_of_ne _ _ hq13]
      simp [csvNormalize, readFields, hq, dropCRBeforeLF]
    · simp only [csvEscape, List.nil_append]
      rw [csvNormalize_cons_of_ne _ _ hq13, csvNormalize_cons_of_ne _ _ (by decide)]
      rw [readFields]
      simp [hq, dropCRBeforeLF]
  | cons c f ih =>
    intro cur
    by_cases hdrop : (c.toNat == 13 && f.head?.map Char.toNat == some 10) = true
    · have hc13 : c.toNat = 13 := by
        simp only [Bool.and_eq_true, beq_iff_eq] at hdrop
        exact hdrop.1
      have hc34 : ¬ c.toNat = 34 := by rw [hc13]; decide
      have hD : dropCRBeforeLF (c :: f) = dropCRBeforeLF f := by
        rw [dropCRBeforeLF, if_pos hdrop]
      have hE : csvEscape (c :: f) = c :: csvEscape f := by
        simp [csvEscape, hc34]
      have hN : ∀ tail, csvNormalize (c :: (csvEscape f ++ q :: tail))
          = csvNormalize (csvEscape f ++ q :: tail) := by
        intro tail
        obtain ⟨e1, e2⟩ := head_csvEscape f tail q hq
        rw [csvNormalize, e2, e1]
        simp only [Bool.false_or]
        rw [if_pos hdrop]
      rw [hD, hE]
      refine ⟨?_, fun rest => ?_⟩
      · rw [List.cons_append, hN []]
        exact (ih cur).1
      · rw [List.cons_append, hN]
        exact (ih cur).2 rest
    · have hD : dropCRBeforeLF (c :: f) = c :: dropCRBeforeLF f := by
        rw [dropCRBeforeLF, if_neg hdrop]
      have hN : ∀ tail, csvNormalize (c :: (csvEscape f ++ q :: tail))
          = c :: csvNormalize (csvEscape f ++ q :: tail) := by
        intro tail
        obtain ⟨e1, e2⟩ := head_csvEscape f tail q hq
        rw [csvNormalize, e2, e1]
        simp only [Bool.false_or]
        rw [if_neg hdrop]
      have hres : cur.reverse ++ c :: dropCRBeforeLF f
          = (c :: cur).reverse ++ dropCRBeforeLF f := by simp
      rw [hD, hres]
      by_cases hc34 : c.toNat = 34
      · have hc13 : c.toNat ≠ 13 := by rw [hc34]; decide
        have hE : csvEscape (c :: f) = c :: c :: csvEscape f := by
          simp [csvEscape, hc34]
        rw [hE]
        refine ⟨?_, fun rest => ?_⟩
        · rw [List.cons_append, List.cons_append, csvNormalize_cons_of_ne _ _ hc13, hN [],
            readFields]
          simp only [hc34, beq_self_eq_true, if_true]
          exact (ih (c :: cur)).1
        · rw [List.cons_append, List.cons_append, csvNormalize_cons_of_ne _ _ hc13, hN,
            readFields]
          simp only [hc34, beq_self_eq_true, if_true]
          exact (ih (c :: cur)).2 rest
      · have hE : csvEscape (c :: f) = c :: csvEscape f := by
          simp [csvEscape, hc34]
        rw [hE]
        refine ⟨?_, fun rest => ?_⟩
        · rw [List.cons_append, hN [], readFields_quoted_other _ _ _ _ hc34]
          exact (ih (c :: cur)).1
        · rw [List.cons_append, hN, readFields_quoted_other _ _ _ _ hc34]
          exact (ih (c :: cur)).2 rest

theorem chars_of_no_quotes (a : String) (h : csvFieldNeedsQuotes a = false) :
    ∀ c ∈ a.data, c.toNat ≠ 44 ∧ c.toNat ≠ 34 ∧ c.toNat ≠ 13 ∧ c.toNat ≠ 10 := by
  unfold csvFieldNeedsQuotes at h
  by_cases h1 : a = ""
  · subst h1
    intro c hc
    simp at hc
  · rw [if_neg h1] at h
    by_cases h2 : a = "\\."
    · rw [if_pos h2] at h
      cases h
    · rw [if_neg h2] at h
      by_cases h3 : a.data.any (fun c => c.toNat == 44 || c.toNat == 34 || c.toNat == 13
          || c.toNat == 10) = true
      · rw [if_pos h3] at h
        cases h
      · intro c hc
        simp only [List.any_eq_true, not_exists, not_and, Bool.or_eq_true, beq_iff_eq,
          not_or] at h3
        obtain ⟨⟨⟨e1, e2⟩, e3⟩, e4⟩ := h3 c hc
        exact ⟨e1, e2, e3, e4⟩

theorem csvFieldText_of_no_quotes (a : String) (h : csvFieldNeedsQuotes a = false) :
    csvFieldText a = a.data := by
  simp [csvFieldText, h]

theorem csvFieldText_of_quotes (a : String) (h : csvFieldNeedsQuotes a = true) :
    csvFieldText a = Char.ofNat 34 :: (csvEscape a.data ++ [Char.ofNat 34]) := by
  simp [csvFieldText, h]

theorem readFields_field (record : List String) (a : String) :
    readFields .fieldStart record (csvNormalize (csvFieldText a))
        = .ok (record ++ [String.mk (dropCRBeforeLF a.data)])
      ∧ ∀ rest, readFields .fieldStart record
            (csvNormalize (csvFieldText a ++ Char.ofNat 44 :: rest))
          = readFields .fieldStart (record ++ [String.mk (dropCRBeforeLF a.data)])
              (csvNormalize rest) := by
  by_cases h : csvFieldNeedsQuotes a = true
  · rw [csvFieldText_of_quotes a h]
    obtain ⟨h1, h2⟩ := readFields_quoted_run record (Char.ofNat 34) (by decide) a.data []
    simp only [List.reverse_nil, List.nil_append] at h1 h2
    refine ⟨?_, fun rest => ?_⟩
    · rw [csvNormalize_cons_of_ne _ _ (by decide), readFields]
      simp only [show ((Char.ofNat 34).toNat == 34) = true by decide, if_true]
      exact h1
    · rw [List.cons_append, List.append_assoc, List.singleton_append,
        csvNormalize_cons_of_ne _ _ (by decide), readFields]
      simp only [show ((Char.ofNat 34).toNat == 34) = true by decide, if_true]
      exact h2 rest
  · have h' : csvFieldNeedsQuotes a = false := by simpa using h
    have hc := chars_of_no_quotes a h'
    rw [csvFieldText_of_no_quotes a h',
      dropCRBeforeLF_of_ne a.data (fun c hx => (hc c hx).2.2.1)]
    have hrun := readFields_start_run record a.data
      (fun c hx => ⟨(hc c hx).2.1, (hc c hx).1, (hc c hx).2.2.2⟩)
    refine ⟨?_, fun rest => ?_⟩
    · have := csvNormalize_append_of_ne a.data [] (fun c hx => (hc c hx).2.2.1)
      rw [List.append_nil] at this
      rw [this]
      simpa [csvNormalize] using hrun.1
    · rw [csvNormalize_append_of_ne a.data _ (fun c hx => (hc c hx).2.2.1),
        csvNormalize_cons_of_ne _ _ (by decide)]
      exact hrun.2 _

theorem readFields_record :
    ∀ (l : List String) (a : String) (record : List String),
      readFields .fieldStart record (csvNormalize (csvRecordText (a :: l)))
        = .ok (record ++ (a :: l).map (fun s => String.mk (dropCRBeforeLF s.data))) := by
  intro l
  induction l with
  | nil =>
    intro a record
    exact (readFields_field record a).1
  | cons b l ih =>
    intro a record
    rw [csvRecordText_cons_cons, (readFields_field record a).2, ih b]
    simp

theorem csvRecordText_eq_nil (l : List String) :
    csvRecordText l = [] ↔ l = [] ∨ l = [""] := by
  constructor
  · intro h
    cases l with
    | nil => exact Or.inl rfl
    | cons a l =>
      cases l with
      | nil =>
        right
        by_cases hq : csvFieldNeedsQuotes a = true
        · simp [csvRecordText, csvFieldText_of_quotes a hq] at h
        · have hq' : csvFieldNeedsQuotes a = false := by simpa using hq
          simp only [csvRecordText, csvFieldText_of_no_quotes a hq'] at h
          have : a = "" := String.ext h
          rw [this]
      | cons b l =>
        rw [csvRecordText_cons_cons] at h
        simp at h
  · rintro (h | h)
    · subst h; rfl
    · subst h; rfl

theorem csvRecordText_head (l : List String) (h : csvRecordText l ≠ []) :
    ∃ c t, csvRecordText l = c :: t ∧ c.toNat ≠ 13 ∧ c.toNat ≠ 10 := by
  cases l with
  | nil => exact absurd rfl h
  | cons a l =>
    have key : ∀ tail : List Char, csvFieldText a ++ tail ≠ [] →
        (∀ c t, tail = c :: t → c.toNat ≠ 13 ∧ c.toNat ≠ 10) →
        ∃ c t, csvFieldText a ++ tail = c :: t ∧ c.toNat ≠ 13 ∧ c.toNat ≠ 10 := by
      intro tail hne htail
      by_cases hq : csvFieldNeedsQuotes a = true
      · rw [csvFieldText_of_quotes a hq]
        exact ⟨_, _, rfl, by decide, by decide⟩
      · have hq' : csvFieldNeedsQuotes a = false := by simpa using hq
        rw [csvFieldText_of_no_quotes a hq'] at hne ⊢
        cases hd : a.data with
        | nil =>
          rw [hd] at hne
          cases tail with
          | nil => exact absurd rfl hne
          | cons c t => exact ⟨c, t, rfl, htail c t rfl⟩
        | cons c t =>
          have hc := chars_of_no_quotes a hq' c (by rw [hd]; exact List.mem_cons_self _ _)
          exact ⟨c, t ++ tail, rfl, hc.2.2.1, hc.2.2.2⟩
    cases l with
    | nil =>
      have := key [] (by simpa [csvRecordText] using h) (by intro c t e; cases e)
      simpa [csvRecordText] using this
    | cons b l =>
      rw [csvRecordText_cons_cons]
      apply key
      · simp
      · intro c t e
        simp only [List.cons.injEq] at e
        rw [← e.1]
        exact ⟨by decide, by decide⟩

theorem render_strip (t : String) :
    String.mk (("[" ++ t ++ "]").data.drop 1).dropLast = t := by
  have : ("[" ++ t ++ "]").data = '[' :: (t.data ++ [']']) := by
    simp [String.data_append]
  rw [this]
  simp

theorem readAsCSV_writeAsCSV (l : List String) (h : writeAsCSV l ≠ "") :
    readAsCSV (writeAsCSV l)
      = .ok (l.map (fun s => String.mk (dropCRBeforeLF s.data))) := by
  have hne : csvRecordText l ≠ [] := by
    intro e
    apply h
    apply String.ext
    rw [writeAsCSV_data, e]
  obtain ⟨c, t, hct, h13, h10⟩ := csvRecordText_head l hne
  unfold readAsCSV
  rw [if_neg h, writeAsCSV_data]
  have hN : csvNormalize (csvRecordText l) = c :: csvNormalize t := by
    rw [hct, csvNormalize_cons_of_ne _ _ h13]
  have hdrop : (c :: csvNormalize t).dropWhile (fun c => c.toNat == 10)
      = c :: csvNormalize t := by
    have : (c.toNat == 10) = false := by simpa using h10
    rw [List.dropWhile, this]
  rw [hN, hdrop]
  simp only
  rw [← hN]
  cases l with
  | nil => exact absurd rfl hne
  | cons a l =>
    rw [readFields_record l a []]
    simp

theorem stringArrayConv_render (l : List String) :
    stringArrayConv (FlagValue.stringArray l).render = .ok (stringArrayReadBack l) := by
  unfold stringArrayConv FlagValue.render
  simp only [render_strip]
  by_cases h : writeAsCSV l = ""
  · rw [if_pos h]
    have : csvRecordText l = [] := by rw [← writeAsCSV_data, h]
    rw [csvRecordText_eq_nil] at this
    simp [stringArrayReadBack, this]
  · rw [if_neg h, readAsCSV_writeAsCSV l h]
    have : ¬ (l = [] ∨ l = [""]) := by
      intro e
      apply h
      apply String.ext
      rw [writeAsCSV_data, (csvRecordText_eq_nil l).mpr e]
    simp [stringArrayReadBack, this]

theorem GetStringArray_of_held (flags : FlagSet) (name : String) (flag : Flag)
    (held : List String) (hflag : flags.Lookup name = some flag)
    (hval : flag.Value = .stringArray held) :
    flags.GetStringArray name = .ok (stringArrayReadBack held) := by
  unfold FlagSet.GetStringArray
  rw [hflag]
  simp only [hval]
  exact stringArrayConv_render held

theorem fieldsLoop_word (rest : List Char) :
    ∀ (w cur : List Char), (∀ c ∈ w, isSpace c = false) →
      fieldsLoop (w ++ rest) cur = fieldsLoop rest (w.reverse ++ cur) := by
  intro w
  induction w with
  | nil => intro cur _; rfl
  | cons c w ih =>
    intro cur h
    have hc : isSpace c = false := h c (List.mem_cons_self _ _)
    rw [List.cons_append, fieldsLoop]
    simp only [hc, Bool.false_eq_true, if_false]
    rw [ih (c :: cur) (fun x hx => h x (List.mem_cons_of_mem _ hx))]
    simp

theorem fieldsLoop_skip (rest : List Char) :
    ∀ (sp : List Char), (∀ c ∈ sp, isSpace c = true) →
      fieldsLoop (sp ++ rest) [] = fieldsLoop rest [] := by
  intro sp
  induction sp with
  | nil => intro _; rfl
  | cons c sp ih =>
    intro h
    rw [List.cons_append, fieldsLoop, if_pos (h c (List.mem_cons_self _ _))]
    simp only [List.isEmpty_nil, if_true]
    exact ih (fun x hx => h x (List.mem_cons_of_mem _ hx))

theorem fieldsLoop_end_word (w sp : List Char) (hw : w ≠ [])
    (hsp : ∀ c ∈ sp, isSpace c = true) :
    fieldsLoop sp w.reverse = [String.mk w] := by
  have hne : w.reverse.isEmpty = false := by
    cases w with
    | nil => exact absurd rfl hw
    | cons c w => simp
  cases sp with
  | nil => simp [fieldsLoop, hne]
  | cons c sp =>
    rw [fieldsLoop, if_pos (hsp c (List.mem_cons_self _ _))]
    simp only [hne, Bool.false_eq_true, if_false, List.reverse_reverse]
    have := fieldsLoop_skip [] sp (fun x hx => hsp x (List.mem_cons_of_mem _ hx))
    rw [List.append_nil] at this
    rw [this]
    rfl

theorem fieldsLoop_words (trail : List Char) (htrail : ∀ c ∈ trail, isSpace c = true) :
    ∀ (rest : List (List Char × List Char)) (w : List Char), w ≠ [] →
      (∀ c ∈ w, isSpace c = false) →
      (∀ x ∈ rest, x.1 ≠ [] ∧ (∀ c ∈ x.1, isSpace c = true) ∧ x.2 ≠ []
        ∧ ∀ c ∈ x.2, isSpace c = false) →
      fieldsLoop (w ++ (rest.flatMap (fun x => x.1 ++ x.2) ++ trail)) []
        = String.mk w :: rest.map (fun x => String.mk x.2) := by
  intro rest
  induction rest with
  | nil =>
    intro w hw hclean _
    rw [List.flatMap_nil, List.nil_append, fieldsLoop_word trail w [] hclean, List.append_nil]
    rw [fieldsLoop_end_word w trail hw htrail]
    rfl
  | cons x rest ih =>
    intro w hw hclean hrest
    obtain ⟨sep, w'⟩ := x
    obtain ⟨h1, h2, h3, h4⟩ := hrest (sep, w') (List.mem_cons_self _ _)
    simp only at h1 h2 h3 h4
    rw [fieldsLoop_word _ w [] hclean, List.append_nil, List.flatMap_cons]
    cases sep with
    | nil => exact absurd rfl h1
    | cons c sp =>
      have hne : w.reverse.isEmpty = false := by
        cases w with
        | nil => exact absurd rfl hw
        | cons c w => simp
      simp only [List.cons_append, List.append_assoc]
      rw [fieldsLoop, if_pos (h2 c (List.mem_cons_self _ _))]
      simp only [hne, Bool.false_eq_true, if_false, List.reverse_reverse, List.map_cons]
      rw [fieldsLoop_skip _ sp (fun y hy => h2 y (List.mem_cons_of_mem _ hy)),
        ih w' h3 h4 (fun y hy => hrest y (List.mem_cons_of_mem _ hy))]

theorem foldl_append_data :
    ∀ (l : List String) (acc : String),
      (l.foldl (fun r s => r ++ s) acc).data = acc.data ++ l.flatMap String.data := by
  intro l
  induction l with
  | nil => intro acc; simp
  | cons a l ih =>
    intro acc
    rw [List.foldl_cons, ih]
    simp [String.data_append]

theorem join_data (l : List String) : (String.join l).data = l.flatMap String.data := by
  unfold String.join
  rw [foldl_append_data]
  rfl

theorem Fields_words (lead w trail : String) (rest : List (String × String))
    (hlead : ∀ c ∈ lead.data, isSpace c = true) (htrail : ∀ c ∈ trail.data, isSpace c = true)
    (hw : w ≠ "") (hclean : ∀ c ∈ w.data, isSpace c = false)
    (hrest : ∀ x ∈ rest, x.1 ≠ "" ∧ (∀ c ∈ x.1.data, isSpace c = true) ∧ x.2 ≠ ""
      ∧ ∀ c ∈ x.2.data, isSpace c = false) :
    Fields (lead ++ w ++ String.join (rest.map (fun x => x.1 ++ x.2)) ++ trail)
      = w :: rest.map Prod.snd := by
  unfold Fields
  have hdata : (lead ++ w ++ String.join (rest.map (fun x => x.1 ++ x.2)) ++ trail).data
      = lead.data ++ (w.data ++ ((rest.map (fun x => (x.1.data, x.2.data))).flatMap
          (fun x => x.1 ++ x.2) ++ trail.data)) := by
    simp only [String.data_append, join_data, List.flatMap_map, List.append_assoc]
  have hne : ∀ s : String, s ≠ "" → s.data ≠ [] := by
    intro s hs e
    exact hs (String.ext e)
  rw [hdata, fieldsLoop_skip _ lead.data hlead,
    fieldsLoop_words trail.data htrail _ w.data (hne w hw) hclean]
  · simp only [List.map_map, List.cons.injEq, true_and]
    apply List.map_congr_left
    intro x _
    rfl
  · intro x hx
    simp only [List.mem_map] at hx
    obtain ⟨y, hy, rfl⟩ := hx
    obtain ⟨h1, h2, h3, h4⟩ := hrest y hy
    exact ⟨hne _ h1, h2, hne _ h3, h4⟩

theorem fieldsLoop_mem :
    ∀ (cs cur : List Char), (∀ c ∈ cur, isSpace c = false) →
      ∀ w ∈ fieldsLoop cs cur, w ≠ "" ∧ ∀ c ∈ w.data, isSpace c = false := by
  intro cs
  induction cs with
  | nil =>
    intro cur hcur w hw
    rw [fieldsLoop] at hw
    cases cur with
    | nil => simp at hw
    | cons c cur =>
      simp only [List.isEmpty_cons, Bool.false_eq_true, if_false, List.mem_singleton] at hw
      subst hw
      refine ⟨?_, ?_⟩
      · intro e
        have := congrArg String.data e
        simp at this
      · intro x hx
        simp only [List.reverse_cons, List.mem_append, List.mem_reverse,
          List.mem_singleton] at hx
        rcases hx with hx | hx
        · exact hcur x (List.mem_cons_of_mem _ hx)
        · rw [hx]; exact hcur c (List.mem_cons_self _ _)
  | cons c cs ih =>
    intro cur hcur w hw
    rw [fieldsLoop] at hw
    by_cases hc : isSpace c = true
    · rw [if_pos hc] at hw
      cases cur with
      | nil =>
        simp only [List.isEmpty_nil, if_true] at hw
        exact ih [] (by simp) w hw
      | cons d cur =>
        simp only [List.isEmpty_cons, Bool.false_eq_true, if_false, List.mem_cons] at hw
        rcases hw with hw | hw
        · subst hw
          refine ⟨?_, ?_⟩
          · intro e
            have := congrArg String.data e
            simp at this
          · intro x hx
            simp only [List.reverse_cons, List.mem_append, List.mem_reverse,
              List.mem_singleton] at hx
            rcases hx with hx | hx
            · exact hcur x (List.mem_cons_of_mem _ hx)
            · rw [hx]; exact hcur d (List.mem_cons_self _ _)
        · exact ih [] (by simp) w hw
    · rw [if_neg hc] at hw
      apply ih (c :: cur) _ w hw
      intro x hx
      rcases List.mem_cons.mp hx with hx | hx
      · rw [hx]; simpa using hc
      · exact hcur x hx

theorem Fields_mem (s : String) :
    ∀ w ∈ Fields s, w ≠ "" ∧ ∀ c ∈ w.data, isSpace c = false :=
  fieldsLoop_mem s.data [] (by simp)

theorem fieldsLoop_spaces : ∀ (cs : List Char), (∀ c ∈ cs, isSpace c = true) →
    fieldsLoop cs [] = [] := by
  intro cs
  induction cs with
  | nil => intro _; rfl
  | cons c cs ih =>
    intro h
    rw [fieldsLoop, if_pos (h c (List.mem_cons_self _ _))]
    simp only [List.isEmpty_nil, if_true]
    exact ih (fun x hx => h x (List.mem_cons_of_mem _ hx))

theorem stringArrayReadBack_of_clean (l : List String)
    (h : ∀ w ∈ l, w ≠ "" ∧ ∀ c ∈ w.data, c.toNat ≠ 13) : stringArrayReadBack l = l := by
  unfold stringArrayReadBack
  by_cases h0 : l = [] ∨ l = [""]
  · rw [if_pos h0]
    rcases h0 with h0 | h0
    · exact h0.symm
    · exact absurd rfl (h "" (by rw [h0]; simp)).1
  · rw [if_neg h0]
    have : ∀ w ∈ l, (fun s : String => String.mk (dropCRBeforeLF s.data)) w = id w := by
      intro w hw
      simp only [id]
      rw [dropCRBeforeLF_of_ne w.data (h w hw).2]
    rw [List.map_congr_left this, List.map_id]

theorem isSpace_of_CR (c : Char) (h : c.toNat = 13) : isSpace c = true := by
  simp [isSpace, h]

theorem stringArrayReadBack_Fields (s : String) : stringArrayReadBack (Fields s) = Fields s := by
  apply stringArrayReadBack_of_clean
  intro w hw
  obtain ⟨h1, h2⟩ := Fields_mem s w hw
  refine ⟨h1, fun c hc e => ?_⟩
  have := h2 c hc
  rw [isSpace_of_CR c e] at this
  cases this

/-! ## Claims on the parameter resolver -/

theorem ParseParameters_append (flags : FlagSet) (env : Env)
    (before rest : List (String × Parameter)) :
    ∀ (params params' : Params), ParseParameters flags env before params = (.nil, params') →
      ParseParameters flags env (before ++ rest) params
        = ParseParameters flags env rest params' := by
  induction before with
  | nil =>
    intro params params' h
    simp only [ParseParameters, Prod.mk.injEq, true_and] at h
    rw [List.nil_append, h]
  | cons entry before ih =>
    intro params params' h
    obtain ⟨tag, paramData⟩ := entry
    rw [List.cons_append, ParseParameters]
    rw [ParseParameters] at h
    generalize bindField flags env params.typeName tag paramData params.fields = r at h ⊢
    obtain ⟨o, fields⟩ := r
    cases o with
    | nil => exact ih _ _ h
    | error err => simp at h
    | panic msg => simp at h

theorem bindField_first (flags : FlagSet) (env : Env) (typeName tag : String)
    (paramData : Parameter) (field : Field) (post : List Field)
    (htag : field.paramName = tag) (hne : tag ≠ "") :
    ∀ (pre : List Field), (∀ g ∈ pre, g.paramName ≠ tag) →
      bindField flags env typeName tag paramData (pre ++ field :: post)
        = if field.CanSet then
            match resolveField flags env paramData field.value with
            | .set v => (.nil, pre ++ { field with value := v } :: post)
            | .fail err => (.error err, pre ++ field :: post)
            | .abort msg => (.panic msg, pre ++ field :: post)
          else
            (.panic ("ParseParameters: cannot set value for '" ++ field.Name ++ "' field"),
              pre ++ field :: post) := by
  intro pre
  induction pre with
  | nil =>
    intro _
    have h1 : (field.paramName == "") = false := by
      rw [htag]; simpa using hne
    have h2 : (field.paramName == tag) = true := by simp [htag]
    rw [List.nil_append, bindField]
    simp only [h1, h2, Bool.false_eq_true, if_false, if_true, List.nil_append]
  | cons g pre ih =>
    intro hpre
    have hg : (g.paramName == tag) = false := by
      simpa using hpre g (by simp)
    have ih' := ih (fun x hx => hpre x (by simp [hx]))
    rw [List.cons_append, bindField, ih']
    by_cases hc : field.CanSet = true
    · simp only [hc, if_true, hg, Bool.false_eq_true, if_false, ite_self]
      cases resolveField flags env paramData field.value <;> simp
    · simp [hc, hg]

theorem resolveField_cli (flags : FlagSet) (env : Env) (paramData : Parameter) (flag : Flag)
    (old v : Value)
    (hflag : flags.Lookup paramData.Name = some flag) (hchanged : flag.Changed = true)
    (hval : (∃ s o, flag.Value = .string s ∧ old = .string o ∧ v = .string s)
      ∨ (∃ n o, flag.Value = .int n ∧ old = .int o ∧ v = .int n)
      ∨ (∃ b o, flag.Value = .bool b ∧ old = .bool o ∧ v = .bool b)
      ∨ (∃ l o, flag.Value = .stringArray l ∧ old = .stringSlice o
          ∧ v = .stringSlice (stringArrayReadBack l))) :
    resolveField flags env paramData old = .set v := by
  have hc : flags.Changed paramData.Name = true := by
    simp [FlagSet.Changed, hflag, hchanged]
  rcases hval with ⟨s, o, h1, h2, h3⟩ | ⟨n, o, h1, h2, h3⟩ | ⟨b, o, h1, h2, h3⟩
    | ⟨l, o, h1, h2, h3⟩
  · subst h2 h3
    simp [resolveField, Value.Kind, hc, FlagSet.GetString, hflag, h1]
  · subst h2 h3
    simp [resolveField, Value.Kind, hc, FlagSet.GetInt, hflag, h1]
  · subst h2 h3
    simp [resolveField, Value.Kind, hc, FlagSet.GetBool, hflag, h1]
  · subst h2 h3
    simp [resolveField, Value.Kind, hc,
      GetStringArray_of_held flags paramData.Name flag l hflag h1, setStrings]

/-- C10. Resolver precedence, CLI first: let the entry `(tag, p)` be reached
with the struct holding, as first field tagged `tag`, a settable field of type
string, int, bool or `[]string`, and let the flag named `p.Name` exist, be
reported as changed, and hold a value of the matching type.  Then, for every
environment, whatever `EnvVarName`, `Required` and `DefaultValue` are,
processing the entry binds that field to the typed value `v` the facility
returns for the flag with outcome nil, and `ParseParameters` continues with
the remaining entries from the struct so bound (so a configuration ending with
this entry returns nil).  The typed value is the held string, int or bool; for
a string array it is what `GetStringArray` returns, which is the held list
read back from its CSV text: no values for an empty list and for the single
empty string, and otherwise the held values, each without the carriage
returns that stand right before a line feed. -/
theorem parse_cli_value_first (flags : FlagSet) (env : Env)
    (before rest : List (String × Parameter)) (tag : String) (p : Parameter)
    (params : Params) (typeName : String) (pre post : List Field) (field : Field)
    (flag : Flag) (v : Value)
    (hbefore : ParseParameters flags env before params
      = (.nil, { typeName := typeName, fields := pre ++ field :: post }))
    (hpre : ∀ g ∈ pre, g.paramName ≠ tag) (htag : field.paramName = tag) (hne : tag ≠ "")
    (hset : field.CanSet = true)
    (hflag : flags.Lookup p.Name = some flag) (hchanged : flag.Changed = true)
    (hval : (∃ s o, flag.Value = .string s ∧ field.value = .string o ∧ v = .string s)
      ∨ (∃ n o, flag.Value = .int n ∧ field.value = .int o ∧ v = .int n)
      ∨ (∃ b o, flag.Value = .bool b ∧ field.value = .bool o ∧ v = .bool b)
      ∨ (∃ l o, flag.Value = .stringArray l ∧ field.value = .stringSlice o
          ∧ v = .stringSlice (stringArrayReadBack l))) :
    (∀ env' : Env, bindField flags env' typeName tag p (pre ++ field :: post)
        = (.nil, pre ++ { field with value := v } :: post))
      ∧ ParseParameters flags env (before ++ (tag, p) :: rest) params
        = ParseParameters flags env rest
            { typeName := typeName, fields := pre ++ { field with value := v } :: post }
      ∧ ParseParameters flags env (before ++ [(tag, p)]) params
        = (.nil, { typeName := typeName, fields := pre ++ { field with value := v } :: post })
      ∧ (∀ s, flag.Value = .string s → flags.GetString p.Name = .ok s)
      ∧ (∀ n, flag.Value = .int n → flags.GetInt p.Name = .ok n)
      ∧ (∀ b, flag.Value = .bool b → flags.GetBool p.Name = .ok b)
      ∧ (∀ l, flag.Value = .stringArray l →
          flags.GetStringArray p.Name = .ok (stringArrayReadBack l)
            ∧ stringArrayReadBack l
              = if l = [] ∨ l = [""] then []
                else l.map (fun s => String.mk (dropCRBeforeLF s.data))) := by
  have hb : ∀ env' : Env, bindField flags env' typeName tag p (pre ++ field :: post)
      = (.nil, pre ++ { field with value := v } :: post) := by
    intro env'
    rw [bindField_first flags env' typeName tag p field post htag hne pre hpre, if_pos hset,
      resolveField_cli flags env' p flag field.value v hflag hchanged hval]
  have hstep : ∀ rest', ParseParameters flags env (before ++ (tag, p) :: rest') params
      = ParseParameters flags env rest'
          { typeName := typeName, fields := pre ++ { field with value := v } :: post } := by
    intro rest'
    rw [ParseParameters_append flags env before _ params _ hbefore, ParseParameters]
    simp only [hb env]
  refine ⟨hb, hstep rest, ?_, ?_, ?_, ?_, ?_⟩
  · rw [hstep []]
    rfl
  · intro s hs
    simp [FlagSet.GetString, hflag, hs]
  · intro n hn
    simp [FlagSet.GetInt, hflag, hn]
  · intro b hb'
    simp [FlagSet.GetBool, hflag, hb']
  · intro l hl
    exact ⟨GetStringArray_of_held flags p.Name flag l hflag hl, rfl⟩

/-- Witness of C10: the int flag is set to 42 on the command line while the
parameter is required and its environment variable holds text that is not a
number; the array flag given as `--arrayParam a,b --arrayParam "c d"` holds
two values, which are bound as they are; and the array flag given as
`--arrayParam ''` holds the single empty string, for which the facility
returns no values. -/
theorem parse_cli_value_first_witness :
    ParseParameters
        [{ Name := "intParam", Shorthand := "", Usage := "usage", Value := .int 42,
           DefValue := "10", Changed := true }]
        (fun key => if key = "TEST_INT" then some "not-a-number" else none)
        [("intParam",
          { Name := "intParam", TypeKind := .Int, ShortName := "", EnvVarName := "TEST_INT",
            DefaultValue := "", Usage := "", Required := true })]
        testParams
      = (.nil, testParamsWith "" 42 false [])
    ∧ ParseParameters [testFlag "arrayParam" (.stringArray ["a,b", "c d"]) true]
        (envWith "ARR" "x y")
        [("arrayParam", testParameter "arrayParam" .Array "ARR" "z" true)] testParams
      = (.nil, testParamsWith "" 0 false ["a,b", "c d"])
    ∧ ParseParameters [testFlag "arrayParam" (.stringArray [""]) true] (envWith "ARR" "x y")
        [("arrayParam", testParameter "arrayParam" .Array "ARR" "z" true)]
        (testParamsWith "" 0 false ["old"])
      = (.nil, testParamsWith "" 0 false []) :=
  ⟨(parse_cli_value_first
      [{ Name := "intParam", Shorthand := "", Usage := "usage", Value := .int 42,
         DefValue := "10", Changed := true }]
      (fun key => if key = "TEST_INT" then some "not-a-number" else none)
      [] [] "intParam"
      { Name := "intParam", TypeKind := .Int, ShortName := "", EnvVarName := "TEST_INT",
        DefaultValue := "", Usage := "", Required := true }
      testParams "TestParams"
      [{ Name := "StringParam", paramName := "stringParam", CanSet := true, value := .string "" }]
      [{ Name := "BoolParam", paramName := "boolParam", CanSet := true, value := .bool false },
       { Name := "ArrayParam", paramName := "arrayParam", CanSet := true,
         value := .stringSlice [] }]
      { Name := "IntParam", paramName := "intParam", CanSet := true, value := .int 0 }
      { Name := "intParam", Shorthand := "", Usage := "usage", Value := .int 42,
        DefValue := "10", Changed := true }
      (.int 42) rfl (by decide) rfl (by decide) rfl rfl rfl
      (Or.inr (Or.inl ⟨42, 0, rfl, rfl, rfl⟩))).2.2.1,
    (parse_cli_value_first [testFlag "arrayParam" (.stringArray ["a,b", "c d"]) true]
      (envWith "ARR" "x y") [] [] "arrayParam"
      (testParameter "arrayParam" .Array "ARR" "z" true) testParams "TestParams"
      [{ Name := "StringParam", paramName := "stringParam", CanSet := true, value := .string "" },
       { Name := "IntParam", paramName := "intParam", CanSet := true, value := .int 0 },
       { Name := "BoolParam", paramName := "boolParam", CanSet := true, value := .bool false }]
      []
      { Name := "ArrayParam", paramName := "arrayParam", CanSet := true,
        value := .stringSlice [] }
      (testFlag "arrayParam" (.stringArray ["a,b", "c d"]) true)
      (.stringSlice ["a,b", "c d"]) rfl (by decide) rfl (by decide) rfl rfl rfl
      (Or.inr (Or.inr (Or.inr ⟨["a,b", "c d"], [], rfl, rfl, by decide⟩)))).2.2.1,
    (parse_cli_value_first [testFlag "arrayParam" (.stringArray [""]) true]
      (envWith "ARR" "x y") [] [] "arrayParam"
      (testParameter "arrayParam" .Array "ARR" "z" true) (testParamsWith "" 0 false ["old"])
      "TestParams"
      [{ Name := "StringParam", paramName := "stringParam", CanSet := true, value := .string "" },
       { Name := "IntParam", paramName := "intParam", CanSet := true, value := .int 0 },
       { Name := "BoolParam", paramName := "boolParam", CanSet := true, value := .bool false }]
      []
      { Name := "ArrayParam", paramName := "arrayParam", CanSet := true,
        value := .stringSlice ["old"] }
      (testFlag "arrayParam" (.stringArray [""]) true)
      (.stringSlice []) rfl (by decide) rfl (by decide) rfl rfl rfl
      (Or.inr (Or.inr (Or.inr ⟨[""], ["old"], rfl, rfl, by decide⟩)))).2.2.1⟩

theorem parse_step (flags : FlagSet) (env : Env) (before rest : List (String × Parameter))
    (tag : String) (p : Parameter) (params : Params) (typeName : String)
    (pre post : List Field) (field : Field)
    (hbefore : ParseParameters flags env before params
      = (.nil, { typeName := typeName, fields := pre ++ field :: post }))
    (hpre : ∀ g ∈ pre, g.paramName ≠ tag) (htag : field.paramName = tag) (hne : tag ≠ "")
    (hset : field.CanSet = true) :
    (bindField flags env typeName tag p (pre ++ field :: post)
        = match resolveField flags env p field.value with
          | .set v => (.nil, pre ++ { field with value := v } :: post)
          | .fail err => (.error err, pre ++ field :: post)
          | .abort msg => (.panic msg, pre ++ field :: post))
      ∧ ParseParameters flags env (before ++ (tag, p) :: rest) params
        = match resolveField flags env p field.value with
          | .set v =>
            ParseParameters flags env rest
              { typeName := typeName, fields := pre ++ { field with value := v } :: post }
          | .fail err => (.error err, { typeName := typeName, fields := pre ++ field :: post })
          | .abort msg => (.panic msg, { typeName := typeName, fields := pre ++ field :: post }) := by
  have hb := bindField_first flags env typeName tag p field post htag hne pre hpre
  rw [if_pos hset] at hb
  refine ⟨hb, ?_⟩
  rw [ParseParameters_append flags env before _ params _ hbefore, ParseParameters]
  simp only [hb]
  cases resolveField flags env p field.value <;> rfl

theorem envValue_some (env : Env) (p : Parameter) (val : String)
    (hname : p.EnvVarName ≠ "") (hval : env p.EnvVarName = some val) (hne : val ≠ "") :
    envValue env p = some val := by
  simp [envValue, Getenv, hname, hval, hne]

theorem envValue_none (env : Env) (p : Parameter)
    (h : p.EnvVarName = "" ∨ Getenv env p.EnvVarName = "") : envValue env p = none := by
  rcases h with h | h
  · simp [envValue, h]
  · simp [envValue, h]

theorem resolveField_env (flags : FlagSet) (env : Env) (p : Parameter) (val : String)
    (old v : Value) (hnot : flags.Changed p.Name = false)
    (hname : p.EnvVarName ≠ "") (hval : env p.EnvVarName = some val) (hne : val ≠ "")
    (hconv : (∃ o, old = .string o ∧ v = .string val)
      ∨ (∃ o n, old = .int o ∧ ParseInt val = .ok n ∧ v = .int n)
      ∨ (∃ o b, old = .bool o ∧ ParseBool val = .ok b ∧ v = .bool b)
      ∨ (∃ o, old = .stringSlice o ∧ v = .stringSlice (Fields val))) :
    resolveField flags env p old = .set v := by
  have he := envValue_some env p val hname hval hne
  rcases hconv with ⟨o, h1, h2⟩ | ⟨o, n, h1, h2, h3⟩ | ⟨o, b, h1, h2, h3⟩ | ⟨o, h1, h2⟩
  · subst h1 h2
    simp [resolveField, Value.Kind, hnot, he]
  · subst h1 h3
    simp [resolveField, Value.Kind, hnot, he, h2]
  · subst h1 h3
    simp [resolveField, Value.Kind, hnot, he, h2]
  · subst h1 h2
    simp [resolveField, Value.Kind, hnot, he, setStrings]

/-- C11. Resolver precedence, environment second: let the entry `(tag, p)` be
reached with the struct holding, as first field tagged `tag`, a settable field
of type string, int, bool or `[]string`; let the flag not be reported as
changed, `EnvVarName` be non-empty and the variable hold a non-empty value
`val` that converts to the type of the field.  Then, whatever `Required` and
`DefaultValue` are and whatever the flag set holds as default, processing the
entry binds the field to the converted value (string: `val` itself; int: the
result of `ParseInt`; bool: the result of `ParseBool`; `[]string`:
`Fields val`) with outcome nil, and `ParseParameters` continues with the
remaining entries.  `Fields` gives the whitespace-separated fields: a text
made of leading white space, a word, further words each preceded by white
space, and trailing white space has exactly these words as fields, in order,
where a word is a non-empty text without white space; a text of white space
only has no fields; and every field of any text is such a word. -/
theorem parse_env_value_second (flags : FlagSet) (env : Env)
    (before rest : List (String × Parameter)) (tag : String) (p : Parameter)
    (params : Params) (typeName : String) (pre post : List Field) (field : Field)
    (val : String) (v : Value)
    (hbefore : ParseParameters flags env before params
      = (.nil, { typeName := typeName, fields := pre ++ field :: post }))
    (hpre : ∀ g ∈ pre, g.paramName ≠ tag) (htag : field.paramName = tag) (hne : tag ≠ "")
    (hset : field.CanSet = true)
    (hnot : flags.Changed p.Name = false)
    (hname : p.EnvVarName ≠ "") (hval : env p.EnvVarName = some val) (hnonempty : val ≠ "")
    (hconv : (∃ o, field.value = .string o ∧ v = .string val)
      ∨ (∃ o n, field.value = .int o ∧ ParseInt val = .ok n ∧ v = .int n)
      ∨ (∃ o b, field.value = .bool o ∧ ParseBool val = .ok b ∧ v = .bool b)
      ∨ (∃ o, field.value = .stringSlice o ∧ v = .stringSlice (Fields val))) :
    bindField flags env typeName tag p (pre ++ field :: post)
        = (.nil, pre ++ { field with value := v } :: post)
      ∧ ParseParameters flags env (before ++ (tag, p) :: rest) params
        = ParseParameters flags env rest
            { typeName := typeName, fields := pre ++ { field with value := v } :: post }
      ∧ ParseParameters flags env (before ++ [(tag, p)]) params
        = (.nil, { typeName := typeName, fields := pre ++ { field with value := v } :: post })
      ∧ (∀ (lead w trail : String) (more : List (String × String)),
          (∀ c ∈ lead.data, isSpace c = true) → (∀ c ∈ trail.data, isSpace c = true) →
          w ≠ "" → (∀ c ∈ w.data, isSpace c = false) →
          (∀ x ∈ more, x.1 ≠ "" ∧ (∀ c ∈ x.1.data, isSpace c = true) ∧ x.2 ≠ ""
            ∧ ∀ c ∈ x.2.data, isSpace c = false) →
          Fields (lead ++ w ++ String.join (more.map (fun x => x.1 ++ x.2)) ++ trail)
            = w :: more.map Prod.snd)
      ∧ (∀ s : String, (∀ c ∈ s.data, isSpace c = true) → Fields s = [])
      ∧ (∀ (s w : String), w ∈ Fields s → w ≠ "" ∧ ∀ c ∈ w.data, isSpace c = false) := by
  have hr := resolveField_env flags env p val field.value v hnot hname hval hnonempty hconv
  have h1 := parse_step flags env before rest tag p params typeName pre post field hbefore
    hpre htag hne hset
  have h2 := parse_step flags env before [] tag p params typeName pre post field hbefore
    hpre htag hne hset
  rw [hr] at h1 h2
  exact ⟨h1.1, h1.2, h2.2, Fields_words, fun s hs => fieldsLoop_spaces s.data hs,
    fun s w hw => Fields_mem s w hw⟩

/-- Witness of C11 on the tests "should parse int parameter from environment
variable", with the parameter marked required and a flag default of 7, and
"should parse array parameter from environment variable", with a flag default
and a `DefaultValue`; a third value with tabs and line feeds between the
words gives the same fields. -/
theorem parse_env_value_second_witness :
    ParseParameters [testFlag "intParam" (.int 7) false] (envWith "INT_ENV_VAR" "456")
        [("intParam", testParameter "intParam" .Int "INT_ENV_VAR" "9" true)] testParams
      = (.nil, testParamsWith "" 456 false [])
    ∧ ParseParameters [testFlag "arrayParam" (.stringArray ["d"]) false]
        (envWith "ARRAY_ENV_VAR" "value1 value2 value3")
        [("arrayParam", testParameter "arrayParam" .Array "ARRAY_ENV_VAR" "x y" false)]
        testParams
      = (.nil, testParamsWith "" 0 false ["value1", "value2", "value3"])
    ∧ Fields " value1\t\tvalue2\nvalue3 " = ["value1", "value2", "value3"] :=
  ⟨(parse_env_value_second [testFlag "intParam" (.int 7) false] (envWith "INT_ENV_VAR" "456")
      [] [] "intParam" (testParameter "intParam" .Int "INT_ENV_VAR" "9" true) testParams
      "TestParams"
      [{ Name := "StringParam", paramName := "stringParam", CanSet := true, value := .string "" }]
      [{ Name := "BoolParam", paramName := "boolParam", CanSet := true, value := .bool false },
       { Name := "ArrayParam", paramName := "arrayParam", CanSet := true,
         value := .stringSlice [] }]
      { Name := "IntParam", paramName := "intParam", CanSet := true, value := .int 0 }
      "456" (.int 456) rfl (by decide) rfl (by decide) rfl (by decide) (by decide) (by decide)
      (by decide)
      (Or.inr (Or.inl ⟨0, 456, rfl, by decide, rfl⟩))).2.2.1,
    (parse_env_value_second [testFlag "arrayParam" (.stringArray ["d"]) false]
      (envWith "ARRAY_ENV_VAR" "value1 value2 value3") [] [] "arrayParam"
      (testParameter "arrayParam" .Array "ARRAY_ENV_VAR" "x y" false) testParams "TestParams"
      [{ Name := "StringParam", paramName := "stringParam", CanSet := true, value := .string "" },
       { Name := "IntParam", paramName := "intParam", CanSet := true, value := .int 0 },
       { Name := "BoolParam", paramName := "boolParam", CanSet := true, value := .bool false }]
      []
      { Name := "ArrayParam", paramName := "arrayParam", CanSet := true,
        value := .stringSlice [] }
      "value1 value2 value3" (.stringSlice ["value1", "value2", "value3"])
      rfl (by decide) rfl (by decide) rfl (by decide) (by decide) (by decide) (by decide)
      (Or.inr (Or.inr (Or.inr ⟨[], rfl, by decide⟩)))).2.2.1,
    ((parse_env_value_second [testFlag "intParam" (.int 7) false] (envWith "INT_ENV_VAR" "456")
      [] [] "intParam" (testParameter "intParam" .Int "INT_ENV_VAR" "9" true) testParams
      "TestParams"
      [{ Name := "StringParam", paramName := "stringParam", CanSet := true, value := .string "" }]
      [{ Name := "BoolParam", paramName := "boolParam", CanSet := true, value := .bool false },
       { Name := "ArrayParam", paramName := "arrayParam", CanSet := true,
         value := .stringSlice [] }]
      { Name := "IntParam", paramName := "intParam", CanSet := true, value := .int 0 }
      "456" (.int 456) rfl (by decide) rfl (by decide) rfl (by decide) (by decide) (by decide)
      (by decide)
      (Or.inr (Or.inl ⟨0, 456, rfl, by decide, rfl⟩))).2.2.2.1 " " "value1" " "
      [("\t\t", "value2"), ("\n", "value3")] (by decide) (by decide) (by decide) (by decide)
      (by decide))⟩

theorem resolveField_required (flags : FlagSet) (env : Env) (p : Parameter) (old : Value)
    (hreq : p.Required = true) (hnot : flags.Changed p.Name = false)
    (henv : p.EnvVarName = "" ∨ Getenv env p.EnvVarName = "") :
    (∀ v, resolveField flags env p old ≠ .set v)
      ∧ ((∀ k, old ≠ .other k) →
        resolveField flags env p old = .fail (.New (getMessageRequiredParameterMissing p))) := by
  have he := envValue_none env p henv
  cases old <;> simp [resolveField, Value.Kind, hnot, he, hreq]

theorem bindField_ne_nil (flags : FlagSet) (env : Env) (typeName tag : String) (p : Parameter)
    (h : ∀ old v, resolveField flags env p old ≠ .set v) :
    ∀ fields : List Field, (bindField flags env typeName tag p fields).1 ≠ .nil := by
  intro fields
  induction fields with
  | nil => simp [bindField]
  | cons field rest ih =>
    rw [bindField]
    by_cases h1 : (field.paramName == "") = true
    · simp only [h1, if_true]; exact ih
    · by_cases h2 : (field.paramName == tag) = true
      · simp only [h1, h2, if_true, Bool.false_eq_true, if_false]
        by_cases hc : field.CanSet = true
        · simp only [hc, if_true]
          have := h field.value
          cases hr : resolveField flags env p field.value with
          | set v => exact absurd hr (this v)
          | fail err => simp
          | abort msg => simp
        · simp [hc]
      · simp only [h1, h2, Bool.false_eq_true, if_false]; exact ih

theorem ParseParameters_ne_nil (flags : FlagSet) (env : Env) (tag : String) (p : Parameter)
    (h : ∀ old v, resolveField flags env p old ≠ .set v) :
    ∀ (cfg : List (String × Parameter)) (params : Params), (tag, p) ∈ cfg →
      (ParseParameters flags env cfg params).1 ≠ .nil := by
  intro cfg
  induction cfg with
  | nil => intro params hm; simp at hm
  | cons entry cfg ih =>
    intro params hm
    obtain ⟨tag', p'⟩ := entry
    rw [ParseParameters]
    rcases List.mem_cons.mp hm with hm | hm
    · have e1 : tag' = tag := (Prod.mk.inj hm).1.symm
      have e2 : p' = p := (Prod.mk.inj hm).2.symm
      subst e1 e2
      have hb := bindField_ne_nil flags env params.typeName tag' p' h params.fields
      generalize bindField flags env params.typeName tag' p' params.fields = r at hb ⊢
      obtain ⟨o, fields⟩ := r
      cases o with
      | nil => exact absurd rfl hb
      | error err => simp
      | panic msg => simp
    · generalize bindField flags env params.typeName tag' p' params.fields = r
      obtain ⟨o, fields⟩ := r
      cases o with
      | nil => exact ih _ hm
      | error err => simp
      | panic msg => simp

/-- C12. Required enforcement: if the configuration holds an entry `(tag, p)`
with `Required = true` whose flag is not reported as changed and whose
environment variable is unnamed, unset or empty, then for every iteration
order and every struct `ParseParameters` does not return nil.  When the entry
is reached with a settable field of a supported kind tagged `tag`, the call
returns the error with message `"ParseParameters: required parameter '" ++
Name ++ "' is not set"` and leaves the struct as it was when the entry was
reached, so the field does not receive the default. -/
theorem parse_required_missing (flags : FlagSet) (env : Env)
    (cfg : List (String × Parameter)) (tag : String) (p : Parameter)
    (hmem : (tag, p) ∈ cfg) (hreq : p.Required = true)
    (hnot : flags.Changed p.Name = false)
    (henv : p.EnvVarName = "" ∨ Getenv env p.EnvVarName = "") :
    (∀ params : Params, (ParseParameters flags env cfg params).1 ≠ .nil)
      ∧ getMessageRequiredParameterMissing p
          = "ParseParameters: " ++ ("required parameter '" ++ p.Name ++ "' is not set")
      ∧ ∀ (before rest : List (String × Parameter)) (params : Params) (typeName : String)
          (pre post : List Field) (field : Field),
          cfg = before ++ (tag, p) :: rest →
          ParseParameters flags env before params
            = (.nil, { typeName := typeName, fields := pre ++ field :: post }) →
          (∀ g ∈ pre, g.paramName ≠ tag) → field.paramName = tag → tag ≠ "" →
          field.CanSet = true → (∀ k, field.value ≠ .other k) →
          ParseParameters flags env cfg params
            = (.error (.New (getMessageRequiredParameterMissing p)),
                { typeName := typeName, fields := pre ++ field :: post }) := by
  have hr := fun old => resolveField_required flags env p old hreq hnot henv
  refine ⟨fun params => ParseParameters_ne_nil flags env tag p (fun old => (hr old).1) cfg
    params hmem, ?_, ?_⟩
  · unfold getMessageRequiredParameterMissing
    rw [← String.append_assoc, ← String.append_assoc]
    rfl
  · intro before rest params typeName pre post field hcfg hbefore hpre htag hne hset hkind
    have h := (parse_step flags env before rest tag p params typeName pre post field hbefore
      hpre htag hne hset).2
    rw [(hr field.value).2 hkind] at h
    rw [hcfg]
    exact h

/-- Witness of C12 on the test "should return error for required int parameter
not provided": the flag default 1234 is not bound. -/
theorem parse_required_missing_witness :
    ParseParameters [testFlag "intParam" (.int 1234) false] emptyEnv
        [("intParam", testParameter "intParam" .Int "" "" true)] testParams
      = (.error (.New "ParseParameters: required parameter 'intParam' is not set"),
          testParams) :=
  (parse_required_missing [testFlag "intParam" (.int 1234) false] emptyEnv
    [("intParam", testParameter "intParam" .Int "" "" true)] "intParam"
    (testParameter "intParam" .Int "" "" true) (by decide) rfl (by decide)
    (Or.inl rfl)).2.2 [] [] testParams "TestParams"
    [{ Name := "StringParam", paramName := "stringParam", CanSet := true, value := .string "" }]
    [{ Name := "BoolParam", paramName := "boolParam", CanSet := true, value := .bool false },
     { Name := "ArrayParam", paramName := "arrayParam", CanSet := true,
       value := .stringSlice [] }]
    { Name := "IntParam", paramName := "intParam", CanSet := true, value := .int 0 }
    rfl rfl (by decide) rfl (by decide) rfl (by intro k h; cases h)

theorem parseUintLoop_non_digit :
    ∀ (cs : List Char) (n : Nat),
      cs.all (fun d => decide (48 ≤ d.toNat) && decide (d.toNat ≤ 57)) = false →
      ∃ e, parseUintLoop cs n = .error e := by
  intro cs
  induction cs with
  | nil => intro n h; simp at h
  | cons c cs ih =>
    intro n h
    rw [parseUintLoop]
    by_cases hd : 48 ≤ c.toNat ∧ c.toNat ≤ 57
    · have hrest : cs.all (fun d => decide (48 ≤ d.toNat) && decide (d.toNat ≤ 57)) = false := by
        simp only [List.all_cons, Bool.and_eq_false_iff] at h
        rcases h with h | h
        · simp [hd.1, hd.2] at h
        · exact h
      rw [if_pos hd]
      by_cases h1 : n ≥ 18446744073709551615 / 10 + 1
      · rw [if_pos h1]; exact ⟨_, rfl⟩
      · rw [if_neg h1]
        simp only []
        by_cases h2 : n * 10 + (c.toNat - 48) > 18446744073709551615
        · rw [if_pos h2]; exact ⟨_, rfl⟩
        · rw [if_neg h2]; exact ih _ hrest
    · rw [if_neg hd]; exact ⟨_, rfl⟩

theorem ParseUint_not_digits (cs : List Char)
    (h : (!cs.isEmpty && cs.all (fun d => decide (48 ≤ d.toNat) && decide (d.toNat ≤ 57)))
      = false) :
    ∃ e, ParseUint cs = .error e := by
  cases cs with
  | nil => exact ⟨_, rfl⟩
  | cons c cs =>
    have h' : (c :: cs).all (fun d => decide (48 ≤ d.toNat) && decide (d.toNat ≤ 57))
        = false := by
      simpa using h
    exact parseUintLoop_non_digit (c :: cs) 0 h'

theorem ParseInt_not_decimal (s : String) (h : isDecimalInteger s = false) :
    ∃ e, ParseInt s = .error e := by
  unfold isDecimalInteger at h
  unfold ParseInt
  cases hs : s.data with
  | nil => exact ⟨_, rfl⟩
  | cons c cs =>
    rw [hs] at h
    simp only [] at h ⊢
    obtain ⟨e, he⟩ := ParseUint_not_digits _ h
    rw [he]
    cases e <;> exact ⟨_, rfl⟩

theorem ParseBool_not_literal (s : String) (h : isBoolLiteral s = false) :
    ∃ e, ParseBool s = .error e := by
  unfold isBoolLiteral at h
  simp only [List.contains_cons, List.contains_nil, Bool.or_false, Bool.or_eq_false_iff,
    beq_eq_false_iff_ne, ne_eq] at h
  obtain ⟨h1, h2, h3, h4, h5, h6, h7, h8, h9, h10, h11, h12⟩ := h
  unfold ParseBool
  rw [if_neg (by simp [h1, h2, h3, h4, h5, h6]), if_neg (by simp [h7, h8, h9, h10, h11, h12])]
  exact ⟨_, rfl⟩

theorem resolveField_env_failure (flags : FlagSet) (env : Env) (p : Parameter) (val : String)
    (old : Value) (err : GoError) (hnot : flags.Changed p.Name = false)
    (hname : p.EnvVarName ≠ "") (hval : env p.EnvVarName = some val) (hne : val ≠ "")
    (hbad : (∃ o, old = .int o ∧ ParseInt val = .error err)
      ∨ (∃ o, old = .bool o ∧ ParseBool val = .error err)) :
    resolveField flags env p old = .fail err := by
  have he := envValue_some env p val hname hval hne
  rcases hbad with ⟨o, h1, h2⟩ | ⟨o, h1, h2⟩
  · subst h1
    simp [resolveField, Value.Kind, hnot, he, h2]
  · subst h1
    simp [resolveField, Value.Kind, hnot, he, h2]

/-- C13. Environment conversion failure: let the entry `(tag, p)` be reached
with a settable int or bool field tagged `tag`, the flag not reported as
changed, and the environment variable hold a non-empty value on which
`ParseInt` (int field) or `ParseBool` (bool field) fails with `err`.  Then
`ParseParameters` returns the error `err` (no panic, no nil) and leaves the
struct as it was when the entry was reached: the field is neither bound nor
given the default, whatever `Required` is.  The conversion fails on every
string that is not an optional sign followed by decimal digits, respectively
not a boolean literal. -/
theorem parse_env_conversion_failure (flags : FlagSet) (env : Env)
    (before rest : List (String × Parameter)) (tag : String) (p : Parameter)
    (params : Params) (typeName : String) (pre post : List Field) (field : Field)
    (val : String) (err : GoError)
    (hbefore : ParseParameters flags env before params
      = (.nil, { typeName := typeName, fields := pre ++ field :: post }))
    (hpre : ∀ g ∈ pre, g.paramName ≠ tag) (htag : field.paramName = tag) (hne : tag ≠ "")
    (hset : field.CanSet = true)
    (hnot : flags.Changed p.Name = false)
    (hname : p.EnvVarName ≠ "") (hval : env p.EnvVarName = some val) (hnonempty : val ≠ "")
    (hbad : (∃ o, field.value = .int o ∧ ParseInt val = .error err)
      ∨ (∃ o, field.value = .bool o ∧ ParseBool val = .error err)) :
    bindField flags env typeName tag p (pre ++ field :: post)
        = (.error err, pre ++ field :: post)
      ∧ ParseParameters flags env (before ++ (tag, p) :: rest) params
        = (.error err, { typeName := typeName, fields := pre ++ field :: post })
      ∧ (∀ s, isDecimalInteger s = false → ∃ e, ParseInt s = .error e)
      ∧ (∀ s, isBoolLiteral s = false → ∃ e, ParseBool s = .error e) := by
  have hr := resolveField_env_failure flags env p val field.value err hnot hname hval
    hnonempty hbad
  have h1 := parse_step flags env before rest tag p params typeName pre post field hbefore
    hpre htag hne hset
  rw [hr] at h1
  exact ⟨h1.1, h1.2, ParseInt_not_decimal, ParseBool_not_literal⟩

/-- Witness of C13: the bool parameter is not required, has the default
`true`, and its environment variable holds `yes`. -/
theorem parse_env_conversion_failure_witness :
    ParseParameters [testFlag "boolParam" (.bool true) false] (envWith "BOOL_ENV_VAR" "yes")
        [("boolParam", testParameter "boolParam" .Bool "BOOL_ENV_VAR" "true" false)] testParams
      = (.error (.NumError "ParseBool" "yes" .ErrSyntax), testParams) :=
  (parse_env_conversion_failure [testFlag "boolParam" (.bool true) false]
    (envWith "BOOL_ENV_VAR" "yes") [] [] "boolParam"
    (testParameter "boolParam" .Bool "BOOL_ENV_VAR" "true" false) testParams "TestParams"
    [{ Name := "StringParam", paramName := "stringParam", CanSet := true, value := .string "" },
     { Name := "IntParam", paramName := "intParam", CanSet := true, value := .int 0 }]
    [{ Name := "ArrayParam", paramName := "arrayParam", CanSet := true,
       value := .stringSlice [] }]
    { Name := "BoolParam", paramName := "boolParam", CanSet := true, value := .bool false }
    "yes" (.NumError "ParseBool" "yes" .ErrSyntax)
    rfl (by decide) rfl (by decide) rfl (by decide) (by decide) (by decide) (by decide)
    (Or.inr ⟨false, rfl, by decide⟩)).2.1

/-- C14, evaluation at the failing input: the string flag is registered with
the default `default` and is not changed, no environment variable applies, the
parameter is not required and its `DefaultValue` is empty.  The facility
reports `default` for the flag, yet the field is bound to the empty
`DefaultValue` of the specification; an int field in the same situation is
bound to the default of the flag. -/
theorem parse_string_default_ignores_flag_default :
    FlagSet.GetString [testFlag "stringParam" (.string "default") false] "stringParam"
        = .ok "default"
      ∧ ParseParameters [testFlag "stringParam" (.string "default") false] emptyEnv
          [("stringParam", testParameter "stringParam" .String "" "" false)]
          (testParamsWith "old" 0 false [])
        = (.nil, testParamsWith "" 0 false [])
      ∧ ParseParameters [testFlag "intParam" (.int 1234) false] emptyEnv
          [("intParam", testParameter "intParam" .Int "" "" false)]
          (testParamsWith "old" 0 false [])
        = (.nil, testParamsWith "old" 1234 false []) := by
  decide

/-! ## Claims on the parameter declarator -/

theorem registerParameter_eq (cmd : Command) (key : String) (p : Parameter) (flags : FlagSet)
    (reg : Registry) :
    registerParameter cmd key p flags reg
      = if key != p.Name then
          .panic ("RegisterParameters: parameter name '" ++ p.Name ++ "' and tag '" ++ key
            ++ "' must be equal")
        else
          match defaultFlagValue p with
          | .error msg => .panic msg
          | .ok value =>
            .ofCall (flags.AddFlag cmd.Name (parameterFlag p value))
              ((arrayTokens (key, p)).foldl (fun r t => recordArrayParamForCommand r cmd t) reg) := by
  unfold registerParameter
  by_cases hk : (key != p.Name) = true
  · rw [if_pos hk, if_pos hk]
  · rw [if_neg hk, if_neg hk]
    have hs : ∀ (A : String → Registered),
        (if (p.ShortName != "") = true then A p.ShortName else A "") = A p.ShortName := by
      intro A
      by_cases h : p.ShortName = ""
      · simp [h]
      · simp [h]
    cases hkind : p.TypeKind with
    | String =>
      simp only [defaultFlagValue, hkind, arrayTokens, List.foldl_nil, FlagSet.StringP,
        FlagSet.VarPF, parameterFlag]
      exact hs (fun sh => Registered.ofCall (flags.AddFlag cmd.Name
        { Name := p.Name, Shorthand := sh, Usage := p.Usage, Value := .string p.DefaultValue,
          DefValue := (FlagValue.string p.DefaultValue).render, Changed := false }) reg)
    | Int =>
      simp only [defaultFlagValue, hkind, arrayTokens, List.foldl_nil, FlagSet.IntP,
        FlagSet.VarPF, parameterFlag]
      cases (if (p.DefaultValue != "") = true then Atoi p.DefaultValue else .ok 0) with
      | error e => rfl
      | ok n =>
        exact hs (fun sh => Registered.ofCall (flags.AddFlag cmd.Name
          { Name := p.Name, Shorthand := sh, Usage := p.Usage, Value := .int n,
            DefValue := (FlagValue.int n).render, Changed := false }) reg)
    | Bool =>
      simp only [defaultFlagValue, hkind, arrayTokens, List.foldl_nil, FlagSet.BoolP,
        FlagSet.VarPF, parameterFlag]
      cases (if (p.DefaultValue != "") = true then ParseBool p.DefaultValue else .ok false) with
      | error e => rfl
      | ok b =>
        exact hs (fun sh => Registered.ofCall (flags.AddFlag cmd.Name
          { Name := p.Name, Shorthand := sh, Usage := p.Usage, Value := .bool b,
            DefValue := (FlagValue.bool b).render, Changed := false }) reg)
    | Array =>
      simp only [defaultFlagValue, hkind, arrayTokens, FlagSet.StringArrayP,
        FlagSet.VarPF, parameterFlag]
      by_cases h : p.ShortName = ""
      · simp [h]
      · simp [h]
    | Slice =>
      simp only [defaultFlagValue, hkind, arrayTokens, FlagSet.StringArrayP,
        FlagSet.VarPF, parameterFlag]
      by_cases h : p.ShortName = ""
      · simp [h]
      · simp [h]
    | Other k =>
      simp only [defaultFlagValue, hkind]

theorem AddFlag_ok (f : FlagSet) (fname : String) (flag : Flag)
    (hname : f.Lookup flag.Name = none)
    (hshort : flag.Shorthand = ""
      ∨ (goLen flag.Shorthand = 1 ∧ ∀ g ∈ f, g.Shorthand ≠ flag.Shorthand)) :
    f.AddFlag fname flag = .ok (f ++ [flag]) := by
  unfold FlagSet.AddFlag
  rw [hname]
  rcases hshort with h | ⟨h1, h2⟩
  · simp [h]
  · by_cases h : flag.Shorthand = ""
    · simp [h]
    · have hfind : f.find? (fun used => used.Shorthand == flag.Shorthand) = none := by
        rw [List.find?_eq_none]
        intro g hg
        simpa using h2 g hg
      simp only [h, if_false, h1, gt_iff_lt, lt_self_iff_false, hfind]

theorem AddFlag_result (f : FlagSet) (fname : String) (flag : Flag) :
    (∃ msg, f.AddFlag fname flag = .error msg) ∨ f.AddFlag fname flag = .ok (f ++ [flag]) := by
  unfold FlagSet.AddFlag
  cases f.Lookup flag.Name with
  | some g => exact Or.inl ⟨_, rfl⟩
  | none =>
    simp only
    by_cases h : flag.Shorthand = ""
    · rw [if_pos h]; exact Or.inr rfl
    · rw [if_neg h]
      by_cases h1 : goLen flag.Shorthand > 1
      · rw [if_pos h1]; exact Or.inl ⟨_, rfl⟩
      · rw [if_neg h1]
        cases f.find? (fun used => used.Shorthand == flag.Shorthand) with
        | some used => exact Or.inl ⟨_, rfl⟩
        | none => exact Or.inr rfl

theorem goLen_pos (s : String) (h : s ≠ "") : 1 ≤ goLen s := by
  unfold goLen
  cases hd : s.data with
  | nil => exact absurd (String.ext hd) h
  | cons c cs =>
    simp only [List.map_cons, List.sum_cons]
    have : 1 ≤ utf8Len c := by
      unfold utf8Len
      split
      · exact le_refl _
      · split
        · decide
        · split <;> decide
    omega

theorem AddFlag_ok_iff (f : FlagSet) (fname : String) (flag : Flag) :
    (∃ f', f.AddFlag fname flag = .ok f')
      ↔ f.Lookup flag.Name = none
        ∧ (flag.Shorthand = ""
          ∨ (goLen flag.Shorthand = 1 ∧ ∀ g ∈ f, g.Shorthand ≠ flag.Shorthand)) := by
  constructor
  · rintro ⟨f', h⟩
    unfold FlagSet.AddFlag at h
    cases hl : f.Lookup flag.Name with
    | some g => rw [hl] at h; cases h
    | none =>
      rw [hl] at h
      simp only at h
      refine ⟨rfl, ?_⟩
      by_cases hs : flag.Shorthand = ""
      · exact Or.inl hs
      · rw [if_neg hs] at h
        by_cases h1 : goLen flag.Shorthand > 1
        · rw [if_pos h1] at h; cases h
        · rw [if_neg h1] at h
          have hpos := goLen_pos flag.Shorthand hs
          refine Or.inr ⟨by omega, ?_⟩
          cases hfind : f.find? (fun used => used.Shorthand == flag.Shorthand) with
          | some used => rw [hfind] at h; cases h
          | none =>
            rw [List.find?_eq_none] at hfind
            intro g hg
            simpa using hfind g hg
  · rintro ⟨h1, h2⟩
    exact ⟨_, AddFlag_ok f fname flag h1 h2⟩

theorem Fields_empty_default (d : String) :
    (if (d != "") = true then Fields d else []) = Fields d := by
  by_cases hd : d = ""
  · simp [hd, Fields, fieldsLoop]
  · simp [hd]

theorem registersAs_parameterFlag (key : String) (p : Parameter) (value : FlagValue)
    (h : defaultFlagValue p = .ok value) : registersAs (key, p) (parameterFlag p value) := by
  unfold defaultFlagValue at h
  unfold registersAs parameterFlag
  refine ⟨rfl, rfl, rfl, rfl, rfl, ?_⟩
  cases hkind : p.TypeKind with
  | String =>
    rw [hkind] at h
    simp only [Except.ok.injEq] at h
    simp only [h]
  | Int =>
    rw [hkind] at h
    simp only
    by_cases hd : p.DefaultValue = ""
    · simp only [hd, bne_self_eq_false, Bool.false_eq_true, if_false, Except.ok.injEq] at h
      exact ⟨0, h.symm, fun _ => rfl, fun e => absurd hd e⟩
    · have hd' : (p.DefaultValue != "") = true := by simpa using hd
      simp only [hd', if_true] at h
      cases ha : Atoi p.DefaultValue with
      | error e => rw [ha] at h; cases h
      | ok n =>
        rw [ha] at h
        simp only [Except.ok.injEq] at h
        exact ⟨n, h.symm, fun e => absurd e hd, fun _ => rfl⟩
  | Bool =>
    rw [hkind] at h
    simp only
    by_cases hd : p.DefaultValue = ""
    · simp only [hd, bne_self_eq_false, Bool.false_eq_true, if_false, Except.ok.injEq] at h
      exact ⟨false, h.symm, fun _ => rfl, fun e => absurd hd e⟩
    · have hd' : (p.DefaultValue != "") = true := by simpa using hd
      simp only [hd', if_true] at h
      cases ha : ParseBool p.DefaultValue with
      | error e => rw [ha] at h; cases h
      | ok b =>
        rw [ha] at h
        simp only [Except.ok.injEq] at h
        exact ⟨b, h.symm, fun e => absurd e hd, fun _ => rfl⟩
  | Array =>
    rw [hkind] at h
    simp only [Except.ok.injEq, Fields_empty_default] at h
    simp only [h]
  | Slice =>
    rw [hkind] at h
    simp only [Except.ok.injEq, Fields_empty_default] at h
    simp only [h]
  | Other k =>
    rw [hkind] at h
    cases h

theorem defaultFlagValue_of_valid (key : String) (p : Parameter)
    (h : validEntry (key, p) = true) : key = p.Name ∧ ∃ value, defaultFlagValue p = .ok value := by
  unfold validEntry at h
  simp only [Bool.and_eq_true, beq_iff_eq] at h
  obtain ⟨hk, hv⟩ := h
  refine ⟨hk, ?_⟩
  unfold defaultFlagValue
  cases hkind : p.TypeKind with
  | String => exact ⟨_, rfl⟩
  | Int =>
    rw [hkind] at hv
    simp only [Bool.or_eq_true, beq_iff_eq] at hv
    by_cases hd : p.DefaultValue = ""
    · simp [hd]
    · have hok : (Atoi p.DefaultValue).isOk = true := by
        rcases hv with hv | hv
        · exact absurd hv hd
        · exact hv
      cases ha : Atoi p.DefaultValue with
      | error e => rw [ha] at hok; simp [Except.isOk, Except.toBool] at hok
      | ok n => simp [hd]
  | Bool =>
    rw [hkind] at hv
    simp only [Bool.or_eq_true, beq_iff_eq] at hv
    by_cases hd : p.DefaultValue = ""
    · simp [hd]
    · have hok : (ParseBool p.DefaultValue).isOk = true := by
        rcases hv with hv | hv
        · exact absurd hv hd
        · exact hv
      cases ha : ParseBool p.DefaultValue with
      | error e => rw [ha] at hok; simp [Except.isOk, Except.toBool] at hok
      | ok n => simp [hd]
  | Array => exact ⟨_, rfl⟩
  | Slice => exact ⟨_, rfl⟩
  | Other k =>
    rw [hkind] at hv
    simp at hv

theorem registerParameter_done (cmd : Command) (key : String) (p : Parameter)
    (flags : FlagSet) (reg : Registry) (h : validEntry (key, p) = true)
    (hname : flags.Lookup p.Name = none)
    (hshort : p.ShortName = ""
      ∨ (goLen p.ShortName = 1 ∧ ∀ g ∈ flags, g.Shorthand ≠ p.ShortName)) :
    ∃ f, registersAs (key, p) f
      ∧ registerParameter cmd key p flags reg
        = .done (flags ++ [f])
            ((arrayTokens (key, p)).foldl (fun r t => recordArrayParamForCommand r cmd t) reg) := by
  obtain ⟨hk, value, hv⟩ := defaultFlagValue_of_valid key p h
  refine ⟨parameterFlag p value, registersAs_parameterFlag key p value hv, ?_⟩
  have hn : ¬ (key != p.Name) = true := by simp [hk]
  rw [registerParameter_eq, if_neg hn, hv]
  simp only
  rw [AddFlag_ok flags cmd.Name (parameterFlag p value) hname hshort]
  rfl

theorem facilityAccepts_iff (flags : FlagSet) (cfg : List (String × Parameter)) :
    facilityAccepts flags cfg = true
      ↔ (∀ e ∈ cfg, flags.Lookup e.2.Name = none
          ∧ (e.2.ShortName = ""
            ∨ (goLen e.2.ShortName = 1 ∧ ∀ g ∈ flags, g.Shorthand ≠ e.2.ShortName)))
        ∧ cfg.Pairwise (fun a b => a.2.Name ≠ b.2.Name
            ∧ (b.2.ShortName = "" ∨ a.2.ShortName ≠ b.2.ShortName)) := by
  unfold facilityAccepts
  simp only [Bool.and_eq_true, List.all_eq_true, Option.isNone_iff_eq_none, Bool.or_eq_true,
    beq_iff_eq, bne_iff_ne, ne_eq, decide_eq_true_eq]

theorem Lookup_append_single (flags : FlagSet) (f : Flag) (name : String) :
    FlagSet.Lookup (flags ++ [f]) name = none ↔ flags.Lookup name = none ∧ f.Name ≠ name := by
  unfold FlagSet.Lookup
  simp only [List.find?_eq_none, List.mem_append, List.mem_singleton, beq_iff_eq]
  constructor
  · intro h
    exact ⟨fun x hx => h x (Or.inl hx), h f (Or.inr rfl)⟩
  · rintro ⟨h1, h2⟩ x (hx | hx)
    · exact h1 x hx
    · rw [hx]; exact h2

theorem facilityAccepts_cons (flags : FlagSet) (e : String × Parameter)
    (rest : List (String × Parameter)) (f : Flag) (hn : f.Name = e.2.Name)
    (hs : f.Shorthand = e.2.ShortName) :
    facilityAccepts flags (e :: rest) = true
      ↔ (flags.Lookup e.2.Name = none
          ∧ (e.2.ShortName = ""
            ∨ (goLen e.2.ShortName = 1 ∧ ∀ g ∈ flags, g.Shorthand ≠ e.2.ShortName)))
        ∧ facilityAccepts (flags ++ [f]) rest = true := by
  rw [facilityAccepts_iff, facilityAccepts_iff]
  simp only [List.forall_mem_cons, List.pairwise_cons, Lookup_append_single, List.mem_append,
    List.mem_singleton, hn, hs]
  constructor
  · rintro ⟨⟨he, hrest⟩, hpair, hpw⟩
    refine ⟨he, fun b hb => ⟨⟨(hrest b hb).1, (hpair b hb).1⟩, ?_⟩, hpw⟩
    rcases (hrest b hb).2 with h | ⟨h1, h2⟩
    · exact Or.inl h
    · refine Or.inr ⟨h1, ?_⟩
      rintro g (hg | hg)
      · exact h2 g hg
      · rw [hg, hs]
        rcases (hpair b hb).2 with h | h
        · intro e'; rw [h] at h1; simp [goLen] at h1
        · exact h
  · rintro ⟨he, hrest, hpw⟩
    refine ⟨⟨he, fun b hb => ⟨(hrest b hb).1.1, ?_⟩⟩, fun b hb => ⟨(hrest b hb).1.2, ?_⟩, hpw⟩
    · rcases (hrest b hb).2 with h | ⟨h1, h2⟩
      · exact Or.inl h
      · exact Or.inr ⟨h1, fun g hg => h2 g (Or.inl hg)⟩
    · rcases (hrest b hb).2 with h | ⟨h1, h2⟩
      · exact Or.inl h
      · right
        have := h2 f (Or.inr rfl)
        rw [hs] at this
        exact this

theorem RegisterParameters_done (cmd : Command) :
    ∀ (cfg : List (String × Parameter)) (flags : FlagSet) (reg : Registry),
      (∀ e ∈ cfg, validEntry e = true) → facilityAccepts flags cfg = true →
      ∃ added, List.Forall₂ registersAs cfg added
        ∧ RegisterParameters cmd cfg flags reg
          = .done (flags ++ added)
              ((cfg.flatMap arrayTokens).foldl
                (fun r t => recordArrayParamForCommand r cmd t) reg) := by
  intro cfg
  induction cfg with
  | nil =>
    intro flags reg _ _
    exact ⟨[], List.Forall₂.nil, by simp [RegisterParameters]⟩
  | cons entry cfg ih =>
    intro flags reg hv hacc
    obtain ⟨key, p⟩ := entry
    have hcond := ((facilityAccepts_cons flags (key, p) cfg (parameterFlag p (.string ""))
      rfl rfl).mp hacc).1
    obtain ⟨f, hf, hreg⟩ := registerParameter_done cmd key p flags reg (hv _ (by simp))
      hcond.1 hcond.2
    have hacc' := ((facilityAccepts_cons flags (key, p) cfg f hf.1 hf.2.1).mp hacc).2
    obtain ⟨added, hadded, hrest⟩ := ih (flags ++ [f])
      ((arrayTokens (key, p)).foldl (fun r t => recordArrayParamForCommand r cmd t) reg)
      (fun e he => hv e (by simp [he])) hacc'
    refine ⟨f :: added, List.Forall₂.cons hf hadded, ?_⟩
    rw [RegisterParameters, hreg]
    simp only [hrest, List.flatMap_cons, List.foldl_append, List.append_assoc,
      List.singleton_append]

theorem RegisterParameters_accepts (cmd : Command) :
    ∀ (cfg : List (String × Parameter)) (flags : FlagSet) (reg : Registry)
      (flags' : FlagSet) (reg' : Registry),
      (∀ e ∈ cfg, e.1 = e.2.Name) →
      RegisterParameters cmd cfg flags reg = .done flags' reg' →
      facilityAccepts flags cfg = true := by
  intro cfg
  induction cfg with
  | nil => intro flags reg flags' reg' _ _; rfl
  | cons entry cfg ih =>
    intro flags reg flags' reg' hkeys h
    obtain ⟨key, p⟩ := entry
    have hk : key = p.Name := hkeys (key, p) (List.mem_cons_self _ _)
    have hn : ¬ (key != p.Name) = true := by simp [hk]
    rw [RegisterParameters, registerParameter_eq, if_neg hn] at h
    cases hv : defaultFlagValue p with
    | error msg => rw [hv] at h; cases h
    | ok value =>
      rw [hv] at h
      simp only at h
      cases hadd : flags.AddFlag cmd.Name (parameterFlag p value) with
      | error msg => rw [hadd] at h; cases h
      | ok f' =>
        have hcond := (AddFlag_ok_iff flags cmd.Name (parameterFlag p value)).mp ⟨f', hadd⟩
        rw [AddFlag_ok flags cmd.Name (parameterFlag p value) hcond.1 hcond.2] at h
        have hrest := ih _ _ flags' reg' (fun e he => hkeys e (List.mem_cons_of_mem _ he)) h
        exact (facilityAccepts_cons flags (key, p) cfg (parameterFlag p value) rfl rfl).mpr
          ⟨hcond, hrest⟩

theorem RegisterParameters_panics_of_entry (cmd : Command) (key : String) (p : Parameter)
    (h : ∀ flags reg, ∃ msg, registerParameter cmd key p flags reg = .panic msg) :
    ∀ (cfg : List (String × Parameter)) (flags : FlagSet) (reg : Registry), (key, p) ∈ cfg →
      ∃ msg, RegisterParameters cmd cfg flags reg = .panic msg := by
  intro cfg
  induction cfg with
  | nil => intro flags reg hm; simp at hm
  | cons entry cfg ih =>
    intro flags reg hm
    obtain ⟨key', p'⟩ := entry
    rw [RegisterParameters]
    rcases List.mem_cons.mp hm with hm | hm
    · have e1 : key' = key := (Prod.mk.inj hm).1.symm
      have e2 : p' = p := (Prod.mk.inj hm).2.symm
      subst e1 e2
      obtain ⟨msg, hmsg⟩ := h flags reg
      rw [hmsg]
      exact ⟨msg, rfl⟩
    · cases registerParameter cmd key' p' flags reg with
      | done flags' reg' => exact ih flags' reg' hm
      | panic msg => exact ⟨msg, rfl⟩

theorem registerParameter_name_mismatch (cmd : Command) (key : String) (p : Parameter)
    (flags : FlagSet) (reg : Registry) (hne : key ≠ p.Name) :
    registerParameter cmd key p flags reg
      = .panic ("RegisterParameters: parameter name '" ++ p.Name ++ "' and tag '" ++ key
          ++ "' must be equal") := by
  have h : (key != p.Name) = true := by simpa using hne
  rw [registerParameter, if_pos h]

/-- C16. `RegisterParameters` panics for every configuration that holds an
entry whose key differs from its `Name`, whatever the kind of the entry, the
other entries, the iteration order, the flag set and the registry; the
iteration that reaches the entry panics with the message naming both. -/
theorem register_panics_on_name_mismatch (cmd : Command) (cfg : List (String × Parameter))
    (flags : FlagSet) (reg : Registry) (key : String) (p : Parameter)
    (hmem : (key, p) ∈ cfg) (hne : key ≠ p.Name) :
    (∃ msg, RegisterParameters cmd cfg flags reg = .panic msg)
      ∧ ∀ (flags0 : FlagSet) (reg0 : Registry),
          registerParameter cmd key p flags0 reg0
            = .panic ("RegisterParameters: parameter name '" ++ p.Name ++ "' and tag '" ++ key
                ++ "' must be equal") :=
  ⟨RegisterParameters_panics_of_entry cmd key p
      (fun f r => ⟨_, registerParameter_name_mismatch cmd key p f r hne⟩) cfg flags reg hmem,
    fun f r => registerParameter_name_mismatch cmd key p f r hne⟩

/-- Witness of C16 on the test "should panic on parameter name mismatch",
after a valid entry. -/
theorem register_panics_on_name_mismatch_witness :
    RegisterParameters { ptr := 0, chain := ["root"] }
        [("intParam", testParameter "intParam" .Int "" "1" false),
          ("testParam", testParameter "differentName" .String "" "" false)] [] []
      = .panic "RegisterParameters: parameter name 'differentName' and tag 'testParam' must be equal" := by
  obtain ⟨msg, h⟩ := (register_panics_on_name_mismatch { ptr := 0, chain := ["root"] }
    [("intParam", testParameter "intParam" .Int "" "1" false),
      ("testParam", testParameter "differentName" .String "" "" false)] [] []
    "testParam" (testParameter "differentName" .String "" "" false) (by decide) (by decide)).1
  rw [h]
  have h' := (show RegisterParameters { ptr := 0, chain := ["root"] }
    [("intParam", testParameter "intParam" .Int "" "1" false),
      ("testParam", testParameter "differentName" .String "" "" false)] [] []
      = .panic "RegisterParameters: parameter name 'differentName' and tag 'testParam' must be equal"
    by decide)
  rw [h] at h'
  exact h'

theorem Atoi_not_decimal (s : String) (h : isDecimalInteger s = false) :
    ∃ e, Atoi s = .error e := by
  obtain ⟨e, he⟩ := ParseInt_not_decimal s h
  unfold Atoi
  rw [he]
  cases e <;> exact ⟨_, rfl⟩

theorem registerParameter_invalid_default (cmd : Command) (key : String) (p : Parameter)
    (flags : FlagSet) (reg : Registry)
    (hbad : (p.TypeKind = .Int ∧ p.DefaultValue ≠ "" ∧ ∃ e, Atoi p.DefaultValue = .error e)
      ∨ (p.TypeKind = .Bool ∧ p.DefaultValue ≠ ""
          ∧ ∃ e, ParseBool p.DefaultValue = .error e)) :
    ∃ msg, registerParameter cmd key p flags reg = .panic msg
      ∧ (key = p.Name → msg = getMessageInvalidParameterDefaultValue p) := by
  by_cases hk : key = p.Name
  · have h : (key != p.Name) = false := by simpa using hk
    rcases hbad with ⟨h1, h2, e, he⟩ | ⟨h1, h2, e, he⟩
    · have h2' : (p.DefaultValue != "") = true := by simpa using h2
      refine ⟨getMessageInvalidParameterDefaultValue p, ?_, fun _ => rfl⟩
      rw [registerParameter, if_neg (by simp [h]), h1]
      simp only [h2', if_true, he]
    · have h2' : (p.DefaultValue != "") = true := by simpa using h2
      refine ⟨getMessageInvalidParameterDefaultValue p, ?_, fun _ => rfl⟩
      rw [registerParameter, if_neg (by simp [h]), h1]
      simp only [h2', if_true, he]
  · exact ⟨_, registerParameter_name_mismatch cmd key p flags reg hk, fun e => absurd e hk⟩

theorem registerParameter_refused (cmd : Command) (key : String) (p : Parameter)
    (flags : FlagSet) (reg : Registry)
    (h : ¬ (flags.Lookup p.Name = none
      ∧ (p.ShortName = ""
        ∨ (goLen p.ShortName = 1 ∧ ∀ g ∈ flags, g.Shorthand ≠ p.ShortName)))) :
    ∃ msg, registerParameter cmd key p flags reg = .panic msg := by
  rw [registerParameter_eq]
  by_cases hk : (key != p.Name) = true
  · rw [if_pos hk]; exact ⟨_, rfl⟩
  · rw [if_neg hk]
    cases hv : defaultFlagValue p with
    | error msg => exact ⟨msg, rfl⟩
    | ok value =>
      simp only
      rcases AddFlag_result flags cmd.Name (parameterFlag p value) with ⟨msg, hm⟩ | hok
      · rw [hm]; exact ⟨msg, rfl⟩
      · exact absurd ((AddFlag_ok_iff flags cmd.Name (parameterFlag p value)).mp ⟨_, hok⟩) h

theorem registerParameter_empty_default (cmd : Command) (q : Parameter) (flags : FlagSet)
    (reg : Registry) (value : FlagValue) (hq : q.DefaultValue = "")
    (hkind : (q.TypeKind = .Int ∧ value = .int 0) ∨ (q.TypeKind = .Bool ∧ value = .bool false))
    (hname : flags.Lookup q.Name = none)
    (hshort : q.ShortName = ""
      ∨ (goLen q.ShortName = 1 ∧ ∀ g ∈ flags, g.Shorthand ≠ q.ShortName)) :
    registerParameter cmd q.Name q flags reg = .done (flags ++ [parameterFlag q value]) reg := by
  have hv : defaultFlagValue q = .ok value := by
    unfold defaultFlagValue
    rcases hkind with ⟨hk, hval⟩ | ⟨hk, hval⟩
    · simp [hk, hq, hval]
    · simp [hk, hq, hval]
  have ht : arrayTokens (q.Name, q) = [] := by
    unfold arrayTokens
    rcases hkind with ⟨hk, _⟩ | ⟨hk, _⟩ <;> simp [hk]
  rw [registerParameter_eq, if_neg (by simp), hv]
  simp only
  rw [AddFlag_ok flags cmd.Name (parameterFlag q value) hname hshort, ht]
  rfl

/-- C17, counterexample: an int parameter with an empty `DefaultValue` whose
`ShortName` is `ab` makes `RegisterParameters` panic in the flag facility, and
so does the same parameter without short name on a command that already has a
flag of that name. -/
theorem register_empty_default_refused :
    RegisterParameters testSubCommand
        [("intParam", { testParameter "intParam" .Int "" "" false with ShortName := "ab" })] [] []
      = .panic "\"ab\" shorthand is more than one ASCII character"
    ∧ RegisterParameters testSubCommand
        [("intParam", testParameter "intParam" .Int "" "" false)]
        [testFlag "intParam" (.int 0) false] []
      = .panic "sub flag redefined: intParam" := by
  decide

/-- C17, amended. `RegisterParameters` panics for every configuration that
holds an int entry whose non-empty `DefaultValue` fails `Atoi`, or a bool entry
whose non-empty `DefaultValue` fails `ParseBool` (which is the case of every
string that is not an optional sign followed by decimal digits, respectively
not a boolean literal); when the key of the entry is its `Name`, the iteration
that reaches it panics with the invalid-default message.  An int or bool entry
with an empty `DefaultValue` and key `Name` registers a flag with value 0,
respectively false, when the flag facility accepts the flag, that is, when the
command has no flag of that name yet and `ShortName` is empty or is one byte
that is the shorthand of no flag of the command; otherwise it panics. -/
theorem register_panics_on_invalid_default (cmd : Command) (cfg : List (String × Parameter))
    (flags : FlagSet) (reg : Registry) (key : String) (p : Parameter)
    (hmem : (key, p) ∈ cfg)
    (hbad : (p.TypeKind = .Int ∧ p.DefaultValue ≠ "" ∧ ∃ e, Atoi p.DefaultValue = .error e)
      ∨ (p.TypeKind = .Bool ∧ p.DefaultValue ≠ ""
          ∧ ∃ e, ParseBool p.DefaultValue = .error e)) :
    (∃ msg, RegisterParameters cmd cfg flags reg = .panic msg)
      ∧ (∀ (flags0 : FlagSet) (reg0 : Registry),
          registerParameter cmd p.Name p flags0 reg0
            = .panic (getMessageInvalidParameterDefaultValue p))
      ∧ (∀ s, isDecimalInteger s = false → ∃ e, Atoi s = .error e)
      ∧ (∀ s, isBoolLiteral s = false → ∃ e, ParseBool s = .error e)
      ∧ (∀ (q : Parameter) (flags0 : FlagSet) (reg0 : Registry), q.DefaultValue = "" →
          (flags0.Lookup q.Name = none
            ∧ (q.ShortName = ""
              ∨ (goLen q.ShortName = 1 ∧ ∀ g ∈ flags0, g.Shorthand ≠ q.ShortName)) →
            (q.TypeKind = .Int →
              registerParameter cmd q.Name q flags0 reg0
                = .done (flags0 ++ [{ Name := q.Name, Shorthand := q.ShortName,
                                      Usage := q.Usage, Value := .int 0, DefValue := "0",
                                      Changed := false }]) reg0)
            ∧ (q.TypeKind = .Bool →
              registerParameter cmd q.Name q flags0 reg0
                = .done (flags0 ++ [{ Name := q.Name, Shorthand := q.ShortName,
                                      Usage := q.Usage, Value := .bool false,
                                      DefValue := "false", Changed := false }]) reg0))
          ∧ (¬ (flags0.Lookup q.Name = none
              ∧ (q.ShortName = ""
                ∨ (goLen q.ShortName = 1 ∧ ∀ g ∈ flags0, g.Shorthand ≠ q.ShortName))) →
            ∃ msg, registerParameter cmd q.Name q flags0 reg0 = .panic msg)) := by
  refine ⟨?_, ?_, Atoi_not_decimal, ParseBool_not_literal, ?_⟩
  · exact RegisterParameters_panics_of_entry cmd key p
      (fun f r => by
        obtain ⟨msg, h, _⟩ := registerParameter_invalid_default cmd key p f r hbad
        exact ⟨msg, h⟩) cfg flags reg hmem
  · intro flags0 reg0
    obtain ⟨msg, h, hm⟩ := registerParameter_invalid_default cmd p.Name p flags0 reg0 hbad
    rw [h, hm rfl]
  · intro q flags0 reg0 hq
    refine ⟨fun hacc => ⟨fun hk => ?_, fun hk => ?_⟩, fun hacc => ?_⟩
    · exact registerParameter_empty_default cmd q flags0 reg0 (.int 0) hq (Or.inl ⟨hk, rfl⟩)
        hacc.1 hacc.2
    · exact registerParameter_empty_default cmd q flags0 reg0 (.bool false) hq
        (Or.inr ⟨hk, rfl⟩) hacc.1 hacc.2
    · exact registerParameter_refused cmd q.Name q flags0 reg0 hacc

/-- Witness of C17 on the test "should panic on invalid int default value", and
an int parameter with empty default and short name `i` on a fresh command. -/
theorem register_panics_on_invalid_default_witness :
    registerParameter { ptr := 0, chain := ["root"] } "intParam"
        (testParameter "intParam" .Int "" "invalid" false) [] []
      = .panic "RegisterParameters: parameter 'intParam' has invalid default value 'invalid'"
    ∧ registerParameter { ptr := 0, chain := ["root"] } "intParam"
        { testParameter "intParam" .Int "" "" false with ShortName := "i" } [] []
      = .done [{ Name := "intParam", Shorthand := "i", Usage := "", Value := .int 0,
                 DefValue := "0", Changed := false }] [] :=
  ⟨(register_panics_on_invalid_default { ptr := 0, chain := ["root"] }
      [("intParam", testParameter "intParam" .Int "" "invalid" false)] [] [] "intParam"
      (testParameter "intParam" .Int "" "invalid" false) (by decide)
      (Or.inl ⟨rfl, by decide, _, (show Atoi "invalid"
        = .error (.NumError "Atoi" "invalid" .ErrSyntax) by decide)⟩)).2.1 [] [],
    ((register_panics_on_invalid_default { ptr := 0, chain := ["root"] }
      [("intParam", testParameter "intParam" .Int "" "invalid" false)] [] [] "intParam"
      (testParameter "intParam" .Int "" "invalid" false) (by decide)
      (Or.inl ⟨rfl, by decide, _, (show Atoi "invalid"
        = .error (.NumError "Atoi" "invalid" .ErrSyntax) by decide)⟩)).2.2.2.2
      { testParameter "intParam" .Int "" "" false with ShortName := "i" } [] [] rfl).1
      ⟨rfl, Or.inr ⟨by decide, by simp⟩⟩ |>.1 rfl⟩

theorem registerParameter_unknown_kind (cmd : Command) (key : String) (p : Parameter)
    (flags : FlagSet) (reg : Registry) (name : String) (hkind : p.TypeKind = .Other name) :
    ∃ msg, registerParameter cmd key p flags reg = .panic msg
      ∧ (key = p.Name → msg = "RegisterParameters: unknown parameter type") := by
  by_cases hk : key = p.Name
  · have hn : ¬ (key != p.Name) = true := by simp [hk]
    refine ⟨"RegisterParameters: unknown parameter type", ?_, fun _ => rfl⟩
    rw [registerParameter, if_neg hn, hkind]
  · exact ⟨_, registerParameter_name_mismatch cmd key p flags reg hk, fun e => absurd e hk⟩

/-- C18, counterexample: a configuration whose only entry has key `Name`, the
kind string and an empty `DefaultValue`, with the short name `ab`: the entry
is valid in the sense of the claim, and `RegisterParameters` panics in the
flag facility. -/
theorem register_valid_entry_refused :
    validEntry ("p", { testParameter "p" .String "" "" false with ShortName := "ab" }) = true
    ∧ RegisterParameters { ptr := 0, chain := ["root"] }
        [("p", { testParameter "p" .String "" "" false with ShortName := "ab" })] [] []
      = .panic "\"ab\" shorthand is more than one ASCII character" := by
  decide

/-- C18, amended. `RegisterParameters` panics for every configuration that
holds an entry whose kind is none of string, int, bool, array or slice (the
iteration that reaches it, when its key is its `Name`, panics with "unknown
parameter type"); and for a configuration whose entries all have key `Name`, a
recognized kind and, for int and bool, an empty or convertible `DefaultValue`,
it completes without panic exactly when the flag facility accepts the flags:
no `Name` is defined on the command already or occurs twice, and every
non-empty `ShortName` is one byte, is the shorthand of no flag of the command
and is not the `ShortName` of another entry. -/
theorem register_panics_on_unknown_kind (cmd : Command) (cfg : List (String × Parameter))
    (flags : FlagSet) (reg : Registry) :
    (∀ (key : String) (p : Parameter) (name : String), (key, p) ∈ cfg →
        p.TypeKind = .Other name →
        (∃ msg, RegisterParameters cmd cfg flags reg = .panic msg)
          ∧ ∀ (flags0 : FlagSet) (reg0 : Registry),
              registerParameter cmd p.Name p flags0 reg0
                = .panic "RegisterParameters: unknown parameter type")
      ∧ ((∀ e ∈ cfg, validEntry e = true) →
          ((∃ flags' reg', RegisterParameters cmd cfg flags reg = .done flags' reg')
            ↔ facilityAccepts flags cfg = true))
      ∧ (facilityAccepts flags cfg = true
          ↔ (∀ e ∈ cfg, flags.Lookup e.2.Name = none
              ∧ (e.2.ShortName = ""
                ∨ (goLen e.2.ShortName = 1 ∧ ∀ g ∈ flags, g.Shorthand ≠ e.2.ShortName)))
            ∧ cfg.Pairwise (fun a b => a.2.Name ≠ b.2.Name
                ∧ (b.2.ShortName = "" ∨ a.2.ShortName ≠ b.2.ShortName))) := by
  refine ⟨?_, ?_, facilityAccepts_iff flags cfg⟩
  · intro key p name hmem hkind
    refine ⟨?_, ?_⟩
    · exact RegisterParameters_panics_of_entry cmd key p
        (fun f r => by
          obtain ⟨msg, h, _⟩ := registerParameter_unknown_kind cmd key p f r name hkind
          exact ⟨msg, h⟩) cfg flags reg hmem
    · intro flags0 reg0
      obtain ⟨msg, h, hm⟩ := registerParameter_unknown_kind cmd p.Name p flags0 reg0 name hkind
      rw [h, hm rfl]
  · intro hv
    constructor
    · rintro ⟨flags', reg', h⟩
      exact RegisterParameters_accepts cmd cfg flags reg flags' reg'
        (fun e he => by
          have := hv e he
          unfold validEntry at this
          simp only [Bool.and_eq_true, beq_iff_eq] at this
          exact this.1) h
    · intro hacc
      obtain ⟨added, _, h⟩ := RegisterParameters_done cmd cfg flags reg hv hacc
      exact ⟨_, _, h⟩

/-- Witness of C18: the test "should panic on unknown parameter type" (kind
`float64`), and a configuration with one valid entry of each kind, two of them
with short names. -/
theorem register_panics_on_unknown_kind_witness :
    (∃ msg, RegisterParameters { ptr := 0, chain := ["root"] }
        [("testParam", testParameter "testParam" (.Other "float64") "" "" false)] [] []
        = .panic msg)
      ∧ ∃ flags' reg', RegisterParameters { ptr := 0, chain := ["root"] }
          [("s", { testParameter "s" .String "" "x" false with ShortName := "x" }),
            ("i", testParameter "i" .Int "" "5" false),
            ("b", testParameter "b" .Bool "" "" false),
            ("a", { testParameter "a" .Array "" "u v" false with ShortName := "y" })] [] []
          = .done flags' reg' :=
  ⟨((register_panics_on_unknown_kind { ptr := 0, chain := ["root"] }
      [("testParam", testParameter "testParam" (.Other "float64") "" "" false)] [] []).1
      "testParam" (testParameter "testParam" (.Other "float64") "" "" false) "float64"
      (by decide) rfl).1,
    ((register_panics_on_unknown_kind { ptr := 0, chain := ["root"] }
      [("s", { testParameter "s" .String "" "x" false with ShortName := "x" }),
        ("i", testParameter "i" .Int "" "5" false),
        ("b", testParameter "b" .Bool "" "" false),
        ("a", { testParameter "a" .Array "" "u v" false with ShortName := "y" })] [] []).2.1
      (by decide)).mpr (by decide)⟩

theorem GoMap.get_set_same {K V : Type} [DecidableEq K] (m : GoMap K (List V)) (k : K)
    (v : List V) : GoMap.get (GoMap.set m k v) k = v := by
  induction m with
  | nil => simp [GoMap.set, GoMap.get]
  | cons e m ih =>
    obtain ⟨k', v'⟩ := e
    by_cases h : k' = k
    · simp [GoMap.set, GoMap.get, h]
    · simp [GoMap.set, GoMap.get, h, ih]

theorem GoMap.get_set_other {K V : Type} [DecidableEq K] (m : GoMap K (List V)) (k k' : K)
    (v : List V) (hne : k' ≠ k) : GoMap.get (GoMap.set m k v) k' = GoMap.get m k' := by
  induction m with
  | nil =>
    have : ¬ k = k' := fun e => hne e.symm
    simp [GoMap.set, GoMap.get, this]
  | cons e m ih =>
    obtain ⟨k0, v0⟩ := e
    by_cases h : k0 = k
    · subst h
      have : ¬ k0 = k' := fun e => hne e.symm
      simp [GoMap.set, GoMap.get, this]
    · by_cases h' : k0 = k'
      · subst h'
        simp [GoMap.set, GoMap.get, h]
      · simp [GoMap.set, GoMap.get, h, h', ih]

theorem GoMap.keys_set {K V : Type} [DecidableEq K] (m : GoMap K V) (k : K) (v : V) :
    (GoMap.set m k v).map Prod.fst
      = if k ∈ m.map Prod.fst then m.map Prod.fst else m.map Prod.fst ++ [k] := by
  induction m with
  | nil => simp [GoMap.set]
  | cons e m ih =>
    obtain ⟨k0, v0⟩ := e
    by_cases h : k0 = k
    · subst h
      simp [GoMap.set]
    · have h' : ¬ k = k0 := fun e => h e.symm
      simp only [GoMap.set, h, if_false, List.map_cons, ih, List.mem_cons, h', false_or]
      by_cases hm : k ∈ m.map Prod.fst
      · simp [hm]
      · simp [hm]

theorem GoMap.get_of_not_mem {K V : Type} [DecidableEq K] (m : GoMap K (List V)) (k : K)
    (h : k ∉ m.map Prod.fst) : GoMap.get m k = [] := by
  induction m with
  | nil => rfl
  | cons e m ih =>
    obtain ⟨k0, v0⟩ := e
    simp only [List.map_cons, List.mem_cons, not_or] at h
    have h0 : ¬ k0 = k := fun e => h.1 e.symm
    simp [GoMap.get, h0, ih h.2]

theorem record_get_same (reg : Registry) (cmd : Command) (t : String) :
    GoMap.get (recordArrayParamForCommand reg cmd t) cmd = GoMap.get reg cmd ++ [t] := by
  unfold recordArrayParamForCommand
  exact GoMap.get_set_same _ _ _

theorem record_get_other (reg : Registry) (cmd c : Command) (t : String) (hne : c ≠ cmd) :
    GoMap.get (recordArrayParamForCommand reg cmd t) c = GoMap.get reg c := by
  unfold recordArrayParamForCommand
  exact GoMap.get_set_other _ _ _ _ hne

theorem record_keys (reg : Registry) (cmd : Command) (t : String) :
    (recordArrayParamForCommand reg cmd t).map Prod.fst
      = if cmd ∈ reg.map Prod.fst then reg.map Prod.fst else reg.map Prod.fst ++ [cmd] := by
  unfold recordArrayParamForCommand
  exact GoMap.keys_set _ _ _

theorem record_all_get (cmd : Command) :
    ∀ (tokens : List String) (reg : Registry),
      GoMap.get (tokens.foldl (fun r t => recordArrayParamForCommand r cmd t) reg) cmd
          = GoMap.get reg cmd ++ tokens
        ∧ (∀ c, c ≠ cmd →
            GoMap.get (tokens.foldl (fun r t => recordArrayParamForCommand r cmd t) reg) c
              = GoMap.get reg c)
        ∧ ((reg.map Prod.fst).Nodup →
            ((tokens.foldl (fun r t => recordArrayParamForCommand r cmd t) reg).map
              Prod.fst).Nodup)
        ∧ (∀ c, c ∈ (tokens.foldl (fun r t => recordArrayParamForCommand r cmd t) reg).map
              Prod.fst → c ∈ reg.map Prod.fst ∨ c = cmd) := by
  intro tokens
  induction tokens with
  | nil =>
    intro reg
    exact ⟨by simp, fun c _ => rfl, fun h => h, fun c h => Or.inl h⟩
  | cons t tokens ih =>
    intro reg
    obtain ⟨h1, h2, h3, h4⟩ := ih (recordArrayParamForCommand reg cmd t)
    simp only [List.foldl_cons]
    refine ⟨?_, ?_, ?_, ?_⟩
    · rw [h1, record_get_same]; simp
    · intro c hc
      rw [h2 c hc, record_get_other reg cmd c t hc]
    · intro hn
      apply h3
      rw [record_keys]
      by_cases hm : cmd ∈ reg.map Prod.fst
      · rw [if_pos hm]; exact hn
      · rw [if_neg hm]
        exact List.Nodup.append hn (List.nodup_singleton _) (by simpa using hm)
    · intro c hc
      rcases h4 c hc with h | h
      · rw [record_keys] at h
        by_cases hm : cmd ∈ reg.map Prod.fst
        · rw [if_pos hm] at h; exact Or.inl h
        · rw [if_neg hm] at h
          rcases List.mem_append.mp h with h | h
          · exact Or.inl h
          · exact Or.inr (by simpa using h)
      · exact Or.inr h

theorem build_get_aux (cmd : Command) :
    ∀ (reg : Registry) (acc : GoMap String (List String)),
      (reg.map Prod.fst).Nodup →
      (∀ c ∈ reg.map Prod.fst, c ≠ cmd → strippedCommandPath c ≠ strippedCommandPath cmd) →
      GoMap.get (reg.foldl (fun arrayParams entry =>
          GoMap.set arrayParams (strippedCommandPath entry.1) entry.2) acc)
          (strippedCommandPath cmd)
        = if cmd ∈ reg.map Prod.fst then GoMap.get reg cmd
          else GoMap.get acc (strippedCommandPath cmd) := by
  intro reg
  induction reg with
  | nil => intro acc _ _; simp
  | cons e reg ih =>
    intro acc hn hp
    obtain ⟨c, v⟩ := e
    have hn' : (reg.map Prod.fst).Nodup := (List.nodup_cons.mp hn).2
    have hc : c ∉ reg.map Prod.fst := (List.nodup_cons.mp hn).1
    have hp' : ∀ c' ∈ reg.map Prod.fst, c' ≠ cmd →
        strippedCommandPath c' ≠ strippedCommandPath cmd :=
      fun c' h => hp c' (by simp only [List.map_cons, List.mem_cons]; exact Or.inr h)
    simp only [List.foldl_cons]
    rw [ih _ hn' hp']
    by_cases hcc : c = cmd
    · subst hcc
      simp only [hc, if_false, List.map_cons, List.mem_cons, true_or, if_true]
      rw [GoMap.get_set_same]
      simp [GoMap.get]
    · have hpath := hp c (by simp) hcc
      have hcc' : ¬ cmd = c := fun e => hcc e.symm
      simp only [List.map_cons, List.mem_cons, hcc', false_or]
      rw [GoMap.get_set_other _ _ _ _ (fun e => hpath e.symm)]
      simp [GoMap.get, hcc]

theorem build_get (cmd : Command) (reg : Registry) (hn : (reg.map Prod.fst).Nodup)
    (hp : ∀ c ∈ reg.map Prod.fst, c ≠ cmd →
      strippedCommandPath c ≠ strippedCommandPath cmd) :
    GoMap.get (buildArrayParamsData reg) (strippedCommandPath cmd) = GoMap.get reg cmd := by
  unfold buildArrayParamsData
  rw [build_get_aux cmd reg [] hn hp]
  by_cases hm : cmd ∈ reg.map Prod.fst
  · rw [if_pos hm]
  · rw [if_neg hm, GoMap.get_of_not_mem reg cmd hm]
    rfl

/-- C19. Declarator-to-registry link: for a valid configuration, that is, one
whose entries are valid (key `Name`, recognized kind, convertible default) and
whose flags the flag facility accepts on the command, `RegisterParameters`
completes and the token list of the command `cmd` is its previous list
followed, entry by entry in iteration order, by the tokens of the string-array
entries: `"--" ++ Name` and then, exactly when `ShortName` is not empty,
`"-" ++ ShortName`; string, int and bool entries contribute nothing, and the
lists of the other commands are unchanged.  Consequently, when the registry
has one entry per command and no other command shares the stripped path of
`cmd`, these tokens are array-valued for every argv whose command path is the
stripped path of `cmd`. -/
theorem register_records_array_tokens (cmd : Command) (cfg : List (String × Parameter))
    (flags : FlagSet) (reg : Registry) (hv : ∀ e ∈ cfg, validEntry e = true)
    (hacc : facilityAccepts flags cfg = true) :
    ∃ flags' reg', RegisterParameters cmd cfg flags reg = .done flags' reg'
      ∧ GoMap.get reg' cmd = GoMap.get reg cmd ++ cfg.flatMap arrayTokens
      ∧ (∀ c, c ≠ cmd → GoMap.get reg' c = GoMap.get reg c)
      ∧ (∀ e ∈ cfg, (e.2.TypeKind = .Array ∨ e.2.TypeKind = .Slice) →
          arrayTokens e = ("--" ++ e.2.Name)
            :: (if e.2.ShortName = "" then [] else ["-" ++ e.2.ShortName]))
      ∧ (∀ e ∈ cfg, (e.2.TypeKind = .String ∨ e.2.TypeKind = .Int ∨ e.2.TypeKind = .Bool) →
          arrayTokens e = [])
      ∧ ((reg.map Prod.fst).Nodup →
          (∀ c ∈ reg.map Prod.fst, c ≠ cmd →
            strippedCommandPath c ≠ strippedCommandPath cmd) →
          ∀ argv, joinSpace (commandPathArray argv) = strippedCommandPath cmd →
            multiFlagsOf reg' argv = GoMap.get reg cmd ++ cfg.flatMap arrayTokens) := by
  obtain ⟨added, _, hreg⟩ := RegisterParameters_done cmd cfg flags reg hv hacc
  obtain ⟨h1, h2, h3, h4⟩ := record_all_get cmd (cfg.flatMap arrayTokens) reg
  refine ⟨_, _, hreg, h1, h2, ?_, ?_, ?_⟩
  · intro e _ hk
    rcases hk with hk | hk
    · by_cases hs : e.2.ShortName = "" <;> simp [arrayTokens, hk, hs]
    · by_cases hs : e.2.ShortName = "" <;> simp [arrayTokens, hk, hs]
  · intro e _ hk
    rcases hk with hk | hk | hk <;> simp [arrayTokens, hk]
  · intro hn hp argv hargv
    unfold multiFlagsOf
    rw [hargv, build_get cmd _ (h3 hn), h1]
    intro c hc hne
    rcases h4 c hc with h | h
    · exact hp c h hne
    · exact absurd h hne

/-- Witness of C19: registering the array parameter `x` (short `s`) on the
subcommand `sub` of a fresh registry records `--x` and `-s`, both are
array-valued for the path `sub`, and both are expanded. -/
theorem register_records_array_tokens_witness :
    RegisterParameters testSubCommand [("x", testArrayParameter)] [] []
        = .done [testArrayFlag] [(testSubCommand, ["--x", "-s"])]
      ∧ multiFlagsOf [(testSubCommand, ["--x", "-s"])] ["sub", "--x", "a", "b", "-s", "c", "d"]
        = ["--x", "-s"]
      ∧ ExpandArrayParameters [(testSubCommand, ["--x", "-s"])]
          ["sub", "--x", "a", "b", "-s", "c", "d"]
        = .ok ["sub", "--x", "a", "--x", "b", "-s", "c", "-s", "d"] := by
  obtain ⟨flags', reg', h1, _, _, _, _, h6⟩ :=
    register_records_array_tokens testSubCommand [("x", testArrayParameter)] [] []
      (by decide) (by decide)
  have e := (show RegisterParameters testSubCommand [("x", testArrayParameter)] [] []
    = .done [testArrayFlag] [(testSubCommand, ["--x", "-s"])] by decide)
  have e2 : reg' = [(testSubCommand, ["--x", "-s"])] :=
    (Registered.done.inj (e.symm.trans h1)).2.symm
  subst e2
  refine ⟨e, ?_, by decide⟩
  exact h6 (by decide) (by decide) ["sub", "--x", "a", "b", "-s", "c", "d"] (by decide)

/-- C20. For a valid configuration, that is, one whose entries are valid (key
`Name`, recognized kind, convertible default) and whose flags the flag
facility accepts on the command, `RegisterParameters` completes and the flag
set of the command is its previous flag set followed by exactly one flag per
entry, in iteration order: the flag is named `Name`, has the shorthand
`ShortName` (empty when `ShortName` is empty), the usage `Usage`, is not
changed, has the type of the kind of the entry, and its value, which is its
default, is the converted `DefaultValue` (string: verbatim; int: the result of
`Atoi`, 0 when empty; bool: the result of `ParseBool`, false when empty;
string array: `Fields DefaultValue`, which the facility also returns as the
value of the flag). -/
theorem register_one_flag_per_entry (cmd : Command) (cfg : List (String × Parameter))
    (flags : FlagSet) (reg : Registry) (hv : ∀ e ∈ cfg, validEntry e = true)
    (hacc : facilityAccepts flags cfg = true) :
    ∃ added reg', RegisterParameters cmd cfg flags reg = .done (flags ++ added) reg'
      ∧ List.Forall₂ registersAs cfg added
      ∧ added.length = cfg.length
      ∧ ∀ e f, (e, f) ∈ cfg.zip added →
          f.Name = e.2.Name ∧ f.Shorthand = e.2.ShortName ∧ f.Usage = e.2.Usage
            ∧ ((e.2.TypeKind = .Array ∨ e.2.TypeKind = .Slice) →
                f.Value = .stringArray (Fields e.2.DefaultValue)
                  ∧ stringArrayConv f.Value.render = .ok (Fields e.2.DefaultValue)) := by
  obtain ⟨added, hadded, hreg⟩ := RegisterParameters_done cmd cfg flags reg hv hacc
  refine ⟨added, _, hreg, hadded, hadded.length_eq.symm, ?_⟩
  intro e f hef
  have hr : registersAs e f := by
    have := List.forall₂_iff_zip.mp hadded
    exact this.2 hef
  obtain ⟨h1, h2, h3, _, _, h6⟩ := hr
  refine ⟨h1, h2, h3, fun hk => ?_⟩
  have hval : f.Value = .stringArray (Fields e.2.DefaultValue) := by
    rcases hk with hk | hk <;> (rw [hk] at h6; exact h6)
  refine ⟨hval, ?_⟩
  rw [hval, stringArrayConv_render, stringArrayReadBack_Fields]

/-- Witness of C20 on the test "should register array parameter with short
from". -/
theorem register_one_flag_per_entry_witness :
    RegisterParameters testSubCommand [("x", testArrayParameter)] [] []
        = .done [testArrayFlag] [(testSubCommand, ["--x", "-s"])]
      ∧ List.Forall₂ registersAs [("x", testArrayParameter)] [testArrayFlag] := by
  obtain ⟨added, reg', h1, h2, _⟩ :=
    register_one_flag_per_entry testSubCommand [("x", testArrayParameter)] [] []
      (by decide) (by decide)
  have e := (show RegisterParameters testSubCommand [("x", testArrayParameter)] [] []
    = .done [testArrayFlag] [(testSubCommand, ["--x", "-s"])] by decide)
  have e2 : added = [testArrayFlag] := by
    have := (Registered.done.inj (e.symm.trans h1)).1
    simpa using this.symm
  subst e2
  exact ⟨e, h2⟩

theorem resolveField_default (flags : FlagSet) (env : Env) (p : Parameter) (f : Flag)
    (old v : Value)
    (hflag : flags.Lookup p.Name = some f) (hchanged : f.Changed = false)
    (henv : p.EnvVarName = "" ∨ Getenv env p.EnvVarName = "") (hreq : p.Required = false)
    (hval : (∃ o, old = .string o ∧ v = .string p.DefaultValue)
      ∨ (∃ o n, old = .int o ∧ f.Value = .int n ∧ v = .int n)
      ∨ (∃ o b, old = .bool o ∧ f.Value = .bool b ∧ v = .bool b)
      ∨ (∃ o l, old = .stringSlice o ∧ f.Value = .stringArray l
          ∧ v = .stringSlice (stringArrayReadBack l))) :
    resolveField flags env p old = .set v := by
  have hc : flags.Changed p.Name = false := by
    simp [FlagSet.Changed, hflag, hchanged]
  have he := envValue_none env p henv
  rcases hval with ⟨o, h1, h2⟩ | ⟨o, n, h1, h2, h3⟩ | ⟨o, b, h1, h2, h3⟩ | ⟨o, l, h1, h2, h3⟩
  · subst h1 h2
    simp [resolveField, Value.Kind, hc, he, hreq]
  · subst h1 h3
    simp [resolveField, Value.Kind, hc, he, hreq, FlagSet.GetInt, hflag, h2]
  · subst h1 h3
    simp [resolveField, Value.Kind, hc, he, hreq, FlagSet.GetBool, hflag, h2]
  · subst h1 h3
    simp [resolveField, Value.Kind, hc, he, hreq,
      GetStringArray_of_held flags p.Name f l hflag h2, setStrings]

theorem Lookup_append_fresh (flags : FlagSet) (f : Flag) (name : String)
    (hfresh : flags.Lookup name = none) (hname : f.Name = name) :
    FlagSet.Lookup (flags ++ [f]) name = some f := by
  unfold FlagSet.Lookup at *
  rw [List.find?_append, hfresh]
  simp [hname]

/-! ## Entry-level lemmas on the resolver -/

theorem bindField_fields_of_fail (flags : FlagSet) (env : Env) (typeName tag : String)
    (p : Parameter) :
    ∀ fields : List Field, (bindField flags env typeName tag p fields).1 ≠ .nil →
      (bindField flags env typeName tag p fields).2 = fields := by
  intro fields
  induction fields with
  | nil => intro _; simp [bindField]
  | cons field rest ih =>
    rw [bindField]
    by_cases h1 : (field.paramName == "") = true
    · simp only [h1, if_true]
      intro h
      rw [ih h]
    · by_cases h2 : (field.paramName == tag) = true
      · simp only [h1, h2, if_true, Bool.false_eq_true, if_false]
        by_cases hc : field.CanSet = true
        · simp only [hc, if_true]
          cases resolveField flags env p field.value with
          | set v => simp
          | fail err => simp
          | abort msg => simp
        · simp [hc]
      · simp only [h1, h2, Bool.false_eq_true, if_false]
        intro h
        rw [ih h]

theorem Value.kind_shape (v : Value) : v.shape.Kind = v.Kind := by
  cases v <;> rfl

theorem setStrings_shape (v : Value) (val : List String) :
    setStrings v.shape val = setStrings v val := by
  cases v <;> rfl

theorem resolveField_shape (flags : FlagSet) (env : Env) (p : Parameter) (v : Value) :
    resolveField flags env p v.shape = resolveField flags env p v := by
  unfold resolveField
  rw [Value.kind_shape]
  simp only [setStrings_shape]

theorem resolveField_set_shape (flags : FlagSet) (env : Env) (p : Parameter) (old v : Value)
    (h : resolveField flags env p old = .set v) : v.shape = old.shape := by
  unfold resolveField at h
  cases old <;> simp only [Value.Kind, setStrings] at h <;>
    (repeat' split at h) <;> simp_all [Value.shape] <;> (subst_vars; rfl)

theorem bindField_decl (flags : FlagSet) (env : Env) (typeName tag : String)
    (p : Parameter) :
    ∀ fields : List Field,
      (bindField flags env typeName tag p (fields.map Field.decl)).1
          = (bindField flags env typeName tag p fields).1
        ∧ (bindField flags env typeName tag p fields).2.map Field.decl
          = fields.map Field.decl := by
  intro fields
  induction fields with
  | nil => simp [bindField]
  | cons field rest ih =>
    rw [List.map_cons, bindField, bindField]
    have hn : field.decl.paramName = field.paramName := rfl
    have hs : field.decl.CanSet = field.CanSet := rfl
    have hv : field.decl.value = field.value.shape := rfl
    rw [hn, hs, hv, resolveField_shape]
    by_cases h1 : (field.paramName == "") = true
    · simp only [h1, if_true, List.map_cons]
      exact ⟨ih.1, by rw [ih.2]⟩
    · by_cases h2 : (field.paramName == tag) = true
      · simp only [h1, h2, if_true, Bool.false_eq_true, if_false]
        by_cases hc : field.CanSet = true
        · simp only [hc, if_true]
          cases hr : resolveField flags env p field.value with
          | set v =>
            refine ⟨rfl, ?_⟩
            simp only [List.map_cons, List.cons.injEq, and_true]
            have := resolveField_set_shape flags env p field.value v hr
            simp only [Field.decl, this, hc]
          | fail err => exact ⟨rfl, rfl⟩
          | abort msg => exact ⟨rfl, rfl⟩
        · simp [hc, Field.decl]
      · simp only [h1, h2, Bool.false_eq_true, if_false, List.map_cons]
        exact ⟨ih.1, by rw [ih.2]⟩

theorem bindField_outcome_congr (flags : FlagSet) (env : Env) (typeName tag : String)
    (p : Parameter) (fields fields' : List Field)
    (h : fields.map Field.decl = fields'.map Field.decl) :
    (bindField flags env typeName tag p fields).1
      = (bindField flags env typeName tag p fields').1 := by
  rw [← (bindField_decl flags env typeName tag p fields).1,
    ← (bindField_decl flags env typeName tag p fields').1, h]

theorem ParseParameters_decl (flags : FlagSet) (env : Env) :
    ∀ (cfg : List (String × Parameter)) (params : Params),
      (ParseParameters flags env cfg params).2.typeName = params.typeName
        ∧ (ParseParameters flags env cfg params).2.fields.map Field.decl
          = params.fields.map Field.decl := by
  intro cfg
  induction cfg with
  | nil => intro params; simp [ParseParameters]
  | cons entry cfg ih =>
    intro params
    obtain ⟨tag, p⟩ := entry
    rw [ParseParameters]
    have hd := (bindField_decl flags env params.typeName tag p params.fields).2
    generalize bindField flags env params.typeName tag p params.fields = r at hd ⊢
    obtain ⟨o, fields⟩ := r
    cases o with
    | nil =>
      have := ih { params with fields := fields }
      exact ⟨this.1, this.2.trans hd⟩
    | error err => exact ⟨rfl, hd⟩
    | panic msg => exact ⟨rfl, hd⟩

theorem entryOutcome_congr (flags : FlagSet) (env : Env) (params params' : Params)
    (entry : String × Parameter) (ht : params'.typeName = params.typeName)
    (hf : params'.fields.map Field.decl = params.fields.map Field.decl) :
    entryOutcome flags env params' entry = entryOutcome flags env params entry := by
  unfold entryOutcome
  rw [ht]
  exact bindField_outcome_congr flags env _ _ _ _ _ hf

theorem ParseParameters_outcome (flags : FlagSet) (env : Env) :
    ∀ (cfg : List (String × Parameter)) (params : Params),
      (ParseParameters flags env cfg params).1
        = firstFailure (cfg.map (entryOutcome flags env params)) := by
  intro cfg
  induction cfg with
  | nil => intro params; simp [ParseParameters, firstFailure]
  | cons entry cfg ih =>
    intro params
    obtain ⟨tag, p⟩ := entry
    rw [ParseParameters, List.map_cons]
    have hd := (bindField_decl flags env params.typeName tag p params.fields).2
    have ho : entryOutcome flags env params (tag, p)
        = (bindField flags env params.typeName tag p params.fields).1 := rfl
    rw [ho]
    generalize bindField flags env params.typeName tag p params.fields = r at hd ⊢
    obtain ⟨o, fields⟩ := r
    cases o with
    | nil =>
      simp only [firstFailure]
      rw [ih]
      congr 1
      apply List.map_congr_left
      intro e _
      exact entryOutcome_congr flags env params _ e rfl hd
    | error err => simp [firstFailure]
    | panic msg => simp [firstFailure]

theorem parse_fail_at (flags : FlagSet) (env : Env) (before rest : List (String × Parameter))
    (entry : String × Parameter) (params params' : Params)
    (hbefore : ParseParameters flags env before params = (.nil, params'))
    (hfail : entryOutcome flags env params entry ≠ .nil) :
    ParseParameters flags env (before ++ entry :: rest) params
      = (entryOutcome flags env params entry, params') := by
  rw [ParseParameters_append flags env before _ params params' hbefore]
  have hd := ParseParameters_decl flags env before params
  rw [hbefore] at hd
  have hc := entryOutcome_congr flags env params params' entry hd.1 hd.2
  rw [← hc] at hfail ⊢
  obtain ⟨tag, p⟩ := entry
  rw [ParseParameters]
  unfold entryOutcome at hfail ⊢
  have hu := bindField_fields_of_fail flags env params'.typeName tag p params'.fields hfail
  generalize bindField flags env params'.typeName tag p params'.fields = r at hfail hu ⊢
  obtain ⟨o, fields⟩ := r
  simp only at hu hfail
  subst hu
  cases o with
  | nil => exact absurd rfl hfail
  | error err => rfl
  | panic msg => rfl

theorem firstFailure_ne_nil (os : List Outcome) (o : Outcome) (hm : o ∈ os) (hne : o ≠ .nil) :
    firstFailure os ≠ .nil := by
  induction os with
  | nil => simp at hm
  | cons a os ih =>
    cases a with
    | nil =>
      simp only [firstFailure]
      rcases List.mem_cons.mp hm with h | h
      · exact absurd h hne
      · exact ih h
    | error err => simp [firstFailure]
    | panic msg => simp [firstFailure]

theorem parse_never_nil_of_entry (flags : FlagSet) (env : Env)
    (cfg : List (String × Parameter)) (params : Params) (entry : String × Parameter)
    (hm : entry ∈ cfg) (hfail : entryOutcome flags env params entry ≠ .nil) :
    (ParseParameters flags env cfg params).1 ≠ .nil := by
  rw [ParseParameters_outcome]
  exact firstFailure_ne_nil _ _ (List.mem_map_of_mem _ hm) hfail

theorem configFault_some (flags : FlagSet) (env : Env) (typeName tag : String)
    (p : Parameter) :
    ∀ (fields : List Field) (msg : String), configFault typeName tag p fields = some msg →
      bindField flags env typeName tag p fields = (.panic msg, fields) := by
  intro fields
  induction fields with
  | nil =>
    intro msg h
    simp only [configFault, Option.some.injEq] at h
    simp [bindField, h]
  | cons field rest ih =>
    intro msg h
    rw [configFault] at h
    rw [bindField]
    by_cases h1 : (field.paramName == "") = true
    · simp only [h1, if_true] at h ⊢
      rw [ih msg h]
    · by_cases h2 : (field.paramName == tag) = true
      · simp only [h1, h2, if_true, Bool.false_eq_true, if_false] at h ⊢
        by_cases hc : field.CanSet = true
        · simp only [hc, if_true] at h ⊢
          cases hv : field.value with
          | other k =>
            rw [hv] at h
            simp only [Value.Kind, Option.some.injEq] at h
            simp [resolveField, Value.Kind, h]
          | _ => rw [hv] at h; simp [Value.Kind] at h
        · simp only [hc, Bool.false_eq_true, if_false, Option.some.injEq] at h ⊢
          rw [h]
      · simp only [h1, h2, Bool.false_eq_true, if_false] at h ⊢
        rw [ih msg h]

theorem bindField_matched (flags : FlagSet) (env : Env) (typeName tag : String)
    (p : Parameter) :
    ∀ (fields : List Field) (field : Field), matchedField tag fields = some field →
      field.CanSet = true →
      (bindField flags env typeName tag p fields).1
        = match resolveField flags env p field.value with
          | .set _ => .nil
          | .fail err => .error err
          | .abort msg => .panic msg := by
  intro fields
  induction fields with
  | nil => intro field h; simp [matchedField] at h
  | cons f rest ih =>
    intro field h hc
    rw [matchedField] at h
    rw [bindField]
    by_cases h1 : (f.paramName == "") = true
    · simp only [h1, if_true] at h ⊢
      exact ih field h hc
    · by_cases h2 : (f.paramName == tag) = true
      · simp only [h1, h2, if_true, Bool.false_eq_true, if_false, Option.some.injEq] at h ⊢
        subst h
        simp only [hc, if_true]
        cases resolveField flags env p f.value <;> rfl
      · simp only [h1, h2, Bool.false_eq_true, if_false] at h ⊢
        exact ih field h hc

theorem configFault_none (typeName tag : String) (p : Parameter) :
    ∀ (fields : List Field), configFault typeName tag p fields = none →
      ∃ field, matchedField tag fields = some field ∧ field.CanSet = true
        ∧ ∀ k, field.value.Kind ≠ .Other k := by
  intro fields
  induction fields with
  | nil => intro h; simp [configFault] at h
  | cons f rest ih =>
    intro h
    rw [configFault] at h
    rw [matchedField]
    by_cases h1 : (f.paramName == "") = true
    · simp only [h1, if_true] at h ⊢
      exact ih h
    · by_cases h2 : (f.paramName == tag) = true
      · simp only [h1, h2, if_true, Bool.false_eq_true, if_false] at h ⊢
        by_cases hc : f.CanSet = true
        · simp only [hc, if_true] at h
          refine ⟨f, rfl, hc, ?_⟩
          intro k hk
          rw [hk] at h
          simp at h
        · simp [hc] at h
      · simp only [h1, h2, Bool.false_eq_true, if_false] at h ⊢
        exact ih h

/-! ## Claims on fatal errors of the resolver -/

theorem configFault_of_no_field (typeName tag : String) (p : Parameter) :
    ∀ (fields : List Field), (∀ f ∈ fields, f.paramName = "" ∨ f.paramName ≠ tag) →
      configFault typeName tag p fields
        = some ("ParseParameters: field with tag '" ++ tag ++ "' not found in '" ++ typeName
            ++ "' struct") := by
  intro fields
  induction fields with
  | nil => intro _; rfl
  | cons f rest ih =>
    intro h
    have hrest := ih (fun g hg => h g (List.mem_cons_of_mem _ hg))
    rw [configFault]
    by_cases h1 : (f.paramName == "") = true
    · simp only [h1, if_true]; exact hrest
    · have h2 : (f.paramName == tag) = false := by
        rcases h f (List.mem_cons_self _ _) with e | e
        · simp [e] at h1
        · simpa using e
      simp only [h1, h2, Bool.false_eq_true, if_false]; exact hrest

theorem configFault_of_unsettable (typeName tag : String) (p : Parameter) :
    ∀ (fields : List Field) (field : Field), matchedField tag fields = some field →
      field.CanSet = false →
      configFault typeName tag p fields
        = some ("ParseParameters: cannot set value for '" ++ field.Name ++ "' field") := by
  intro fields
  induction fields with
  | nil => intro field h; simp [matchedField] at h
  | cons f rest ih =>
    intro field h hc
    rw [matchedField] at h
    rw [configFault]
    by_cases h1 : (f.paramName == "") = true
    · simp only [h1, if_true] at h ⊢
      exact ih field h hc
    · by_cases h2 : (f.paramName == tag) = true
      · simp only [h1, h2, if_true, Bool.false_eq_true, if_false, Option.some.injEq] at h ⊢
        subst h
        simp [hc]
      · simp only [h1, h2, Bool.false_eq_true, if_false] at h ⊢
        exact ih field h hc

theorem configFault_of_other_kind (typeName tag : String) (p : Parameter) :
    ∀ (fields : List Field) (field : Field) (k : String),
      matchedField tag fields = some field → field.value.Kind = .Other k →
      configFault typeName tag p fields
        = some (if field.CanSet then
            "ParseParameters: not supported parameter type '" ++ k ++ "' for '" ++ p.Name
              ++ "' parameter"
          else "ParseParameters: cannot set value for '" ++ field.Name ++ "' field") := by
  intro fields
  induction fields with
  | nil => intro field k h; simp [matchedField] at h
  | cons f rest ih =>
    intro field k h hk
    rw [matchedField] at h
    rw [configFault]
    by_cases h1 : (f.paramName == "") = true
    · simp only [h1, if_true] at h ⊢
      exact ih field k h hk
    · by_cases h2 : (f.paramName == tag) = true
      · simp only [h1, h2, if_true, Bool.false_eq_true, if_false, Option.some.injEq] at h ⊢
        subst h
        by_cases hc : f.CanSet = true
        · simp only [hc, if_true, hk]
        · simp [hc]
      · simp only [h1, h2, Bool.false_eq_true, if_false] at h ⊢
        exact ih field k h hk

theorem parse_panics_of_configFault (flags : FlagSet) (env : Env)
    (cfg : List (String × Parameter)) (params : Params) (tag : String) (p : Parameter)
    (msg : String) (hm : (tag, p) ∈ cfg)
    (hf : configFault params.typeName tag p params.fields = some msg) :
    (ParseParameters flags env cfg params).1 ≠ .nil
      ∧ ∀ (before rest : List (String × Parameter)) (params' : Params),
          cfg = before ++ (tag, p) :: rest →
          ParseParameters flags env before params = (.nil, params') →
          ParseParameters flags env cfg params = (.panic msg, params') := by
  have ho : entryOutcome flags env params (tag, p) = .panic msg := by
    unfold entryOutcome
    rw [configFault_some flags env _ _ _ _ msg hf]
  have hne : entryOutcome flags env params (tag, p) ≠ .nil := by rw [ho]; simp
  refine ⟨parse_never_nil_of_entry flags env cfg params (tag, p) hm hne, ?_⟩
  intro before rest params' hcfg hbefore
  rw [hcfg, parse_fail_at flags env before rest (tag, p) params params' hbefore hne, ho]

/-- C21, counterexample: the struct has an exported string field tagged `x`
followed by an unexported field that carries the same tag, so the key `x` of
the configuration equals the tag of a field that cannot be set; the inner loop
stops at the first field with the tag, binds it, and `ParseParameters` returns
nil. -/
theorem parse_nil_with_unsettable_field_of_same_tag :
    (∃ f ∈ shadowedParams.fields, f.paramName = "x" ∧ f.CanSet = false)
      ∧ ParseParameters [] emptyEnv [("x", testParameter "x" .String "" "d" false)]
          shadowedParams
        = (.nil, { typeName := "ShadowedParams",
                   fields := [{ Name := "Visible", paramName := "x", CanSet := true,
                                value := .string "d" },
                              { Name := "hidden", paramName := "x", CanSet := false,
                                value := .string "" }] }) := by
  decide

/-- C21, amended. Fatal errors for an unmapped key and an unsettable field: let
the configuration hold an entry `(tag, p)`.  If no field of the struct carries
the tag `tag` (fields without a `paramName` tag never match), or if the first
field that carries it cannot be set, then for every flag set and environment
`ParseParameters` does not return nil in any iteration order, and whenever the
entries visited before `(tag, p)` succeed the call panics, with the message
`field with tag '<tag>' not found in '<type>' struct` in the first case and
`cannot set value for '<field>' field` in the second, leaving the struct as
the earlier entries made it. -/
theorem parse_aborts_on_unmapped_or_unsettable_field (cfg : List (String × Parameter))
    (params : Params) (tag : String) (p : Parameter) (hm : (tag, p) ∈ cfg) :
    ((∀ f ∈ params.fields, f.paramName = "" ∨ f.paramName ≠ tag) →
        ∀ (flags : FlagSet) (env : Env),
          (ParseParameters flags env cfg params).1 ≠ .nil
            ∧ ∀ (before rest : List (String × Parameter)) (params' : Params),
                cfg = before ++ (tag, p) :: rest →
                ParseParameters flags env before params = (.nil, params') →
                ParseParameters flags env cfg params
                  = (.panic ("ParseParameters: field with tag '" ++ tag ++ "' not found in '"
                      ++ params.typeName ++ "' struct"), params'))
      ∧ ∀ field, matchedField tag params.fields = some field → field.CanSet = false →
          ∀ (flags : FlagSet) (env : Env),
            (ParseParameters flags env cfg params).1 ≠ .nil
              ∧ ∀ (before rest : List (String × Parameter)) (params' : Params),
                  cfg = before ++ (tag, p) :: rest →
                  ParseParameters flags env before params = (.nil, params') →
                  ParseParameters flags env cfg params
                    = (.panic ("ParseParameters: cannot set value for '" ++ field.Name
                        ++ "' field"), params') :=
  ⟨fun h flags env =>
      parse_panics_of_configFault flags env cfg params tag p _ hm
        (configFault_of_no_field params.typeName tag p params.fields h),
    fun field hf hc flags env =>
      parse_panics_of_configFault flags env cfg params tag p _ hm
        (configFault_of_unsettable params.typeName tag p params.fields field hf hc)⟩

/-- Witness of C21: the test "should panic on field without paramName tag",
and a struct whose only field tagged `x` is unexported. -/
theorem parse_aborts_on_unmapped_or_unsettable_field_witness :
    ParseParameters [testFlag "stringParam" (.string "") false] emptyEnv
        [("stringParam", testParameter "stringParam" .String "" "" false)] badParamsUntagged
      = (.panic "ParseParameters: field with tag 'stringParam' not found in 'BadParams' struct",
          badParamsUntagged)
    ∧ ParseParameters [] emptyEnv [("x", testParameter "x" .String "" "d" false)] hiddenParams
      = (.panic "ParseParameters: cannot set value for 'hidden' field", hiddenParams) :=
  ⟨(((parse_aborts_on_unmapped_or_unsettable_field
      [("stringParam", testParameter "stringParam" .String "" "" false)] badParamsUntagged
      "stringParam" (testParameter "stringParam" .String "" "" false) (by decide)).1
      (by decide) [testFlag "stringParam" (.string "") false] emptyEnv).2
      [] [] badParamsUntagged rfl rfl),
    (((parse_aborts_on_unmapped_or_unsettable_field
      [("x", testParameter "x" .String "" "d" false)] hiddenParams
      "x" (testParameter "x" .String "" "d" false) (by decide)).2
      (Field.mk "hidden" "x" false (.string "")) rfl rfl [] emptyEnv).2
      [] [] hiddenParams rfl rfl)⟩

/-- C22. Unsupported field kind: let the configuration hold an entry
`(tag, p)` and let the first field of the struct that carries the tag `tag`
be of a kind that is none of String, Int, Bool, Array and Slice (the cases of
the switch; Array and Slice are the kinds read as a string array).  Then for
every flag set, every environment and every `p`, required or not,
`ParseParameters` does not return nil in any iteration order, and whenever the
entries visited before `(tag, p)` succeed the call panics: with
`not supported parameter type '<kind>' for '<Name>' parameter` when the field
can be set, with `cannot set value for '<field>' field` when it cannot. -/
theorem parse_panics_on_unsupported_kind (cfg : List (String × Parameter))
    (params : Params) (tag : String) (p : Parameter) (field : Field) (k : String)
    (hm : (tag, p) ∈ cfg) (hfield : matchedField tag params.fields = some field)
    (hkind : field.value.Kind = .Other k) (flags : FlagSet) (env : Env) :
    (ParseParameters flags env cfg params).1 ≠ .nil
      ∧ ∀ (before rest : List (String × Parameter)) (params' : Params),
          cfg = before ++ (tag, p) :: rest →
          ParseParameters flags env before params = (.nil, params') →
          ParseParameters flags env cfg params
            = (.panic (if field.CanSet then
                  "ParseParameters: not supported parameter type '" ++ k ++ "' for '" ++ p.Name
                    ++ "' parameter"
                else "ParseParameters: cannot set value for '" ++ field.Name ++ "' field"),
                params') :=
  parse_panics_of_configFault flags env cfg params tag p _ hm
    (configFault_of_other_kind params.typeName tag p params.fields field k hfield hkind)

/-- Witness of C22: the test "should panic on unsupported parameter type",
a `float64` field tagged `floatParam`. -/
theorem parse_panics_on_unsupported_kind_witness :
    ParseParameters [testFlag "floatParam" (.string "0") false] emptyEnv
        [("floatParam", testParameter "floatParam" (.Other "float64") "" "" false)]
        badParamsFloat
      = (.panic "ParseParameters: not supported parameter type 'float64' for 'floatParam' parameter",
          badParamsFloat) :=
  (parse_panics_on_unsupported_kind
    [("floatParam", testParameter "floatParam" (.Other "float64") "" "" false)]
    badParamsFloat "floatParam" (testParameter "floatParam" (.Other "float64") "" "" false)
    { Name := "FloatParam", paramName := "floatParam", CanSet := true, value := .other "float64" }
    "float64" (by decide) rfl rfl [testFlag "floatParam" (.string "0") false] emptyEnv).2
    [] [] badParamsFloat rfl rfl

/-! ## Claims on the path index -/

theorem indexSpace_no_space : ∀ (cs : List Char), ' ' ∉ cs → indexSpace cs = -1 := by
  intro cs
  induction cs with
  | nil => intro _; rfl
  | cons c cs ih =>
    intro h
    simp only [List.mem_cons, not_or] at h
    have hc : (c == ' ') = false := by
      rw [beq_eq_false_iff_ne]
      exact fun e => h.1 e.symm
    simp [indexSpace, hc, ih h.2]

theorem indexSpace_at_first_space : ∀ (a b : List Char), ' ' ∉ a →
    indexSpace (a ++ ' ' :: b) = (a.length : Int) := by
  intro a
  induction a with
  | nil => intro b _; simp [indexSpace]
  | cons c a ih =>
    intro b h
    simp only [List.mem_cons, not_or] at h
    have hc : (c == ' ') = false := by
      rw [beq_eq_false_iff_ne]
      exact fun e => h.1 e.symm
    have hnn : ¬ ((a.length : Int) < 0) := by omega
    have hi := ih b h.2
    rw [List.cons_append, indexSpace]
    simp only [hc, Bool.false_eq_true, if_false, hi, hnn, List.length_cons]
    push_cast
    rfl

theorem intercalate_go_append (s : String) :
    ∀ (l : List String) (a b : String),
      String.intercalate.go (a ++ b) s l = a ++ String.intercalate.go b s l := by
  intro l
  induction l with
  | nil => intro a b; simp [String.intercalate.go]
  | cons x l ih =>
    intro a b
    simp only [String.intercalate.go]
    rw [← ih a (b ++ s ++ x)]
    simp [String.append_assoc]

theorem joinSpace_cons_cons (root r : String) (rs : List String) :
    joinSpace (root :: r :: rs) = root ++ (" " ++ joinSpace (r :: rs)) := by
  unfold joinSpace
  simp only [String.intercalate, String.intercalate.go]
  rw [String.append_assoc, intercalate_go_append, intercalate_go_append]

theorem joinSpace_singleton (name : String) : joinSpace [name] = name := by
  simp [joinSpace, String.intercalate, String.intercalate.go]

theorem strippedCommandPath_root (ptr : Nat) (name : String) (hspace : ' ' ∉ name.data) :
    strippedCommandPath (Command.mk ptr [name]) = name := by
  unfold strippedCommandPath Command.CommandPath
  simp only [joinSpace_singleton]
  rw [indexSpace_no_space _ hspace]
  simp

theorem strippedCommandPath_nested (cmd : Command) (root : String) (rest : List String)
    (hchain : cmd.chain = root :: rest) (hrest : rest ≠ [])
    (hne : root ≠ "") (hspace : ' ' ∉ root.data) :
    strippedCommandPath cmd = joinSpace rest := by
  obtain ⟨r, rs, rfl⟩ := List.exists_cons_of_ne_nil hrest
  unfold strippedCommandPath Command.CommandPath
  rw [hchain, joinSpace_cons_cons]
  have hd : (root ++ (" " ++ joinSpace (r :: rs))).data
      = root.data ++ ' ' :: (joinSpace (r :: rs)).data := by
    simp [String.data_append]
  simp only [hd]
  rw [indexSpace_at_first_space _ _ hspace]
  have hlen : 0 < root.data.length := by
    rcases hdata : root.data with _ | ⟨c, cs⟩
    · exact absurd (String.ext hdata) hne
    · simp
  have hpos : ((root.data.length : Int) > 0) := by omega
  rw [if_pos hpos]
  have hn : ((root.data.length : Int) + 1).toNat = root.data.length + 1 := by omega
  rw [hn]
  have : List.drop (root.data.length + 1) (root.data ++ ' ' :: (joinSpace (r :: rs)).data)
      = (joinSpace (r :: rs)).data := by
    rw [List.drop_append_eq_append_drop]
    simp
  rw [this]

theorem build_keys_aux :
    ∀ (reg : Registry) (acc : GoMap String (List String)) (key : String),
      key ∈ (reg.foldl (fun arrayParams entry =>
          GoMap.set arrayParams (strippedCommandPath entry.1) entry.2) acc).map Prod.fst →
      key ∈ acc.map Prod.fst ∨ ∃ c ∈ reg.map Prod.fst, strippedCommandPath c = key := by
  intro reg
  induction reg with
  | nil => intro acc key h; exact Or.inl h
  | cons e reg ih =>
    intro acc key h
    simp only [List.foldl_cons] at h
    rcases ih _ key h with h | ⟨c, hc, hk⟩
    · rw [GoMap.keys_set] at h
      by_cases hm : strippedCommandPath e.1 ∈ acc.map Prod.fst
      · rw [if_pos hm] at h; exact Or.inl h
      · rw [if_neg hm] at h
        rcases List.mem_append.mp h with h | h
        · exact Or.inl h
        · refine Or.inr ⟨e.1, by simp, ?_⟩
          exact (List.mem_singleton.mp h).symm
    · exact Or.inr ⟨c, by simp only [List.map_cons, List.mem_cons]; exact Or.inr hc, hk⟩

theorem build_keys (reg : Registry) (key : String)
    (h : key ∈ (buildArrayParamsData reg).map Prod.fst) :
    ∃ c ∈ reg.map Prod.fst, strippedCommandPath c = key := by
  rcases build_keys_aux reg [] key h with h | h
  · simp at h
  · exact h

/-- C23, counterexample: two commands named `sub` under the root `root`, each
with one recorded token, share the key `sub`, and the index holds under it the
tokens of the command visited last, not those of the first; likewise the
child `r` of the root `r` shares the key `r` with the root when the root has
recorded tokens, and the index holds the tokens of the root when the root is
visited last. -/
theorem path_index_key_shared_by_two_commands :
    GoMap.get (buildArrayParamsData
        [(Command.mk 1 ["root", "sub"], ["--a"]), (Command.mk 2 ["root", "sub"], ["--b"])])
        (joinSpace ["sub"])
      ≠ GoMap.get [(Command.mk 1 ["root", "sub"], ["--a"]), (Command.mk 2 ["root", "sub"], ["--b"])]
        (Command.mk 1 ["root", "sub"])
    ∧ GoMap.get (buildArrayParamsData
        [(Command.mk 1 ["r", "r"], ["--b"]), (Command.mk 0 ["r"], ["--a"])])
        (joinSpace ["r"])
      ≠ GoMap.get [(Command.mk 1 ["r", "r"], ["--b"]), (Command.mk 0 ["r"], ["--a"])]
        (Command.mk 1 ["r", "r"]) := by
  decide

/-- C23, amended. Path index for nested commands: let the registry hold one
entry per command, let `n` be a command below the root, with chain
`root :: rest` where `rest` is not empty and `root` is not empty and contains
no space, and let no other command of the registry be stored under the key of
`n`.  Then `buildArrayParamsData` maps the single-space join of `rest` (the
names from the child of the root down to `n`) to exactly the token list
recorded for `n`, in recording order, and every key of the index is the
stored key of a command of the registry, so a command without recorded tokens
contributes no entry. -/
theorem path_index_nested_commands (reg : Registry) (n : Command) (root : String)
    (rest : List String) (hn : (reg.map Prod.fst).Nodup)
    (hchain : n.chain = root :: rest) (hrest : rest ≠ [])
    (hne : root ≠ "") (hspace : ' ' ∉ root.data)
    (huniq : ∀ c ∈ reg.map Prod.fst, c ≠ n → strippedCommandPath c ≠ joinSpace rest) :
    GoMap.get (buildArrayParamsData reg) (joinSpace rest) = GoMap.get reg n
      ∧ ∀ key ∈ (buildArrayParamsData reg).map Prod.fst,
          ∃ c ∈ reg.map Prod.fst, strippedCommandPath c = key := by
  have hk := strippedCommandPath_nested n root rest hchain hrest hne hspace
  refine ⟨?_, fun key h => build_keys reg key h⟩
  rw [← hk]
  exact build_get n reg hn (fun c hc hcn => by rw [hk]; exact huniq c hc hcn)

/-- Witness of C23: `nested` under `sub` under `root`, with `sub` holding
tokens as well: the key `sub nested` maps to the tokens of `nested`. -/
theorem path_index_nested_commands_witness :
    GoMap.get (buildArrayParamsData
        [(Command.mk 1 ["root", "sub"], ["--array-param", "-a"]),
          (Command.mk 2 ["root", "sub", "nested"], ["--nested-array"])]) "sub nested"
      = ["--nested-array"] := by
  have h := (path_index_nested_commands
    [(Command.mk 1 ["root", "sub"], ["--array-param", "-a"]),
      (Command.mk 2 ["root", "sub", "nested"], ["--nested-array"])]
    (Command.mk 2 ["root", "sub", "nested"]) "root" ["sub", "nested"]
    (by decide) rfl (by decide) (by decide) (by decide) (by decide)).1
  exact h

/-- C24, the behaviour of the code for a root command: for a root command
(chain of one name) whose name is not empty and contains no space, the command
path has no space, so nothing is removed from it and `buildArrayParamsData`
stores the tokens of the root under the name of the root, not under the empty
string; the index holds nothing under the empty string, and every argv that
begins with a flag (empty command path) is returned unchanged, so the array
flags declared on the root command are not expanded. -/
theorem root_command_key_is_root_name (ptr : Nat) (name : String) (tokens : List String)
    (hspace : ' ' ∉ name.data) (hne : name ≠ "") :
    buildArrayParamsData [(Command.mk ptr [name], tokens)] = [(name, tokens)]
      ∧ GoMap.get (buildArrayParamsData [(Command.mk ptr [name], tokens)]) "" = []
      ∧ ∀ argv, commandPathArray argv = [] →
          ExpandArrayParameters [(Command.mk ptr [name], tokens)] argv = .ok argv := by
  have hb : buildArrayParamsData [(Command.mk ptr [name], tokens)] = [(name, tokens)] := by
    simp [buildArrayParamsData, GoMap.set, strippedCommandPath_root ptr name hspace]
  have hg : GoMap.get (buildArrayParamsData [(Command.mk ptr [name], tokens)]) "" = [] := by
    rw [hb]
    simp [GoMap.get, hne]
  refine ⟨hb, hg, ?_⟩
  intro argv hpath
  unfold ExpandArrayParameters
  have hm : multiFlagsOf [(Command.mk ptr [name], tokens)] argv = [] := by
    unfold multiFlagsOf
    rw [hpath]
    exact hg
  rw [expandWith_eq, hm, rewrite_nil_flags]

/-- Witness of C24 at the failing input: the root command `root` with the
recorded token `--x`; the index is `root ↦ [--x]` and `--x a b` is returned
unchanged. -/
theorem root_command_key_is_root_name_witness :
    buildArrayParamsData [(Command.mk 0 ["root"], ["--x"])] = [("root", ["--x"])]
      ∧ ExpandArrayParameters [(Command.mk 0 ["root"], ["--x"])] ["--x", "a", "b"]
        = .ok ["--x", "a", "b"] :=
  ⟨(root_command_key_is_root_name 0 "root" ["--x"] (by decide) (by decide)).1,
    (root_command_key_is_root_name 0 "root" ["--x"] (by decide) (by decide)).2.2
      ["--x", "a", "b"] (by decide)⟩

/-- C25. `recordArrayParamForCommand` appends: after the call the list of `cmd`
is its previous list followed by `token`, so its length grows by exactly one,
the earlier tokens keep their order and a token that is already present is
added again; for a command that has no entry yet the list is `[token]`; the
list of every other command is unchanged, and the commands of the registry are
the previous ones together with `cmd`. -/
theorem record_appends_token (reg : Registry) (cmd : Command) (token : String) :
    GoMap.get (recordArrayParamForCommand reg cmd token) cmd = GoMap.get reg cmd ++ [token]
      ∧ (GoMap.get (recordArrayParamForCommand reg cmd token) cmd).length
          = (GoMap.get reg cmd).length + 1
      ∧ (cmd ∉ reg.map Prod.fst →
          GoMap.get (recordArrayParamForCommand reg cmd token) cmd = [token])
      ∧ (∀ c, c ≠ cmd → GoMap.get (recordArrayParamForCommand reg cmd token) c = GoMap.get reg c)
      ∧ (recordArrayParamForCommand reg cmd token).map Prod.fst
          = if cmd ∈ reg.map Prod.fst then reg.map Prod.fst else reg.map Prod.fst ++ [cmd] := by
  refine ⟨record_get_same reg cmd token, ?_, ?_, ?_, record_keys reg cmd token⟩
  · rw [record_get_same]; simp
  · intro h
    rw [record_get_same, GoMap.get_of_not_mem reg cmd h]
    rfl
  · intro c hc
    exact record_get_other reg cmd c token hc

/-- Witness of C25: a first call for `root`, a call that repeats the token
`-t`, and the list of `sub` left as it was. -/
theorem record_appends_token_witness :
    GoMap.get (recordArrayParamForCommand [] (Command.mk 0 ["root"]) "--test-param")
        (Command.mk 0 ["root"]) = ["--test-param"]
      ∧ GoMap.get (recordArrayParamForCommand
          [(Command.mk 0 ["root"], ["--test-param", "-t"]), (Command.mk 1 ["root", "sub"], ["-a"])]
          (Command.mk 0 ["root"]) "-t") (Command.mk 1 ["root", "sub"]) = ["-a"]
      ∧ GoMap.get (recordArrayParamForCommand
          [(Command.mk 0 ["root"], ["--test-param", "-t"]), (Command.mk 1 ["root", "sub"], ["-a"])]
          (Command.mk 0 ["root"]) "-t") (Command.mk 0 ["root"])
        = ["--test-param", "-t"] ++ ["-t"] :=
  ⟨(record_appends_token [] (Command.mk 0 ["root"]) "--test-param").2.2.1 (by decide),
    (record_appends_token
      [(Command.mk 0 ["root"], ["--test-param", "-t"]), (Command.mk 1 ["root", "sub"], ["-a"])]
      (Command.mk 0 ["root"]) "-t").2.2.2.1 (Command.mk 1 ["root", "sub"]) (by decide),
    (record_appends_token
      [(Command.mk 0 ["root"], ["--test-param", "-t"]), (Command.mk 1 ["root", "sub"], ["-a"])]
      (Command.mk 0 ["root"]) "-t").1⟩

/-! ## Claims on errors, input and order in the resolver -/

/-- C26, counterexample: `stringParam` gets its value from the environment,
then the required `intParam` is missing; the call returns the error and the
struct holds the new value of `StringParam`, so it differs from its state
before the call. -/
theorem parse_error_keeps_earlier_bindings :
    ParseParameters [] (envWith "S" "v")
        [("stringParam", testParameter "stringParam" .String "S" "" false),
          ("intParam", testParameter "intParam" .Int "" "" true)] testParams
      = (.error (.New "ParseParameters: required parameter 'intParam' is not set"),
          testParamsWith "v" 0 false [])
      ∧ testParamsWith "v" 0 false [] ≠ testParams := by
  decide

/-- C26, amended. State of the struct on an error: whenever `ParseParameters`
returns an error, the configuration splits, in iteration order, into entries
`before` that all succeeded, the entry that returned the error, and the
entries `rest` that were not visited; the struct the call leaves is exactly
the struct after `before` (the failing entry wrote nothing and nothing is
rolled back), and it equals the struct before the call when the failing entry
is the first one visited. -/
theorem parse_error_record_state (flags : FlagSet) (env : Env) :
    ∀ (cfg : List (String × Parameter)) (params params' : Params) (err : GoError),
      ParseParameters flags env cfg params = (.error err, params') →
      ∃ before entry rest, cfg = before ++ entry :: rest
        ∧ ParseParameters flags env before params = (.nil, params')
        ∧ bindField flags env params'.typeName entry.1 entry.2 params'.fields
            = (.error err, params'.fields)
        ∧ (before = [] → params' = params) := by
  intro cfg
  induction cfg with
  | nil => intro params params' err h; simp [ParseParameters] at h
  | cons e cfg ih =>
    intro params params' err h
    obtain ⟨tag, p⟩ := e
    rw [ParseParameters] at h
    have hu := bindField_fields_of_fail flags env params.typeName tag p params.fields
    cases hr : bindField flags env params.typeName tag p params.fields with
    | mk o fields =>
      rw [hr] at h hu
      cases o with
      | nil =>
        simp only at h
        obtain ⟨before, entry, rest, hcfg, hb, hbind, _⟩ := ih _ params' err h
        refine ⟨(tag, p) :: before, entry, rest, by rw [hcfg]; rfl, ?_, hbind, by simp⟩
        rw [ParseParameters, hr]
        exact hb
      | error err' =>
        simp only [Prod.mk.injEq, Outcome.error.injEq] at h
        have hf : fields = params.fields := hu (by simp)
        obtain ⟨he, hp⟩ := h
        subst he hf hp
        refine ⟨[], (tag, p), cfg, rfl, rfl, ?_, fun _ => rfl⟩
        exact hr
      | panic msg => simp at h

/-- Witness of C26: the configuration of the counterexample splits at
`intParam`, and the struct left is the one after `stringParam` was bound. -/
theorem parse_error_record_state_witness :
    ∃ before entry rest,
      [("stringParam", testParameter "stringParam" .String "S" "" false),
          ("intParam", testParameter "intParam" .Int "" "" true)] = before ++ entry :: rest
        ∧ ParseParameters [] (envWith "S" "v") before testParams
            = (.nil, testParamsWith "v" 0 false [])
        ∧ bindField [] (envWith "S" "v") "TestParams" entry.1 entry.2
            (testParamsWith "v" 0 false []).fields
            = (.error (.New "ParseParameters: required parameter 'intParam' is not set"),
                (testParamsWith "v" 0 false []).fields) := by
  obtain ⟨before, entry, rest, h1, h2, h3, _⟩ := parse_error_record_state [] (envWith "S" "v")
    [("stringParam", testParameter "stringParam" .String "S" "" false),
      ("intParam", testParameter "intParam" .Int "" "" true)] testParams
    (testParamsWith "v" 0 false [])
    (.New "ParseParameters: required parameter 'intParam' is not set") (by decide)
  exact ⟨before, entry, rest, h1, h2, h3⟩

/-- C27, counterexample: the same configuration, struct type, flag set and
iteration order; the key `missing` has no field.  With `I=5` in the
environment the required `intParam` is bound and the call panics at `missing`;
with an empty environment the call returns the error of `intParam` and never
reaches `missing`. -/
theorem parse_abort_depends_on_environment :
    ParseParameters [] (envWith "I" "5")
        [("intParam", testParameter "intParam" .Int "I" "" true),
          ("missing", testParameter "missing" .String "" "" false)] testParams
      = (.panic "ParseParameters: field with tag 'missing' not found in 'TestParams' struct",
          testParamsWith "" 5 false [])
    ∧ ParseParameters [] emptyEnv
        [("intParam", testParameter "intParam" .Int "I" "" true),
          ("missing", testParameter "missing" .String "" "" false)] testParams
      = (.error (.New "ParseParameters: required parameter 'intParam' is not set"),
          testParams) := by
  decide

theorem setStrings_not_abort (v : Value) (val : List String) (msg : String)
    (hv : ∀ t, v ≠ .otherSlice t ∧ v ≠ .array t) (hk : v.Kind = .Slice ∨ v.Kind = .Array) :
    setStrings v val ≠ .abort msg := by
  cases v with
  | stringSlice l => simp [setStrings]
  | otherSlice t => exact absurd rfl (hv t).1
  | array t => exact absurd rfl (hv t).2
  | string s => simp [Value.Kind] at hk
  | int n => simp [Value.Kind] at hk
  | bool b => simp [Value.Kind] at hk
  | other k => simp [Value.Kind] at hk

theorem resolveField_not_abort (flags : FlagSet) (env : Env) (p : Parameter) (v : Value)
    (msg : String) (hv : ∀ t, v ≠ .otherSlice t ∧ v ≠ .array t)
    (hk : ∀ k, v.Kind ≠ .Other k) :
    resolveField flags env p v ≠ .abort msg := by
  cases v with
  | otherSlice t => exact absurd rfl (hv t).1
  | array t => exact absurd rfl (hv t).2
  | other k => exact absurd rfl (hk k)
  | string s =>
    simp only [resolveField, Value.Kind]
    repeat' split
    all_goals simp
  | int n =>
    simp only [resolveField, Value.Kind]
    repeat' split
    all_goals simp
  | bool b =>
    simp only [resolveField, Value.Kind]
    repeat' split
    all_goals simp
  | stringSlice l =>
    simp only [resolveField, Value.Kind, setStrings]
    repeat' split
    all_goals simp

/-- C27, amended. The fatal configuration errors of an entry do not depend on
user input: whether processing the entry `(tag, p)` panics because no field
carries the tag, the first field with the tag cannot be set, or that field is
of an unsupported kind is decided by `configFault`, which reads the entry and
the struct type only.  When it gives a message, processing the entry panics
with that message for every flag set and environment, and so does
`ParseParameters` whenever the entries visited before succeed.  When it gives
none and the slice and array fields of the struct are slices of strings,
processing the entry does not panic for any flag set and environment.  The
outcome of the whole call does depend on user input: an entry visited earlier
that returns an error ends the call with that error, whatever follows. -/
theorem config_fault_independent_of_input (params : Params) (tag : String) (p : Parameter) :
    (∀ msg, configFault params.typeName tag p params.fields = some msg →
        ∀ (flags : FlagSet) (env : Env),
          bindField flags env params.typeName tag p params.fields = (.panic msg, params.fields)
            ∧ ∀ (before rest : List (String × Parameter)) (params' : Params),
                ParseParameters flags env before params = (.nil, params') →
                ParseParameters flags env (before ++ (tag, p) :: rest) params
                  = (.panic msg, params'))
      ∧ (configFault params.typeName tag p params.fields = none →
          (∀ f ∈ params.fields, ∀ t, f.value ≠ .otherSlice t ∧ f.value ≠ .array t) →
          ∀ (flags : FlagSet) (env : Env) (msg : String),
            (bindField flags env params.typeName tag p params.fields).1 ≠ .panic msg)
      ∧ ∀ (flags : FlagSet) (env : Env) (before rest : List (String × Parameter))
          (entry : String × Parameter) (params' : Params) (err : GoError),
          ParseParameters flags env before params = (.nil, params') →
          (bindField flags env params.typeName entry.1 entry.2 params.fields).1 = .error err →
          ParseParameters flags env (before ++ entry :: rest) params = (.error err, params') := by
  refine ⟨?_, ?_, ?_⟩
  · intro msg hf flags env
    refine ⟨configFault_some flags env _ _ _ _ msg hf, ?_⟩
    intro before rest params' hbefore
    exact (parse_panics_of_configFault flags env (before ++ (tag, p) :: rest) params tag p msg
      (by simp) hf).2 before rest params' rfl hbefore
  · intro hf hwell flags env msg
    obtain ⟨field, hmf, hc, hk⟩ := configFault_none params.typeName tag p params.fields hf
    rw [bindField_matched flags env params.typeName tag p params.fields field hmf hc]
    have hmem : field ∈ params.fields := by
      clear hf
      revert hmf
      generalize params.fields = fields
      induction fields with
      | nil => intro h; simp [matchedField] at h
      | cons f rest ih =>
        intro h
        rw [matchedField] at h
        by_cases h1 : (f.paramName == "") = true
        · simp only [h1, if_true] at h
          exact List.mem_cons_of_mem _ (ih h)
        · by_cases h2 : (f.paramName == tag) = true
          · simp only [h1, h2, if_true, Bool.false_eq_true, if_false, Option.some.injEq] at h
            rw [h]; exact List.mem_cons_self _ _
          · simp only [h1, h2, Bool.false_eq_true, if_false] at h
            exact List.mem_cons_of_mem _ (ih h)
    have hna := resolveField_not_abort flags env p field.value msg (hwell field hmem) hk
    cases hr : resolveField flags env p field.value with
    | set v => simp
    | fail err => simp
    | abort m =>
      simp only [ne_eq, Outcome.panic.injEq]
      intro e
      rw [hr, e] at hna
      exact hna rfl
  · intro flags env before rest entry params' err hbefore herr
    have ho : entryOutcome flags env params entry = .error err := herr
    have := parse_fail_at flags env before rest entry params params' hbefore (by rw [ho]; simp)
    rw [this, ho]

/-- Witness of C27 on `TestParams`: the key `missing` panics for every flag set
and environment, the key `intParam` panics for none, and the error of
`intParam` ends the call before `missing` is visited. -/
theorem config_fault_independent_of_input_witness :
    (∀ (flags : FlagSet) (env : Env),
        bindField flags env "TestParams" "missing" (testParameter "missing" .String "" "" false)
          testParams.fields
        = (.panic "ParseParameters: field with tag 'missing' not found in 'TestParams' struct",
            testParams.fields))
      ∧ (∀ (flags : FlagSet) (env : Env) (msg : String),
          (bindField flags env "TestParams" "intParam"
            (testParameter "intParam" .Int "I" "" true) testParams.fields).1 ≠ .panic msg)
      ∧ ParseParameters [] emptyEnv
          ([] ++ ("intParam", testParameter "intParam" .Int "I" "" true)
            :: [("missing", testParameter "missing" .String "" "" false)]) testParams
        = (.error (.New "ParseParameters: required parameter 'intParam' is not set"),
            testParams) :=
  ⟨fun flags env =>
      ((config_fault_independent_of_input testParams "missing"
        (testParameter "missing" .String "" "" false)).1 _ (by decide) flags env).1,
    (config_fault_independent_of_input testParams "intParam"
      (testParameter "intParam" .Int "I" "" true)).2.1 (by decide)
      (by
        intro f hf t
        simp only [testParams, List.mem_cons, List.mem_singleton, List.not_mem_nil,
          or_false] at hf
        rcases hf with rfl | rfl | rfl | rfl <;> simp),
    (config_fault_independent_of_input testParams "intParam"
      (testParameter "intParam" .Int "I" "" true)).2.2 [] emptyEnv [] _
      ("intParam", testParameter "intParam" .Int "I" "" true) testParams _ rfl (by decide)⟩

theorem getters_congr (fl1 fl2 : FlagSet) (name : String)
    (h : (fl1.Lookup name).map Flag.Value = (fl2.Lookup name).map Flag.Value) :
    fl1.GetString name = fl2.GetString name ∧ fl1.GetInt name = fl2.GetInt name
      ∧ fl1.GetBool name = fl2.GetBool name
      ∧ fl1.GetStringArray name = fl2.GetStringArray name := by
  unfold FlagSet.GetString FlagSet.GetInt FlagSet.GetBool FlagSet.GetStringArray
  cases h1 : fl1.Lookup name with
  | none =>
    cases h2 : fl2.Lookup name with
    | none => simp
    | some g => rw [h1, h2] at h; simp at h
  | some f =>
    cases h2 : fl2.Lookup name with
    | none => rw [h1, h2] at h; simp at h
    | some g =>
      rw [h1, h2] at h
      simp only [Option.map_some', Option.some.injEq] at h
      simp only [h, and_self]

theorem resolveField_required_congr (fl1 fl2 : FlagSet) (env : Env) (p1 p2 : Parameter)
    (v : Value) (hn : p2.Name = p1.Name) (henv : p2.EnvVarName = p1.EnvVarName)
    (hr1 : p1.Required = true) (hr2 : p2.Required = true)
    (hc : fl1.Changed p1.Name = fl2.Changed p1.Name)
    (hv : fl1.Changed p1.Name = true →
      (fl1.Lookup p1.Name).map Flag.Value = (fl2.Lookup p1.Name).map Flag.Value) :
    resolveField fl1 env p1 v = resolveField fl2 env p2 v := by
  have he : envValue env p2 = envValue env p1 := by
    unfold envValue
    rw [henv]
  have hm : getMessageRequiredParameterMissing p2 = getMessageRequiredParameterMissing p1 := by
    unfold getMessageRequiredParameterMissing
    rw [hn]
  unfold resolveField
  simp only [hn, he, hm, hr1, hr2, if_true, ← hc]
  by_cases hch : fl1.Changed p1.Name = true
  · obtain ⟨g1, g2, g3, g4⟩ := getters_congr fl1 fl2 p1.Name (hv hch)
    simp only [hch, if_true, g1, g2, g3, g4]
  · simp only [hch, Bool.false_eq_true, if_false]

theorem resolveField_congr_lookup (fl1 fl2 : FlagSet) (env : Env) (p : Parameter) (v : Value)
    (h : fl1.Lookup p.Name = fl2.Lookup p.Name) :
    resolveField fl1 env p v = resolveField fl2 env p v := by
  simp only [resolveField, FlagSet.Changed, FlagSet.GetString, FlagSet.GetInt, FlagSet.GetBool,
    FlagSet.GetStringArray, h]

theorem bindField_congr_resolve (fl1 fl2 : FlagSet) (env : Env) (typeName tag : String)
    (p1 p2 : Parameter)
    (h : ∀ v, resolveField fl1 env p1 v = resolveField fl2 env p2 v) :
    ∀ fields : List Field, bindField fl1 env typeName tag p1 fields
      = bindField fl2 env typeName tag p2 fields := by
  intro fields
  induction fields with
  | nil => rfl
  | cons field rest ih =>
    rw [bindField, bindField, ih, h]

theorem ParseParameters_congr (fl1 fl2 : FlagSet) (env : Env)
    (cfg1 cfg2 : List (String × Parameter))
    (h : List.Forall₂ (fun e1 e2 => e1.1 = e2.1
      ∧ ∀ v, resolveField fl1 env e1.2 v = resolveField fl2 env e2.2 v) cfg1 cfg2) :
    ∀ params, ParseParameters fl1 env cfg1 params = ParseParameters fl2 env cfg2 params := by
  induction h with
  | nil => intro params; rfl
  | @cons e1 e2 l1 l2 hhead _ ih =>
    intro params
    obtain ⟨t1, p1⟩ := e1
    obtain ⟨t2, p2⟩ := e2
    obtain ⟨ht, hres⟩ := hhead
    simp only at ht hres
    subst ht
    rw [ParseParameters, ParseParameters,
      bindField_congr_resolve fl1 fl2 env params.typeName t1 p1 p2 hres]
    cases bindField fl2 env params.typeName t1 p2 params.fields with
    | mk o fields =>
      cases o with
      | nil => exact ih _
      | error err => rfl
      | panic msg => rfl

theorem setFromCommandLine_name (cli : String → Option FlagValue) (flag : Flag) :
    (setFromCommandLine cli flag).Name = flag.Name := by
  unfold setFromCommandLine
  cases cli flag.Name <;> rfl

theorem Lookup_applyCommandLine (cli : String → Option FlagValue) (flags : FlagSet)
    (name : String) :
    FlagSet.Lookup (applyCommandLine cli flags) name
      = (flags.Lookup name).map (setFromCommandLine cli) := by
  unfold FlagSet.Lookup applyCommandLine
  rw [List.find?_map]
  have hp : ((fun flag : Flag => flag.Name == name) ∘ setFromCommandLine cli)
      = (fun flag : Flag => flag.Name == name) := by
    funext flag
    simp only [Function.comp, setFromCommandLine_name]
  rw [hp]

theorem RegisterParameters_append (cmd : Command) (l1 l2 : List (String × Parameter)) :
    ∀ (flags : FlagSet) (reg : Registry),
      RegisterParameters cmd (l1 ++ l2) flags reg
        = match RegisterParameters cmd l1 flags reg with
          | .done flags reg => RegisterParameters cmd l2 flags reg
          | .panic msg => .panic msg := by
  induction l1 with
  | nil => intro flags reg; rfl
  | cons e l1 ih =>
    intro flags reg
    obtain ⟨k, q⟩ := e
    rw [List.cons_append, RegisterParameters, RegisterParameters]
    cases registerParameter cmd k q flags reg with
    | done fl r => exact ih fl r
    | panic msg => rfl

theorem agreeUpToDefault_refl (name : String) (a : Flag) : agreeUpToDefault name a a :=
  ⟨rfl, rfl, Or.inl rfl⟩

theorem forall₂_agree_refl (name : String) (l : FlagSet) :
    List.Forall₂ (agreeUpToDefault name) l l :=
  List.forall₂_same.mpr (fun a _ => agreeUpToDefault_refl name a)

theorem find_forall₂ {α : Type} (R : α → α → Prop) (p q : α → Bool) :
    ∀ (l1 l2 : List α), List.Forall₂ R l1 l2 → (∀ a b, R a b → p a = q b) →
      (l1.find? p = none ∧ l2.find? q = none)
        ∨ ∃ a b, l1.find? p = some a ∧ l2.find? q = some b ∧ R a b ∧ p a = true := by
  intro l1 l2 h hpq
  induction h with
  | nil => exact Or.inl ⟨rfl, rfl⟩
  | @cons a b l1 l2 hab _ ih =>
    rw [List.find?_cons, List.find?_cons, ← hpq a b hab]
    cases hp : p a with
    | true => exact Or.inr ⟨a, b, rfl, rfl, hab, hp⟩
    | false => exact ih

theorem AddFlag_agree (name fname : String) (f1 f2 : FlagSet) (g1 g2 : Flag)
    (hf : List.Forall₂ (agreeUpToDefault name) f1 f2) (hg : agreeUpToDefault name g1 g2) :
    (∃ msg, f1.AddFlag fname g1 = .error msg ∧ f2.AddFlag fname g2 = .error msg)
      ∨ (f1.AddFlag fname g1 = .ok (f1 ++ [g1]) ∧ f2.AddFlag fname g2 = .ok (f2 ++ [g2])) := by
  obtain ⟨hn, hs, _⟩ := hg
  unfold FlagSet.AddFlag FlagSet.Lookup
  rcases find_forall₂ (agreeUpToDefault name) (fun flag => flag.Name == g1.Name)
      (fun flag => flag.Name == g2.Name) f1 f2 hf
      (fun a b hab => by simp only [hab.1, hn]) with ⟨e1, e2⟩ | ⟨a, b, e1, e2, hab, _⟩
  · rw [e1, e2]
    simp only [← hs]
    by_cases h : g1.Shorthand = ""
    · rw [if_pos h, if_pos h]
      exact Or.inr ⟨rfl, rfl⟩
    · rw [if_neg h, if_neg h]
      by_cases hl : goLen g1.Shorthand > 1
      · rw [if_pos hl, if_pos hl]
        exact Or.inl ⟨_, rfl, rfl⟩
      · rw [if_neg hl, if_neg hl]
        rcases find_forall₂ (agreeUpToDefault name) (fun used => used.Shorthand == g1.Shorthand)
            (fun used => used.Shorthand == g1.Shorthand) f1 f2 hf
            (fun a b hab => by simp only [hab.2.1]) with ⟨e3, e4⟩ | ⟨a, b, e3, e4, hab, _⟩
        · rw [e3, e4]
          exact Or.inr ⟨rfl, rfl⟩
        · rw [e3, e4]
          simp only [hab.1]
          exact Or.inl ⟨_, rfl, rfl⟩
  · rw [e1, e2]
    simp only [hn]
    exact Or.inl ⟨_, rfl, rfl⟩

theorem registerParameter_agree (cmd : Command) (name : String) (e1 e2 : String × Parameter)
    (f1 f2 : FlagSet) (reg : Registry) (he : entriesAgree name e1 e2)
    (hf : List.Forall₂ (agreeUpToDefault name) f1 f2) :
    (∃ msg, registerParameter cmd e1.1 e1.2 f1 reg = .panic msg
        ∧ registerParameter cmd e2.1 e2.2 f2 reg = .panic msg)
      ∨ ∃ f1' f2' reg', registerParameter cmd e1.1 e1.2 f1 reg = .done f1' reg'
          ∧ registerParameter cmd e2.1 e2.2 f2 reg = .done f2' reg'
          ∧ List.Forall₂ (agreeUpToDefault name) f1' f2' ∧ e1.1 = e1.2.Name := by
  obtain ⟨hk, hn, ht, hv⟩ := he
  rw [registerParameter_eq, registerParameter_eq, ← hk, ← hn]
  have ht' : arrayTokens (e1.1, e2.2) = arrayTokens (e1.1, e1.2) := by
    have : (e1.1, e2.2) = e2 := by rw [hk]
    rw [this, ← ht]
  rw [ht']
  by_cases hkey : (e1.1 != e1.2.Name) = true
  · rw [if_pos hkey, if_pos hkey]
    exact Or.inl ⟨_, rfl, rfl⟩
  · rw [if_neg hkey, if_neg hkey]
    have hkey' : e1.1 = e1.2.Name := by simpa using hkey
    rcases hv with ⟨msg, h1, h2⟩ | ⟨v1, v2, h1, h2, hg⟩
    · rw [h1, h2]
      exact Or.inl ⟨msg, rfl, rfl⟩
    · rw [h1, h2]
      simp only
      rcases AddFlag_agree name cmd.Name f1 f2 _ _ hf hg with ⟨msg, a1, a2⟩ | ⟨a1, a2⟩
      · rw [a1, a2]
        exact Or.inl ⟨msg, rfl, rfl⟩
      · rw [a1, a2]
        exact Or.inr ⟨_, _, _, rfl, rfl,
          List.rel_append hf (List.Forall₂.cons hg List.Forall₂.nil), hkey'⟩

theorem RegisterParameters_agree (cmd : Command) (name : String) :
    ∀ (cfg1 cfg2 : List (String × Parameter)), List.Forall₂ (entriesAgree name) cfg1 cfg2 →
      ∀ (f1 f2 : FlagSet) (reg : Registry), List.Forall₂ (agreeUpToDefault name) f1 f2 →
      (∃ msg, RegisterParameters cmd cfg1 f1 reg = .panic msg
          ∧ RegisterParameters cmd cfg2 f2 reg = .panic msg)
        ∨ ∃ f1' f2' reg', RegisterParameters cmd cfg1 f1 reg = .done f1' reg'
            ∧ RegisterParameters cmd cfg2 f2 reg = .done f2' reg'
            ∧ List.Forall₂ (agreeUpToDefault name) f1' f2'
            ∧ ∀ e ∈ cfg1, e.1 = e.2.Name := by
  intro cfg1 cfg2 h
  induction h with
  | nil =>
    intro f1 f2 reg hf
    exact Or.inr ⟨f1, f2, reg, rfl, rfl, hf, by simp⟩
  | @cons e1 e2 l1 l2 he _ ih =>
    intro f1 f2 reg hf
    obtain ⟨k1, p1⟩ := e1
    obtain ⟨k2, p2⟩ := e2
    rw [RegisterParameters, RegisterParameters]
    rcases registerParameter_agree cmd name (k1, p1) (k2, p2) f1 f2 reg he hf with
      ⟨msg, a1, a2⟩ | ⟨f1', f2', reg', a1, a2, hf', hkey⟩
    · simp only at a1 a2
      rw [a1, a2]
      exact Or.inl ⟨msg, rfl, rfl⟩
    · simp only at a1 a2
      rw [a1, a2]
      simp only
      rcases ih f1' f2' reg' hf' with ⟨msg, b1, b2⟩ | ⟨g1, g2, r, b1, b2, hg, hkeys⟩
      · exact Or.inl ⟨msg, b1, b2⟩
      · refine Or.inr ⟨g1, g2, r, b1, b2, hg, ?_⟩
        intro e he'
        rcases List.mem_cons.mp he' with h | h
        · rw [h]; exact hkey
        · exact hkeys e h

theorem entriesAgree_refl (name : String) (e : String × Parameter) : entriesAgree name e e := by
  refine ⟨rfl, rfl, rfl, ?_⟩
  cases h : defaultFlagValue e.2 with
  | error msg => exact Or.inl ⟨msg, rfl, rfl⟩
  | ok v => exact Or.inr ⟨v, v, rfl, rfl, agreeUpToDefault_refl name _⟩

theorem defaultFlagValue_of_converts (p : Parameter) (h : defaultConverts p = true) :
    (∃ v, defaultFlagValue p = .ok v)
      ∨ ∃ k, p.TypeKind = .Other k
          ∧ defaultFlagValue p = .error "RegisterParameters: unknown parameter type" := by
  unfold defaultConverts at h
  unfold defaultFlagValue
  cases hkind : p.TypeKind with
  | String => exact Or.inl ⟨_, rfl⟩
  | Int =>
    rw [hkind] at h
    simp only [Bool.or_eq_true, beq_iff_eq] at h
    by_cases hd : p.DefaultValue = ""
    · simp [hd]
    · have hok : (Atoi p.DefaultValue).isOk = true := by
        rcases h with h | h
        · exact absurd h hd
        · exact h
      cases ha : Atoi p.DefaultValue with
      | error e => rw [ha] at hok; simp [Except.isOk, Except.toBool] at hok
      | ok n => simp [hd]
  | Bool =>
    rw [hkind] at h
    simp only [Bool.or_eq_true, beq_iff_eq] at h
    by_cases hd : p.DefaultValue = ""
    · simp [hd]
    · have hok : (ParseBool p.DefaultValue).isOk = true := by
        rcases h with h | h
        · exact absurd h hd
        · exact h
      cases ha : ParseBool p.DefaultValue with
      | error e => rw [ha] at hok; simp [Except.isOk, Except.toBool] at hok
      | ok n => simp [hd]
  | Array => exact Or.inl ⟨_, rfl⟩
  | Slice => exact Or.inl ⟨_, rfl⟩
  | Other k => exact Or.inr ⟨k, rfl, rfl⟩

theorem entriesAgree_default (key : String) (p : Parameter) (d : String)
    (h1 : defaultConverts p = true) (h2 : defaultConverts { p with DefaultValue := d } = true) :
    entriesAgree p.Name (key, p) (key, { p with DefaultValue := d }) := by
  refine ⟨rfl, rfl, ?_, ?_⟩
  · unfold arrayTokens
    rfl
  · rcases defaultFlagValue_of_converts p h1 with ⟨v1, e1⟩ | ⟨k, hk, e1⟩
    · rcases defaultFlagValue_of_converts _ h2 with ⟨v2, e2⟩ | ⟨k, hk, e2⟩
      · exact Or.inr ⟨v1, v2, e1, e2, rfl, rfl, Or.inr ⟨rfl, rfl, rfl⟩⟩
      · simp only at hk
        unfold defaultFlagValue at e1
        rw [hk] at e1
        cases e1
    · refine Or.inl ⟨_, e1, ?_⟩
      unfold defaultFlagValue
      simp only [hk]

theorem Lookup_agree (name : String) (F1 F2 : FlagSet)
    (h : List.Forall₂ (agreeUpToDefault name) F1 F2) (n : String) :
    (F1.Lookup n = none ∧ F2.Lookup n = none)
      ∨ ∃ a b, F1.Lookup n = some a ∧ F2.Lookup n = some b ∧ agreeUpToDefault name a b
          ∧ a.Name = n := by
  unfold FlagSet.Lookup
  rcases find_forall₂ (agreeUpToDefault name) (fun flag => flag.Name == n)
      (fun flag => flag.Name == n) F1 F2 h (fun a b hab => by simp only [hab.1]) with
    h | ⟨a, b, e1, e2, hab, hp⟩
  · exact Or.inl h
  · exact Or.inr ⟨a, b, e1, e2, hab, by simpa using hp⟩

theorem Lookup_agree_other (cli : String → Option FlagValue) (name : String) (F1 F2 : FlagSet)
    (h : List.Forall₂ (agreeUpToDefault name) F1 F2) (n : String) (hn : n ≠ name) :
    FlagSet.Lookup (applyCommandLine cli F1) n = FlagSet.Lookup (applyCommandLine cli F2) n := by
  rw [Lookup_applyCommandLine, Lookup_applyCommandLine]
  rcases Lookup_agree name F1 F2 h n with ⟨e1, e2⟩ | ⟨a, b, e1, e2, ⟨_, _, hab⟩, ha⟩
  · rw [e1, e2]
  · rw [e1, e2]
    rcases hab with hab | ⟨hab, _⟩
    · rw [hab]
    · exact absurd (ha.symm.trans hab) hn

theorem Lookup_agree_same (cli : String → Option FlagValue) (name : String) (F1 F2 : FlagSet)
    (h : List.Forall₂ (agreeUpToDefault name) F1 F2) :
    FlagSet.Changed (applyCommandLine cli F1) name
        = FlagSet.Changed (applyCommandLine cli F2) name
      ∧ (FlagSet.Changed (applyCommandLine cli F1) name = true →
          (FlagSet.Lookup (applyCommandLine cli F1) name).map Flag.Value
            = (FlagSet.Lookup (applyCommandLine cli F2) name).map Flag.Value) := by
  unfold FlagSet.Changed
  rw [Lookup_applyCommandLine, Lookup_applyCommandLine]
  rcases Lookup_agree name F1 F2 h name with ⟨e1, e2⟩ | ⟨a, b, e1, e2, ⟨hn, _, hab⟩, ha⟩
  · rw [e1, e2]
    simp
  · rw [e1, e2]
    rcases hab with hab | ⟨_, hc1, hc2⟩
    · rw [hab]
      simp
    · simp only [Option.map_some', setFromCommandLine, ← hn, ha]
      cases cli name with
      | some v => simp
      | none => simp [hc1, hc2]

/-- C28, amended. `DefaultValue` of a required parameter: let the configuration
have distinct keys and hold the entry `(key, p)` with `Required = true`, and
let the other configuration differ from it only in the `DefaultValue` of that
entry; if `RegisterParameters` can convert both defaults (for an int or bool
parameter each is empty or converts), then declaring the configuration and
resolving it gives the same outcome and the same struct with either
`DefaultValue`, for every earlier state of the flag set and registry, every
command line and every environment. -/
theorem required_ignores_convertible_default (cmd : Command) (flags : FlagSet)
    (reg : Registry) (cli : String → Option FlagValue) (env : Env)
    (before rest : List (String × Parameter)) (key : String)
    (p : Parameter) (d : String) (params : Params)
    (hkeys : ((before ++ (key, p) :: rest).map Prod.fst).Nodup)
    (hreq : p.Required = true) (h1 : defaultConverts p = true)
    (h2 : defaultConverts { p with DefaultValue := d } = true) :
    declareAndResolve cmd flags reg cli env (before ++ (key, p) :: rest) params
      = declareAndResolve cmd flags reg cli env
          (before ++ (key, { p with DefaultValue := d }) :: rest) params := by
  unfold declareAndResolve
  have hcfg : List.Forall₂ (entriesAgree p.Name) (before ++ (key, p) :: rest)
      (before ++ (key, { p with DefaultValue := d }) :: rest) :=
    List.rel_append (List.forall₂_same.mpr (fun e _ => entriesAgree_refl p.Name e))
      (List.Forall₂.cons (entriesAgree_default key p d h1 h2)
        (List.forall₂_same.mpr (fun e _ => entriesAgree_refl p.Name e)))
  rcases RegisterParameters_agree cmd p.Name _ _ hcfg flags flags reg
      (forall₂_agree_refl p.Name flags) with ⟨msg, a1, a2⟩ | ⟨F1, F2, r, a1, a2, hF, hk⟩
  · rw [a1, a2]
  · rw [a1, a2]
    simp only
    have hkey : key = p.Name := hk (key, p) (by simp)
    have hother : ∀ e ∈ before ++ rest, e.2.Name ≠ p.Name := by
      intro e he hname
      have hek : e.1 = key := by
        rw [hk e (by
          rcases List.mem_append.mp he with h | h
          · exact List.mem_append_left _ h
          · exact List.mem_append_right _ (List.mem_cons_of_mem _ h)), hname, hkey]
      simp only [List.map_append, List.map_cons] at hkeys
      have hnd := List.nodup_append.mp hkeys
      have hcons := List.nodup_cons.mp hnd.2.1
      rcases List.mem_append.mp he with h | h
      · exact hnd.2.2 (List.mem_map_of_mem Prod.fst h) (by rw [hek]; simp)
      · exact hcons.1 (by rw [← hek]; exact List.mem_map_of_mem Prod.fst h)
    obtain ⟨hch, hval⟩ := Lookup_agree_same cli p.Name F1 F2 hF
    apply ParseParameters_congr
    have hsame : ∀ l : List (String × Parameter), (∀ e ∈ l, e.2.Name ≠ p.Name) →
        List.Forall₂ (fun e1 e2 => e1.1 = e2.1
          ∧ ∀ v, resolveField (applyCommandLine cli F1) env e1.2 v
            = resolveField (applyCommandLine cli F2) env e2.2 v) l l := by
      intro l hl
      rw [List.forall₂_same]
      intro e he
      exact ⟨rfl, fun v => resolveField_congr_lookup _ _ env e.2 v
        (Lookup_agree_other cli p.Name F1 F2 hF e.2.Name (hl e he))⟩
    refine List.rel_append
      (hsame before (fun e he => hother e (List.mem_append_left _ he)))
      (List.Forall₂.cons ⟨rfl, fun v => ?_⟩
        (hsame rest (fun e he => hother e (List.mem_append_right _ he))))
    exact resolveField_required_congr (applyCommandLine cli F1) (applyCommandLine cli F2) env p
      { p with DefaultValue := d } v rfl rfl hreq hreq hch hval

/-- Witness of C28: `stringParam` from the environment and a required
`intParam` with empty default and with default `1234`, set to 7 on the command
line: both configurations bind `v` and 7. -/
theorem required_ignores_convertible_default_witness :
    declareAndResolve testSubCommand [] []
        (fun name => if name = "intParam" then some (.int 7) else none) (envWith "S" "v")
        ([("stringParam", testParameter "stringParam" .String "S" "" false)]
          ++ ("intParam", testParameter "intParam" .Int "" "" true) :: [])
        testParams
      = declareAndResolve testSubCommand [] []
        (fun name => if name = "intParam" then some (.int 7) else none) (envWith "S" "v")
        ([("stringParam", testParameter "stringParam" .String "S" "" false)]
          ++ ("intParam",
              { testParameter "intParam" .Int "" "" true with DefaultValue := "1234" }) :: [])
        testParams
    ∧ declareAndResolve testSubCommand [] []
        (fun name => if name = "intParam" then some (.int 7) else none) (envWith "S" "v")
        ([("stringParam", testParameter "stringParam" .String "S" "" false)]
          ++ ("intParam", testParameter "intParam" .Int "" "" true) :: [])
        testParams
      = (.nil, testParamsWith "v" 7 false []) :=
  ⟨required_ignores_convertible_default testSubCommand [] []
      (fun name => if name = "intParam" then some (.int 7) else none) (envWith "S" "v")
      [("stringParam", testParameter "stringParam" .String "S" "" false)] [] "intParam"
      (testParameter "intParam" .Int "" "" true) "1234" testParams (by decide) rfl
      (by decide) (by decide),
    by decide⟩

/-! ## Default round trip -/

theorem Lookup_setFromCommandLine (cli : String → Option FlagValue) (flags : FlagSet)
    (name : String) (f : Flag) (h : flags.Lookup name = some f) (hcli : cli name = none) :
    FlagSet.Lookup (applyCommandLine cli flags) name = some f := by
  rw [Lookup_applyCommandLine, h]
  have hn : f.Name = name := by
    unfold FlagSet.Lookup at h
    have := List.find?_some h
    simpa using this
  simp [setFromCommandLine, hn, hcli]

/-- C15. Default round trip: let `p` be a non-required parameter with key
`Name` whose `DefaultValue` converts for its kind, let the flag facility accept
its flag (the command has no flag named `Name` yet, and `ShortName` is empty
or is one byte that is the shorthand of no flag of the command), and let the
struct hold, as first field tagged with the key, a settable field of the type
of the kind.  Then `RegisterParameters` of the single entry completes and
registers an unchanged flag, and for every flag set in which that flag is
still the one found under `Name` (the command line did not set it) and every
environment in which the variable of `p` is unnamed, unset or empty,
`ParseParameters` with the same entry returns nil and binds the field to the
converted `DefaultValue`: the string itself; the result of `Atoi`, 0 when
empty; the result of `ParseBool`, false when empty; `Fields DefaultValue`,
which has no elements when `DefaultValue` is empty.  In particular declaring
and resolving with a command line that does not name the flag binds the
converted default.  `Fields` gives the whitespace-separated fields: a text
made of leading white space, a word, further words each preceded by white
space, and trailing white space has exactly these words as fields, where a
word is a non-empty text without white space. -/
theorem default_round_trip (cmd : Command) (reg : Registry) (flags : FlagSet) (env : Env)
    (key : String) (p : Parameter) (typeName : String) (pre post : List Field)
    (field : Field) (v : Value)
    (hkey : key = p.Name) (hfresh : flags.Lookup p.Name = none)
    (hshort : p.ShortName = ""
      ∨ (goLen p.ShortName = 1 ∧ ∀ g ∈ flags, g.Shorthand ≠ p.ShortName))
    (hreq : p.Required = false)
    (henv : p.EnvVarName = "" ∨ Getenv env p.EnvVarName = "")
    (hpre : ∀ g ∈ pre, g.paramName ≠ key) (htag : field.paramName = key) (hne : key ≠ "")
    (hset : field.CanSet = true)
    (hconv : (p.TypeKind = .String ∧ ∃ o, field.value = .string o ∧ v = .string p.DefaultValue)
      ∨ (p.TypeKind = .Int ∧ ∃ o n, field.value = .int o
          ∧ ((p.DefaultValue = "" ∧ n = 0) ∨ (p.DefaultValue ≠ "" ∧ Atoi p.DefaultValue = .ok n))
          ∧ v = .int n)
      ∨ (p.TypeKind = .Bool ∧ ∃ o b, field.value = .bool o
          ∧ ((p.DefaultValue = "" ∧ b = false)
            ∨ (p.DefaultValue ≠ "" ∧ ParseBool p.DefaultValue = .ok b))
          ∧ v = .bool b)
      ∨ ((p.TypeKind = .Array ∨ p.TypeKind = .Slice) ∧ ∃ o, field.value = .stringSlice o
          ∧ v = .stringSlice (Fields p.DefaultValue))) :
    ∃ flags' reg' f, RegisterParameters cmd [(key, p)] flags reg = .done flags' reg'
      ∧ flags'.Lookup p.Name = some f ∧ f.Changed = false
      ∧ (∀ flagsParsed : FlagSet, flagsParsed.Lookup p.Name = some f →
          ParseParameters flagsParsed env [(key, p)]
              { typeName := typeName, fields := pre ++ field :: post }
            = (.nil, { typeName := typeName,
                       fields := pre ++ { field with value := v } :: post }))
      ∧ (∀ cli : String → Option FlagValue, cli p.Name = none →
          declareAndResolve cmd flags reg cli env [(key, p)]
              { typeName := typeName, fields := pre ++ field :: post }
            = (.nil, { typeName := typeName,
                       fields := pre ++ { field with value := v } :: post }))
      ∧ Fields "" = []
      ∧ (∀ (lead w trail : String) (more : List (String × String)),
          (∀ c ∈ lead.data, isSpace c = true) → (∀ c ∈ trail.data, isSpace c = true) →
          w ≠ "" → (∀ c ∈ w.data, isSpace c = false) →
          (∀ x ∈ more, x.1 ≠ "" ∧ (∀ c ∈ x.1.data, isSpace c = true) ∧ x.2 ≠ ""
            ∧ ∀ c ∈ x.2.data, isSpace c = false) →
          Fields (lead ++ w ++ String.join (more.map (fun x => x.1 ++ x.2)) ++ trail)
            = w :: more.map Prod.snd) := by
  have hvalid : validEntry (key, p) = true := by
    unfold validEntry
    simp only [hkey, beq_self_eq_true, Bool.true_and]
    rcases hconv with ⟨hk, _⟩ | ⟨hk, o, n, _, hd, _⟩ | ⟨hk, o, b, _, hd, _⟩ | ⟨hk | hk, _⟩
    · simp [hk]
    · rcases hd with ⟨hd, _⟩ | ⟨_, hd⟩
      · simp [hk, hd]
      · simp [hk, hd, Except.isOk, Except.toBool]
    · rcases hd with ⟨hd, _⟩ | ⟨_, hd⟩
      · simp [hk, hd]
      · simp [hk, hd, Except.isOk, Except.toBool]
    · simp [hk]
    · simp [hk]
  obtain ⟨f, hf, hreg⟩ := registerParameter_done cmd key p flags reg hvalid hfresh hshort
  obtain ⟨hname, _, _, hchanged, _, hvalue⟩ := hf
  simp only [] at hname hchanged hvalue
  have hlook := Lookup_append_fresh flags f p.Name hfresh hname
  have hdone : RegisterParameters cmd [(key, p)] flags reg
      = .done (flags ++ [f])
          ((arrayTokens (key, p)).foldl (fun r t => recordArrayParamForCommand r cmd t) reg) := by
    rw [RegisterParameters, hreg]
    rfl
  have hparse : ∀ flagsParsed : FlagSet, flagsParsed.Lookup p.Name = some f →
      ParseParameters flagsParsed env [(key, p)]
          { typeName := typeName, fields := pre ++ field :: post }
        = (.nil, { typeName := typeName,
                   fields := pre ++ { field with value := v } :: post }) := by
    intro flagsParsed hparsed
    have hval : (∃ o, field.value = .string o ∧ v = .string p.DefaultValue)
        ∨ (∃ o n, field.value = .int o ∧ f.Value = .int n ∧ v = .int n)
        ∨ (∃ o b, field.value = .bool o ∧ f.Value = .bool b ∧ v = .bool b)
        ∨ (∃ o l, field.value = .stringSlice o ∧ f.Value = .stringArray l
            ∧ v = .stringSlice (stringArrayReadBack l)) := by
      rcases hconv with ⟨hk, o, h1, h2⟩ | ⟨hk, o, n, h1, hd, h2⟩ | ⟨hk, o, b, h1, hd, h2⟩
        | ⟨hk, o, h1, h2⟩
      · exact Or.inl ⟨o, h1, h2⟩
      · rw [hk] at hvalue
        obtain ⟨n', hn1, hn2, hn3⟩ := hvalue
        have : n' = n := by
          rcases hd with ⟨hd, hn⟩ | ⟨hd, hn⟩
          · rw [hn2 hd, hn]
          · have := hn3 hd
            rw [hn] at this
            exact (Except.ok.inj this).symm
        subst this
        exact Or.inr (Or.inl ⟨o, n', h1, hn1, h2⟩)
      · rw [hk] at hvalue
        obtain ⟨b', hn1, hn2, hn3⟩ := hvalue
        have : b' = b := by
          rcases hd with ⟨hd, hn⟩ | ⟨hd, hn⟩
          · rw [hn2 hd, hn]
          · have := hn3 hd
            rw [hn] at this
            exact (Except.ok.inj this).symm
        subst this
        exact Or.inr (Or.inr (Or.inl ⟨o, b', h1, hn1, h2⟩))
      · have hfv : f.Value = .stringArray (Fields p.DefaultValue) := by
          rcases hk with hk | hk <;> (rw [hk] at hvalue; exact hvalue)
        exact Or.inr (Or.inr (Or.inr ⟨o, _, h1, hfv,
          by rw [stringArrayReadBack_Fields]; exact h2⟩))
    have hr := resolveField_default flagsParsed env p f field.value v hparsed hchanged henv
      hreq hval
    have h := (parse_step flagsParsed env [] [] key p
      { typeName := typeName, fields := pre ++ field :: post } typeName pre post field rfl
      hpre htag hne hset).2
    rw [hr] at h
    exact h
  refine ⟨flags ++ [f], _, f, hdone, hlook, hchanged, hparse, ?_, rfl, Fields_words⟩
  intro cli hcli
  unfold declareAndResolve
  rw [hdone]
  exact hparse _ (Lookup_setFromCommandLine cli _ p.Name f hlook hcli)

/-- Witness of C15 on the test "should use default value when int parameter
not provided": registering the int parameter with default `1234` and resolving
it binds 1234; and registering the array parameter `x` with short name `s` and
default `a b c` and resolving it binds the three fields. -/
theorem default_round_trip_witness :
    (RegisterParameters testSubCommand
        [("intParam", testParameter "intParam" .Int "" "1234" false)] [] []
        = .done [testRegisteredIntFlag] []
      ∧ ParseParameters [testRegisteredIntFlag] emptyEnv
          [("intParam", testParameter "intParam" .Int "" "1234" false)] testParams
        = (.nil, testParamsWith "" 1234 false []))
    ∧ declareAndResolve testSubCommand [] [] (fun _ => none) emptyEnv
        [("x", testArrayParameter)]
        { typeName := "T",
          fields := [{ Name := "X", paramName := "x", CanSet := true,
                       value := .stringSlice ["old"] }] }
      = (.nil, { typeName := "T",
                 fields := [{ Name := "X", paramName := "x", CanSet := true,
                              value := .stringSlice ["a", "b", "c"] }] }) := by
  refine ⟨?_, ?_⟩
  · obtain ⟨flags', reg', f, h1, h2, _, h4, _⟩ :=
      default_round_trip testSubCommand [] [] emptyEnv "intParam"
        (testParameter "intParam" .Int "" "1234" false) "TestParams"
        [{ Name := "StringParam", paramName := "stringParam", CanSet := true,
           value := .string "" }]
        [{ Name := "BoolParam", paramName := "boolParam", CanSet := true, value := .bool false },
         { Name := "ArrayParam", paramName := "arrayParam", CanSet := true,
           value := .stringSlice [] }]
        { Name := "IntParam", paramName := "intParam", CanSet := true, value := .int 0 }
        (.int 1234) rfl (by decide) (Or.inl rfl) rfl (Or.inl rfl) (by decide) rfl (by decide) rfl
        (Or.inr (Or.inl ⟨rfl, 0, 1234, rfl, Or.inr ⟨by decide, by decide⟩, rfl⟩))
    have e := (show RegisterParameters testSubCommand
        [("intParam", testParameter "intParam" .Int "" "1234" false)] [] []
      = .done [testRegisteredIntFlag] [] by decide)
    have e2 : flags' = [testRegisteredIntFlag] :=
      (Registered.done.inj (e.symm.trans h1)).1.symm
    subst e2
    exact ⟨e, h4 _ h2⟩
  · obtain ⟨_, _, _, _, _, _, _, h5, _⟩ :=
      default_round_trip testSubCommand [] [] emptyEnv "x" testArrayParameter "T" [] []
        { Name := "X", paramName := "x", CanSet := true, value := .stringSlice ["old"] }
        (.stringSlice ["a", "b", "c"]) rfl (by decide) (Or.inr ⟨by decide, by simp⟩) rfl
        (Or.inl rfl) (by simp) rfl (by decide) rfl
        (Or.inr (Or.inr (Or.inr ⟨Or.inl rfl, ["old"], rfl, by decide⟩)))
    exact h5 (fun _ => none) rfl

/-! ## Defaults of required parameters -/

/-- C28, counterexample: two required int parameters that differ only in
`DefaultValue`, `x` and empty; with the first `RegisterParameters` panics on
the default, with the second it completes and `ParseParameters` returns the
error for a missing required parameter. -/
theorem required_default_changes_registration :
    declareAndResolve testSubCommand [] [] (fun _ => none) emptyEnv
        [("intParam", testParameter "intParam" .Int "" "x" true)] testParams
      = (.panic "RegisterParameters: parameter 'intParam' has invalid default value 'x'",
          testParams)
    ∧ declareAndResolve testSubCommand [] [] (fun _ => none) emptyEnv
        [("intParam", testParameter "intParam" .Int "" "" true)] testParams
      = (.error (.New "ParseParameters: required parameter 'intParam' is not set"),
          testParams) := by
  decide

theorem bindField_swap (flags : FlagSet) (env : Env) (typeName a b : String)
    (pa pb : Parameter) (hab : a ≠ b) :
    ∀ (fields f1 f2 : List Field),
      bindField flags env typeName a pa fields = (.nil, f1) →
      bindField flags env typeName b pb f1 = (.nil, f2) →
      ∃ g1, bindField flags env typeName b pb fields = (.nil, g1)
        ∧ bindField flags env typeName a pa g1 = (.nil, f2) := by
  intro fields
  induction fields with
  | nil => intro f1 f2 h; simp [bindField] at h
  | cons field rest ih =>
    intro f1 f2 h1 h2
    rw [bindField] at h1
    by_cases he : (field.paramName == "") = true
    · simp only [he, if_true, Prod.mk.injEq] at h1
      obtain ⟨ho, hf⟩ := h1
      subst hf
      rw [bindField] at h2
      simp only [he, if_true, Prod.mk.injEq] at h2
      obtain ⟨ho2, hf2⟩ := h2
      subst hf2
      obtain ⟨g1, hg1, hg2⟩ := ih _ _ (Prod.ext ho rfl) (Prod.ext ho2 rfl)
      refine ⟨field :: g1, ?_, ?_⟩
      · rw [bindField]; simp only [he, if_true, hg1]
      · rw [bindField]; simp only [he, if_true, hg2]
    · by_cases ha : (field.paramName == a) = true
      · have hb : (field.paramName == b) = false := by
          rw [beq_eq_false_iff_ne]
          intro e
          exact hab ((beq_iff_eq.mp ha).symm.trans e)
        simp only [he, ha, if_true, Bool.false_eq_true, if_false] at h1
        by_cases hc : field.CanSet = true
        · simp only [hc, if_true] at h1
          cases hr : resolveField flags env pa field.value with
          | set v =>
            rw [hr] at h1
            simp only [Prod.mk.injEq, true_and] at h1
            subst h1
            rw [bindField] at h2
            simp only [he, hb, if_true, Bool.false_eq_true, if_false, Prod.mk.injEq] at h2
            obtain ⟨ho2, hf2⟩ := h2
            subst hf2
            refine ⟨field :: (bindField flags env typeName b pb rest).2, ?_, ?_⟩
            · rw [bindField]
              simp only [he, hb, Bool.false_eq_true, if_false, ho2]
            · rw [bindField]
              simp only [he, ha, if_true, Bool.false_eq_true, if_false, hc, hr]
          | fail err => rw [hr] at h1; simp at h1
          | abort msg => rw [hr] at h1; simp at h1
        · simp [hc] at h1
      · simp only [he, ha, Bool.false_eq_true, if_false, Prod.mk.injEq] at h1
        obtain ⟨ho, hf⟩ := h1
        subst hf
        rw [bindField] at h2
        by_cases hb : (field.paramName == b) = true
        · simp only [he, hb, if_true, Bool.false_eq_true, if_false] at h2
          by_cases hc : field.CanSet = true
          · simp only [hc, if_true] at h2
            cases hr : resolveField flags env pb field.value with
            | set v =>
              rw [hr] at h2
              simp only [Prod.mk.injEq, true_and] at h2
              subst h2
              refine ⟨{ field with value := v } :: rest, ?_, ?_⟩
              · rw [bindField]
                simp only [he, hb, if_true, Bool.false_eq_true, if_false, hc, hr]
              · rw [bindField]
                simp only [he, ha, Bool.false_eq_true, if_false, ho, hc]
            | fail err => rw [hr] at h2; simp at h2
            | abort msg => rw [hr] at h2; simp at h2
          · simp [hc] at h2
        · simp only [he, hb, Bool.false_eq_true, if_false, Prod.mk.injEq] at h2
          obtain ⟨ho2, hf2⟩ := h2
          subst hf2
          obtain ⟨g1, hg1, hg2⟩ := ih _ _ (Prod.ext ho rfl) (Prod.ext ho2 rfl)
          refine ⟨field :: g1, ?_, ?_⟩
          · rw [bindField]; simp only [he, hb, Bool.false_eq_true, if_false, hg1]
          · rw [bindField]; simp only [he, ha, Bool.false_eq_true, if_false, hg2]

theorem ParseParameters_cons_nil (flags : FlagSet) (env : Env) (tag : String) (p : Parameter)
    (cfg : List (String × Parameter)) (params r : Params)
    (h : ParseParameters flags env ((tag, p) :: cfg) params = (.nil, r)) :
    ∃ fields, bindField flags env params.typeName tag p params.fields = (.nil, fields)
      ∧ ParseParameters flags env cfg { params with fields := fields } = (.nil, r) := by
  rw [ParseParameters] at h
  cases hr : bindField flags env params.typeName tag p params.fields with
  | mk o fields =>
    rw [hr] at h
    cases o with
    | nil => exact ⟨fields, rfl, h⟩
    | error err => simp at h
    | panic msg => simp at h

theorem ParseParameters_swap (flags : FlagSet) (env : Env) (x y : String × Parameter)
    (cfg : List (String × Parameter)) (hxy : x.1 ≠ y.1) (params r : Params)
    (h : ParseParameters flags env (x :: y :: cfg) params = (.nil, r)) :
    ParseParameters flags env (y :: x :: cfg) params = (.nil, r) := by
  obtain ⟨a, pa⟩ := x
  obtain ⟨b, pb⟩ := y
  obtain ⟨f1, h1, h⟩ := ParseParameters_cons_nil flags env a pa _ params r h
  obtain ⟨f2, h2, h⟩ := ParseParameters_cons_nil flags env b pb _ _ r h
  simp only at h2 h
  obtain ⟨g1, hg1, hg2⟩ := bindField_swap flags env params.typeName a b pa pb hxy _ _ _ h1 h2
  rw [ParseParameters, hg1]
  simp only
  rw [ParseParameters]
  simp only [hg2]
  exact h

theorem ParseParameters_perm (flags : FlagSet) (env : Env)
    (cfg cfg' : List (String × Parameter)) (hperm : cfg.Perm cfg') :
    (cfg.map Prod.fst).Nodup → ∀ (params r : Params),
      ParseParameters flags env cfg params = (.nil, r) →
      ParseParameters flags env cfg' params = (.nil, r) := by
  induction hperm with
  | nil => intro _ params r h; exact h
  | cons x _ ih =>
    intro hn params r h
    obtain ⟨tag, p⟩ := x
    obtain ⟨fields, h1, h2⟩ := ParseParameters_cons_nil flags env tag p _ params r h
    rw [ParseParameters, h1]
    exact ih (List.nodup_cons.mp hn).2 _ r h2
  | swap x y l =>
    intro hn params r h
    have hne : y.1 ≠ x.1 := by
      simp only [List.map_cons, List.nodup_cons, List.mem_cons, not_or] at hn
      exact hn.1.1
    exact ParseParameters_swap flags env y x l hne params r h
  | trans h12 _ ih1 ih2 =>
    intro hn params r h
    exact ih2 ((h12.map Prod.fst).nodup_iff.mp hn) params r (ih1 hn params r h)

theorem firstFailure_perm (o : Outcome) (os os' : List Outcome) (hperm : os.Perm os') :
    (∀ x ∈ os, x = .nil ∨ x = o) → firstFailure os = firstFailure os' := by
  induction hperm with
  | nil => intro _; rfl
  | cons x _ ih =>
    intro h
    have ih' := ih (fun y hy => h y (List.mem_cons_of_mem _ hy))
    cases x with
    | nil => simp only [firstFailure]; exact ih'
    | error err => simp [firstFailure]
    | panic msg => simp [firstFailure]
  | swap x y l =>
    intro h
    have hx := h x (by simp)
    have hy := h y (by simp)
    rcases hx with hx | hx
    · subst hx
      cases y <;> simp [firstFailure]
    · rcases hy with hy | hy
      · subst hy
        cases x <;> simp [firstFailure]
      · rw [hx, hy]
  | trans h12 _ ih1 ih2 =>
    intro h
    exact (ih1 h).trans (ih2 (fun x hx => h x (h12.mem_iff.mpr hx)))

/-- C29, counterexample: two required parameters are both missing; visiting
`intParam` first returns its error, visiting `stringParam` first returns the
other error. -/
theorem parse_outcome_depends_on_order :
    ParseParameters [] emptyEnv
        [("intParam", testParameter "intParam" .Int "" "" true),
          ("stringParam", testParameter "stringParam" .String "" "" true)] testParams
      = (.error (.New "ParseParameters: required parameter 'intParam' is not set"), testParams)
    ∧ ParseParameters [] emptyEnv
        [("stringParam", testParameter "stringParam" .String "" "" true),
          ("intParam", testParameter "intParam" .Int "" "" true)] testParams
      = (.error (.New "ParseParameters: required parameter 'stringParam' is not set"),
          testParams) := by
  decide

/-- C29, amended. Order of the entries: for a fixed flag set, environment and
struct, the outcome of `ParseParameters` is the first outcome other than nil
in the list of the outcomes of the entries, each computed on the struct as it
was before the call, in the order in which the entries are visited.  Hence,
for two orders of a configuration with distinct keys: if the call returns nil
in one order it returns nil in the other with the same struct, and if all
entries that do not succeed have the same outcome (in particular if only one
entry fails) both orders return that outcome. -/
theorem parse_order_independent_up_to_first_failure (flags : FlagSet) (env : Env)
    (cfg cfg' : List (String × Parameter)) (params : Params)
    (hperm : cfg.Perm cfg') (hkeys : (cfg.map Prod.fst).Nodup) :
    (ParseParameters flags env cfg params).1
        = firstFailure (cfg.map (entryOutcome flags env params))
      ∧ (ParseParameters flags env cfg' params).1
        = firstFailure (cfg'.map (entryOutcome flags env params))
      ∧ ((ParseParameters flags env cfg params).1 = .nil →
          ParseParameters flags env cfg' params = ParseParameters flags env cfg params)
      ∧ ∀ o, (∀ entry ∈ cfg, entryOutcome flags env params entry = .nil
            ∨ entryOutcome flags env params entry = o) →
          (ParseParameters flags env cfg' params).1 = (ParseParameters flags env cfg params).1 := by
  refine ⟨ParseParameters_outcome flags env cfg params,
    ParseParameters_outcome flags env cfg' params, ?_, ?_⟩
  · intro h
    have h1 : ParseParameters flags env cfg params
        = (.nil, (ParseParameters flags env cfg params).2) := Prod.ext h rfl
    rw [ParseParameters_perm flags env cfg cfg' hperm hkeys params _ h1]
    exact h1.symm
  · intro o h
    rw [ParseParameters_outcome, ParseParameters_outcome]
    refine (firstFailure_perm o _ _ (hperm.map _) ?_).symm
    intro x hx
    obtain ⟨entry, he, rfl⟩ := List.mem_map.mp hx
    exact h entry he

/-- Witness of C29: two entries that both succeed give the same result in both
orders, and with `intParam` as the only failing entry both orders return its
error. -/
theorem parse_order_independent_up_to_first_failure_witness :
    ParseParameters [testFlag "intParam" (.int 7) true] (envWith "S" "v")
        [("intParam", testParameter "intParam" .Int "" "" true),
          ("stringParam", testParameter "stringParam" .String "S" "" true)] testParams
      = ParseParameters [testFlag "intParam" (.int 7) true] (envWith "S" "v")
        [("stringParam", testParameter "stringParam" .String "S" "" true),
          ("intParam", testParameter "intParam" .Int "" "" true)] testParams
    ∧ (ParseParameters [] (envWith "S" "v")
        [("intParam", testParameter "intParam" .Int "" "" true),
          ("stringParam", testParameter "stringParam" .String "S" "" true)] testParams).1
      = (ParseParameters [] (envWith "S" "v")
        [("stringParam", testParameter "stringParam" .String "S" "" true),
          ("intParam", testParameter "intParam" .Int "" "" true)] testParams).1 :=
  ⟨(parse_order_independent_up_to_first_failure [testFlag "intParam" (.int 7) true]
      (envWith "S" "v")
      [("stringParam", testParameter "stringParam" .String "S" "" true),
        ("intParam", testParameter "intParam" .Int "" "" true)]
      [("intParam", testParameter "intParam" .Int "" "" true),
        ("stringParam", testParameter "stringParam" .String "S" "" true)]
      testParams (List.Perm.swap _ _ _) (by decide)).2.2.1 (by decide),
    (parse_order_independent_up_to_first_failure [] (envWith "S" "v")
      [("stringParam", testParameter "stringParam" .String "S" "" true),
        ("intParam", testParameter "intParam" .Int "" "" true)]
      [("intParam", testParameter "intParam" .Int "" "" true),
        ("stringParam", testParameter "stringParam" .String "S" "" true)]
      testParams (List.Perm.swap _ _ _) (by decide)).2.2.2
      (.error (.New "ParseParameters: required parameter 'intParam' is not set"))
      (by decide)⟩

/-! ## Claims on result file paths -/

/-- C30. `ReadResultFilesPath`, success: if every field of the struct is a
string that can be set, carries a non-empty `env` tag, and the variable named
by the tag is set to a non-empty value, then the call returns nil and every
field holds the value of its variable. -/
theorem read_result_paths_success (env : Env) :
    ∀ (fields : List ResultField),
      (∀ f ∈ fields, f.value.Kind = .String ∧ f.CanSet = true ∧ f.env ≠ ""
        ∧ ∃ v, env f.env = some v ∧ v ≠ "") →
      ReadResultFilesPath env fields
        = (.nil, fields.map (fun f => { f with value := .string (Getenv env f.env) })) := by
  intro fields
  induction fields with
  | nil => intro _; rfl
  | cons f rest ih =>
    intro h
    obtain ⟨hk, hc, he, v, hv, hne⟩ := h f (List.mem_cons_self _ _)
    have hrest := ih (fun g hg => h g (List.mem_cons_of_mem _ hg))
    have hg : Getenv env f.env = v := by simp [Getenv, hv]
    rw [ReadResultFilesPath]
    simp only [hk, hc, hg, hrest, List.map_cons]
    simp [he, hne]

/-- Witness of C30: the test "should populate struct fields from environment
variables". -/
theorem read_result_paths_success_witness :
    ReadResultFilesPath testResultEnv testResultFields
      = (.nil,
          [{ Name := "OutputPath", env := "OUTPUT_PATH", CanSet := true,
             value := .string "/tmp/output" },
           { Name := "LogPath", env := "LOG_PATH", CanSet := true, value := .string "/tmp/log" },
           { Name := "ResultPath", env := "RESULT_PATH", CanSet := true,
             value := .string "/tmp/result" }]) :=
  (read_result_paths_success testResultEnv testResultFields (by
    intro f hf
    simp only [testResultFields, List.mem_cons, List.mem_singleton, List.not_mem_nil,
      or_false] at hf
    rcases hf with rfl | rfl | rfl
    · exact ⟨rfl, rfl, by decide, "/tmp/output", rfl, by decide⟩
    · exact ⟨rfl, rfl, by decide, "/tmp/log", rfl, by decide⟩
    · exact ⟨rfl, rfl, by decide, "/tmp/result", rfl, by decide⟩)).trans (by decide)

/-! ## Claims on the scan as a whole -/

theorem isValue_fun_eq : isValue = (fun a => !hasPrefixDash a) := by
  funext a
  exact isValue_eq a

theorem referenceExpansion_eq_rewrite (M : List String) :
    ∀ (n : Nat) (l : List String), l.length ≤ n →
      referenceExpansion M n l = rewrite M none l := by
  intro n
  induction n with
  | zero =>
    intro l h
    have : l = [] := List.length_eq_zero.mp (Nat.le_zero.mp h)
    subst this
    rfl
  | succ n ih =>
    intro l h
    cases l with
    | nil => rfl
    | cons t r =>
      have hr : r.length ≤ n := by simpa using h
      have hdrop : (r.dropWhile (fun a => !hasPrefixDash a)).length ≤ n :=
        Nat.le_trans (List.dropWhile_sublist _).length_le hr
      rw [referenceExpansion, rewrite]
      by_cases hs : t = "--"
      · simp [hs]
      · simp only [hs, if_false]
        rw [ih r hr, ih _ hdrop]
        unfold landOn
        by_cases he : (hasPrefixDash t && containsEq t) = true
        · simp only [he, if_true]
          by_cases hm : String.mk (beforeEq t.data) ∈ M
          · have hc : M.contains (String.mk (beforeEq t.data)) = true := by simpa using hm
            simp only [hm, hc, if_true]
            rw [rewrite_some_values, isValue_fun_eq]
            simp
          · have hc : M.contains (String.mk (beforeEq t.data)) = false := by simpa using hm
            simp [hm, hc]
        · simp only [he, Bool.false_eq_true, if_false]
          by_cases hm : t ∈ M
          · have hc : M.contains t = true := by simpa using hm
            simp only [hm, hc, if_true]
            rw [rewrite_some_values, isValue_fun_eq]
            simp
          · have hc : M.contains t = false := by simpa using hm
            simp [hm, hc]

theorem R_eq_rewrite (M argv : List String) : R M argv = rewrite M none argv :=
  referenceExpansion_eq_rewrite M argv.length argv (Nat.le_refl _)

/-- C33. Reference equivalence: for every set `M` of array-valued tokens and
every argv, the cursor loop returns the list `R M argv`, and so does
`ExpandArrayParameters` with the tokens looked up for argv; `R` satisfies the
equations of the structural definition: `R [] = []`, and `R (t :: r)` is
`t :: r` for the sentinel; for `t` starting with `-` and containing `=`, with
`f` and `v` the parts around the first `=`, it is
`[f, v] ++ pairs f vs ++ R r'` when `f` is in `M` and `t :: R r` otherwise;
for `t` in `M` it is `pairs t vs ++ R r'`; otherwise `t :: R r`; `vs` is the
longest prefix of `r` of tokens not starting with `-` and `r'` the rest. -/
theorem scan_refines_reference (reg : Registry) (M argv : List String) :
    expandWith M argv = .ok (R M argv)
      ∧ ExpandArrayParameters reg argv = .ok (R (multiFlagsOf reg argv) argv)
      ∧ R M [] = []
      ∧ ∀ (t : String) (r : List String),
          R M (t :: r)
            = if t = "--" then t :: r
              else if hasPrefixDash t && containsEq t then
                if String.mk (beforeEq t.data) ∈ M then
                  [String.mk (beforeEq t.data), String.mk ((afterEq t.data).getD [])]
                    ++ pairs (String.mk (beforeEq t.data))
                        (r.takeWhile (fun a => !hasPrefixDash a))
                    ++ R M (r.dropWhile (fun a => !hasPrefixDash a))
                else t :: R M r
              else if t ∈ M then
                pairs t (r.takeWhile (fun a => !hasPrefixDash a))
                  ++ R M (r.dropWhile (fun a => !hasPrefixDash a))
              else t :: R M r := by
  refine ⟨?_, ?_, rfl, ?_⟩
  · rw [expandWith_eq, R_eq_rewrite]
  · unfold ExpandArrayParameters
    rw [expandWith_eq, R_eq_rewrite]
  · intro t r
    have hdrop : (r.dropWhile (fun a => !hasPrefixDash a)).length ≤ r.length :=
      (List.dropWhile_sublist _).length_le
    have e1 : referenceExpansion M r.length (r.dropWhile (fun a => !hasPrefixDash a))
        = R M (r.dropWhile (fun a => !hasPrefixDash a)) := by
      rw [referenceExpansion_eq_rewrite M _ _ hdrop, R_eq_rewrite]
    have e2 : referenceExpansion M r.length r = R M r := rfl
    have e0 : R M (t :: r) = referenceExpansion M (r.length + 1) (t :: r) := rfl
    rw [e0, referenceExpansion]
    simp only [e1, e2]

theorem lookahead_no_index_fault (argv : List String) (flag : String) :
    ∀ (fuel j : Nat) (out : List String),
      lookahead argv flag fuel j out ≠ .error .indexOutOfRange := by
  intro fuel
  induction fuel with
  | zero =>
    intro j out
    rw [lookahead]
    by_cases hj : j < argv.length
    · rw [if_pos hj, List.getElem?_eq_getElem hj]
      simp only
      split <;> simp
    · rw [if_neg hj]; simp
  | succ fuel ih =>
    intro j out
    rw [lookahead]
    by_cases hj : j < argv.length
    · rw [if_pos hj, List.getElem?_eq_getElem hj]
      simp only
      split
      · exact ih _ _
      · simp
    · rw [if_neg hj]; simp

theorem scan_no_index_fault (M argv : List String) :
    ∀ (fuel i : Nat) (out : List String),
      scan M argv fuel i out ≠ .error .indexOutOfRange := by
  intro fuel
  induction fuel with
  | zero =>
    intro i out
    rw [scan]
    split <;> simp
  | succ fuel ih =>
    intro i out
    rw [scan]
    by_cases hi : i < argv.length
    · rw [if_pos hi, List.getElem?_eq_getElem hi]
      simp only
      by_cases hs : (argv[i] == "--") = true
      · rw [if_pos hs]; simp
      · rw [if_neg hs]
        by_cases he : (hasPrefixDash argv[i] && containsEq argv[i]) = true
        · have hc : containsEq argv[i] = true := by
            simp only [Bool.and_eq_true] at he; exact he.2
          rw [if_pos he, splitNEq2_of_contains _ hc]
          simp only [List.getElem?_cons_zero, List.getElem?_cons_succ]
          by_cases hm : M.contains (String.mk (beforeEq argv[i].data)) = true
          · rw [if_pos hm, lookahead_eq _ _ _ _ _ (by omega)]
            exact ih _ _
          · rw [if_neg hm]
            exact ih _ _
        · rw [if_neg he]
          by_cases hm : M.contains argv[i] = true
          · rw [if_pos hm, lookahead_eq _ _ _ _ _ (by omega)]
            exact ih _ _
          · rw [if_neg hm]
            exact ih _ _
    · rw [if_neg hi]; simp

/-- C35. Termination: the scan of `ExpandArrayParameters` is the loop run with
a budget of `len(argv)` iterations, and within that budget it returns a
result; each lookahead loop returns within `len(argv)` iterations.  One
iteration at a cursor that is on a token other than the sentinel continues
the loop at a cursor that is greater by `1 + k` for some `k ≥ 0` and is at
most `len(argv)`, whichever branch is taken; an iteration on the sentinel ends
the loop. -/
theorem scan_terminates (M argv : List String) :
    expandWith M argv = scan M argv argv.length 0 []
      ∧ (∃ out, scan M argv argv.length 0 [] = .ok out)
      ∧ (∀ (flag : String) (j : Nat) (out : List String),
          ∃ res, lookahead argv flag argv.length j out = .ok res)
      ∧ (∀ (pre : List String) (t : String) (r : List String), argv = pre ++ t :: r →
          t ≠ "--" → ∀ (fuel : Nat) (out : List String),
            ∃ k out', pre.length + 1 + k ≤ argv.length
              ∧ scan M argv (fuel + 1) pre.length out
                  = scan M argv fuel (pre.length + 1 + k) out')
      ∧ ∀ (pre r : List String), argv = pre ++ "--" :: r →
          ∀ (fuel : Nat) (out : List String),
            scan M argv (fuel + 1) pre.length out = .ok (out ++ "--" :: r) := by
  refine ⟨rfl, ⟨_, scan_eq M argv argv.length 0 [] (by omega)⟩, ?_, ?_, ?_⟩
  · intro flag j out
    exact ⟨_, lookahead_eq argv flag argv.length j out (by omega)⟩
  · intro pre t r hargv hs fuel out
    subst hargv
    rw [scan_step M pre t r hs fuel out]
    cases (landOn M t).2 with
    | none => exact ⟨0, _, by simp, rfl⟩
    | some f =>
      refine ⟨(r.takeWhile isValue).length, _, ?_, rfl⟩
      have := (List.takeWhile_sublist isValue (l := r)).length_le
      simp only [List.length_append, List.length_cons]
      omega
  · intro pre r hargv fuel out
    subst hargv
    exact scan_at_sentinel M pre r fuel out

/-- Witness of C35: on `subcmd --array-param a b --x` the iteration at cursor 1
continues at a greater cursor, and on `subcmd -- --array-param a` the
iteration at cursor 1 ends the loop. -/
theorem scan_terminates_witness :
    (∃ k out', 1 + 1 + k ≤ 5
        ∧ scan ["--array-param"] ["subcmd", "--array-param", "a", "b", "--x"] (3 + 1) 1 ["subcmd"]
            = scan ["--array-param"] ["subcmd", "--array-param", "a", "b", "--x"] 3 (1 + 1 + k)
                out')
      ∧ scan ["--array-param"] ["subcmd", "--", "--array-param", "a"] (0 + 1) 1 ["subcmd"]
          = .ok (["subcmd"] ++ "--" :: ["--array-param", "a"]) :=
  ⟨(scan_terminates ["--array-param"] ["subcmd", "--array-param", "a", "b", "--x"]).2.2.2.1
      ["subcmd"] "--array-param" ["a", "b", "--x"] rfl (by decide) 3 ["subcmd"],
    (scan_terminates ["--array-param"] ["subcmd", "--", "--array-param", "a"]).2.2.2.2
      ["subcmd"] ["--array-param", "a"] rfl 0 ["subcmd"]⟩

/-- C36. Index safety: for every argv, every set of array-valued tokens, every
cursor and every budget, neither the main loop nor the lookahead loop reads
`argv` outside its bounds or a part of the split that is missing: the result
is never the index fault.  The split of a token that contains `=` has exactly
two parts, the text before the first `=` and the text after it, and
`ExpandArrayParameters` returns a result for every argv. -/
theorem scan_index_safe (reg : Registry) (M argv : List String) :
    (∀ (fuel i : Nat) (out : List String),
        scan M argv fuel i out ≠ .error .indexOutOfRange)
      ∧ (∀ (flag : String) (fuel j : Nat) (out : List String),
          lookahead argv flag fuel j out ≠ .error .indexOutOfRange)
      ∧ (∀ t : String, containsEq t = true →
          splitNEq2 t = [String.mk (beforeEq t.data), String.mk ((afterEq t.data).getD [])]
            ∧ (splitNEq2 t).length = 2)
      ∧ ∃ out, ExpandArrayParameters reg argv = .ok out := by
  refine ⟨scan_no_index_fault M argv, fun flag => lookahead_no_index_fault argv flag, ?_, ?_⟩
  · intro t h
    have := splitNEq2_of_contains t h
    exact ⟨this, by rw [this]; rfl⟩
  · unfold ExpandArrayParameters
    exact ⟨_, expandWith_eq _ _⟩

/-- Witness of C36: the split of a token ending in `=`, and the results for the
empty argv, a lone array flag and an equals-form token ending in `=` as last
token. -/
theorem scan_index_safe_witness :
    (splitNEq2 "--array-param=" = ["--array-param", ""]
        ∧ (splitNEq2 "--array-param=").length = 2)
      ∧ ExpandArrayParameters testRegistry [] = .ok []
      ∧ ExpandArrayParameters testRegistry ["subcmd", "--array-param"] = .ok ["subcmd"]
      ∧ ExpandArrayParameters testRegistry ["subcmd", "--array-param="]
        = .ok ["subcmd", "--array-param", ""] :=
  ⟨(scan_index_safe testRegistry ["--array-param"] ["subcmd", "--array-param="]).2.2.1
      "--array-param=" (by decide),
    by decide, by decide, by decide⟩

theorem hasPrefixDash_beforeEq (t : String) (hd : hasPrefixDash t = true) :
    hasPrefixDash (String.mk (beforeEq t.data)) = true := by
  unfold hasPrefixDash at *
  cases h : t.data with
  | nil => rw [h] at hd; simp at hd
  | cons c cs =>
    rw [h] at hd
    simp only [beq_iff_eq] at hd
    subst hd
    simp [beforeEq]

theorem landOn_head_dash (M : List String) (t : String) (hd : hasPrefixDash t = true) :
    ∀ x ∈ (landOn M t).1.head?, hasPrefixDash x = true := by
  intro x hx
  unfold landOn at hx
  split at hx
  · split at hx
    · simp only [List.head?_cons, Option.mem_def, Option.some.injEq] at hx
      rw [← hx]
      exact hasPrefixDash_beforeEq t hd
    · simp only [List.head?_cons, Option.mem_def, Option.some.injEq] at hx
      rw [← hx]; exact hd
  · split at hx
    · simp at hx
    · simp only [List.head?_cons, Option.mem_def, Option.some.injEq] at hx
      rw [← hx]; exact hd

theorem landOn_state_mem (M : List String) (t : String) :
    ∀ f ∈ (landOn M t).2, f ∈ M := by
  intro f hf
  unfold landOn at hf
  split at hf
  · split at hf
    · rename_i h
      simp only [Option.mem_def, Option.some.injEq] at hf
      rw [← hf]; simpa using h
    · simp at hf
  · split at hf
    · rename_i h
      simp only [Option.mem_def, Option.some.injEq] at hf
      rw [← hf]; simpa using h
    · simp at hf

theorem landOn_nil_state (M : List String) (t : String) (h : (landOn M t).1 = []) :
    (landOn M t).2 = some t := by
  unfold landOn at h ⊢
  by_cases he : (hasPrefixDash t && containsEq t) = true
  · rw [if_pos he] at h
    by_cases hm : M.contains (String.mk (beforeEq t.data)) = true
    · rw [if_pos hm] at h; simp at h
    · rw [if_neg hm] at h; simp at h
  · rw [if_neg he] at h ⊢
    by_cases hm : M.contains t = true
    · rw [if_pos hm]
    · rw [if_neg hm] at h; simp at h

theorem head_rewrite_dash_of_dash_flags (M : List String)
    (hM : ∀ f ∈ M, hasPrefixDash f = true) :
    ∀ (l : List String) (st : Option String), (∀ f ∈ st, f ∈ M) →
      (st = none → ∀ t ∈ l.head?, hasPrefixDash t = true) →
      ∀ t ∈ (rewrite M st l).head?, hasPrefixDash t = true := by
  intro l
  induction l with
  | nil => intro st _ _ t ht; cases st <;> simp [rewrite] at ht
  | cons a r ih =>
    intro st hst hnone
    have hland : hasPrefixDash a = true →
        ∀ t ∈ ((landOn M a).1 ++ rewrite M (landOn M a).2 r).head?,
          hasPrefixDash t = true := by
      intro hd t ht
      cases h1 : (landOn M a).1 with
      | nil =>
        rw [h1, List.nil_append] at ht
        have h2 := landOn_nil_state M a h1
        rw [h2] at ht
        have ha : a ∈ M := landOn_state_mem M a a (by rw [h2]; rfl)
        exact ih (some a) (by intro f hf; cases hf; exact ha) (by intro h; cases h) t ht
      | cons x xs =>
        rw [h1] at ht
        simp only [List.cons_append, List.head?_cons, Option.mem_def, Option.some.injEq] at ht
        rw [← ht]
        exact landOn_head_dash M a hd x (by rw [h1]; rfl)
    by_cases hs : a = "--"
    · intro t ht
      have : rewrite M st (a :: r) = a :: r := by cases st <;> simp [rewrite, hs]
      rw [this] at ht
      simp only [List.head?_cons, Option.mem_def, Option.some.injEq] at ht
      rw [← ht, hs]; exact hasPrefixDash_sentinel
    · cases st with
      | none =>
        have hd : hasPrefixDash a = true := hnone rfl a rfl
        simp only [rewrite, hs, if_false]
        exact hland hd
      | some f =>
        by_cases hd : hasPrefixDash a = true
        · simp only [rewrite, hs, if_false, hd, if_true]
          exact hland hd
        · intro t ht
          simp only [rewrite, hs, if_false, hd, Bool.false_eq_true, List.head?_cons,
            Option.mem_def, Option.some.injEq] at ht
          rw [← ht]
          exact hM f (hst f rfl)

theorem takeWhile_rewrite (M : List String) (hM : ∀ f ∈ M, hasPrefixDash f = true) :
    ∀ (l : List String),
      (rewrite M none l).takeWhile (fun a => !hasPrefixDash a)
        = l.takeWhile (fun a => !hasPrefixDash a) := by
  intro l
  induction l with
  | nil => rfl
  | cons t r ih =>
    by_cases hd : hasPrefixDash t = true
    · have hhead := head_rewrite_dash_of_dash_flags M hM (t :: r) none
        (by intro f hf; cases hf) (by intro _ x hx; cases hx; exact hd)
      have h1 : (t :: r).takeWhile (fun a => !hasPrefixDash a) = [] := by
        simp [List.takeWhile_cons, hd]
      rw [h1]
      cases ho : rewrite M none (t :: r) with
      | nil => rfl
      | cons x xs =>
        have hx : hasPrefixDash x = true := hhead x (by rw [ho]; rfl)
        simp [List.takeWhile_cons, hx]
    · have hd' : hasPrefixDash t = false := by simpa using hd
      have hs : t ≠ "--" := by
        intro h; rw [h, hasPrefixDash_sentinel] at hd'; cases hd'
      have htM : t ∉ M := fun h => hd (hM t h)
      have hc : M.contains t = false := by simpa using htM
      have hl : landOn M t = ([t], none) := by
        rw [landOn_plain M t (by simp [hd']), hc]
        simp
      simp only [rewrite, hs, if_false, hl, List.singleton_append, List.takeWhile_cons, hd',
        Bool.not_false, if_true, ih]

/-- C39. Expansion keeps the command path: if every array-valued token looked
up for argv starts with `-`, then `ExpandArrayParameters` returns a list whose
longest prefix of tokens not starting with `-` is that of argv; the command
path computed from the output is the one computed from argv, and so are the
array-valued tokens looked up for it. -/
theorem expand_keeps_command_path (reg : Registry) (argv : List String)
    (hM : ∀ f ∈ multiFlagsOf reg argv, hasPrefixDash f = true) :
    ∃ out, ExpandArrayParameters reg argv = .ok out
      ∧ out.takeWhile (fun a => !hasPrefixDash a) = argv.takeWhile (fun a => !hasPrefixDash a)
      ∧ commandPathArray out = commandPathArray argv
      ∧ multiFlagsOf reg out = multiFlagsOf reg argv := by
  have ht := takeWhile_rewrite (multiFlagsOf reg argv) hM argv
  have hc : commandPathArray (rewrite (multiFlagsOf reg argv) none argv)
      = commandPathArray argv := by
    rw [commandPathArray_eq_takeWhile, commandPathArray_eq_takeWhile, ht]
  refine ⟨rewrite (multiFlagsOf reg argv) none argv, ?_, ht, hc, ?_⟩
  · unfold ExpandArrayParameters
    exact expandWith_eq _ _
  · have e : multiFlagsOf reg (rewrite (multiFlagsOf reg argv) none argv)
        = GoMap.get (buildArrayParamsData reg)
            (joinSpace (commandPathArray (rewrite (multiFlagsOf reg argv) none argv))) := rfl
    rw [e, hc]
    rfl

/-- Witness of C39: `--array-param` without values is dropped and `--multi` is
expanded; the command path stays `subcmd`. -/
theorem expand_keeps_command_path_witness :
    ExpandArrayParameters testRegistry ["subcmd", "--array-param", "--multi", "a", "b"]
        = .ok ["subcmd", "--multi", "a", "--multi", "b"]
      ∧ commandPathArray ["subcmd", "--multi", "a", "--multi", "b"]
        = commandPathArray ["subcmd", "--array-param", "--multi", "a", "b"] := by
  obtain ⟨out, h1, _, h3, _⟩ := expand_keeps_command_path testRegistry
    ["subcmd", "--array-param", "--multi", "a", "b"] (by decide)
  have e : out = ["subcmd", "--multi", "a", "--multi", "b"] :=
    Except.ok.inj (h1.symm.trans (by decide))
  subst e
  exact ⟨h1, h3⟩

theorem rewrite_state_irrelevant (M : List String) (st : Option String) (X : List String)
    (h : ∀ t ∈ X.head?, hasPrefixDash t = true) : rewrite M st X = rewrite M none X := by
  cases X with
  | nil => cases st <;> rfl
  | cons t r => exact rewrite_dash M st t r (h t rfl)

theorem rewrite_pair_fixed (M : List String)
    (hM : ∀ f ∈ M, hasPrefixDash f = true ∧ containsEq f = false)
    (f v : String) (Y : List String) (hf : f ∈ M) (hv : hasPrefixDash v = false)
    (hY : ∀ t ∈ Y.head?, hasPrefixDash t = true) (hfix : rewrite M none Y = Y) :
    rewrite M none (f :: v :: Y) = f :: v :: Y := by
  by_cases hs : f = "--"
  · simp [rewrite, hs]
  · have hvs : v ≠ "--" := by
      intro h; rw [h, hasPrefixDash_sentinel] at hv; cases hv
    have hl := landOn_bare M f hf (hM f hf).2
    rw [rewrite, if_neg hs, hl]
    simp only [List.nil_append, rewrite, hvs, if_false, hv, Bool.false_eq_true]
    rw [rewrite_state_irrelevant M (some f) Y hY, hfix]

theorem rewrite_fixed (M : List String)
    (hM : ∀ f ∈ M, hasPrefixDash f = true ∧ containsEq f = false) :
    ∀ (l : List String) (st : Option String), (∀ f ∈ st, f ∈ M) →
      (∀ (pre : List String) (t : String) (post : List String), l = pre ++ t :: post →
        "--" ∉ pre → hasPrefixDash t = true → containsEq t = true →
        String.mk (beforeEq t.data) ∈ M →
        hasPrefixDash (String.mk ((afterEq t.data).getD [])) = false) →
      rewrite M none (rewrite M st l) = rewrite M st l := by
  have hMd : ∀ f ∈ M, hasPrefixDash f = true := fun f hf => (hM f hf).1
  intro l
  induction l with
  | nil => intro st _ _; cases st <;> rfl
  | cons t r ih =>
    intro st hst hV
    by_cases hs : t = "--"
    · have : rewrite M st (t :: r) = t :: r := by cases st <;> simp [rewrite, hs]
      rw [this, hs]
      simp [rewrite]
    · have hVr : ∀ (pre : List String) (t' : String) (post : List String),
          r = pre ++ t' :: post → "--" ∉ pre → hasPrefixDash t' = true →
          containsEq t' = true → String.mk (beforeEq t'.data) ∈ M →
          hasPrefixDash (String.mk ((afterEq t'.data).getD [])) = false := by
        intro pre t' post hr hpre
        exact hV (t :: pre) t' post (by rw [hr]; rfl)
          (by
            intro h
            rcases List.mem_cons.mp h with h | h
            · exact hs h.symm
            · exact hpre h)
      have hland : rewrite M none ((landOn M t).1 ++ rewrite M (landOn M t).2 r)
          = (landOn M t).1 ++ rewrite M (landOn M t).2 r := by
        have hstate := landOn_state_mem M t
        by_cases he : (hasPrefixDash t && containsEq t) = true
        · have hd : hasPrefixDash t = true := by
            simp only [Bool.and_eq_true] at he; exact he.1
          have hc : containsEq t = true := by
            simp only [Bool.and_eq_true] at he; exact he.2
          by_cases hm : String.mk (beforeEq t.data) ∈ M
          · have hcm : M.contains (String.mk (beforeEq t.data)) = true := by simpa using hm
            have hl : landOn M t = ([String.mk (beforeEq t.data),
                String.mk ((afterEq t.data).getD [])], some (String.mk (beforeEq t.data))) := by
              unfold landOn; rw [if_pos he, if_pos hcm]
            rw [hl]
            simp only [List.cons_append, List.nil_append]
            have hv := hV [] t r rfl (by simp) hd hc hm
            have hst' : ∀ f ∈ some (String.mk (beforeEq t.data)), f ∈ M := by
              intro f hf; cases hf; exact hm
            exact rewrite_pair_fixed M hM _ _ _ hm hv
              (head_rewrite_dash_of_dash_flags M hMd r _ hst' (by intro h; cases h))
              (ih _ hst' hVr)
          · have hl := landOn_equals_copy M t hd hc hm
            rw [hl]
            simp only [List.singleton_append]
            rw [rewrite, if_neg hs, hl]
            simp only [List.singleton_append]
            rw [ih none (by intro f hf; cases hf) hVr]
        · have he' : (hasPrefixDash t && containsEq t) = false := by simpa using he
          by_cases hm : M.contains t = true
          · have hl : landOn M t = ([], some t) := by
              rw [landOn_plain M t he', if_pos hm]
            rw [hl]
            simp only [List.nil_append]
            exact ih (some t) (by intro f hf; cases hf; simpa using hm) hVr
          · have hl : landOn M t = ([t], none) := by
              rw [landOn_plain M t he', if_neg hm]
            rw [hl]
            simp only [List.singleton_append]
            rw [rewrite, if_neg hs, hl]
            simp only [List.singleton_append]
            rw [ih none (by intro f hf; cases hf) hVr]
      cases st with
      | none =>
        simp only [rewrite, hs, if_false]
        exact hland
      | some f =>
        by_cases hd : hasPrefixDash t = true
        · simp only [rewrite, hs, if_false, hd, if_true]
          exact hland
        · have hd' : hasPrefixDash t = false := by simpa using hd
          have hf : f ∈ M := hst f rfl
          simp only [rewrite, hs, if_false, hd', Bool.false_eq_true]
          exact rewrite_pair_fixed M hM f t _ hf hd'
            (head_rewrite_dash_of_dash_flags M hMd r (some f) hst (by intro h; cases h))
            (ih (some f) hst hVr)

/-- C40, counterexample: the equals-form array flag `--array-param=-x` has a
first value that starts with `-`; the first expansion gives
`--array-param -x`, and in a second expansion `--array-param` is followed by a
token starting with `-`, has no values and is dropped. -/
theorem expand_twice_drops_flag :
    (∀ f ∈ multiFlagsOf testRegistry ["subcmd", "--array-param=-x"],
        hasPrefixDash f = true ∧ containsEq f = false)
      ∧ ExpandArrayParameters testRegistry ["subcmd", "--array-param=-x"]
        = .ok ["subcmd", "--array-param", "-x"]
      ∧ ExpandArrayParameters testRegistry ["subcmd", "--array-param", "-x"]
        = .ok ["subcmd", "-x"] := by
  decide

/-- C40, amended. Idempotence: if every array-valued token looked up for argv
starts with `-` and contains no `=`, and no equals-form token before the first
sentinel whose flag is array-valued has a first value that starts with `-`
(an empty first value is allowed), then `ExpandArrayParameters` applied to its
own output, under the same registrations, returns that output. -/
theorem expand_idempotent (reg : Registry) (argv : List String)
    (hM : ∀ f ∈ multiFlagsOf reg argv, hasPrefixDash f = true ∧ containsEq f = false)
    (hV : ∀ t ∈ argv.takeWhile (fun a => a != "--"), hasPrefixDash t = true →
      containsEq t = true → String.mk (beforeEq t.data) ∈ multiFlagsOf reg argv →
      hasPrefixDash (String.mk ((afterEq t.data).getD [])) = false) :
    ∃ out, ExpandArrayParameters reg argv = .ok out
      ∧ ExpandArrayParameters reg out = .ok out := by
  have hMd : ∀ f ∈ multiFlagsOf reg argv, hasPrefixDash f = true := fun f hf => (hM f hf).1
  have ht := takeWhile_rewrite (multiFlagsOf reg argv) hMd argv
  have hc : commandPathArray (rewrite (multiFlagsOf reg argv) none argv)
      = commandPathArray argv := by
    rw [commandPathArray_eq_takeWhile, commandPathArray_eq_takeWhile, ht]
  have e : multiFlagsOf reg (rewrite (multiFlagsOf reg argv) none argv)
      = multiFlagsOf reg argv := by
    have e1 : multiFlagsOf reg (rewrite (multiFlagsOf reg argv) none argv)
        = GoMap.get (buildArrayParamsData reg)
            (joinSpace (commandPathArray (rewrite (multiFlagsOf reg argv) none argv))) := rfl
    rw [e1, hc]
    rfl
  have hV2 : ∀ (pre : List String) (t : String) (post : List String), argv = pre ++ t :: post →
      "--" ∉ pre → hasPrefixDash t = true → containsEq t = true →
      String.mk (beforeEq t.data) ∈ multiFlagsOf reg argv →
      hasPrefixDash (String.mk ((afterEq t.data).getD [])) = false := by
    intro pre t post hargv hpre hd hce hm
    refine hV t ?_ hd hce hm
    have hts : t ≠ "--" := ne_sentinel_of_containsEq t hce
    have hp : ∀ a ∈ pre, (a != "--") = true := by
      intro a ha
      simp only [bne_iff_ne, ne_eq]
      intro h
      exact hpre (h ▸ ha)
    rw [hargv, List.takeWhile_append_of_pos hp]
    apply List.mem_append_right
    have : (t != "--") = true := by simpa using hts
    simp [List.takeWhile_cons, this]
  refine ⟨rewrite (multiFlagsOf reg argv) none argv, ?_, ?_⟩
  · unfold ExpandArrayParameters
    exact expandWith_eq _ _
  · unfold ExpandArrayParameters
    rw [expandWith_eq, e,
      rewrite_fixed (multiFlagsOf reg argv) hM argv none (by intro f hf; cases hf) hV2]

/-- Witness of C40: an equals-form array flag with an empty first value, a
plain `--x=1` and a bare array flag; the output is returned unchanged by a
second expansion. -/
theorem expand_idempotent_witness :
    ExpandArrayParameters testRegistry ["subcmd", "--array-param=", "b", "--x=1", "--multi", "c"]
        = .ok ["subcmd", "--array-param", "", "--array-param", "b", "--x=1", "--multi", "c"]
      ∧ ExpandArrayParameters testRegistry
          ["subcmd", "--array-param", "", "--array-param", "b", "--x=1", "--multi", "c"]
        = .ok ["subcmd", "--array-param", "", "--array-param", "b", "--x=1", "--multi", "c"] := by
  obtain ⟨out, h1, h2⟩ := expand_idempotent testRegistry
    ["subcmd", "--array-param=", "b", "--x=1", "--multi", "c"] (by decide) (by decide)
  have e : out = ["subcmd", "--array-param", "", "--array-param", "b", "--x=1", "--multi", "c"] :=
    Except.ok.inj (h1.symm.trans (by decide))
  subst e
  exact ⟨h1, h2⟩

/-! ## Claims on the environment step and the frame of the resolver -/

theorem envValue_congr (env1 env2 : Env) (p : Parameter)
    (h : Getenv env1 p.EnvVarName = Getenv env2 p.EnvVarName) :
    envValue env1 p = envValue env2 p := by
  unfold envValue
  rw [h]

theorem resolveField_env_congr (flags : FlagSet) (env1 env2 : Env) (p : Parameter) (v : Value)
    (h : Getenv env1 p.EnvVarName = Getenv env2 p.EnvVarName) :
    resolveField flags env1 p v = resolveField flags env2 p v := by
  unfold resolveField
  rw [envValue_congr env1 env2 p h]

theorem bindField_env_congr (flags : FlagSet) (env1 env2 : Env) (typeName tag : String)
    (p : Parameter) (h : Getenv env1 p.EnvVarName = Getenv env2 p.EnvVarName) :
    ∀ fields : List Field, bindField flags env1 typeName tag p fields
      = bindField flags env2 typeName tag p fields := by
  intro fields
  induction fields with
  | nil => rfl
  | cons field rest ih =>
    rw [bindField, bindField, ih, resolveField_env_congr flags env1 env2 p field.value h]

theorem ParseParameters_env_congr (flags : FlagSet) (env1 env2 : Env) :
    ∀ (cfg : List (String × Parameter)),
      (∀ e ∈ cfg, Getenv env1 e.2.EnvVarName = Getenv env2 e.2.EnvVarName) →
      ∀ params, ParseParameters flags env1 cfg params = ParseParameters flags env2 cfg params := by
  intro cfg
  induction cfg with
  | nil => intro _ params; rfl
  | cons e cfg ih =>
    intro h params
    obtain ⟨tag, p⟩ := e
    have hp := h (tag, p) (List.mem_cons_self _ _)
    have hrest := ih (fun x hx => h x (List.mem_cons_of_mem _ hx))
    rw [ParseParameters, ParseParameters, bindField_env_congr flags env1 env2 _ tag p hp]
    cases bindField flags env2 params.typeName tag p params.fields with
    | mk o fields =>
      cases o with
      | nil => exact hrest _
      | error err => rfl
      | panic msg => rfl

/-- C34. An empty environment variable counts as not set: for a parameter whose
flag is not reported as changed and whose `EnvVarName` is empty or names a
variable that is unset or set to the empty string, the switch and the inner
loop of `ParseParameters` give the same result as with no variable set at
all; a required parameter gives the error
`required parameter '<Name>' is not set` for every field of a supported kind,
and a non-required one the default: `DefaultValue` for a string field, what
the flag set returns for an int, bool or string-array field.  In general
`ParseParameters` gives the same result for two environments in which the
variables named by the configuration have the same `Getenv` value, so a
variable set to the empty string and an unset one are not told apart. -/
theorem empty_variable_counts_as_unset (flags : FlagSet) (env : Env) (p : Parameter)
    (hnot : flags.Changed p.Name = false)
    (henv : p.EnvVarName = "" ∨ Getenv env p.EnvVarName = "") :
    (∀ old, resolveField flags env p old = resolveField flags emptyEnv p old)
      ∧ (∀ (tag typeName : String) (fields : List Field),
          bindField flags env typeName tag p fields
            = bindField flags emptyEnv typeName tag p fields)
      ∧ (p.Required = true → ∀ old, (∀ k, old ≠ .other k) →
          resolveField flags env p old
            = .fail (.New (getMessageRequiredParameterMissing p)))
      ∧ (p.Required = false →
          (∀ s, resolveField flags env p (.string s) = .set (.string p.DefaultValue))
            ∧ (∀ n, resolveField flags env p (.int n)
                = match flags.GetInt p.Name with
                  | .error err => .fail err
                  | .ok val => .set (.int val))
            ∧ (∀ b, resolveField flags env p (.bool b)
                = match flags.GetBool p.Name with
                  | .error err => .fail err
                  | .ok val => .set (.bool val))
            ∧ ∀ l, resolveField flags env p (.stringSlice l)
                = match flags.GetStringArray p.Name with
                  | .error err => .fail err
                  | .ok val => .set (.stringSlice val))
      ∧ ∀ (env2 : Env) (cfg : List (String × Parameter)) (params : Params),
          (∀ e ∈ cfg, Getenv env e.2.EnvVarName = Getenv env2 e.2.EnvVarName) →
          ParseParameters flags env cfg params = ParseParameters flags env2 cfg params := by
  have he := envValue_none env p henv
  have he0 : envValue emptyEnv p = none := by
    apply envValue_none
    exact Or.inr rfl
  refine ⟨?_, ?_, ?_, ?_, fun env2 cfg params h =>
    ParseParameters_env_congr flags env env2 cfg h params⟩
  · intro old
    unfold resolveField
    rw [he, he0]
  · intro tag typeName fields
    induction fields with
    | nil => rfl
    | cons field rest ih =>
      rw [bindField, bindField, ih]
      have : resolveField flags env p field.value = resolveField flags emptyEnv p field.value := by
        unfold resolveField
        rw [he, he0]
      rw [this]
  · intro hreq old hk
    exact (resolveField_required flags env p old hreq hnot henv).2 hk
  · intro hreq
    refine ⟨?_, ?_, ?_, ?_⟩
    · intro s; simp [resolveField, Value.Kind, hnot, he, hreq]
    · intro n
      simp only [resolveField, Value.Kind, hnot, he, hreq, Bool.false_eq_true, if_false]
    · intro b
      simp only [resolveField, Value.Kind, hnot, he, hreq, Bool.false_eq_true, if_false]
    · intro l
      simp only [resolveField, Value.Kind, hnot, he, hreq, Bool.false_eq_true, if_false]
      cases flags.GetStringArray p.Name <;> simp [setStrings]

/-- Witness of C34: with `S` set to the empty string the required `stringParam`
gives the same result as with no variable, which is the error of the test
"should return error for required string parameter not provided"; with `I`
set to the empty string the non-required `intParam` takes the default 1234 of
its flag. -/
theorem empty_variable_counts_as_unset_witness :
    ParseParameters [testFlag "stringParam" (.string "") false] (envWith "S" "")
        [("stringParam", testParameter "stringParam" .String "S" "" true)] testParams
      = ParseParameters [testFlag "stringParam" (.string "") false] emptyEnv
        [("stringParam", testParameter "stringParam" .String "S" "" true)] testParams
    ∧ resolveField [testFlag "stringParam" (.string "") false] (envWith "S" "")
        (testParameter "stringParam" .String "S" "" true) (.string "")
      = .fail (.New "ParseParameters: required parameter 'stringParam' is not set")
    ∧ resolveField [testFlag "intParam" (.int 1234) false] (envWith "I" "")
        (testParameter "intParam" .Int "I" "" false) (.int 0)
      = .set (.int 1234) := by
  have h := empty_variable_counts_as_unset [testFlag "stringParam" (.string "") false]
    (envWith "S" "") (testParameter "stringParam" .String "S" "" true) (by decide)
    (Or.inr (by decide))
  have h2 := empty_variable_counts_as_unset [testFlag "intParam" (.int 1234) false]
    (envWith "I" "") (testParameter "intParam" .Int "I" "" false) (by decide)
    (Or.inr (by decide))
  refine ⟨?_, ?_, ?_⟩
  · simp only [ParseParameters]
    rw [h.2.1]
  · exact (h.2.2.1 rfl (.string "") (by intro k hk; cases hk)).trans (by decide)
  · exact ((h2.2.2.2.1 rfl).2.1 0).trans (by decide)

/-- C38. Whitespace-only environment value of a string array: let the entry
`(tag, p)` be reached with the struct holding, as first field tagged `tag`, a
settable `[]string` field; let the flag not be reported as changed,
`EnvVarName` be non-empty and the variable hold a non-empty value whose
characters are all white space.  Then `Fields` of the value has no elements,
the field is bound to the empty list with outcome nil, and `ParseParameters`
continues with the remaining entries, whatever `Required` is. -/
theorem parse_whitespace_array_value (flags : FlagSet) (env : Env)
    (before rest : List (String × Parameter)) (tag : String) (p : Parameter)
    (params : Params) (typeName : String) (pre post : List Field) (field : Field)
    (val : String) (old : List String)
    (hbefore : ParseParameters flags env before params
      = (.nil, { typeName := typeName, fields := pre ++ field :: post }))
    (hpre : ∀ g ∈ pre, g.paramName ≠ tag) (htag : field.paramName = tag) (hne : tag ≠ "")
    (hset : field.CanSet = true) (hfield : field.value = .stringSlice old)
    (hnot : flags.Changed p.Name = false)
    (hname : p.EnvVarName ≠ "") (hval : env p.EnvVarName = some val) (hnonempty : val ≠ "")
    (hspace : ∀ c ∈ val.data, isSpace c = true) :
    Fields val = []
      ∧ resolveField flags env p field.value = .set (.stringSlice [])
      ∧ bindField flags env typeName tag p (pre ++ field :: post)
        = (.nil, pre ++ { field with value := .stringSlice [] } :: post)
      ∧ ParseParameters flags env (before ++ (tag, p) :: rest) params
        = ParseParameters flags env rest
            { typeName := typeName,
              fields := pre ++ { field with value := .stringSlice [] } :: post } := by
  have hf : Fields val = [] := fieldsLoop_spaces val.data hspace
  have hr : resolveField flags env p field.value = .set (.stringSlice []) := by
    rw [resolveField_env flags env p val field.value (.stringSlice (Fields val)) hnot hname
      hval hnonempty (Or.inr (Or.inr (Or.inr ⟨old, hfield, rfl⟩))), hf]
  have h1 := parse_step flags env before rest tag p params typeName pre post field hbefore
    hpre htag hne hset
  rw [hr] at h1
  exact ⟨hf, hr, h1.1, h1.2⟩

/-- Witness of C38: a required `arrayParam` whose variable holds a space, a tab
and a space; the field is bound to the empty list and the call returns nil. -/
theorem parse_whitespace_array_value_witness :
    ParseParameters [testFlag "arrayParam" (.stringArray ["d"]) false] (envWith "ARR" " \t ")
        ([] ++ ("arrayParam", testParameter "arrayParam" .Array "ARR" "" true) :: [])
        (testParamsWith "" 0 false ["old"])
      = (.nil, testParamsWith "" 0 false []) :=
  (parse_whitespace_array_value [testFlag "arrayParam" (.stringArray ["d"]) false]
    (envWith "ARR" " \t ") [] [] "arrayParam"
    (testParameter "arrayParam" .Array "ARR" "" true) (testParamsWith "" 0 false ["old"])
    "TestParams"
    [{ Name := "StringParam", paramName := "stringParam", CanSet := true, value := .string "" },
     { Name := "IntParam", paramName := "intParam", CanSet := true, value := .int 0 },
     { Name := "BoolParam", paramName := "boolParam", CanSet := true, value := .bool false }]
    []
    { Name := "ArrayParam", paramName := "arrayParam", CanSet := true,
      value := .stringSlice ["old"] }
    " \t " ["old"] rfl (by decide) rfl (by decide) rfl rfl (by decide) (by decide) rfl
    (by decide) (by decide)).2.2.2

theorem bindField_frame (flags : FlagSet) (env : Env) (typeName tag : String)
    (p : Parameter) :
    ∀ (fields : List Field) (i : Nat) (field : Field), fields[i]? = some field →
      (field.paramName = "" ∨ field.paramName ≠ tag
        ∨ tag ∈ (fields.take i).map Field.paramName) →
      (bindField flags env typeName tag p fields).2[i]? = some field := by
  intro fields
  induction fields with
  | nil => intro i field h; simp at h
  | cons f rest ih =>
    intro i field hi hfree
    rw [bindField]
    by_cases h1 : (f.paramName == "") = true
    · simp only [h1, if_true]
      cases i with
      | zero => simpa using hi
      | succ i =>
        simp only [List.getElem?_cons_succ] at hi ⊢
        apply ih i field hi
        rcases hfree with h | h | h
        · exact Or.inl h
        · exact Or.inr (Or.inl h)
        · simp only [List.take_succ_cons, List.map_cons, List.mem_cons] at h
          rcases h with h | h
          · have hf : f.paramName = "" := by simpa using h1
            by_cases hfe : field.paramName = ""
            · exact Or.inl hfe
            · exact Or.inr (Or.inl (by rw [h, hf]; exact hfe))
          · exact Or.inr (Or.inr h)
    · by_cases h2 : (f.paramName == tag) = true
      · simp only [h1, h2, if_true, Bool.false_eq_true, if_false]
        have htag : f.paramName = tag := by simpa using h2
        have hne : f.paramName ≠ "" := by simpa using h1
        cases i with
        | zero =>
          simp only [List.getElem?_cons_zero, Option.some.injEq] at hi
          subst hi
          rcases hfree with h | h | h
          · exact absurd h hne
          · exact absurd htag h
          · simp at h
        | succ i =>
          by_cases hc : f.CanSet = true
          · simp only [hc, if_true]
            cases resolveField flags env p f.value <;>
              simpa only [List.getElem?_cons_succ] using hi
          · simp only [hc, Bool.false_eq_true, if_false]
            simpa only [List.getElem?_cons_succ] using hi
      · simp only [h1, h2, Bool.false_eq_true, if_false]
        cases i with
        | zero => simpa using hi
        | succ i =>
          simp only [List.getElem?_cons_succ] at hi ⊢
          apply ih i field hi
          rcases hfree with h | h | h
          · exact Or.inl h
          · exact Or.inr (Or.inl h)
          · simp only [List.take_succ_cons, List.map_cons, List.mem_cons] at h
            rcases h with h | h
            · have : f.paramName ≠ tag := by simpa using h2
              exact absurd h.symm this
            · exact Or.inr (Or.inr h)

theorem map_paramName_of_decl (l1 l2 : List Field)
    (h : l1.map Field.decl = l2.map Field.decl) :
    l1.map Field.paramName = l2.map Field.paramName := by
  have e : ∀ l : List Field, (l.map Field.decl).map Field.paramName = l.map Field.paramName := by
    intro l
    simp [List.map_map, Function.comp, Field.decl]
  rw [← e l1, ← e l2, h]

/-- C37. Frame of resolution: `ParseParameters` keeps the type of the struct and
the name, tag, settability and type of every field, and the field at position
`i` keeps its value, whatever the outcome, whenever it has no `paramName` tag,
or its tag is not a key of the configuration, or an earlier field carries the
same tag. -/
theorem parse_frame (flags : FlagSet) (env : Env) :
    ∀ (cfg : List (String × Parameter)) (params : Params),
      (ParseParameters flags env cfg params).2.typeName = params.typeName
        ∧ (ParseParameters flags env cfg params).2.fields.map Field.decl
            = params.fields.map Field.decl
        ∧ ∀ (i : Nat) (field : Field), params.fields[i]? = some field →
            (field.paramName = "" ∨ field.paramName ∉ cfg.map Prod.fst
              ∨ field.paramName ∈ (params.fields.take i).map Field.paramName) →
            (ParseParameters flags env cfg params).2.fields[i]? = some field := by
  intro cfg
  induction cfg with
  | nil =>
    intro params
    exact ⟨rfl, rfl, fun i field h _ => h⟩
  | cons e cfg ih =>
    intro params
    refine ⟨(ParseParameters_decl flags env _ params).1,
      (ParseParameters_decl flags env _ params).2, ?_⟩
    intro i field hi hfree
    obtain ⟨tag, p⟩ := e
    have hstep : (bindField flags env params.typeName tag p params.fields).2[i]? = some field := by
      apply bindField_frame flags env params.typeName tag p params.fields i field hi
      rcases hfree with h | h | h
      · exact Or.inl h
      · refine Or.inr (Or.inl ?_)
        intro he
        exact h (by simp [he])
      · by_cases he : field.paramName = tag
        · exact Or.inr (Or.inr (he ▸ h))
        · exact Or.inr (Or.inl he)
    have htags := map_paramName_of_decl _ _
      (bindField_decl flags env params.typeName tag p params.fields).2
    rw [ParseParameters]
    generalize bindField flags env params.typeName tag p params.fields = r at hstep htags
    obtain ⟨o, fields⟩ := r
    simp only at hstep htags
    cases o with
    | nil =>
      apply (ih { params with fields := fields }).2.2 i field hstep
      rcases hfree with h | h | h
      · exact Or.inl h
      · refine Or.inr (Or.inl ?_)
        intro hm
        exact h (by simp only [List.map_cons, List.mem_cons]; exact Or.inr hm)
      · refine Or.inr (Or.inr ?_)
        have : (fields.take i).map Field.paramName
            = (params.fields.take i).map Field.paramName := by
          rw [List.map_take, List.map_take, htags]
        simp only
        rw [this]
        exact h
    | error err => exact hstep
    | panic msg => exact hstep

/-- Witness of C37: the second field tagged `x` keeps its value `c` although
`x` is a key; only the first one is written. -/
theorem parse_frame_witness :
    (ParseParameters [] (envWith "S" "v")
        [("stringParam", testParameter "stringParam" .String "S" "" false),
          ("x", testParameter "x" .String "" "d" false)]
        { typeName := "T",
          fields := [{ Name := "Untagged", paramName := "", CanSet := true, value := .int 1 },
                     { Name := "X1", paramName := "x", CanSet := true, value := .string "a" },
                     { Name := "Other", paramName := "other", CanSet := true,
                       value := .string "b" },
                     { Name := "X2", paramName := "x", CanSet := true,
                       value := .string "c" }] }).2.fields[3]?
      = some { Name := "X2", paramName := "x", CanSet := true, value := .string "c" } :=
  (parse_frame [] (envWith "S" "v")
    [("stringParam", testParameter "stringParam" .String "S" "" false),
      ("x", testParameter "x" .String "" "d" false)]
    { typeName := "T",
      fields := [{ Name := "Untagged", paramName := "", CanSet := true, value := .int 1 },
                 { Name := "X1", paramName := "x", CanSet := true, value := .string "a" },
                 { Name := "Other", paramName := "other", CanSet := true, value := .string "b" },
                 { Name := "X2", paramName := "x", CanSet := true,
                   value := .string "c" }] }).2.2 3
    { Name := "X2", paramName := "x", CanSet := true, value := .string "c" } rfl
    (Or.inr (Or.inr (by decide)))

/-! ## Claims on failures of `ReadResultFilesPath` and on image names -/

theorem read_result_paths_leading (env : Env) (l : List ResultField) :
    ∀ (pre : List ResultField),
      (∀ g ∈ pre, g.value.Kind = .String ∧ g.env ≠ "" ∧ Getenv env g.env ≠ ""
        ∧ g.CanSet = true) →
      ReadResultFilesPath env (pre ++ l)
        = ((ReadResultFilesPath env l).1,
            pre.map (fun g => { g with value := .string (Getenv env g.env) })
              ++ (ReadResultFilesPath env l).2) := by
  intro pre
  induction pre with
  | nil => intro _; rfl
  | cons g pre ih =>
    intro h
    obtain ⟨hk, he, hv, hc⟩ := h g (List.mem_cons_self _ _)
    have hrest := ih (fun x hx => h x (List.mem_cons_of_mem _ hx))
    rw [List.cons_append, ReadResultFilesPath]
    simp only [hk, hc, hrest, List.map_cons, List.cons_append]
    simp [he, hv]

/-- C31, counterexample: a struct of two tagged string fields, the first one
unexported; the variable of the first is set and that of the second is not.
The call panics at the first field and does not return the error for the
second. -/
theorem read_result_paths_panics_before_missing_variable :
    (∀ f ∈ hiddenResultFields, f.value.Kind = .String ∧ f.env ≠ "")
      ∧ Getenv (envWith "A" "/tmp/a") "B" = ""
      ∧ ReadResultFilesPath (envWith "A" "/tmp/a") hiddenResultFields
        = (.panic "ReadResultFilesPath: cannot set value for 'hidden' field",
            hiddenResultFields) := by
  decide

/-- C31, amended. `ReadResultFilesPath`, failure: let the fields before `f` be
settable strings with an `env` tag whose variables are set and non-empty.  If
`f` is a string with an `env` tag whose variable is unset or empty, the call
returns the error
`environment variable '<var>' for '<field>' result is not set` naming `f`;
if `f` is not a string it panics with `path is not of string type`, if `f` has
no `env` tag it panics with `path 'env' tag is not set`, and if `f` is a
tagged string with a non-empty variable that cannot be set it panics with
`cannot set value`.  In each case the fields before `f` hold the values of
their variables and `f` and the fields after it are untouched. -/
theorem read_result_paths_failure (env : Env) (pre : List ResultField) (f : ResultField)
    (post : List ResultField)
    (hpre : ∀ g ∈ pre, g.value.Kind = .String ∧ g.env ≠ "" ∧ Getenv env g.env ≠ ""
      ∧ g.CanSet = true) :
    (f.value.Kind = .String → f.env ≠ "" → Getenv env f.env = "" →
        ReadResultFilesPath env (pre ++ f :: post)
          = (.error (.New ("ReadResultFilesPath: environment variable '" ++ f.env
                ++ "' for '" ++ f.Name ++ "' result is not set")),
              pre.map (fun g => { g with value := .string (Getenv env g.env) })
                ++ f :: post))
      ∧ (f.value.Kind ≠ .String →
          ReadResultFilesPath env (pre ++ f :: post)
            = (.panic ("ReadResultFilesPath: result '" ++ f.Name
                  ++ "' path is not of string type"),
                pre.map (fun g => { g with value := .string (Getenv env g.env) })
                  ++ f :: post))
      ∧ (f.value.Kind = .String → f.env = "" →
          ReadResultFilesPath env (pre ++ f :: post)
            = (.panic ("ReadResultFilesPath: result '" ++ f.Name
                  ++ "' path 'env' tag is not set"),
                pre.map (fun g => { g with value := .string (Getenv env g.env) })
                  ++ f :: post))
      ∧ (f.value.Kind = .String → f.env ≠ "" → Getenv env f.env ≠ "" → f.CanSet = false →
          ReadResultFilesPath env (pre ++ f :: post)
            = (.panic ("ReadResultFilesPath: cannot set value for '" ++ f.Name ++ "' field"),
                pre.map (fun g => { g with value := .string (Getenv env g.env) })
                  ++ f :: post)) := by
  rw [read_result_paths_leading env (f :: post) pre hpre]
  refine ⟨?_, ?_, ?_, ?_⟩
  · intro hk he hv
    rw [ReadResultFilesPath]
    simp [hk, he, hv]
  · intro hk
    rw [ReadResultFilesPath]
    simp [hk]
  · intro hk he
    rw [ReadResultFilesPath]
    simp [hk, he]
  · intro hk he hv hc
    rw [ReadResultFilesPath]
    simp [hk, he, hv, hc]

/-- Witness of C31: `OUTPUT_PATH` is set and `LOG_PATH` is not, so the error
names `LogPath` and `ResultPath` is untouched; and the test "should panic when
field is not string type". -/
theorem read_result_paths_failure_witness :
    ReadResultFilesPath (envWith "OUTPUT_PATH" "/tmp/output")
        ([{ Name := "OutputPath", env := "OUTPUT_PATH", CanSet := true, value := .string "" }]
          ++ { Name := "LogPath", env := "LOG_PATH", CanSet := true, value := .string "" }
            :: [{ Name := "ResultPath", env := "RESULT_PATH", CanSet := true,
                  value := .string "" }])
      = (.error (.New
            "ReadResultFilesPath: environment variable 'LOG_PATH' for 'LogPath' result is not set"),
          [{ Name := "OutputPath", env := "OUTPUT_PATH", CanSet := true,
             value := .string "/tmp/output" },
           { Name := "LogPath", env := "LOG_PATH", CanSet := true, value := .string "" },
           { Name := "ResultPath", env := "RESULT_PATH", CanSet := true, value := .string "" }])
    ∧ ReadResultFilesPath emptyEnv
        ([] ++ { Name := "OutputPath", env := "OUTPUT_PATH", CanSet := true, value := .int 0 }
          :: [])
      = (.panic "ReadResultFilesPath: result 'OutputPath' path is not of string type",
          [{ Name := "OutputPath", env := "OUTPUT_PATH", CanSet := true, value := .int 0 }]) :=
  ⟨((read_result_paths_failure (envWith "OUTPUT_PATH" "/tmp/output")
      [{ Name := "OutputPath", env := "OUTPUT_PATH", CanSet := true, value := .string "" }]
      { Name := "LogPath", env := "LOG_PATH", CanSet := true, value := .string "" }
      [{ Name := "ResultPath", env := "RESULT_PATH", CanSet := true, value := .string "" }]
      (by decide)).1 rfl (by decide) (by decide)).trans (by decide),
    ((read_result_paths_failure emptyEnv []
      { Name := "OutputPath", env := "OUTPUT_PATH", CanSet := true, value := .int 0 } []
      (by decide)).2.1 (by decide)).trans (by decide)⟩

theorem referenceText_ne_name (name tag digest : String) (h : tag ≠ "" ∨ digest ≠ "") :
    name ≠ referenceText name tag digest := by
  intro e
  have hl := congrArg String.length e
  unfold referenceText at hl
  simp only [String.length_append] at hl
  have hpos : 0 < (if (tag != "") = true then ":" ++ tag else "").length
      + (if (digest != "") = true then "@" ++ digest else "").length := by
    rcases h with h | h
    · have : (tag != "") = true := by simpa using h
      simp only [this, if_true, String.length_append]
      have : (":" : String).length = 1 := rfl
      omega
    · have : (digest != "") = true := by simpa using h
      simp only [this, if_true, String.length_append]
      have : ("@" : String).length = 1 := rfl
      omega
  omega

theorem cutAtFirst_eq (sep : Char) :
    ∀ (s : List Char),
      ((cutAtFirst sep s).2 = none → (cutAtFirst sep s).1 = s)
        ∧ ∀ rest, (cutAtFirst sep s).2 = some rest → s = (cutAtFirst sep s).1 ++ sep :: rest := by
  intro s
  induction s with
  | nil => exact ⟨fun _ => rfl, fun rest h => by simp [cutAtFirst] at h⟩
  | cons c cs ih =>
    by_cases hc : (c == sep) = true
    · have e : c = sep := by simpa using hc
      refine ⟨fun h => ?_, fun rest h => ?_⟩
      · simp [cutAtFirst, hc] at h
      · simp only [cutAtFirst, hc, if_true, Option.some.injEq] at h ⊢
        rw [h, e]
        rfl
    · refine ⟨fun h => ?_, fun rest h => ?_⟩
      · simp only [cutAtFirst, hc, Bool.false_eq_true, if_false] at h ⊢
        rw [List.cons_eq_cons.mpr ⟨rfl, ih.1 h⟩]
      · simp only [cutAtFirst, hc, Bool.false_eq_true, if_false] at h ⊢
        rw [List.cons_append]
        exact congrArg (List.cons c) (ih.2 rest h)

theorem takeWhile_append_drop {α : Type} (p : α → Bool) :
    ∀ l : List α, l = l.takeWhile p ++ l.drop (l.takeWhile p).length := by
  intro l
  induction l with
  | nil => rfl
  | cons a l ih =>
    by_cases h : p a = true
    · simp only [List.takeWhile_cons, h, if_true, List.length_cons, List.drop_succ_cons,
        List.cons_append]
      exact congrArg (List.cons a) ih
    · simp [List.takeWhile_cons, h]

theorem cutTag_eq (front : List Char) :
    ((cutTag front).2 = none → (cutTag front).1 = front)
      ∧ ∀ tag, (cutTag front).2 = some tag → front = (cutTag front).1 ++ ':' :: tag := by
  unfold cutTag
  simp only
  have hsplit : front.reverse
      = front.reverse.takeWhile (fun c => c != ':' && c != '/')
        ++ front.reverse.drop (front.reverse.takeWhile (fun c => c != ':' && c != '/')).length :=
    takeWhile_append_drop _ _
  cases hd : front.reverse.drop
      (front.reverse.takeWhile (fun c => c != ':' && c != '/')).length with
  | nil => exact ⟨fun _ => rfl, fun tag h => by simp at h⟩
  | cons c name =>
    by_cases hc : (c == ':') = true
    · have e : c = ':' := by simpa using hc
      simp only [hc, if_true]
      refine ⟨fun h => by simp at h, fun tag h => ?_⟩
      simp only [Option.some.injEq] at h
      rw [hd, e] at hsplit
      have := congrArg List.reverse hsplit
      simp only [List.reverse_reverse, List.reverse_append, List.reverse_cons,
        List.append_assoc, List.singleton_append] at this
      rw [← h]
      exact this
    · simp only [hc, Bool.false_eq_true, if_false]
      exact ⟨fun _ => by trivial, fun tag h => by simp at h⟩

theorem matchName_ne_nil (s : List Char) (h : matchName s = true) : s ≠ [] := by
  intro e
  subst e
  simp [matchName, splitOn, matchNameComponent, matchDomain, cutAtFirst,
    matchDomainComponent] at h

theorem matchTag_ne_nil (s : List Char) (h : matchTag s = true) : s ≠ [] := by
  intro e
  subst e
  simp [matchTag] at h

theorem matchDigest_ne_nil (s : List Char) (h : matchDigest s = true) : s ≠ [] := by
  intro e
  subst e
  simp [matchDigest, cutAtFirst] at h

theorem matchReference_eq (s name tag digest : List Char)
    (h : matchReference s = some (name, tag, digest)) :
    s = name ++ (if tag = [] then [] else ':' :: tag)
          ++ (if digest = [] then [] else '@' :: digest)
      ∧ matchName name = true ∧ (tag ≠ [] → matchTag tag = true)
      ∧ (digest ≠ [] → matchDigest digest = true) := by
  unfold matchReference at h
  simp only at h
  obtain ⟨hd1, hd2⟩ := cutAtFirst_eq '@' s
  obtain ⟨ht1, ht2⟩ := cutTag_eq (cutAtFirst '@' s).1
  generalize cutAtFirst '@' s = r at h hd1 hd2 ht1 ht2
  obtain ⟨front, dig⟩ := r
  simp only at h hd1 hd2 ht1 ht2
  generalize cutTag front = r2 at h ht1 ht2
  obtain ⟨nm, tg⟩ := r2
  simp only at h ht1 ht2
  split at h
  · rename_i hcond
    simp only [Bool.and_eq_true] at hcond
    obtain ⟨⟨hname, htag⟩, hdig⟩ := hcond
    simp only [Option.some.injEq, Prod.mk.injEq] at h
    obtain ⟨e1, e2, e3⟩ := h
    subst e1
    refine ⟨?_, hname, ?_, ?_⟩
    · cases tg with
      | none =>
        simp only [Option.getD_none] at e2
        have hf := ht1 rfl
        cases dig with
        | none =>
          simp only [Option.getD_none] at e3
          have := hd1 rfl
          rw [← e2, ← e3, ← this, hf]
          simp
        | some d =>
          simp only [Option.getD_some] at e3
          have hne := matchDigest_ne_nil d hdig
          have := hd2 d rfl
          rw [← e2, ← e3, this, hf]
          simp [hne]
      | some t =>
        simp only [Option.getD_some] at e2
        have hf := ht2 t rfl
        have htne := matchTag_ne_nil t htag
        cases dig with
        | none =>
          simp only [Option.getD_none] at e3
          have := hd1 rfl
          rw [← e2, ← e3, ← this, hf]
          simp [htne]
        | some d =>
          simp only [Option.getD_some] at e3
          have hne := matchDigest_ne_nil d hdig
          have := hd2 d rfl
          rw [← e2, ← e3, this, hf]
          simp [hne, htne]
    · intro hne
      cases tg with
      | none => simp at e2; exact absurd e2 hne
      | some t => simp at e2; rw [← e2]; exact htag
    · intro hne
      cases dig with
      | none => simp at e3; exact absurd e3 hne
      | some d => simp at e3; rw [← e3]; exact hdig
  · cases h

theorem Parse_cases (x : String) :
    Parse x = (none, true)
      ∨ ∃ name tag digest, matchReference x.data = some (name, tag, digest)
          ∧ name.length ≤ 255 ∧ (digest ≠ [] → digestValidates digest = true)
          ∧ Parse x = (some (.named (String.mk name) (String.mk tag) (String.mk digest)), false) := by
  unfold Parse
  cases h : matchReference x.data with
  | none => exact Or.inl rfl
  | some r =>
    obtain ⟨name, tag, digest⟩ := r
    simp only
    by_cases hl : name.length > 255
    · rw [if_pos hl]; exact Or.inl rfl
    · rw [if_neg hl]
      by_cases hd : (!digest.isEmpty && !digestValidates digest) = true
      · rw [if_pos hd]; exact Or.inl rfl
      · rw [if_neg hd]
        refine Or.inr ⟨name, tag, digest, rfl, by omega, ?_, rfl⟩
        intro hne
        simp only [Bool.and_eq_true, Bool.not_eq_true', not_and, Bool.not_eq_false] at hd
        apply hd
        cases digest with
        | nil => exact absurd rfl hne
        | cons c cs => rfl

theorem referenceText_data (name tag digest : String) :
    (referenceText name tag digest).data
      = name.data ++ (if tag.data = [] then [] else ':' :: tag.data)
          ++ (if digest.data = [] then [] else '@' :: digest.data) := by
  unfold referenceText
  have e : ∀ s : String, (s != "") = true ↔ ¬ s.data = [] := by
    intro s
    simp only [bne_iff_ne, ne_eq]
    constructor
    · intro h hd; exact h (String.ext hd)
    · intro h hs; rw [hs] at h; exact h rfl
  by_cases ht : tag.data = []
  · have ht' : ¬ (tag != "") = true := fun h => (e tag).mp h ht
    by_cases hd : digest.data = []
    · have hd' : ¬ (digest != "") = true := fun h => (e digest).mp h hd
      simp [ht, hd, ht', hd', String.data_append]
    · have hd' : (digest != "") = true := (e digest).mpr hd
      simp [ht, hd, ht', hd', String.data_append]
  · have ht' : (tag != "") = true := (e tag).mpr ht
    by_cases hd : digest.data = []
    · have hd' : ¬ (digest != "") = true := fun h => (e digest).mp h hd
      simp [ht, hd, ht', hd', String.data_append]
    · have hd' : (digest != "") = true := (e digest).mpr hd
      simp [ht, hd, ht', hd', String.data_append]

theorem GetImageName_of_named (x name tag digest : String)
    (h : Parse x = (some (.named name tag digest), false)) : GetImageName x = name := by
  unfold GetImageName
  rw [h]
  rfl

theorem GetImageName_of_error (x : String) (h : (Parse x).2 = true) : GetImageName x = "" := by
  unfold GetImageName
  generalize Parse x = r at h
  obtain ⟨ref, err⟩ := r
  simp only at h
  subst h
  rfl

theorem Parse_named (x name tag digest : String)
    (h : Parse x = (some (.named name tag digest), false)) :
    x = referenceText name tag digest
      ∧ matchName name.data = true ∧ name.length ≤ 255
      ∧ (tag ≠ "" → matchTag tag.data = true)
      ∧ (digest ≠ "" → matchDigest digest.data = true ∧ digestValidates digest.data = true) := by
  rcases Parse_cases x with hp | ⟨n, t, d, hm, hl, hv, hp⟩
  · rw [hp] at h; cases h
  · rw [hp] at h
    simp only [Prod.mk.injEq, Option.some.injEq, Reference.named.injEq, and_true] at h
    obtain ⟨e1, e2, e3⟩ := h
    subst e1 e2 e3
    obtain ⟨h1, h2, h3, h4⟩ := matchReference_eq x.data n t d hm
    have hne : ∀ l : List Char, String.mk l ≠ "" → l ≠ [] := by
      intro l hl e
      apply hl
      rw [e]
    refine ⟨?_, h2, hl, fun ht => h3 (hne t ht), fun hd => ⟨h4 (hne d hd), hv (hne d hd)⟩⟩
    apply String.ext
    rw [referenceText_data]
    exact h1

theorem IsImageNameValid_iff (x : String) :
    IsImageNameValid x = true ↔ x ≠ "" ∧ GetImageName x = x := by
  unfold IsImageNameValid
  simp

theorem not_valid_of_tag_or_digest (x name tag digest : String)
    (h : Parse x = (some (.named name tag digest), false)) (hne : tag ≠ "" ∨ digest ≠ "") :
    IsImageNameValid x = false := by
  have hx := (Parse_named x name tag digest h).1
  have hg := GetImageName_of_named x name tag digest h
  have hlen : name.length < x.length := by
    have := congrArg (fun s : String => s.data.length) hx
    simp only [referenceText_data, List.length_append] at this
    have e : ∀ s : String, s ≠ "" → s.data ≠ [] := fun s hs hd => hs (String.ext hd)
    simp only [String.length]
    rw [this]
    rcases hne with ht | hd
    · simp [e tag ht]
      omega
    · simp [e digest hd]
      omega
  cases hv : IsImageNameValid x with
  | false => rfl
  | true =>
    have := ((IsImageNameValid_iff x).mp hv).2
    rw [hg] at this
    rw [this] at hlen
    exact absurd hlen (lt_irrefl _)

/-- C32. `GetImageName` returns, for every text that `reference.Parse` reads as
a named reference, the name of the reference: the text is the name followed by
`:` and the tag when there is one and by `@` and the digest when there is one,
so the name is the text with tag and digest removed, and it is a name of the
grammar of the library (name components separated by slashes, optionally
preceded by a domain with an optional port) of at most 255 bytes.
`reference.Parse` returns an error or a named reference, and `GetImageName`
returns the empty string when it returns an error.  Consequently
`IsImageNameValid x` holds exactly when `x` is not empty and
`GetImageName x = x`; the empty string is not a valid image name, and neither
is a reference that carries a tag or a digest. -/
theorem image_name_of_reference (x : String) :
    (∀ name tag digest, Parse x = (some (.named name tag digest), false) →
        GetImageName x = name ∧ x = referenceText name tag digest
          ∧ matchName name.data = true ∧ name.length ≤ 255
          ∧ (tag ≠ "" → matchTag tag.data = true)
          ∧ (digest ≠ "" → matchDigest digest.data = true ∧ digestValidates digest.data = true)
          ∧ ((tag ≠ "" ∨ digest ≠ "") → IsImageNameValid x = false))
      ∧ ((Parse x).2 = true → GetImageName x = "")
      ∧ ((Parse x).2 = false →
          ∃ name tag digest, Parse x = (some (.named name tag digest), false))
      ∧ (GetImageName x ≠ "" →
          ∃ tag digest, Parse x = (some (.named (GetImageName x) tag digest), false)
            ∧ x = referenceText (GetImageName x) tag digest)
      ∧ (IsImageNameValid x = true ↔ x ≠ "" ∧ GetImageName x = x)
      ∧ IsImageNameValid "" = false := by
  refine ⟨?_, GetImageName_of_error x, ?_, ?_, IsImageNameValid_iff x, by decide⟩
  · intro name tag digest h
    obtain ⟨h1, h2, h3, h4, h5⟩ := Parse_named x name tag digest h
    exact ⟨GetImageName_of_named x name tag digest h, h1, h2, h3, h4, h5,
      not_valid_of_tag_or_digest x name tag digest h⟩
  · intro h
    rcases Parse_cases x with hp | ⟨n, t, d, _, _, _, hp⟩
    · rw [hp] at h; cases h
    · exact ⟨_, _, _, hp⟩
  · intro h
    rcases Parse_cases x with hp | ⟨n, t, d, _, _, _, hp⟩
    · exact absurd (GetImageName_of_error x (by rw [hp])) h
    · have hg := GetImageName_of_named x _ _ _ hp
      rw [hg]
      exact ⟨_, _, hp, (Parse_named x _ _ _ hp).1⟩

set_option maxRecDepth 100000 in
/-- Witness of C32: on the image with registry, port, namespace, tag and digest
of the test suite the name is what stands before the tag, and the image is not
a valid image name; `GetImageName` gives the expected name on every case of
`Test_ImageRefUntils_GetImageName`, and `IsImageNameValid` the expected answer
on every image of `Test_ImageRefUntils_IsImageNameValid`. -/
theorem image_name_of_reference_witness :
    (GetImageName "registry.io:1234/user/image:tag@sha256:586ab46b9d6d906b2df3dad12751e807bd0f0632d5a2ab3991bdac78bdccd59a"
        = "registry.io:1234/user/image"
      ∧ IsImageNameValid "registry.io:1234/user/image:tag@sha256:586ab46b9d6d906b2df3dad12751e807bd0f0632d5a2ab3991bdac78bdccd59a"
        = false)
    ∧ testGetImageNameCases.all (fun c => GetImageName c.1 == c.2) = true
    ∧ testValidImages.all IsImageNameValid = true
    ∧ testInvalidImages.all (fun image => !IsImageNameValid image) = true := by
  have h := (image_name_of_reference
    "registry.io:1234/user/image:tag@sha256:586ab46b9d6d906b2df3dad12751e807bd0f0632d5a2ab3991bdac78bdccd59a").1
    "registry.io:1234/user/image" "tag"
    "sha256:586ab46b9d6d906b2df3dad12751e807bd0f0632d5a2ab3991bdac78bdccd59a" (by decide)
  exact ⟨⟨h.1, h.2.2.2.2.2.2 (Or.inl (by decide))⟩, by decide, by decide, by decide⟩

end Common
